import Mathlib

/-! Back-translation engine of liblouis (`lou_backTranslateString.c`).

A shallow embedding of the braille back-translation engine shipped in
`service/src/main/jni/liblouiswrapper/liblouis/lou_backTranslateString.c`,
followed by theorems about it.

Conventions of the embedding.

* C `int` values (`src`, `dest`, `destmax`, cursor, position entries) are
  mathematical integers (`Int`); no translation comes near `INT_MAX`.
* `widechar` and attribute/mode bit masks are natural numbers.
* A C buffer is a total function from (integer) indices to values, so an
  access outside the declared capacity is visible as an access to an index
  outside `[0, capacity)`.
* A chain of table records linked through `next` / `dotsnext` offsets and
  ended by offset `0` is the list of its records in chain order; an offset
  that is either `0` or one record is an `Option`.
* Length fields of a rule (`charslen`, `dotslen`) are natural numbers.
* The constants, masks and helper functions declared in `internal.h` (which
  is not part of the sources at hand) are the fields of `Internal`, a
  parameter of every definition.
-/

namespace Louis

/-! ## Data model -/

abbrev widechar := Nat

/-- A buffer of symbols indexed by C integers. -/
abbrev WBuf := Int → widechar

/-- A buffer of C integers (position arrays). -/
abbrev IBuf := Int → Int

/-- The enumerators of `TranslationTableOpcode` that the engine names; every
other enumerator is `CTO_Other n`. -/
inductive TranslationTableOpcode where
  | CTO_None | CTO_Context | CTO_Correct | CTO_Pass2 | CTO_Pass3 | CTO_Pass4
  | CTO_Always | CTO_Space | CTO_Digit | CTO_Letter | CTO_UpperCase
  | CTO_LowerCase | CTO_Punctuation | CTO_Math | CTO_Sign | CTO_ExactDots
  | CTO_NoCross | CTO_Repeated | CTO_Replace | CTO_Hyphen | CTO_LitDigit
  | CTO_CapsLetterRule | CTO_BegCapsRule | CTO_EndCapsRule
  | CTO_BegCapsWordRule | CTO_EndCapsWordRule
  | CTO_BegEmph1Rule | CTO_EndEmph1Rule | CTO_BegEmph2Rule | CTO_EndEmph2Rule
  | CTO_BegEmph3Rule | CTO_EndEmph3Rule
  | CTO_NumberRule | CTO_BegCompRule | CTO_EndCompRule
  | CTO_LetterRule | CTO_NoContractRule | CTO_MultInd | CTO_LargeSign
  | CTO_WholeWord | CTO_Contraction | CTO_LowWord | CTO_JoinNum
  | CTO_JoinableWord | CTO_SuffixableWord | CTO_PrefixableWord
  | CTO_BegWord | CTO_BegMidWord | CTO_PartWord | CTO_MidWord
  | CTO_MidEndWord | CTO_EndWord | CTO_BegNum | CTO_MidNum | CTO_EndNum
  | CTO_DecPoint | CTO_PrePunc | CTO_PostPunc | CTO_BackMatch
  | CTO_LetterSign | CTO_NoContractSign | CTO_NumberSign
  | CTO_EndEmph1PhraseBeforeRule | CTO_EndEmph2PhraseBeforeRule
  | CTO_EndEmph3PhraseBeforeRule | CTO_BegComp | CTO_EndComp
  | CTO_Other (n : Nat)

open TranslationTableOpcode

/-- The record `TranslationTableRule`; `charsdots` holds the `charslen`
characters followed by the `dotslen` dots (or pass instructions). The links
`charsnext` / `dotsnext` are the list structure of the chain holding it. -/
structure TranslationTableRule where
  after : Nat
  before : Nat
  patterns : Nat
  opcode : TranslationTableOpcode
  charslen : Nat
  dotslen : Nat
  charsdots : Nat → widechar

/-- The record `TranslationTableCharacter`. -/
structure TranslationTableCharacter where
  definitionRule : Option TranslationTableRule
  otherRules : List TranslationTableRule
  attributes : Nat
  realchar : widechar
  uppercase : widechar
  lowercase : widechar

/-- The instruction codes of a pass program that the engine names. -/
inductive PassInstruction where
  | pass_first | pass_last | pass_lookback | pass_not | pass_string
  | pass_dots | pass_startReplace | pass_endReplace | pass_attributes
  | pass_swap | pass_endTest | pass_omit | pass_copy | pass_other
  deriving DecidableEq, Repr

/-- The part of `TranslationTableHeader` read by the engine. Hash buckets
map to the chain of records stored in them; `patterns` gives the symbol
array found at an offset of the rule area. -/
structure TranslationTableHeader where
  numPasses : Int
  corrections : Nat
  characters : Nat → List TranslationTableCharacter
  dots : Nat → List TranslationTableCharacter
  forRules : Nat → List TranslationTableRule
  backRules : Nat → List TranslationTableRule
  backPassRules : Int → List TranslationTableRule
  emphRules : Nat → Nat → Option TranslationTableRule
  letterSign : Option TranslationTableRule
  noContractSign : Option TranslationTableRule
  numberSign : Option TranslationTableRule
  begComp : Option TranslationTableRule
  endComp : Option TranslationTableRule
  ruleArea : Nat → TranslationTableRule
  patterns : Nat → Nat → widechar

/-- The pass variables kept by the pass-variable handlers. -/
abbrev PassVariables := Nat → Int

/-- The declarations of `internal.h` used by the engine: hash modulus,
attribute masks, dot masks, mode flags, indices of the emphasis rule table,
the numbering of the opcode and pass-instruction enumerations, and the
helper functions defined in other translation units. A pass-variable
handler returns `none` for "not handled"; a handled instruction moves the
instruction counter forward by the returned amount plus one. -/
structure Internal where
  HASHNUM : Nat
  CTC_Space : Nat
  CTC_Letter : Nat
  CTC_Digit : Nat
  CTC_Punctuation : Nat
  CTC_Math : Nat
  CTC_Sign : Nat
  CTC_LitDigit : Nat
  CTC_EmpMatch : Nat
  B1 : Nat
  B2 : Nat
  B3 : Nat
  B4 : Nat
  B5 : Nat
  B6 : Nat
  B7 : Nat
  B8 : Nat
  B9 : Nat
  B10 : Nat
  B11 : Nat
  B12 : Nat
  B13 : Nat
  B14 : Nat
  B15 : Nat
  B16 : Nat
  noUndefinedDots : Nat
  partialTrans : Nat
  pass1Only : Nat
  dotsIOmode : Nat
  capsRule : Nat
  emph1Rule : Nat
  emph2Rule : Nat
  emph3Rule : Nat
  letterOffset : Nat
  begWordOffset : Nat
  endWordOffset : Nat
  endPhraseBeforeOffset : Nat
  begOffset : Nat
  endOffset : Nat
  /-- The numeric value of an opcode enumerator. -/
  opcodeValue : TranslationTableOpcode → Nat
  /-- The pass instruction that a code denotes. -/
  passInstruction : widechar → PassInstruction
  /-- The value found in an `int` variable that was never assigned. -/
  indeterminate : Int
  /-- The word that a read of `rule->charsdots[-k]`, with `k >= 1`, yields for a
  rule of the table: what lies before the array `charsdots` in the rule area
  is laid out by `internal.h`. -/
  charsdotsBefore : TranslationTableHeader → TranslationTableRule → Nat → widechar
  getDotsForChar : widechar → widechar
  getCharFromDots : widechar → widechar
  pattern_check : WBuf → Int → Int → Int → (Nat → widechar) → TranslationTableHeader → Bool
  /-- The function `lou_getTable`; `none` stands for `NULL`. -/
  getTable : String → Option TranslationTableHeader
  resetPassVariables : PassVariables → PassVariables
  handlePassVariableTest : (Nat → widechar) → Nat → Bool → PassVariables → Option (Nat × Bool)
  handlePassVariableAction : (Nat → widechar) → Nat → PassVariables → Option (Nat × PassVariables)

/-! ## Buffer primitives -/

/-- The assignment `b[i] = v`. -/
def setAt {α : Type} (b : Int → α) (i : Int) (v : α) : Int → α :=
  fun j => if j = i then v else b j

/-- The effect of `memcpy(&b[d], f, n * sizeof *b)`: `n` elements, given by
`f 0 .. f (n-1)`, are stored at `b[d .. d+n)`. -/
def writeRange {α : Type} (b : Int → α) (d : Int) (n : Nat) (f : Nat → α) : Int → α :=
  fun j => if d ≤ j ∧ j < d + n then f (j - d).toNat else b j

/-- The variables that the emitting functions reach through pointers. -/
structure Emit where
  dest : Int
  currentOutput : WBuf
  srcMapping : IBuf
  outputPositions : Option IBuf
  inputPositions : Option IBuf
  cursorPosition : Int
  cursorStatus : Int
  nextUpper : Int
  spacebuf : Option WBuf

/-! ## Character classifier -/

/-- The static record `noChar = { 0, 0, 0, CTC_Space, 32, 32, 32 }`. -/
def noChar (K : Internal) : TranslationTableCharacter :=
  { definitionRule := none, otherRules := [], attributes := K.CTC_Space,
    realchar := 32, uppercase := 32, lowercase := 32 }

/-- The static record `noDots = { 0, 0, 0, CTC_Space, B16, B16, B16 }`. -/
def noDots (K : Internal) : TranslationTableCharacter :=
  { definitionRule := none, otherRules := [], attributes := K.CTC_Space,
    realchar := K.B16, uppercase := K.B16, lowercase := K.B16 }

/-- The function `back_findCharOrDots`: the record read through the returned
pointer right after the call. -/
def back_findCharOrDots (K : Internal) (c : widechar) (m : Int)
    (table : TranslationTableHeader) : TranslationTableCharacter :=
  let makeHash := c % K.HASHNUM
  let bucket := if m = 0 then table.characters makeHash else table.dots makeHash
  let notFound := if m = 0 then noChar K else noDots K
  match bucket.find? (fun character => character.realchar == c) with
  | some character => character
  | none => { notFound with realchar := c, uppercase := c, lowercase := c }

/-! ## Emitters -/

/-- The function `putchars`. -/
def putchars (K : Internal) (chars : Nat → widechar) (count : Nat)
    (table : TranslationTableHeader) (destmax : Int) (allUpper allUpperPhrase : Int)
    (s : Emit) : Bool × Emit :=
  if count = 0 ∨ s.dest + count > destmax then (false, s)
  else
    let k : Nat := if s.nextUpper ≠ 0 then 1 else 0
    let s1 : Emit :=
      if s.nextUpper ≠ 0 then
        { s with
          currentOutput :=
            setAt s.currentOutput s.dest (back_findCharOrDots K (chars 0) 0 table).uppercase
          dest := s.dest + 1
          nextUpper := 0 }
      else s
    if allUpper = 0 ∧ allUpperPhrase = 0 then
      (true, { s1 with
        currentOutput := writeRange s1.currentOutput s1.dest (count - k) (fun i => chars (k + i))
        dest := s1.dest + ((count - k : Nat) : Int) })
    else
      (true, { s1 with
        currentOutput := writeRange s1.currentOutput s1.dest (count - k)
          (fun i => (back_findCharOrDots K (chars (k + i)) 0 table).uppercase)
        dest := s1.dest + ((count - k : Nat) : Int) })

/-- The first loop pair of `back_updatePositions`: for `k < n` store
`inputPositions[dest + k] = srcMapping[src + k]`. -/
def fillInputPositions (srcMapping : IBuf) (src dest : Int) (n : Nat) (ip : IBuf) : IBuf :=
  (List.range n).foldl (fun a k => setAt a (dest + k) (srcMapping (src + k))) ip

/-- For `k < n` store `outputPositions[srcMapping[src + k]] = dest + k`. -/
def fillOutputPositions (srcMapping : IBuf) (src dest : Int) (n : Nat) (op : IBuf) : IBuf :=
  (List.range n).foldl (fun a k => setAt a (srcMapping (src + k)) (dest + k)) op

/-- For `lo <= k < hi` store `a[index k] = v`. -/
def fillConst (index : Nat → Int) (v : Int) (lo hi : Nat) (a : IBuf) : IBuf :=
  ((List.range hi).filter (fun k => lo ≤ k)).foldl (fun a k => setAt a (index k) v) a

/-- The function `back_updatePositions`. -/
def back_updatePositions (K : Internal) (outChars : Nat → widechar) (inLength outLength : Nat)
    (table : TranslationTableHeader) (src srcmax destmax : Int)
    (allUpper allUpperPhrase : Int) (s : Emit) : Bool × Emit :=
  if s.dest + outLength > destmax ∨ src + inLength > srcmax then (false, s)
  else
    let s1 : Emit :=
      if s.cursorStatus = 0 ∧ s.cursorPosition ≥ src ∧ s.cursorPosition < src + inLength then
        { s with cursorPosition := s.dest + ((outLength / 2 : Nat) : Int), cursorStatus := 1 }
      else s
    let s2 : Emit :=
      if outLength ≤ inLength then
        { s1 with
          inputPositions :=
            s1.inputPositions.map (fillInputPositions s1.srcMapping src s1.dest outLength)
          outputPositions :=
            s1.outputPositions.map (fun op =>
              fillConst (fun k => s1.srcMapping (src + k)) (s1.dest + outLength - 1)
                outLength inLength
                (fillOutputPositions s1.srcMapping src s1.dest outLength op)) }
      else
        { s1 with
          inputPositions :=
            s1.inputPositions.map (fun ip =>
              fillConst (fun k => s1.dest + k) (s1.srcMapping (src + inLength - 1))
                inLength outLength
                (fillInputPositions s1.srcMapping src s1.dest inLength ip))
          outputPositions :=
            s1.outputPositions.map (fillOutputPositions s1.srcMapping src s1.dest inLength) }
    putchars K outChars outLength table destmax allUpper allUpperPhrase s2

/-- The escape text built by `undefinedDots` in `buffer`: a backslash, the
digit of every dot whose mask is set, a slash. -/
def undefinedDotsBuffer (K : Internal) (dots : widechar) : List widechar :=
  [92]
    ++ (if dots &&& K.B1 ≠ 0 then [49] else [])
    ++ (if dots &&& K.B2 ≠ 0 then [50] else [])
    ++ (if dots &&& K.B3 ≠ 0 then [51] else [])
    ++ (if dots &&& K.B4 ≠ 0 then [52] else [])
    ++ (if dots &&& K.B5 ≠ 0 then [53] else [])
    ++ (if dots &&& K.B6 ≠ 0 then [54] else [])
    ++ (if dots &&& K.B7 ≠ 0 then [55] else [])
    ++ (if dots &&& K.B8 ≠ 0 then [56] else [])
    ++ (if dots &&& K.B9 ≠ 0 then [57] else [])
    ++ (if dots &&& K.B10 ≠ 0 then [65] else [])
    ++ (if dots &&& K.B11 ≠ 0 then [66] else [])
    ++ (if dots &&& K.B12 ≠ 0 then [67] else [])
    ++ (if dots &&& K.B13 ≠ 0 then [68] else [])
    ++ (if dots &&& K.B14 ≠ 0 then [69] else [])
    ++ (if dots &&& K.B15 ≠ 0 then [70] else [])
    ++ [47]

/-- The function `undefinedDots`. -/
def undefinedDots (K : Internal) (dots : widechar) (destmax : Int) (mode : Nat)
    (s : Emit) : Bool × Emit :=
  if mode &&& K.noUndefinedDots ≠ 0 then (true, s)
  else
    let buffer := undefinedDotsBuffer K dots
    let k := buffer.length
    if s.dest + k > destmax then (false, s)
    else
      (true, { s with
        currentOutput := writeRange s.currentOutput s.dest k (fun i => buffer.getD i 0)
        dest := s.dest + k })

/-! ## Classification helpers -/

/-- The test `(x & m) != 0`. -/
def hasAttr (x m : Nat) : Bool := decide (x &&& m ≠ 0)

/-- The value `x & ~m`. -/
def andNot (x m : Nat) : Nat := x ^^^ (x &&& m)

/-- The static variables of this translation unit that outlive a call: the
one-entry cache of `checkAttr`, and the pass variables of the handlers. -/
structure Statics where
  prevc : widechar
  preva : Nat
  passVariables : PassVariables

/-- The function `checkAttr` with its static cache `prevc` / `preva`. -/
def checkAttr (K : Internal) (c : widechar) (a : Nat) (m : Int)
    (table : TranslationTableHeader) (st : Statics) : Bool × Statics :=
  let st1 : Statics :=
    if c ≠ st.prevc then
      { st with preva := (back_findCharOrDots K c m table).attributes, prevc := c }
    else st
  (hasAttr st1.preva a, st1)

/-- The function `compareDots`. -/
def compareDots (address1 address2 : Nat → widechar) (count : Nat) : Bool :=
  if count = 0 then false
  else (List.range count).all (fun k => address1 k == address2 k)

/-- The function `back_setBefore`, returning `*beforeAttributes`. -/
def back_setBefore (K : Internal) (table : TranslationTableHeader) (dest : Int)
    (currentOutput : WBuf) : Nat :=
  let before : widechar := if dest = 0 then 32 else currentOutput (dest - 1)
  (back_findCharOrDots K before 0 table).attributes

/-- The function `back_setAfter`, returning `*afterAttributes`. -/
def back_setAfter (K : Internal) (length : Nat) (table : TranslationTableHeader)
    (src srcmax : Int) (currentInput : WBuf) : Nat :=
  let after : widechar := if src + length < srcmax then currentInput (src + length) else 32
  (back_findCharOrDots K after 1 table).attributes

/-- The loop of `isBegWord`, entered with `k + 1` positions left to look at
(the next one is `k`). -/
def isBegWordLoop (K : Internal) (table : TranslationTableHeader) (currentOutput : WBuf) :
    Nat → Bool
  | 0 => true
  | k + 1 =>
    let ch := back_findCharOrDots K (currentOutput k) 0 table
    if hasAttr ch.attributes K.CTC_Space then true
    else if hasAttr ch.attributes (K.CTC_Letter ||| K.CTC_Digit ||| K.CTC_Math ||| K.CTC_Sign)
    then false
    else isBegWordLoop K table currentOutput k

/-- The function `isBegWord`. -/
def isBegWord (K : Internal) (table : TranslationTableHeader) (dest : Int)
    (currentOutput : WBuf) : Bool :=
  if dest = 0 then true else isBegWordLoop K table currentOutput dest.toNat

/-- The inner loop of `isEndWord` over the chain `dots->otherRules`: `none`
when a hyphen rule makes the function return 1, else the two flags. -/
def isEndWordRules : List TranslationTableRule → Bool → Bool → Option (Bool × Bool)
  | [], translationFound, postpuncFound => some (translationFound, postpuncFound)
  | testRule :: rest, translationFound, postpuncFound =>
    let notBegMid : Bool :=
      match testRule.opcode with
      | CTO_BegWord => false
      | CTO_MidWord => false
      | _ => true
    let translationFound1 := if testRule.charslen > 1 ∧ notBegMid then true else translationFound
    let postpuncFound1 :=
      match testRule.opcode with
      | CTO_PostPunc => true
      | _ => postpuncFound
    match testRule.opcode with
    | CTO_Hyphen => none
    | _ => isEndWordRules rest translationFound1 postpuncFound1

/-- The outer loop of `isEndWord`, with `n` positions left before `srcmax`. -/
def isEndWordLoop (K : Internal) (table : TranslationTableHeader) (currentInput : WBuf) :
    Nat → Int → Bool
  | 0, _ => true
  | n + 1, k =>
    let dots := back_findCharOrDots K (currentInput k) 1 table
    if hasAttr dots.attributes K.CTC_Space then true
    else if hasAttr dots.attributes K.CTC_Letter then false
    else
      match isEndWordRules dots.otherRules false false with
      | none => true
      | some (translationFound, postpuncFound) =>
        if translationFound ∧ ¬ postpuncFound then false
        else isEndWordLoop K table currentInput n (k + 1)

/-- The function `isEndWord`. -/
def isEndWord (K : Internal) (table : TranslationTableHeader) (src srcmax : Int) (mode : Nat)
    (currentInput : WBuf) (currentDotslen : Nat) : Bool :=
  if mode &&& K.partialTrans ≠ 0 then false
  else
    isEndWordLoop K table currentInput (srcmax - (src + currentDotslen)).toNat
      (src + currentDotslen)

/-- The offset chosen by the `switch` of `handleMultind` for an indicator
code (a `findBrailleIndicatorRule` on offset 0 finds nothing). -/
def multindOffset (K : Internal) (table : TranslationTableHeader) (code : widechar) :
    Option TranslationTableRule :=
  if code = K.opcodeValue CTO_CapsLetterRule then table.emphRules K.capsRule K.letterOffset
  else if code = K.opcodeValue CTO_BegCapsWordRule then
    table.emphRules K.capsRule K.begWordOffset
  else if code = K.opcodeValue CTO_EndCapsWordRule then
    table.emphRules K.capsRule K.endWordOffset
  else if code = K.opcodeValue CTO_LetterSign then table.letterSign
  else if code = K.opcodeValue CTO_NoContractSign then table.noContractSign
  else if code = K.opcodeValue CTO_NumberSign then table.numberSign
  else if code = K.opcodeValue CTO_EndEmph1PhraseBeforeRule then
    table.emphRules K.emph1Rule K.endPhraseBeforeOffset
  else if code = K.opcodeValue CTO_BegEmph1Rule then table.emphRules K.emph1Rule K.begOffset
  else if code = K.opcodeValue CTO_EndEmph1Rule then table.emphRules K.emph1Rule K.endOffset
  else if code = K.opcodeValue CTO_EndEmph2PhraseBeforeRule then
    table.emphRules K.emph2Rule K.endPhraseBeforeOffset
  else if code = K.opcodeValue CTO_BegEmph2Rule then table.emphRules K.emph2Rule K.begOffset
  else if code = K.opcodeValue CTO_EndEmph2Rule then table.emphRules K.emph2Rule K.endOffset
  else if code = K.opcodeValue CTO_EndEmph3PhraseBeforeRule then
    table.emphRules K.emph3Rule K.endPhraseBeforeOffset
  else if code = K.opcodeValue CTO_BegEmph3Rule then table.emphRules K.emph3Rule K.begOffset
  else if code = K.opcodeValue CTO_EndEmph3Rule then table.emphRules K.emph3Rule K.endOffset
  else if code = K.opcodeValue CTO_BegComp then table.begComp
  else if code = K.opcodeValue CTO_EndComp then table.endComp
  else none

/-- The read `multindRule->charsdots[multindRule->charslen - *doingMultind]`
of `handleMultind`. The index is an `int`: when it is not negative the entry
of the array is read, when it is negative (more cells than characters) the
word that lies so many places before the array. -/
def multindEntry (K : Internal) (table : TranslationTableHeader) (doingMultind : Nat)
    (multindRule : TranslationTableRule) : widechar :=
  let index : Int := (multindRule.charslen : Int) - (doingMultind : Int)
  if 0 ≤ index then multindRule.charsdots index.toNat
  else K.charsdotsBefore table multindRule (-index).toNat

/-- The function `handleMultind`: the indicator rule found (if any) and the
new value of `*doingMultind`. -/
def handleMultind (K : Internal) (table : TranslationTableHeader) (doingMultind : Nat)
    (multindRule : TranslationTableRule) : Option TranslationTableRule × Nat :=
  if doingMultind = 0 then (none, doingMultind)
  else
    (multindOffset K table (multindEntry K table doingMultind multindRule), doingMultind - 1)

/-! ## Pass instruction interpreter: tests -/

/-- The match variables shared by `back_passDoTest` and `back_passDoAction`. -/
structure PassMatch where
  passSrc : Int
  passInstructions : Nat → widechar
  passIC : Nat
  startMatch : Int
  startReplace : Int
  endReplace : Int

/-- The function `matchcurrentInput`. -/
def matchcurrentInput (currentInput : WBuf) (passSrc : Int)
    (passInstructions : Nat → widechar) (passIC : Nat) : Bool :=
  (List.range (passInstructions (passIC + 1))).all
    (fun i => passInstructions (passIC + 2 + i) == currentInput (passSrc + i))

/-- The swap rule addressed by the two instruction words after `pass_swap`. -/
def swapRuleOf (table : TranslationTableHeader) (passInstructions : Nat → widechar)
    (passIC : Nat) : TranslationTableRule :=
  table.ruleArea ((passInstructions (passIC + 1) <<< 16) ||| passInstructions (passIC + 2))

/-- The second loop of `back_swapTest`, with `n` iterations left: the final
`curSrc`. -/
def back_swapTestRun (swapRule : TranslationTableRule) (currentInput : WBuf) :
    Nat → Int → Int
  | 0, curSrc => curSrc
  | n + 1, curSrc =>
    if (List.range swapRule.charslen).any
        (fun curTest => currentInput curSrc != swapRule.charsdots curTest)
    then curSrc
    else back_swapTestRun swapRule currentInput n (curSrc + 1)

/-- The function `back_swapTest`: the result and the new `*passSrc`. -/
def back_swapTest (table : TranslationTableHeader) (currentInput : WBuf) (passSrc : Int)
    (passInstructions : Nat → widechar) (passIC : Nat) : Bool × Int :=
  let swapRule := swapRuleOf table passInstructions passIC
  let n := passInstructions passIC + 3
  if (List.range n).all (fun curLen =>
      (List.range swapRule.charslen).any
        (fun curTest => currentInput (passSrc + curLen) == swapRule.charsdots curTest))
  then
    if passInstructions (passIC + 2) = passInstructions (passIC + 3) then (true, passSrc + n)
    else
      (true, back_swapTestRun swapRule currentInput (passInstructions (passIC + 4) - n)
        (passSrc + n))
  else (false, passSrc)

/-- The first loop of `pass_attributes`, with `n` repetitions left: whether
it ran to its end, and the new `*passSrc`. -/
def passAttributesMin (K : Internal) (table : TranslationTableHeader) (srcmax : Int)
    (currentInput : WBuf) (m : Int) (attributes : Nat) : Nat → Int → Bool × Int
  | 0, passSrc => (true, passSrc)
  | n + 1, passSrc =>
    if passSrc ≥ srcmax then (false, passSrc)
    else if ¬ hasAttr (back_findCharOrDots K (currentInput passSrc) m table).attributes attributes
    then (false, passSrc)
    else passAttributesMin K table srcmax currentInput m attributes n (passSrc + 1)

/-- The second loop of `pass_attributes`, with `n` repetitions left. -/
def passAttributesMax (K : Internal) (table : TranslationTableHeader) (srcmax : Int)
    (currentInput : WBuf) (m : Int) (attributes : Nat) : Nat → Int → Int
  | 0, passSrc => passSrc
  | n + 1, passSrc =>
    if passSrc < srcmax then
      if ¬ hasAttr (back_findCharOrDots K (currentInput passSrc) m table).attributes attributes
      then passSrc
      else passAttributesMax K table srcmax currentInput m attributes n (passSrc + 1)
    else passSrc

/-- The `while` loop of `back_passDoTest`. Every turn moves `passIC` forward,
so `fuel = dotslen` turns are enough; `not` is the pending negation. -/
def back_passDoTestLoop (K : Internal) (table : TranslationTableHeader) (srcmax : Int)
    (currentInput : WBuf) (m : Int) (currentRule : TranslationTableRule)
    (vars : PassVariables) : Nat → Bool → PassMatch → Bool × PassMatch
  | 0, _, pm => (true, pm)
  | fuel + 1, not, pm =>
    if pm.passIC < currentRule.dotslen then
      if pm.passSrc > srcmax then (false, pm)
      else
        let ic := pm.passIC
        let instr := pm.passInstructions
        let finish (itsTrue : Bool) (pm1 : PassMatch) : Bool × PassMatch :=
          if (!not && !itsTrue) || (not && itsTrue) then (false, pm1)
          else back_passDoTestLoop K table srcmax currentInput m currentRule vars fuel false pm1
        match K.passInstruction (instr ic) with
        | .pass_first => finish (decide (pm.passSrc = 0)) { pm with passIC := ic + 1 }
        | .pass_last => finish (decide (pm.passSrc = srcmax)) { pm with passIC := ic + 1 }
        | .pass_lookback =>
          let p := pm.passSrc - (instr (ic + 1) : Int)
          if p < 0 then finish false { pm with passSrc := 0, passIC := ic + 2 }
          else finish true { pm with passSrc := p, passIC := ic + 2 }
        | .pass_not =>
          back_passDoTestLoop K table srcmax currentInput m currentRule vars fuel (!not)
            { pm with passIC := ic + 1 }
        | .pass_string =>
          finish (matchcurrentInput currentInput pm.passSrc instr ic)
            { pm with passSrc := pm.passSrc + (instr (ic + 1) : Int),
                      passIC := ic + (instr (ic + 1) + 2) }
        | .pass_dots =>
          finish (matchcurrentInput currentInput pm.passSrc instr ic)
            { pm with passSrc := pm.passSrc + (instr (ic + 1) : Int),
                      passIC := ic + (instr (ic + 1) + 2) }
        | .pass_startReplace =>
          finish true { pm with startReplace := pm.passSrc, passIC := ic + 1 }
        | .pass_endReplace =>
          finish true { pm with endReplace := pm.passSrc, passIC := ic + 1 }
        | .pass_attributes =>
          let attributes := (instr (ic + 1) <<< 16) ||| instr (ic + 2)
          let r := passAttributesMin K table srcmax currentInput m attributes (instr (ic + 3))
            pm.passSrc
          if r.1 then
            finish true
              { pm with
                passSrc := passAttributesMax K table srcmax currentInput m attributes
                  (instr (ic + 4) - instr (ic + 3)) r.2,
                passIC := ic + 5 }
          else finish false { pm with passSrc := r.2, passIC := ic + 5 }
        | .pass_swap =>
          let r := back_swapTest table currentInput pm.passSrc instr ic
          finish r.1 { pm with passSrc := r.2, passIC := ic + 5 }
        | .pass_endTest =>
          if pm.startReplace = -1 then
            (true, { pm with passIC := ic + 1, startReplace := pm.startMatch,
                             endReplace := pm.passSrc })
          else (true, { pm with passIC := ic + 1 })
        | _ =>
          match K.handlePassVariableTest instr ic true vars with
          | some (step, itsTrue) => finish itsTrue { pm with passIC := ic + (step + 1) }
          | none => (false, pm)
    else (true, pm)

/-- The function `back_passDoTest`; `endReplace` is the caller's variable,
which the function leaves alone unless the program sets it. -/
def back_passDoTest (K : Internal) (table : TranslationTableHeader) (src srcmax : Int)
    (currentInput : WBuf) (currentOpcode : TranslationTableOpcode)
    (currentRule : TranslationTableRule) (vars : PassVariables) (endReplace : Int) :
    Bool × PassMatch :=
  let m : Int := match currentOpcode with
    | CTO_Correct => 0
    | _ => 1
  back_passDoTestLoop K table srcmax currentInput m currentRule vars currentRule.dotslen false
    { passSrc := src
      passInstructions := fun k => currentRule.charsdots (currentRule.charslen + k)
      passIC := 0
      startMatch := src
      startReplace := -1
      endReplace := endReplace }

/-- The function `findBackPassRule`: the first rule of the chain
`backPassRules[currentPass]` whose opcode belongs to the pass and whose test
holds, with its match variables; and the value left in `*endReplace`, which
every test of the walk shares. -/
def findBackPassRule (K : Internal) (table : TranslationTableHeader) (src srcmax : Int)
    (currentPass : Int) (currentInput : WBuf) (vars : PassVariables) :
    List TranslationTableRule → Int → Option (TranslationTableRule × PassMatch) × Int
  | [], endReplace => (none, endReplace)
  | currentRule :: rest, endReplace =>
    let applies : Bool :=
      match currentRule.opcode with
      | CTO_Correct => decide (currentPass = 0)
      | CTO_Context => decide (currentPass = 1)
      | CTO_Pass2 => decide (currentPass = 2)
      | CTO_Pass3 => decide (currentPass = 3)
      | CTO_Pass4 => decide (currentPass = 4)
      | _ => false
    if applies then
      let r := back_passDoTest K table src srcmax currentInput currentRule.opcode currentRule
        vars endReplace
      if r.1 then (some (currentRule, r.2), r.2.endReplace)
      else findBackPassRule K table src srcmax currentPass currentInput vars rest r.2.endReplace
    else findBackPassRule K table src srcmax currentPass currentInput vars rest endReplace

/-! ## Rule matcher -/

/-- The output variables of `back_selectRule`. -/
structure Selected where
  currentDotslen : Nat
  currentOpcode : TranslationTableOpcode
  currentRule : TranslationTableRule
  doingMultind : Nat
  multindRule : TranslationTableRule
  pm : PassMatch

/-- The match variables as `back_selectRule` leaves them when the last test
it ran (if any) is not the one of the rule it returns: only `endReplace` is
carried from test to test. -/
def staleMatch (K : Internal) (endReplace : Int) : PassMatch :=
  { passSrc := K.indeterminate
    passInstructions := fun _ => 0
    passIC := K.indeterminate.toNat
    startMatch := K.indeterminate
    startReplace := K.indeterminate
    endReplace := endReplace }

/-- The validity `switch` of `back_selectRule` for the opcodes that need
neither a pass test nor `handleMultind`: does the rule win? -/
def ruleValid (K : Internal) (table : TranslationTableHeader) (src srcmax dest : Int)
    (mode : Nat) (currentInput currentOutput : WBuf) (itsANumber itsALetter : Int)
    (previousOpcode : TranslationTableOpcode) (beforeAttributes afterAttributes : Nat)
    (currentRule : TranslationTableRule) (currentDotslen : Nat) : Bool :=
  let endWord := isEndWord K table src srcmax mode currentInput currentDotslen
  let contraction : Bool :=
    hasAttr beforeAttributes (K.CTC_Space ||| K.CTC_Punctuation) &&
      (hasAttr afterAttributes K.CTC_Space || endWord)
  match currentRule.opcode with
  | CTO_Space | CTO_Digit | CTO_Letter | CTO_UpperCase | CTO_LowerCase | CTO_Punctuation
  | CTO_Math | CTO_Sign | CTO_ExactDots | CTO_NoCross | CTO_Repeated | CTO_Replace
  | CTO_Hyphen => true
  | CTO_LitDigit => decide (itsANumber ≠ 0)
  | CTO_CapsLetterRule | CTO_BegCapsRule | CTO_EndCapsRule | CTO_BegCapsWordRule
  | CTO_EndCapsWordRule | CTO_BegEmph1Rule | CTO_EndEmph1Rule | CTO_BegEmph2Rule
  | CTO_EndEmph2Rule | CTO_BegEmph3Rule | CTO_EndEmph3Rule | CTO_NumberRule
  | CTO_BegCompRule | CTO_EndCompRule => true
  | CTO_LetterRule | CTO_NoContractRule =>
    !hasAttr beforeAttributes K.CTC_Letter &&
      hasAttr afterAttributes (K.CTC_Letter ||| K.CTC_Sign)
  | CTO_LargeSign => true
  | CTO_WholeWord =>
    if mode &&& K.partialTrans ≠ 0 then false
    else if itsALetter ≠ 0 ∨ itsANumber ≠ 0 then false
    else contraction
  | CTO_Contraction => contraction
  | CTO_LowWord =>
    if mode &&& K.partialTrans ≠ 0 then false
    else
      hasAttr beforeAttributes K.CTC_Space && hasAttr afterAttributes K.CTC_Space &&
        (match previousOpcode with
          | CTO_JoinableWord => false
          | _ => true)
  | CTO_JoinNum | CTO_JoinableWord =>
    hasAttr beforeAttributes (K.CTC_Space ||| K.CTC_Punctuation) &&
      (!hasAttr afterAttributes K.CTC_Space || decide (mode &&& K.partialTrans ≠ 0))
  | CTO_SuffixableWord => hasAttr beforeAttributes (K.CTC_Space ||| K.CTC_Punctuation)
  | CTO_PrefixableWord =>
    hasAttr beforeAttributes (K.CTC_Space ||| K.CTC_Letter ||| K.CTC_Punctuation) && endWord
  | CTO_BegWord =>
    hasAttr beforeAttributes (K.CTC_Space ||| K.CTC_Punctuation) && !endWord
  | CTO_BegMidWord =>
    hasAttr beforeAttributes (K.CTC_Letter ||| K.CTC_Space ||| K.CTC_Punctuation) && !endWord
  | CTO_PartWord =>
    !hasAttr beforeAttributes K.CTC_LitDigit &&
      (hasAttr beforeAttributes K.CTC_Letter || !endWord)
  | CTO_MidWord => hasAttr beforeAttributes K.CTC_Letter && !endWord
  | CTO_MidEndWord => hasAttr beforeAttributes K.CTC_Letter
  | CTO_EndWord => hasAttr beforeAttributes K.CTC_Letter && endWord
  | CTO_BegNum =>
    hasAttr beforeAttributes (K.CTC_Space ||| K.CTC_Punctuation) &&
      hasAttr afterAttributes (K.CTC_LitDigit ||| K.CTC_Sign)
  | CTO_MidNum =>
    hasAttr beforeAttributes K.CTC_Digit && hasAttr afterAttributes K.CTC_LitDigit
  | CTO_EndNum => decide (itsANumber ≠ 0) && !hasAttr afterAttributes K.CTC_LitDigit
  | CTO_DecPoint => hasAttr afterAttributes (K.CTC_Digit ||| K.CTC_LitDigit)
  | CTO_PrePunc => isBegWord K table dest currentOutput
  | CTO_PostPunc => endWord
  | CTO_Always =>
    if hasAttr beforeAttributes K.CTC_LitDigit ∧ hasAttr afterAttributes K.CTC_LitDigit ∧
        currentRule.charslen > 1 then false
    else true
  | CTO_BackMatch =>
    let patterns := table.patterns currentRule.patterns
    K.pattern_check currentInput (src - 1) (-1) (-1) (fun k => patterns (1 + k)) table &&
      K.pattern_check currentInput (src + currentRule.dotslen) srcmax 1
        (fun k => patterns (patterns 0 + k)) table
  | _ => false

/-- The `while (ruleOffset)` loop of `back_selectRule` over one chain, for
the current value of `length`: either the rule that wins, or the values of
`*doingMultind`, `*multindRule` and `*endReplace` after the walk. -/
def back_selectRuleChain (K : Internal) (table : TranslationTableHeader) (src srcmax dest : Int)
    (mode : Nat) (currentInput currentOutput : WBuf) (itsANumber itsALetter : Int)
    (previousOpcode : TranslationTableOpcode) (beforeAttributes : Nat) (vars : PassVariables)
    (length : Int) :
    List TranslationTableRule → Nat → TranslationTableRule → Int →
      Selected ⊕ (Nat × TranslationTableRule × Int)
  | [], doingMultind, multindRule, endReplace => .inr (doingMultind, multindRule, endReplace)
  | currentRule :: rest, doingMultind, multindRule, endReplace =>
    let isContext : Bool :=
      match currentRule.opcode with
      | CTO_Context => true
      | _ => false
    let currentDots : Nat → widechar :=
      if isContext then currentRule.charsdots
      else fun k => currentRule.charsdots (currentRule.charslen + k)
    let currentDotslen : Nat := if isContext then currentRule.charslen else currentRule.dotslen
    let next (dm : Nat) (mr : TranslationTableRule) (er : Int) :=
      back_selectRuleChain K table src srcmax dest mode currentInput currentOutput itsANumber
        itsALetter previousOpcode beforeAttributes vars length rest dm mr er
    if (currentDotslen : Int) ≤ length ∧
        compareDots (fun k => currentInput (src + k)) currentDots currentDotslen then
      let afterAttributes := back_setAfter K currentDotslen table src srcmax currentInput
      if (andNot currentRule.after K.CTC_EmpMatch = 0 ∨
            hasAttr beforeAttributes currentRule.after) ∧
          (andNot currentRule.before K.CTC_EmpMatch = 0 ∨
            hasAttr afterAttributes currentRule.before) then
        match currentRule.opcode with
        | CTO_Context =>
          let r := back_passDoTest K table src srcmax currentInput CTO_Context currentRule vars
            endReplace
          if r.1 then
            .inl { currentDotslen := currentDotslen, currentOpcode := CTO_Context,
                   currentRule := currentRule, doingMultind := doingMultind,
                   multindRule := multindRule, pm := r.2 }
          else next doingMultind multindRule r.2.endReplace
        | CTO_MultInd =>
          match handleMultind K table currentDotslen currentRule with
          | (some found, dm) =>
            .inl { currentDotslen := found.dotslen, currentOpcode := found.opcode,
                   currentRule := found, doingMultind := dm, multindRule := currentRule,
                   pm := staleMatch K endReplace }
          | (none, dm) => next dm currentRule endReplace
        | _ =>
          if ruleValid K table src srcmax dest mode currentInput currentOutput itsANumber
              itsALetter previousOpcode beforeAttributes afterAttributes currentRule
              currentDotslen then
            .inl { currentDotslen := currentDotslen, currentOpcode := currentRule.opcode,
                   currentRule := currentRule, doingMultind := doingMultind,
                   multindRule := multindRule, pm := staleMatch K endReplace }
          else next doingMultind multindRule endReplace
      else next doingMultind multindRule endReplace
    else next doingMultind multindRule endReplace

/-- The static `pseudoRule` as `back_selectRule` fills it in case 2. -/
def pseudoRule (currentInput : WBuf) (src : Int) : TranslationTableRule :=
  { after := 0, before := 0, patterns := 0, opcode := CTO_None, charslen := 0, dotslen := 1,
    charsdots := fun k => if k = 0 then currentInput src else 0 }

/-- The function `back_selectRule`. -/
def back_selectRule (K : Internal) (table : TranslationTableHeader) (src srcmax dest : Int)
    (mode : Nat) (currentInput currentOutput : WBuf) (itsANumber itsALetter : Int)
    (previousOpcode : TranslationTableOpcode) (doingMultind : Nat)
    (multindRule : TranslationTableRule) (beforeAttributes : Nat) (vars : PassVariables)
    (endReplace : Int) : Selected :=
  let length : Int := srcmax - src
  let dots := back_findCharOrDots K (currentInput src) 1 table
  match handleMultind K table doingMultind multindRule with
  | (some found, dm) =>
    { currentDotslen := found.dotslen, currentOpcode := found.opcode, currentRule := found,
      doingMultind := dm, multindRule := multindRule, pm := staleMatch K endReplace }
  | (none, dm) =>
    let chain0 : List TranslationTableRule :=
      if length < 2 ∨ (itsANumber ≠ 0 ∧ hasAttr dots.attributes K.CTC_LitDigit) then []
      else
        table.backRules
          (((dots.realchar <<< 8) +
              (back_findCharOrDots K (currentInput (src + 1)) 1 table).realchar) % K.HASHNUM)
    match back_selectRuleChain K table src srcmax dest mode currentInput currentOutput
        itsANumber itsALetter previousOpcode beforeAttributes vars length chain0 dm multindRule
        endReplace with
    | .inl sel => sel
    | .inr (dm1, mr1, er1) =>
      let chain1 : List TranslationTableRule := if length ≥ 1 then dots.otherRules else []
      let length1 : Int := if length ≥ 1 then 1 else length
      match back_selectRuleChain K table src srcmax dest mode currentInput currentOutput
          itsANumber itsALetter previousOpcode beforeAttributes vars length1 chain1 dm1 mr1
          er1 with
      | .inl sel => sel
      | .inr (dm2, mr2, er2) =>
        { currentDotslen := 1, currentOpcode := CTO_None,
          currentRule := pseudoRule currentInput src, doingMultind := dm2, multindRule := mr2,
          pm := staleMatch K er2 }

/-! ## Emitters built on `back_updatePositions` -/

/-- The function `putCharacter`. -/
def putCharacter (K : Internal) (dots : widechar) (table : TranslationTableHeader)
    (src srcmax destmax : Int) (mode : Nat) (allUpper allUpperPhrase : Int) (s : Emit) :
    Bool × Emit :=
  match (back_findCharOrDots K dots 1 table).definitionRule with
  | some rule =>
    if rule.charslen ≠ 0 then
      back_updatePositions K rule.charsdots rule.dotslen rule.charslen table src srcmax destmax
        allUpper allUpperPhrase s
    else
      back_updatePositions K (fun _ => K.getCharFromDots dots) 1 1 table src srcmax destmax
        allUpper allUpperPhrase s
  | none => undefinedDots K dots destmax mode s

/-- The function `putCharacters`, for the characters `k .. count - 1`; `n` is
the number of characters left. -/
def putCharacters (K : Internal) (characters : Nat → widechar)
    (table : TranslationTableHeader) (src srcmax destmax : Int) (mode : Nat)
    (allUpper allUpperPhrase : Int) : Nat → Nat → Emit → Bool × Emit
  | 0, _, s => (true, s)
  | n + 1, k, s =>
    let r := putCharacter K (characters k) table src srcmax destmax mode allUpper allUpperPhrase s
    if r.1 then
      putCharacters K characters table src srcmax destmax mode allUpper allUpperPhrase n (k + 1)
        r.2
    else (false, r.2)

/-- The function `insertSpace`. -/
def insertSpace (K : Internal) (table : TranslationTableHeader) (src srcmax destmax : Int)
    (allUpper allUpperPhrase : Int) (s : Emit) : Bool × Emit :=
  let r := back_updatePositions K (fun _ => 32) 1 1 table src srcmax destmax allUpper
    allUpperPhrase s
  if r.1 then
    (true, { r.2 with spacebuf := r.2.spacebuf.map (fun b => setAt b (r.2.dest - 1) 49) })
  else (false, r.2)

/-- The function `compareChars`. -/
def compareChars (K : Internal) (address1 address2 : Nat → widechar) (count : Nat) (m : Int)
    (table : TranslationTableHeader) : Bool :=
  if count = 0 then false
  else
    (List.range count).all (fun k =>
      (back_findCharOrDots K (address1 k) m table).lowercase ==
        (back_findCharOrDots K (address2 k) m table).lowercase)

/-! ## Pass instruction interpreter: actions -/

/-- The first `curTest < charslen` with `c == charsdots[curTest]`, else
`charslen`: the search loop of the swap functions, `n` entries left. -/
def swapFind (swapRule : TranslationTableRule) (c : widechar) : Nat → Nat → Nat
  | 0, curTest => curTest
  | n + 1, curTest =>
    if c = swapRule.charsdots curTest then curTest else swapFind swapRule c n (curTest + 1)

/-- The inner `while (curPos < swapRule->dotslen)` loop of
`back_swapReplace`, `n` turns left: `none` if the capacity check fails, else
the state with the new `lastPos` and `lastRep`. A segment is emitted with
`replacements[curPos] - 1` symbols; when that difference is negative nothing
is stored and `*dest` moves back. -/
def swapEmit (swapRule : TranslationTableRule) (destmax : Int) (curSrc : Int) (curTest : Nat) :
    Nat → Nat → Nat → Nat → Nat → Emit → Option (Nat × Nat × Emit)
  | 0, _, _, lastPos, lastRep, s => some (lastPos, lastRep, s)
  | n + 1, curPos, curRep, lastPos, lastRep, s =>
    if curPos < swapRule.dotslen then
      let replacements : Nat → widechar := fun k => swapRule.charsdots (swapRule.charslen + k)
      if curRep = curTest then
        let count : Int := (replacements curPos : Int) - 1
        if s.dest + count ≥ destmax then none
        else
          some (curPos, curRep,
            { s with
              srcMapping := writeRange s.srcMapping s.dest count.toNat
                (fun _ => s.srcMapping curSrc)
              currentOutput := writeRange s.currentOutput s.dest count.toNat
                (fun i => replacements (curPos + 1 + i))
              dest := s.dest + count })
      else
        swapEmit swapRule destmax curSrc curTest n (curPos + replacements curPos) (curRep + 1)
          lastPos lastRep s
    else some (lastPos, lastRep, s)

/-- The outer loop of `back_swapReplace`, `n` turns left: the returned `int`
and the state. -/
def back_swapReplaceLoop (swapRule : TranslationTableRule) (destmax : Int)
    (currentInput : WBuf) (maxLen : Int) : Nat → Int → Nat → Nat → Emit → Int × Emit
  | 0, curSrc, _, _, s => (curSrc, s)
  | n + 1, curSrc, lastPos, lastRep, s =>
    if curSrc < maxLen then
      let curTest := swapFind swapRule (currentInput curSrc) swapRule.charslen 0
      if curTest = swapRule.charslen then (curSrc, s)
      else
        let curPos := if curTest ≥ lastRep then lastPos else 0
        let curRep := if curTest ≥ lastRep then lastRep else 0
        match swapEmit swapRule destmax curSrc curTest (curTest - curRep + 1) curPos curRep
            lastPos lastRep s with
        | none => (0, s)
        | some (lastPos1, lastRep1, s1) =>
          back_swapReplaceLoop swapRule destmax currentInput maxLen n (curSrc + 1) lastPos1
            lastRep1 s1
    else (curSrc, s)

/-- The function `back_swapReplace`. -/
def back_swapReplace (startSrc maxLen : Int) (table : TranslationTableHeader) (destmax : Int)
    (currentInput : WBuf) (passInstructions : Nat → widechar) (passIC : Nat) (s : Emit) :
    Int × Emit :=
  back_swapReplaceLoop (swapRuleOf table passInstructions passIC) destmax currentInput maxLen
    (maxLen - startSrc).toNat startSrc 0 0 s

/-- The `while (from < to)` loop of `copyCharacters` for a context rule, `n`
symbols left. -/
def copyCharactersContext (K : Internal) (table : TranslationTableHeader)
    (src srcmax destmax : Int) (mode : Nat) (currentInput : WBuf)
    (allUpper allUpperPhrase : Int) : Nat → Int → Emit → Bool × Emit
  | 0, _, s => (true, s)
  | n + 1, fromPos, s =>
    let r := putCharacter K (currentInput fromPos) table src srcmax destmax mode allUpper
      allUpperPhrase s
    if r.1 then
      copyCharactersContext K table src srcmax destmax mode currentInput allUpper allUpperPhrase
        n (fromPos + 1) r.2
    else (false, r.2)

/-- The function `copyCharacters`. -/
def copyCharacters (K : Internal) (fromPos toPos : Int) (table : TranslationTableHeader)
    (src srcmax destmax : Int) (mode : Nat) (currentInput : WBuf)
    (allUpper allUpperPhrase : Int) (currentOpcode : TranslationTableOpcode) (s : Emit) :
    Bool × Emit :=
  match currentOpcode with
  | CTO_Context =>
    copyCharactersContext K table src srcmax destmax mode currentInput allUpper allUpperPhrase
      (toPos - fromPos).toNat fromPos s
  | _ =>
    let count : Int := toPos - fromPos
    if count > 0 then
      if s.dest + count > destmax then (false, s)
      else
        (true, { s with
          srcMapping := writeRange s.srcMapping s.dest count.toNat
            (fun i => s.srcMapping (fromPos + i))
          currentOutput := writeRange s.currentOutput s.dest count.toNat
            (fun i => currentInput (fromPos + i))
          dest := s.dest + count })
    else (true, s)

/-- The variables of the action loop of `back_passDoAction`. -/
structure ActionState where
  e : Emit
  passIC : Nat
  destStart : Int
  endReplace : Int
  vars : PassVariables

/-- The `while (passIC < dotslen)` loop of `back_passDoAction`; every turn
moves `passIC` forward, so `fuel = dotslen` turns are enough. -/
def back_passDoActionLoop (K : Internal) (table : TranslationTableHeader)
    (src srcmax destmax : Int) (mode : Nat) (currentInput : WBuf)
    (allUpper allUpperPhrase : Int) (currentOpcode : TranslationTableOpcode)
    (currentRule : TranslationTableRule) (pm : PassMatch) (srcEnd destInitial : Int) :
    Nat → ActionState → Bool × ActionState
  | 0, a => (true, a)
  | fuel + 1, a =>
    if a.passIC < currentRule.dotslen then
      let instr := pm.passInstructions
      let ic := a.passIC
      let next := back_passDoActionLoop K table src srcmax destmax mode currentInput allUpper
        allUpperPhrase currentOpcode currentRule pm srcEnd destInitial fuel
      let emitString : Bool × ActionState :=
        let n := instr (ic + 1)
        if a.e.dest + n > destmax then (false, a)
        else
          next { a with
            e := { a.e with
              srcMapping := writeRange a.e.srcMapping a.e.dest n (fun _ => pm.startMatch)
              currentOutput := writeRange a.e.currentOutput a.e.dest n
                (fun k => instr (ic + 2 + k))
              dest := a.e.dest + n }
            passIC := ic + (n + 2) }
      match K.passInstruction (instr ic) with
      | .pass_string => emitString
      | .pass_dots => emitString
      | .pass_swap =>
        let r := back_swapReplace pm.startReplace (a.endReplace - pm.startReplace) table destmax
          currentInput instr ic a.e
        if r.1 = 0 then (false, { a with e := r.2 })
        else next { a with e := r.2, passIC := ic + 3 }
      | .pass_omit => next { a with passIC := ic + 1 }
      | .pass_copy =>
        let count : Int := a.destStart - destInitial
        let a1 : ActionState :=
          if count > 0 then
            { a with
              e := { a.e with
                currentOutput := writeRange a.e.currentOutput destInitial count.toNat
                  (fun i => a.e.currentOutput (a.destStart + i))
                dest := a.e.dest - count }
              destStart := destInitial }
          else a
        let r := copyCharacters K pm.startReplace srcEnd table src srcmax destmax mode
          currentInput allUpper allUpperPhrase currentOpcode a1.e
        if r.1 then next { a1 with e := r.2, endReplace := pm.passSrc, passIC := ic + 1 }
        else (false, { a1 with e := r.2 })
      | _ =>
        match K.handlePassVariableAction instr ic a.vars with
        | some (step, vars1) => next { a with passIC := ic + (step + 1), vars := vars1 }
        | none => (false, a)
    else (true, a)

/-- The function `back_passDoAction`: the result, the emitter variables, the
caller's `endReplace` and the pass variables. -/
def back_passDoAction (K : Internal) (table : TranslationTableHeader)
    (src srcmax destmax : Int) (mode : Nat) (currentInput : WBuf)
    (allUpper allUpperPhrase : Int) (currentOpcode : TranslationTableOpcode)
    (currentRule : TranslationTableRule) (pm : PassMatch) (vars : PassVariables) (s : Emit) :
    Bool × ActionState :=
  let r := copyCharacters K pm.startMatch pm.startReplace table src srcmax destmax mode
    currentInput allUpper allUpperPhrase currentOpcode s
  if r.1 then
    back_passDoActionLoop K table src srcmax destmax mode currentInput allUpper allUpperPhrase
      currentOpcode currentRule pm pm.endReplace s.dest currentRule.dotslen
      { e := r.2, passIC := pm.passIC, destStart := r.2.dest, endReplace := pm.endReplace,
        vars := vars }
  else
    (false, { e := r.2, passIC := pm.passIC, destStart := r.2.dest,
              endReplace := pm.endReplace, vars := vars })


/-! ## The primary pass -/

/-- How a phase of a loop body ends: go on with the next phase, start the
next turn of the loop (`continue`), `goto failure`, or `return 0`. -/
inductive Flow where
  | go | next | failure | abort
  deriving DecidableEq, Repr

/-- The statement `if (appliedRules != NULL && *appliedRulesCount <
maxAppliedRules) appliedRules[(*appliedRulesCount)++] = currentRule`; the
list holds the entries stored so far. -/
def recordRule (traced : Bool) (maxAppliedRules : Int) (applied : List TranslationTableRule)
    (currentRule : TranslationTableRule) : List TranslationTableRule :=
  if traced ∧ (applied.length : Int) < maxAppliedRules then applied ++ [currentRule] else applied

/-- The variables of `backTranslateString` that live across loop turns. -/
structure BackState where
  src : Int
  e : Emit
  st : Statics
  applied : List TranslationTableRule
  allUpper : Int
  allUpperPhrase : Int
  itsANumber : Int
  itsALetter : Int
  srcword : Int
  destword : Int
  previousOpcode : TranslationTableOpcode
  doingMultind : Nat
  multindRule : TranslationTableRule

/-- The parameters of a pass that stay fixed while it runs. -/
structure PassEnv where
  table : TranslationTableHeader
  srcmax : Int
  destmax : Int
  mode : Nat
  currentPass : Int
  currentInput : WBuf
  traced : Bool
  maxAppliedRules : Int

/-- The `while (1)` loop of the `insertChars` branch for a rule without
characters; `none` when the loop does not end within the fuel. The result is
the outcome of the last `putCharacter`, `*src` and the emitter variables. -/
def insertCharsLoop (K : Internal) (env : PassEnv) (allUpper allUpperPhrase : Int)
    (srclim : Int) : Nat → Int → Emit → Option (Bool × Int × Emit)
  | 0, _, _ => none
  | n + 1, src, s =>
    let r := putCharacter K (env.currentInput src) env.table src env.srcmax env.destmax env.mode
      allUpper allUpperPhrase s
    if r.1 then
      if src + 1 = srclim then some (true, src + 1, r.2)
      else insertCharsLoop K env allUpper allUpperPhrase srclim n (src + 1) r.2
    else some (false, src, r.2)

/-- The first `switch` of the loop body ("processing before replacement"). -/
def beforeReplacement (K : Internal) (env : PassEnv) (sel : Selected) (b : BackState) :
    Flow × BackState :=
  let skip (b1 : BackState) : Flow × BackState :=
    (Flow.next, { b1 with src := b1.src + sel.currentDotslen })
  match sel.currentOpcode with
  | CTO_Hyphen => (Flow.go, { b with itsANumber := 0 })
  | CTO_LargeSign =>
    match b.previousOpcode with
    | CTO_LargeSign =>
      let r := insertSpace K env.table b.src env.srcmax env.destmax b.allUpper b.allUpperPhrase
        b.e
      if r.1 then (Flow.go, { b with e := r.2 }) else (Flow.failure, { b with e := r.2 })
    | _ => (Flow.go, b)
  | CTO_CapsLetterRule => skip { b with e := { b.e with nextUpper := 1 } }
  | CTO_BegCapsWordRule => skip { b with allUpper := 1 }
  | CTO_BegCapsRule => skip { b with allUpperPhrase := 1 }
  | CTO_EndCapsWordRule => skip { b with allUpper := 0 }
  | CTO_EndCapsRule => skip { b with allUpperPhrase := 0 }
  | CTO_LetterRule | CTO_NoContractRule => skip { b with itsALetter := 1, itsANumber := 0 }
  | CTO_NumberRule => skip { b with itsANumber := 1 }
  | CTO_BegEmph1Rule | CTO_BegEmph2Rule | CTO_BegEmph3Rule | CTO_EndEmph1Rule
  | CTO_EndEmph2Rule | CTO_EndEmph3Rule | CTO_BegCompRule | CTO_EndCompRule => skip b
  | _ => (Flow.go, b)

/-- The label `insertChars` of the second `switch`. -/
def insertChars (K : Internal) (env : PassEnv) (fuel : Nat) (sel : Selected) (b : BackState) :
    Option (Flow × BackState) :=
  if sel.currentRule.charslen ≠ 0 then
    let r := back_updatePositions K sel.currentRule.charsdots sel.currentRule.dotslen
      sel.currentRule.charslen env.table b.src env.srcmax env.destmax b.allUpper
      b.allUpperPhrase b.e
    if r.1 then some (Flow.go, { b with e := r.2, src := b.src + sel.currentDotslen })
    else some (Flow.failure, { b with e := r.2 })
  else
    match insertCharsLoop K env b.allUpper b.allUpperPhrase (b.src + sel.currentDotslen) fuel
        b.src b.e with
    | none => none
    | some (ok, src1, e1) =>
      some (if ok then Flow.go else Flow.failure, { b with e := e1, src := src1 })

/-- The second `switch` of the loop body ("replacement processing"): the
flow, the state and the value of the local `endReplace`. -/
def replacement (K : Internal) (env : PassEnv) (fuel : Nat) (sel : Selected) (b : BackState) :
    Option (Flow × BackState × Int) :=
  let withEnd (r : Option (Flow × BackState)) : Option (Flow × BackState × Int) :=
    r.map (fun x => (x.1, x.2, sel.pm.endReplace))
  match sel.currentOpcode with
  | CTO_Context =>
    let r := back_passDoAction K env.table b.src env.srcmax env.destmax env.mode
      env.currentInput b.allUpper b.allUpperPhrase CTO_Context sel.currentRule sel.pm
      b.st.passVariables b.e
    let b1 : BackState := { b with e := r.2.e, st := { b.st with passVariables := r.2.vars } }
    if r.1 then some (Flow.go, { b1 with src := r.2.endReplace }, r.2.endReplace)
    else some (Flow.abort, b1, r.2.endReplace)
  | CTO_Replace =>
    let src1 := b.src + sel.currentDotslen
    let r := putCharacters K sel.currentRule.charsdots env.table src1 env.srcmax env.destmax
      env.mode b.allUpper b.allUpperPhrase sel.currentRule.charslen 0 b.e
    some (if r.1 then Flow.go else Flow.failure, { b with src := src1, e := r.2 },
      sel.pm.endReplace)
  | CTO_None =>
    let r := undefinedDots K (env.currentInput b.src) env.destmax env.mode b.e
    if r.1 then some (Flow.go, { b with e := r.2, src := b.src + 1 }, sel.pm.endReplace)
    else some (Flow.failure, { b with e := r.2 }, sel.pm.endReplace)
  | CTO_BegNum => withEnd (insertChars K env fuel sel { b with itsANumber := 1 })
  | CTO_EndNum => withEnd (insertChars K env fuel sel { b with itsANumber := 0 })
  | CTO_Space =>
    withEnd (insertChars K env fuel sel
      { b with itsALetter := 0, itsANumber := 0, allUpper := 0,
               e := { b.e with nextUpper := 0 } })
  | _ => withEnd (insertChars K env fuel sel b)

/-- The function `passSelectRule`: the opcode, the rule and match variables
when a pass rule was found, and the value left in `*endReplace`. -/
def passSelectRule (K : Internal) (env : PassEnv) (src : Int) (vars : PassVariables)
    (endReplace : Int) :
    TranslationTableOpcode × Option (TranslationTableRule × PassMatch) × Int :=
  match findBackPassRule K env.table src env.srcmax env.currentPass env.currentInput vars
      (env.table.backPassRules env.currentPass) endReplace with
  | (some (rule, pm), er) => (rule.opcode, some (rule, pm), er)
  | (none, er) => (CTO_Always, none, er)

/-- The third `switch` of the loop body ("processing after replacement"):
the flow, the state and the value of `currentOpcode` after it. -/
def afterReplacement (K : Internal) (env : PassEnv) (sel : Selected) (endReplace : Int)
    (b : BackState) : Flow × BackState × TranslationTableOpcode :=
  let join : Flow × BackState × TranslationTableOpcode :=
    let r := insertSpace K env.table b.src env.srcmax env.destmax b.allUpper b.allUpperPhrase b.e
    (if r.1 then Flow.go else Flow.failure, { b with e := r.2 }, sel.currentOpcode)
  match sel.currentOpcode with
  | CTO_JoinNum => join
  | CTO_JoinableWord => join
  | _ =>
    match passSelectRule K env b.src b.st.passVariables endReplace with
    | (CTO_Context, some (rule, pm), _) =>
      let r := back_passDoAction K env.table b.src env.srcmax env.destmax env.mode
        env.currentInput b.allUpper b.allUpperPhrase CTO_Context rule pm b.st.passVariables b.e
      (Flow.go,
        { b with e := r.2.e, st := { b.st with passVariables := r.2.vars },
                 src := r.2.endReplace },
        CTO_Context)
    | (opcode, _, _) => (Flow.go, b, opcode)

/-- The end of the loop body: the word boundary is remembered and
`previousOpcode` is updated. -/
def endOfTurn (K : Internal) (env : PassEnv) (currentOpcode : TranslationTableOpcode)
    (b : BackState) : BackState :=
  let notJoinable : Bool :=
    match currentOpcode with
    | CTO_JoinableWord => false
    | _ => true
  let c : Bool × Statics :=
    if b.src > 0 then checkAttr K (env.currentInput (b.src - 1)) K.CTC_Space 1 env.table b.st
    else (false, b.st)
  let b1 : BackState := { b with st := c.2 }
  let b2 : BackState :=
    if b.src > 0 ∧ c.1 ∧ notJoinable then { b1 with srcword := b.src, destword := b.e.dest }
    else b1
  let v := K.opcodeValue currentOpcode
  if (K.opcodeValue CTO_Always ≤ v ∧ v ≤ K.opcodeValue CTO_None) ∨
      (K.opcodeValue CTO_Digit ≤ v ∧ v ≤ K.opcodeValue CTO_LitDigit) then
    { b2 with previousOpcode := currentOpcode }
  else b2

/-- One turn of the main translation loop of `backTranslateString`, entered
with `*src < srcmax`; `none` when an inner loop does not end within the fuel. -/
def backTranslateTurn (K : Internal) (env : PassEnv) (fuel : Nat) (b : BackState) :
    Option (Flow × BackState) :=
  let beforeAttributes := back_setBefore K env.table b.e.dest b.e.currentOutput
  let sel := back_selectRule K env.table b.src env.srcmax b.e.dest env.mode env.currentInput
    b.e.currentOutput b.itsANumber b.itsALetter b.previousOpcode b.doingMultind b.multindRule
    beforeAttributes b.st.passVariables K.indeterminate
  let b0 : BackState :=
    { b with applied := recordRule env.traced env.maxAppliedRules b.applied sel.currentRule,
             doingMultind := sel.doingMultind, multindRule := sel.multindRule }
  match beforeReplacement K env sel b0 with
  | (Flow.go, b1) =>
    match replacement K env fuel sel b1 with
    | none => none
    | some (Flow.go, b2, endReplace) =>
      match afterReplacement K env sel endReplace b2 with
      | (Flow.go, b3, currentOpcode) => some (Flow.next, endOfTurn K env currentOpcode b3)
      | (flow, b3, _) => some (flow, b3)
    | some (flow, b2, _) => some (flow, b2)
  | (flow, b1) => some (flow, b1)

/-- The main translation loop, allowed `n` turns (`fuel` is the allowance of
the inner loops): `none` when it does not end within them, else whether the
function goes on to the label `failure` (`true`) or returns 0 (`false`), and
the state. -/
def backTranslateLoop (K : Internal) (env : PassEnv) (fuel : Nat) :
    Nat → BackState → Option (Bool × BackState)
  | 0, b => if b.src < env.srcmax then none else some (true, b)
  | n + 1, b =>
    if b.src < env.srcmax then
      match backTranslateTurn K env fuel b with
      | none => none
      | some (Flow.abort, b1) => some (false, b1)
      | some (Flow.failure, b1) => some (true, b1)
      | some (_, b1) => backTranslateLoop K env fuel n b1
    else some (true, b)

/-- The loop `while (checkAttr(currentInput[*src], CTC_Space, 1, table)) if
(++(*src) == srcmax) break;`, with `n` symbols left before `srcmax`. -/
def skipSpaces (K : Internal) (table : TranslationTableHeader) (srcmax : Int)
    (currentInput : WBuf) : Nat → Int → Statics → Int × Statics
  | 0, src, st => (src, st)
  | n + 1, src, st =>
    let c := checkAttr K (currentInput src) K.CTC_Space 1 table st
    if c.1 then
      if src + 1 = srcmax then (src + 1, c.2)
      else skipSpaces K table srcmax currentInput n (src + 1) c.2
    else (src, c.2)

/-- What a pass leaves in the variables it reaches through pointers. -/
structure PassResult where
  result : Int
  src : Int
  e : Emit
  st : Statics
  applied : List TranslationTableRule

/-- The code of `backTranslateString` from the label `failure` on. -/
def backTranslateEnd (K : Internal) (env : PassEnv) (b : BackState) : PassResult :=
  let c : Bool × Statics :=
    if b.destword ≠ 0 ∧ b.src < env.srcmax then
      checkAttr K (env.currentInput b.src) K.CTC_Space 1 env.table b.st
    else (true, b.st)
  let rollback : Bool := decide (b.destword ≠ 0 ∧ b.src < env.srcmax) && !c.1
  let src1 : Int := if rollback then b.srcword else b.src
  let e1 : Emit := if rollback then { b.e with dest := b.destword } else b.e
  let r : Int × Statics :=
    if src1 < env.srcmax then
      skipSpaces K env.table env.srcmax env.currentInput (env.srcmax - src1).toNat src1 c.2
    else (src1, c.2)
  { result := 1, src := r.1, e := e1, st := r.2, applied := b.applied }

/-- The variables of `backTranslateString` when it enters its loop; the
pointer variables are given by `e`, `st` and `applied`, and `multindRule` is
not assigned before the loop. -/
def backTranslateStart (K : Internal) (e : Emit) (st : Statics)
    (applied : List TranslationTableRule) (multindRule : TranslationTableRule) : BackState :=
  { src := 0
    e := { e with dest := 0, nextUpper := 0 }
    st := { st with passVariables := K.resetPassVariables st.passVariables }
    applied := applied
    allUpper := 0, allUpperPhrase := 0, itsANumber := 0, itsALetter := 0
    srcword := 0, destword := 0
    previousOpcode := CTO_None
    doingMultind := 0
    multindRule := multindRule }

/-- The function `backTranslateString`; `none` when some loop needs more than
`fuel` turns. -/
def backTranslateString (K : Internal) (env : PassEnv) (fuel : Nat) (e : Emit) (st : Statics)
    (applied : List TranslationTableRule) (multindRule : TranslationTableRule) :
    Option PassResult :=
  match backTranslateLoop K env fuel fuel (backTranslateStart K e st applied multindRule) with
  | none => none
  | some (true, b1) => some (backTranslateEnd K env b1)
  | some (false, b1) =>
    some { result := 0, src := b1.src, e := b1.e, st := b1.st, applied := b1.applied }

/-! ## The correction pass and the generic passes -/

/-- The variables of `makeCorrections` and `translatePass` that live across
loop turns. -/
structure PassState where
  src : Int
  e : Emit
  st : Statics
  applied : List TranslationTableRule

/-- The `while (ruleOffset)` loop of `makeCorrections` over one chain: the
first rule that compares equal, has opcode `CTO_Correct` and passes its
test; and the value left in `endReplace`. -/
def correctionsChain (K : Internal) (env : PassEnv) (src : Int) (vars : PassVariables)
    (tryThis : Nat) (length : Int) :
    List TranslationTableRule → Int → Option (TranslationTableRule × PassMatch) × Int
  | [], endReplace => (none, endReplace)
  | currentRule :: rest, endReplace =>
    let isCorrect : Bool :=
      match currentRule.opcode with
      | CTO_Correct => true
      | _ => false
    if (tryThis = 1 ∨
          ((currentRule.charslen : Int) ≤ length ∧
            compareChars K currentRule.charsdots (fun k => env.currentInput (src + k))
              currentRule.charslen 0 env.table)) ∧ isCorrect then
      let r := back_passDoTest K env.table src env.srcmax env.currentInput CTO_Correct
        currentRule vars endReplace
      if r.1 then (some (currentRule, r.2), r.2.endReplace)
      else correctionsChain K env src vars tryThis length rest r.2.endReplace
    else correctionsChain K env src vars tryThis length rest endReplace

/-- The rule selection at the head of the loop body of `makeCorrections`:
`some` for a `CTO_Correct` rule (from `findBackPassRule` or from the two
chains), `none` when `currentOpcode` ends as `CTO_Always`. A rule found by
`findBackPassRule` is returned with its own opcode. The record `character`
is the one that `back_findCharOrDots` returns before `findBackPassRule` runs;
for a symbol without a record this is the static `noChar`, and a lookup
inside a test of `findBackPassRule` that also finds nothing would overwrite
its `lowercase` before the hash of the two-symbol bucket is taken, which this
definition does not follow. -/
def correctionsSelect (K : Internal) (env : PassEnv) (src : Int) (vars : PassVariables) :
    Option (TranslationTableRule × PassMatch) :=
  let length : Int := env.srcmax - src
  let character := back_findCharOrDots K (env.currentInput src) 0 env.table
  match findBackPassRule K env.table src env.srcmax env.currentPass env.currentInput vars
      (env.table.backPassRules env.currentPass) K.indeterminate with
  | (some found, _) => some found
  | (none, er0) =>
    let chain0 : List TranslationTableRule :=
      if length ≥ 2 then
        env.table.forRules
          (((character.lowercase <<< 8) +
              (back_findCharOrDots K (env.currentInput (src + 1)) 0 env.table).lowercase)
            % K.HASHNUM)
      else []
    match correctionsChain K env src vars 0 length chain0 er0 with
    | (some found, _) => some found
    | (none, er1) =>
      let chain1 : List TranslationTableRule := if length ≥ 1 then character.otherRules else []
      let length1 : Int := if length ≥ 1 then 1 else length
      (correctionsChain K env src vars 1 length1 chain1 er1).1

/-- One turn of the loop of `makeCorrections`: `true` to go on with the
loop, `false` for `goto failure`. -/
def makeCorrectionsTurn (K : Internal) (env : PassEnv) (p : PassState) : Bool × PassState :=
  match correctionsSelect K env p.src p.st.passVariables with
  | none =>
    if p.e.dest ≥ env.destmax then (false, p)
    else
      (true, { p with
        e := { p.e with
          srcMapping := setAt p.e.srcMapping p.e.dest (p.e.srcMapping p.src)
          currentOutput := setAt p.e.currentOutput p.e.dest (env.currentInput p.src)
          dest := p.e.dest + 1 }
        src := p.src + 1 })
  | some (currentRule, pm) =>
    match currentRule.opcode with
    | CTO_Correct =>
      let r := back_passDoAction K env.table p.src env.srcmax env.destmax env.mode
        env.currentInput 0 0 CTO_Correct currentRule pm p.st.passVariables p.e
      let p1 : PassState :=
        { p with
          applied := recordRule env.traced env.maxAppliedRules p.applied currentRule
          e := r.2.e
          st := { p.st with passVariables := r.2.vars } }
      if r.1 then (true, { p1 with src := r.2.endReplace }) else (false, p1)
    | _ => (true, p)

/-- The loop of `makeCorrections`, allowed `n` turns: `none` when it does not
end within them. -/
def makeCorrectionsLoop (K : Internal) (env : PassEnv) : Nat → PassState → Option PassState
  | 0, p => if p.src < env.srcmax then none else some p
  | n + 1, p =>
    if p.src < env.srcmax then
      match makeCorrectionsTurn K env p with
      | (true, p1) => makeCorrectionsLoop K env n p1
      | (false, p1) => some p1
    else some p

/-- The function `makeCorrections`, which always returns 1. -/
def makeCorrections (K : Internal) (env : PassEnv) (fuel : Nat) (src : Int) (e : Emit)
    (st : Statics) (applied : List TranslationTableRule) : Option PassResult :=
  if env.table.corrections = 0 then
    some { result := 1, src := src, e := e, st := st, applied := applied }
  else
    match makeCorrectionsLoop K env fuel
        { src := 0, e := { e with dest := 0, nextUpper := 0 },
          st := { st with passVariables := K.resetPassVariables st.passVariables },
          applied := applied } with
    | none => none
    | some p => some { result := 1, src := p.src, e := p.e, st := p.st, applied := p.applied }

/-- One turn of the loop of `translatePass`: `true` to go on with the loop,
`false` for `goto failure`. -/
def translatePassTurn (K : Internal) (env : PassEnv) (p : PassState) : Bool × PassState :=
  let action (currentRule : TranslationTableRule) (pm : PassMatch) : Bool × PassState :=
    let r := back_passDoAction K env.table p.src env.srcmax env.destmax env.mode
      env.currentInput 0 0 currentRule.opcode currentRule pm p.st.passVariables p.e
    let p1 : PassState :=
      { p with
        applied := recordRule env.traced env.maxAppliedRules p.applied currentRule
        e := r.2.e
        st := { p.st with passVariables := r.2.vars } }
    if r.1 then (true, { p1 with src := r.2.endReplace }) else (false, p1)
  match passSelectRule K env p.src p.st.passVariables K.indeterminate with
  | (CTO_Pass2, some (rule, pm), _) => action rule pm
  | (CTO_Pass3, some (rule, pm), _) => action rule pm
  | (CTO_Pass4, some (rule, pm), _) => action rule pm
  | (CTO_Always, _, _) =>
    if p.e.dest + 1 > env.destmax then (false, p)
    else
      (true, { p with
        e := { p.e with
          srcMapping := setAt p.e.srcMapping p.e.dest (p.e.srcMapping p.src)
          currentOutput := setAt p.e.currentOutput p.e.dest (env.currentInput p.src)
          dest := p.e.dest + 1 }
        src := p.src + 1 })
  | _ => (false, p)

/-- The loop of `translatePass`, allowed `n` turns: `none` when it does not
end within them, else whether the loop ran to its end (`true`) or left by
`goto failure` (`false`), and the state. -/
def translatePassLoop (K : Internal) (env : PassEnv) :
    Nat → PassState → Option (Bool × PassState)
  | 0, p => if p.src < env.srcmax then none else some (true, p)
  | n + 1, p =>
    if p.src < env.srcmax then
      match translatePassTurn K env p with
      | (true, p1) => translatePassLoop K env n p1
      | (false, p1) => some (false, p1)
    else some (true, p)

/-- The function `translatePass`, which always returns 1. -/
def translatePass (K : Internal) (env : PassEnv) (fuel : Nat) (e : Emit) (st : Statics)
    (applied : List TranslationTableRule) : Option PassResult :=
  match translatePassLoop K env fuel
      { src := 0, e := { e with dest := 0, nextUpper := 0 },
        st := { st with passVariables := K.resetPassVariables st.passVariables },
        applied := applied } with
  | none => none
  | some (completed, p) =>
    let e1 : Emit :=
      if completed then
        { p.e with srcMapping := setAt p.e.srcMapping p.e.dest (p.e.srcMapping p.src) }
      else p.e
    let r : Int × Statics :=
      if p.src < env.srcmax then
        skipSpaces K env.table env.srcmax env.currentInput (env.srcmax - p.src).toNat p.src p.st
      else (p.src, p.st)
    some { result := 1, src := r.1, e := e1, st := r.2, applied := p.applied }

/-! ## The pass pipeline -/

/-- The two scratch buffers that can be `currentInput`. -/
inductive ScratchBuffer where
  | passbuf1 | passbuf2
  deriving DecidableEq, Repr

/-- The buffer `currentOutput` points to. -/
inductive OutputBuffer where
  | outbuf | passbuf1 | passbuf2
  deriving DecidableEq, Repr

/-- The variables of `doPasses`: the three symbol buffers, which of the
scratch buffers is `currentInput`, and what the passes reach through
pointers. The field `e.currentOutput` is the content of the buffer the last
pass wrote to. -/
structure PipelineState where
  outbuf : WBuf
  passbuf1 : WBuf
  passbuf2 : WBuf
  currentInput : ScratchBuffer
  src : Int
  srcmax : Int
  e : Emit
  st : Statics
  applied : List TranslationTableRule

/-- The content of a scratch buffer. -/
def PipelineState.input (d : PipelineState) : WBuf :=
  match d.currentInput with
  | .passbuf1 => d.passbuf1
  | .passbuf2 => d.passbuf2

/-- The choice `currentOutput = (currentPass == lastPass) ? outbuf :
(currentInput == passbuf1) ? passbuf2 : passbuf1`. -/
def chooseOutput (currentPass lastPass : Int) (currentInput : ScratchBuffer) : OutputBuffer :=
  if currentPass = lastPass then .outbuf
  else
    match currentInput with
    | .passbuf1 => .passbuf2
    | .passbuf2 => .passbuf1

/-- The content of the buffer `currentOutput` points to. -/
def PipelineState.output (d : PipelineState) (o : OutputBuffer) : WBuf :=
  match o with
  | .outbuf => d.outbuf
  | .passbuf1 => d.passbuf1
  | .passbuf2 => d.passbuf2

/-- The state after a pass that wrote to buffer `o`. -/
def PipelineState.afterPass (d : PipelineState) (o : OutputBuffer) (r : PassResult) :
    PipelineState :=
  let d1 : PipelineState := { d with src := r.src, e := r.e, st := r.st, applied := r.applied }
  match o with
  | .outbuf => { d1 with outbuf := r.e.currentOutput }
  | .passbuf1 => { d1 with passbuf1 := r.e.currentOutput }
  | .passbuf2 => { d1 with passbuf2 := r.e.currentOutput }

/-- The `switch (currentPass)` of `doPasses`: the pass that is run. -/
def runPass (K : Internal) (env : PassEnv) (fuel : Nat) (src : Int) (e : Emit) (st : Statics)
    (applied : List TranslationTableRule) (multindRule : TranslationTableRule) :
    Option PassResult :=
  if env.currentPass = 1 then backTranslateString K env fuel e st applied multindRule
  else if env.currentPass = 0 then makeCorrections K env fuel src e st applied
  else translatePass K env fuel e st applied

/-- The `while (1)` loop of `doPasses`, allowed `n` turns (`fuel` is the
allowance of the loops inside a pass): `none` when it does not end within
them, else the returned value and the state. -/
def doPassesLoop (K : Internal) (table : TranslationTableHeader) (destmax : Int) (mode : Nat)
    (traced : Bool) (maxAppliedRules : Int) (multindRule : TranslationTableRule)
    (lastPass : Int) (fuel : Nat) : Nat → Int → PipelineState → Option (Int × PipelineState)
  | 0, _, _ => none
  | n + 1, currentPass, d =>
    let o := chooseOutput currentPass lastPass d.currentInput
    let env : PassEnv :=
      { table := table, srcmax := d.srcmax, destmax := destmax, mode := mode,
        currentPass := currentPass, currentInput := d.input, traced := traced,
        maxAppliedRules := maxAppliedRules }
    match runPass K env fuel d.src { d.e with currentOutput := d.output o } d.st d.applied
        multindRule with
    | none => none
    | some r =>
      let d1 := d.afterPass o r
      if r.result = 0 then some (0, d1)
      else if currentPass = lastPass then some (1, d1)
      else
        doPassesLoop K table destmax mode traced maxAppliedRules multindRule lastPass fuel n
          (currentPass - 1)
          { d1 with
            currentInput :=
              match o with
              | .passbuf1 => .passbuf1
              | _ => .passbuf2
            srcmax := d1.e.dest }

/-- The function `doPasses`; `none` when some loop needs more than `fuel`
turns. -/
def doPasses (K : Internal) (table : TranslationTableHeader) (destmax : Int) (mode : Nat)
    (traced : Bool) (maxAppliedRules : Int) (multindRule : TranslationTableRule) (fuel : Nat)
    (d : PipelineState) : Option (Int × PipelineState) :=
  let lastPass0 : Int := if table.corrections ≠ 0 then 0 else 1
  let firstPass : Int := if mode &&& K.pass1Only ≠ 0 then 1 else table.numPasses
  let lastPass : Int := if mode &&& K.pass1Only ≠ 0 then 1 else lastPass0
  doPassesLoop K table destmax mode traced maxAppliedRules multindRule lastPass fuel fuel
    firstPass d

/-! ## The entry point -/

/-- The arguments of `_lou_backTranslateWithTracing`, a pointer that may be
`NULL` being an `Option`, together with the blocks that `_lou_allocMem`
returns for the two pass buffers and the position mapping (`none` for
`NULL`). -/
structure Call where
  tableList : Option String
  inbuf : Option WBuf
  inlen : Option Int
  outbuf : Option WBuf
  outlen : Option Int
  typeform : Option WBuf
  spacing : Option WBuf
  outputPos : Option IBuf
  inputPos : Option IBuf
  cursorPos : Option Int
  modex : Nat
  rules : Option (List TranslationTableRule)
  rulesLen : Option Int
  passbuf1 : Option WBuf
  passbuf2 : Option WBuf
  srcMapping : Option IBuf

/-- The loop `while (srcmax < *inlen && inbuf[srcmax]) srcmax++`, `n` turns
left. -/
def inputLength (inbuf : WBuf) (inlen : Int) : Nat → Int → Int
  | 0, srcmax => srcmax
  | n + 1, srcmax =>
    if srcmax < inlen ∧ inbuf srcmax ≠ 0 then inputLength inbuf inlen n (srcmax + 1) else srcmax

/-- The final loop over `outputPos`, `n` entries left. -/
def backfill : Nat → Int → Int → IBuf → IBuf
  | 0, _, _, outputPos => outputPos
  | n + 1, k, lastpos, outputPos =>
    if outputPos k = -1 then backfill n (k + 1) lastpos (setAt outputPos k lastpos)
    else backfill n (k + 1) (outputPos k) outputPos

/-- What the caller sees after `_lou_backTranslateWithTracing`. -/
structure CallResult where
  result : Int
  inlen : Option Int
  outlen : Option Int
  outbuf : Option WBuf
  typeform : Option WBuf
  spacing : Option WBuf
  outputPos : Option IBuf
  inputPos : Option IBuf
  cursorPos : Option Int
  rules : Option (List TranslationTableRule)
  rulesLen : Option Int
  st : Statics

/-- The caller's memory untouched, with return value 0. -/
def Call.unchanged (c : Call) (st : Statics) : CallResult :=
  { result := 0, inlen := c.inlen, outlen := c.outlen, outbuf := c.outbuf,
    typeform := c.typeform, spacing := c.spacing, outputPos := c.outputPos,
    inputPos := c.inputPos, cursorPos := c.cursorPos, rules := c.rules,
    rulesLen := c.rulesLen, st := st }

/-- The values computed by `_lou_backTranslateWithTracing` before it calls
`doPasses`. -/
structure Prepared where
  table : TranslationTableHeader
  inlen : Int
  destmax : Int
  typebuf : Option WBuf
  traced : Bool
  maxAppliedRules : Int
  d : PipelineState

/-- The first statements of `_lou_backTranslateWithTracing`: `srcmax`, the
length of the input up to `*inlen` or the first zero symbol. -/
def Call.srcmax (inbuf : WBuf) (inlen : Int) : Int :=
  inputLength inbuf inlen inlen.toNat 0

/-- The array `outputPos` after `for (k = 0; k < srcmax; k++) outputPos[k] =
-1`. -/
def Call.outputPosInit (c : Call) (srcmax : Int) : Option IBuf :=
  c.outputPos.map (fun a => writeRange a 0 srcmax.toNat (fun _ => -1))

/-- The early return when `passbuf1` cannot be allocated. -/
def Call.noPassbuf1 (c : Call) (st : Statics) (srcmax : Int) : CallResult :=
  { c.unchanged st with outputPos := c.outputPosInit srcmax }

/-- The early return when `srcMapping` or `passbuf2` cannot be allocated:
`typebuf` and `spacebuf` have been filled. -/
def Call.noMapping (c : Call) (st : Statics) (srcmax destmax : Int) : CallResult :=
  { c.unchanged st with
    outputPos := c.outputPosInit srcmax
    typeform := c.typeform.map (fun b => writeRange b 0 destmax.toNat (fun _ => 48))
    spacing := c.spacing.map (fun b => writeRange b 0 destmax.toNat (fun _ => 42)) }

/-- The condition under which `passbuf2` is allocated. -/
def Call.needsPassbuf2 (K : Internal) (c : Call) (table : TranslationTableHeader) : Bool :=
  decide (c.modex &&& K.pass1Only = 0) &&
    (decide (table.numPasses > 1) || decide (table.corrections ≠ 0))

/-- The state in which `doPasses` is called: `passbuf1` holds the input as
dots followed by a space, `srcMapping` is the identity on `[0, srcmax]`,
`src` and `dest` are not yet assigned. -/
def Call.pipeline (K : Internal) (c : Call) (st : Statics) (table : TranslationTableHeader)
    (inbuf : WBuf) (inlen : Int) (outbuf : WBuf) (outlen : Int) (passbuf1 : WBuf)
    (srcMapping : IBuf) : Prepared :=
  let srcmax := Call.srcmax inbuf inlen
  let destmax := outlen
  { table := table
    inlen := inlen
    destmax := destmax
    typebuf := c.typeform.map (fun b => writeRange b 0 destmax.toNat (fun _ => 48))
    traced := c.rules.isSome && c.rulesLen.isSome
    maxAppliedRules :=
      match c.rules, c.rulesLen with
      | some _, some n => n
      | _, _ => 0
    d :=
      { outbuf := outbuf
        passbuf1 :=
          setAt
            (writeRange passbuf1 0 srcmax.toNat (fun k =>
              if c.modex &&& K.dotsIOmode ≠ 0 then inbuf k ||| 0x8000
              else K.getDotsForChar (inbuf k)))
            srcmax (K.getDotsForChar 32)
        passbuf2 := c.passbuf2.getD (fun _ => 0)
        currentInput := .passbuf1
        src := K.indeterminate
        srcmax := srcmax
        e := { dest := K.indeterminate
               currentOutput := outbuf
               srcMapping := writeRange srcMapping 0 (srcmax.toNat + 1) (fun k => (k : Int))
               outputPositions := c.outputPosInit srcmax
               inputPositions := c.inputPos
               cursorPosition :=
                 match c.cursorPos with
                 | some p => p
                 | none => -1
               cursorStatus := 0
               nextUpper := 0
               spacebuf := c.spacing.map (fun b => writeRange b 0 destmax.toNat (fun _ => 42)) }
        st := st
        applied := [] } }

/-- The code of `_lou_backTranslateWithTracing` up to the call of `doPasses`:
either the function returns 0 early, or the pipeline is set up. -/
def prepareCall (K : Internal) (c : Call) (st : Statics) : CallResult ⊕ Prepared :=
  match c.tableList, c.inbuf, c.inlen, c.outbuf, c.outlen with
  | some tableList, some inbuf, some inlen, some outbuf, some outlen =>
    match K.getTable tableList with
    | none => .inl (c.unchanged st)
    | some table =>
      match c.passbuf1 with
      | none => .inl (c.noPassbuf1 st (Call.srcmax inbuf inlen))
      | some passbuf1 =>
        match c.srcMapping with
        | none => .inl (c.noMapping st (Call.srcmax inbuf inlen) outlen)
        | some srcMapping =>
          if c.needsPassbuf2 K table ∧ c.passbuf2.isNone then
            .inl (c.noMapping st (Call.srcmax inbuf inlen) outlen)
          else .inr (c.pipeline K st table inbuf inlen outbuf outlen passbuf1 srcMapping)
  | _, _, _, _, _ => .inl (c.unchanged st)

/-- The value stored in `*inlen` after `doPasses`. -/
def consumedLength (inlen : Int) (d1 : PipelineState) : Int :=
  if d1.src < inlen then d1.e.srcMapping d1.src else inlen

/-- The code of `_lou_backTranslateWithTracing` after the call of `doPasses`,
which returned `goodTrans` and left the state `d1`. -/
def finishCall (c : Call) (p : Prepared) (goodTrans : Int) (d1 : PipelineState) : CallResult :=
  { result := goodTrans
    inlen := some (consumedLength p.inlen d1)
    outlen := some d1.e.dest
    outbuf := some d1.outbuf
    typeform := p.typebuf
    spacing := d1.e.spacebuf
    outputPos := d1.e.outputPositions.map (backfill (consumedLength p.inlen d1).toNat 0 0)
    inputPos := d1.e.inputPositions
    cursorPos := c.cursorPos.map (fun _ => d1.e.cursorPosition)
    rules := if p.traced then some d1.applied else c.rules
    rulesLen := c.rulesLen.map (fun _ => (d1.applied.length : Int))
    st := d1.st }

/-- The function `_lou_backTranslateWithTracing`; `none` when some loop needs
more than `fuel` turns. `multindRule` stands for the unassigned pointer of
the primary pass. -/
def _lou_backTranslateWithTracing (K : Internal) (c : Call) (st : Statics)
    (multindRule : TranslationTableRule) (fuel : Nat) : Option CallResult :=
  match prepareCall K c st with
  | .inl r => some r
  | .inr p =>
    match doPasses K p.table p.destmax c.modex p.traced p.maxAppliedRules multindRule fuel
        p.d with
    | none => none
    | some (goodTrans, d1) => some (finishCall c p goodTrans d1)

/-! ## Sample constants and tables for concrete evaluation -/

/-- A numbering of the opcodes that keeps the order of the enumeration
(translation opcodes from `CTO_Space` to `CTO_None`, then the internal
indicator opcodes). -/
def sampleOpcodeValue : TranslationTableOpcode → Nat
  | CTO_LetterSign => 11 | CTO_NumberSign => 15 | CTO_BegComp => 40 | CTO_EndComp => 44
  | CTO_NoContractSign => 45 | CTO_MultInd => 46
  | CTO_Space => 58 | CTO_Digit => 59 | CTO_Punctuation => 60 | CTO_Math => 61
  | CTO_Sign => 62 | CTO_Letter => 63 | CTO_UpperCase => 64 | CTO_LowerCase => 65
  | CTO_LitDigit => 68 | CTO_Replace => 70 | CTO_Context => 71 | CTO_Correct => 72
  | CTO_Pass2 => 73 | CTO_Pass3 => 74 | CTO_Pass4 => 75 | CTO_Repeated => 76
  | CTO_Always => 79 | CTO_ExactDots => 80 | CTO_NoCross => 81 | CTO_LargeSign => 86
  | CTO_WholeWord => 87 | CTO_PartWord => 88 | CTO_JoinNum => 89 | CTO_JoinableWord => 90
  | CTO_LowWord => 91 | CTO_Contraction => 92 | CTO_SuffixableWord => 93
  | CTO_PrefixableWord => 94 | CTO_BegWord => 95 | CTO_BegMidWord => 96
  | CTO_MidWord => 97 | CTO_MidEndWord => 98 | CTO_EndWord => 99 | CTO_PrePunc => 100
  | CTO_PostPunc => 101 | CTO_BegNum => 102 | CTO_MidNum => 103 | CTO_EndNum => 104
  | CTO_DecPoint => 105 | CTO_Hyphen => 106 | CTO_BackMatch => 109 | CTO_None => 111
  | CTO_CapsLetterRule => 112 | CTO_BegCapsWordRule => 113 | CTO_EndCapsWordRule => 114
  | CTO_BegCapsRule => 115 | CTO_EndCapsRule => 116 | CTO_LetterRule => 117
  | CTO_NumberRule => 118 | CTO_NoContractRule => 119 | CTO_BegEmph1Rule => 120
  | CTO_EndEmph1Rule => 121 | CTO_EndEmph1PhraseBeforeRule => 122 | CTO_BegEmph2Rule => 123
  | CTO_EndEmph2Rule => 124 | CTO_EndEmph2PhraseBeforeRule => 125 | CTO_BegEmph3Rule => 126
  | CTO_EndEmph3Rule => 127 | CTO_EndEmph3PhraseBeforeRule => 128 | CTO_BegCompRule => 129
  | CTO_EndCompRule => 130
  | CTO_Other n => 200 + n

/-- A decoding of the pass instruction codes (the character codes used by
the table compiler). -/
def samplePassInstruction (code : widechar) : PassInstruction :=
  if code = 96 then .pass_first
  else if code = 126 then .pass_last
  else if code = 95 then .pass_lookback
  else if code = 33 then .pass_not
  else if code = 34 then .pass_string
  else if code = 64 then .pass_dots
  else if code = 91 then .pass_startReplace
  else if code = 93 then .pass_endReplace
  else if code = 36 then .pass_attributes
  else if code = 37 then .pass_swap
  else if code = 32 then .pass_endTest
  else if code = 63 then .pass_omit
  else if code = 42 then .pass_copy
  else .pass_other

/-- The table in which every chain is empty. -/
def emptyTable : TranslationTableHeader :=
  { numPasses := 1, corrections := 0, characters := fun _ => [], dots := fun _ => [],
    forRules := fun _ => [], backRules := fun _ => [], backPassRules := fun _ => [],
    emphRules := fun _ _ => none, letterSign := none, noContractSign := none,
    numberSign := none, begComp := none, endComp := none,
    ruleArea := fun _ =>
      { after := 0, before := 0, patterns := 0, opcode := CTO_None, charslen := 0,
        dotslen := 0, charsdots := fun _ => 0 },
    patterns := fun _ _ => 0 }

/-- Sample values of the constants of `internal.h`; no pass variables, every
table name resolves to `emptyTable`. -/
def sampleInternal : Internal :=
  { HASHNUM := 1123
    CTC_Space := 0x1, CTC_Letter := 0x2, CTC_Digit := 0x4, CTC_Punctuation := 0x8
    CTC_Math := 0x40, CTC_Sign := 0x80, CTC_LitDigit := 0x100, CTC_EmpMatch := 0x40000
    B1 := 0x1, B2 := 0x2, B3 := 0x4, B4 := 0x8, B5 := 0x10, B6 := 0x20, B7 := 0x40
    B8 := 0x80, B9 := 0x100, B10 := 0x200, B11 := 0x400, B12 := 0x800, B13 := 0x1000
    B14 := 0x2000, B15 := 0x4000, B16 := 0x8000
    noUndefinedDots := 128, partialTrans := 256, pass1Only := 16, dotsIOmode := 4
    capsRule := 0, emph1Rule := 1, emph2Rule := 2, emph3Rule := 3
    letterOffset := 7, begWordOffset := 0, endWordOffset := 1, endPhraseBeforeOffset := 4
    begOffset := 8, endOffset := 9
    opcodeValue := sampleOpcodeValue
    passInstruction := samplePassInstruction
    indeterminate := 0
    charsdotsBefore := fun _ _ _ => 0
    getDotsForChar := fun c => c ||| 0x8000
    getCharFromDots := fun d => d
    pattern_check := fun _ _ _ _ _ _ => false
    getTable := fun _ => some emptyTable
    resetPassVariables := fun _ _ => 0
    handlePassVariableTest := fun _ _ _ _ => none
    handlePassVariableAction := fun _ _ _ => none }

/-- Statics of a fresh process: `prevc = 0`, `preva = 0`, variables zero. -/
def freshStatics : Statics :=
  { prevc := 0, preva := 0, passVariables := fun _ => 0 }

/-- An emitter state with empty buffers, no position arrays and no cursor. -/
def blankEmit : Emit :=
  { dest := 0, currentOutput := fun _ => 0, srcMapping := fun k => k,
    outputPositions := none, inputPositions := none, cursorPosition := -1,
    cursorStatus := 0, nextUpper := 0, spacebuf := none }

/-- A rule record with every field zero. -/
def zeroRule : TranslationTableRule :=
  { after := 0, before := 0, patterns := 0, opcode := CTO_None, charslen := 0, dotslen := 0,
    charsdots := fun _ => 0 }

/-- A call on two input cells (dots 1-2, then dot 1) in `dotsIO` mode with
capacity 10, both position arrays (holding 77 everywhere) and cursor 0. -/
def sampleCall : Call :=
  { tableList := some "sample"
    inbuf := some (fun k => if k = 0 then 3 else if k = 1 then 1 else 0)
    inlen := some 2
    outbuf := some (fun _ => 0)
    outlen := some 10
    typeform := none
    spacing := none
    outputPos := some (fun _ => 77)
    inputPos := some (fun _ => 77)
    cursorPos := some 0
    modex := 4
    rules := none
    rulesLen := none
    passbuf1 := some (fun _ => 0)
    passbuf2 := none
    srcMapping := some (fun _ => 0) }

/-- The pipeline set up for `sampleCall`. -/
def samplePrepared : Prepared :=
  sampleCall.pipeline sampleInternal freshStatics emptyTable
    (fun k => if k = 0 then 3 else if k = 1 then 1 else 0) 2 (fun _ => 0) 10 (fun _ => 0)
    (fun _ => 0)

/-- The state in which `doPasses` leaves the pipeline of `sampleCall`. -/
def samplePipelineEnd : PipelineState :=
  match doPasses sampleInternal emptyTable 10 4 false 0 zeroRule 10 samplePrepared.d with
  | some (_, d1) => d1
  | none => samplePrepared.d

/-- The array `outputPositions` in `samplePipelineEnd`. -/
def samplePre : IBuf :=
  match samplePipelineEnd.e.outputPositions with
  | some a => a
  | none => fun _ => 0

/-- A context rule without characters whose program is `pass_lookback 1`,
`pass_endTest`: it matches wherever one symbol precedes, replaces nothing
and leaves `endReplace` one symbol before the position it was tried at. -/
def lookbackRule : TranslationTableRule :=
  { after := 0, before := 0, patterns := 0, opcode := CTO_Context, charslen := 0, dotslen := 3,
    charsdots := fun k => [95, 1, 32].getD k 0 }

/-- The empty table with `lookbackRule` as the only rule of
`backPassRules[1]`. -/
def lookbackTable : TranslationTableHeader :=
  { emptyTable with backPassRules := fun currentPass => if currentPass = 1 then [lookbackRule] else [] }

/-- The primary pass over the one-cell input (dots 1-2) with capacity 10. -/
def sampleEnv (table : TranslationTableHeader) : PassEnv :=
  { table := table, srcmax := 1, destmax := 10, mode := 0, currentPass := 1,
    currentInput := fun k => if k = 0 then 0x8003 else 0x8000, traced := false,
    maxAppliedRules := 0 }

/-- The variables of `backTranslateString` when it enters its loop. -/
def sampleStart : BackState :=
  { src := 0, e := blankEmit, st := freshStatics, applied := [], allUpper := 0,
    allUpperPhrase := 0, itsANumber := 0, itsALetter := 0, srcword := 0, destword := 0,
    previousOpcode := CTO_None, doingMultind := 0, multindRule := zeroRule }

/-- The call of `sampleCall` cut down to one input cell and capacity 3, too
small for the escape of the cell. -/
def sampleSmallCall : Call :=
  { sampleCall with inlen := some 1, outlen := some 3 }

/-- What `sampleSmallCall` returns. -/
def sampleSmallResult : CallResult :=
  match _lou_backTranslateWithTracing sampleInternal sampleSmallCall freshStatics zeroRule 10
    with
  | some res => res
  | none => sampleSmallCall.unchanged freshStatics

/-- A swap rule whose class is the three symbols of the escape of dot 1
(a backslash, `1`, a slash) and whose replacement area is the single length
word 0. -/
def zeroSwapRule : TranslationTableRule :=
  { zeroRule with charslen := 3, dotslen := 1, charsdots := fun k => [92, 49, 47, 0].getD k 0 }

/-- A correction rule whose test is `pass_string` on the three symbols of
the escape of dot 1, then `pass_endTest`, and whose action is `pass_swap`
with the swap rule at offset 5. -/
def swapCorrectRule : TranslationTableRule :=
  { zeroRule with opcode := CTO_Correct, dotslen := 9,
                  charsdots := fun k => [34, 3, 92, 49, 47, 32, 37, 0, 5].getD k 0 }

/-- The empty table with corrections, `swapCorrectRule` as the only rule of
`backPassRules[0]`, and `zeroSwapRule` at offset 5 of the rule area. -/
def zeroSwapTable : TranslationTableHeader :=
  { emptyTable with
    corrections := 1
    backPassRules := fun currentPass => if currentPass = 0 then [swapCorrectRule] else []
    ruleArea := fun offset => if offset = 5 then zeroSwapRule else zeroRule }

/-- The sample constants with every table name resolving to `zeroSwapTable`. -/
def zeroSwapInternal : Internal :=
  { sampleInternal with getTable := fun _ => some zeroSwapTable }

/-- The call of `sampleCall` on the single cell dot 1, with a second pass
buffer. -/
def zeroSwapCall : Call :=
  { sampleCall with
    inbuf := some (fun k => if k = 0 then 1 else 0)
    inlen := some 1
    passbuf2 := some (fun _ => 0) }

/-- The sample constants with every table name resolving to `table`. -/
def sampleInternalFor (table : TranslationTableHeader) : Internal :=
  { sampleInternal with getTable := fun _ => some table }

/-- A whole-word rule for the cell with dots 2-3-4-6: the match is that one
cell, the replacement is the three characters `the`. -/
def theRule : TranslationTableRule :=
  { zeroRule with opcode := CTO_WholeWord, charslen := 3, dotslen := 1,
                  charsdots := fun k => [116, 104, 101, 0x802E].getD k 0 }

/-- The record of a cell in the `dots` table: a letter without a definition
rule, with the chain `rules` as its `otherRules`. -/
def cellRecord (cell : widechar) (rules : List TranslationTableRule) :
    TranslationTableCharacter :=
  { definitionRule := none, otherRules := rules, attributes := 0x2, realchar := cell,
    uppercase := cell, lowercase := cell }

/-- A single-pass table without corrections whose only rule is `theRule`,
reached through the record of the cell with dots 2-3-4-6. -/
def theTable : TranslationTableHeader :=
  { emptyTable with
    dots := fun h => if h = 0x802E % 1123 then [cellRecord 0x802E [theRule]] else [] }

/-- The call of `sampleCall` on the single cell with dots 2-3-4-6. -/
def theCall : Call :=
  { sampleCall with inbuf := some (fun k => if k = 0 then 0x2E else 0), inlen := some 1 }

/-- A large-sign rule for the cell with dot 1: the replacement is `X`. -/
def largeSignRule : TranslationTableRule :=
  { zeroRule with opcode := CTO_LargeSign, charslen := 1, dotslen := 1,
                  charsdots := fun k => [88, 0x8001].getD k 0 }

/-- A single-pass table whose only rule is `largeSignRule`. -/
def largeSignTable : TranslationTableHeader :=
  { emptyTable with
    dots := fun h => if h = 0x8001 % 1123 then [cellRecord 0x8001 [largeSignRule]] else [] }

/-- The call of `sampleCall` on two cells with dot 1. -/
def largeSignCall : Call :=
  { sampleCall with inbuf := some (fun k => if k = 0 ∨ k = 1 then 1 else 0), inlen := some 2 }

/-- The call of `sampleCall` (two undefined cells) with the cursor on the
second cell. -/
def cursorCall : Call :=
  { sampleCall with cursorPos := some 1 }

/-- The pipeline set up for `cursorCall`. -/
def cursorPrepared : Prepared :=
  cursorCall.pipeline sampleInternal freshStatics emptyTable
    (fun k => if k = 0 then 3 else if k = 1 then 1 else 0) 2 (fun _ => 0) 10 (fun _ => 0)
    (fun _ => 0)

/-- The parameters with which `doPasses` runs a pass on the buffers of a
prepared call before any buffer has changed hands. -/
def passEnvOf (p : Prepared) (mode : Nat) (currentPass : Int) : PassEnv :=
  { table := p.table, srcmax := p.d.srcmax, destmax := p.destmax, mode := mode,
    currentPass := currentPass, currentInput := p.d.input, traced := p.traced,
    maxAppliedRules := p.maxAppliedRules }

/-- The rule that `back_selectRule` returns at the head of a loop turn of the
primary pass entered in state `b`. -/
def selectionOf (K : Internal) (env : PassEnv) (b : BackState) : Selected :=
  back_selectRule K env.table b.src env.srcmax b.e.dest env.mode env.currentInput
    b.e.currentOutput b.itsANumber b.itsALetter b.previousOpcode b.doingMultind b.multindRule
    (back_setBefore K env.table b.e.dest b.e.currentOutput) b.st.passVariables K.indeterminate

/-- The parameters of the primary pass of `cursorCall`. -/
def cursorEnv : PassEnv := passEnvOf cursorPrepared 4 1

/-- The variables of the primary pass of `cursorCall` when it enters its
loop. -/
def cursorStart : BackState :=
  backTranslateStart sampleInternal cursorPrepared.d.e freshStatics [] zeroRule

/-- What is looked at in a state of the primary pass: `src`, `dest`,
`cursorStatus`, `cursorPosition`. -/
def cursorView (r : Flow × BackState) : Flow × Int × Int × Int × Int :=
  (r.1, r.2.src, r.2.e.dest, r.2.e.cursorStatus, r.2.e.cursorPosition)

/-- The pipeline set up for `largeSignCall`. -/
def largeSignPrepared : Prepared :=
  largeSignCall.pipeline (sampleInternalFor largeSignTable) freshStatics largeSignTable
    (fun k => if k = 0 ∨ k = 1 then 1 else 0) 2 (fun _ => 0) 10 (fun _ => 0) (fun _ => 0)

/-- The parameters of the primary pass of `largeSignCall`. -/
def largeSignEnv : PassEnv := passEnvOf largeSignPrepared 4 1

/-- The variables of the primary pass of `largeSignCall` when it enters its
loop. -/
def largeSignStart : BackState :=
  backTranslateStart (sampleInternalFor largeSignTable) largeSignPrepared.d.e freshStatics []
    zeroRule

/-- What is looked at in a state of the primary pass: `src`, `dest` and the
number of `previousOpcode`. -/
def opcodeView (r : Flow × BackState) : Flow × Int × Int × Nat :=
  (r.1, r.2.src, r.2.e.dest, sampleOpcodeValue r.2.previousOpcode)

/-- One pass run by `doPasses`: its number, the scratch buffer that is
`currentInput`, the buffer that is `currentOutput`, and the value the pass
returned (`none` when it has not returned within the fuel). -/
structure PassRun where
  pass : Int
  reads : ScratchBuffer
  writes : OutputBuffer
  returned : Option Int
  deriving DecidableEq, Repr

/-- A scratch buffer seen as a buffer that a pass can write to. -/
def ScratchBuffer.asOutput : ScratchBuffer → OutputBuffer
  | .passbuf1 => .passbuf1
  | .passbuf2 => .passbuf2

/-- The loop of `doPassesLoop` with a record of every pass it runs, in the
order in which they are run; the list is empty only when no turn is allowed. -/
def doPassesRuns (K : Internal) (table : TranslationTableHeader) (destmax : Int) (mode : Nat)
    (traced : Bool) (maxAppliedRules : Int) (multindRule : TranslationTableRule)
    (lastPass : Int) (fuel : Nat) : Nat → Int → PipelineState → List PassRun
  | 0, _, _ => []
  | n + 1, currentPass, d =>
    let o := chooseOutput currentPass lastPass d.currentInput
    let env : PassEnv :=
      { table := table, srcmax := d.srcmax, destmax := destmax, mode := mode,
        currentPass := currentPass, currentInput := d.input, traced := traced,
        maxAppliedRules := maxAppliedRules }
    match runPass K env fuel d.src { d.e with currentOutput := d.output o } d.st d.applied
        multindRule with
    | none => [{ pass := currentPass, reads := d.currentInput, writes := o, returned := none }]
    | some r =>
      let run : PassRun :=
        { pass := currentPass, reads := d.currentInput, writes := o, returned := some r.result }
      let d1 := d.afterPass o r
      if r.result = 0 then [run]
      else if currentPass = lastPass then [run]
      else
        run ::
          doPassesRuns K table destmax mode traced maxAppliedRules multindRule lastPass fuel n
            (currentPass - 1)
            { d1 with
              currentInput :=
                match o with
                | .passbuf1 => .passbuf1
                | _ => .passbuf2
              srcmax := d1.e.dest }

/-- The value `lastPass` of `doPasses`. -/
def lastPassOf (K : Internal) (table : TranslationTableHeader) (mode : Nat) : Int :=
  if mode &&& K.pass1Only ≠ 0 then 1 else if table.corrections ≠ 0 then 0 else 1

/-- The value `firstPass` of `doPasses`. -/
def firstPassOf (K : Internal) (table : TranslationTableHeader) (mode : Nat) : Int :=
  if mode &&& K.pass1Only ≠ 0 then 1 else table.numPasses

/-- The passes run by `doPasses`, in order. -/
def doPassesTrace (K : Internal) (table : TranslationTableHeader) (destmax : Int) (mode : Nat)
    (traced : Bool) (maxAppliedRules : Int) (multindRule : TranslationTableRule) (fuel : Nat)
    (d : PipelineState) : List PassRun :=
  doPassesRuns K table destmax mode traced maxAppliedRules multindRule (lastPassOf K table mode)
    fuel fuel (firstPassOf K table mode) d

/-- The empty table with the corrections flag set (and no correction rule). -/
def correctionsTable : TranslationTableHeader :=
  { emptyTable with corrections := 1 }

/-- The call of `sampleCall` with a second pass buffer. -/
def twoBufferCall : Call :=
  { sampleCall with passbuf2 := some (fun _ => 0) }

/-- The pipeline set up for `twoBufferCall` with a given table. -/
def twoBufferPrepared (table : TranslationTableHeader) : Prepared :=
  twoBufferCall.pipeline (sampleInternalFor table) freshStatics table
    (fun k => if k = 0 then 3 else if k = 1 then 1 else 0) 2 (fun _ => 0) 10 (fun _ => 0)
    (fun _ => 0)

/-- The value returned by the pass that `doPassesLoop` runs first when it is
entered with `currentPass` and `d`. -/
def passResultAt (K : Internal) (table : TranslationTableHeader) (destmax : Int) (mode : Nat)
    (traced : Bool) (maxAppliedRules : Int) (multindRule : TranslationTableRule)
    (lastPass : Int) (fuel : Nat) (currentPass : Int) (d : PipelineState) : Option PassResult :=
  runPass K
    { table := table, srcmax := d.srcmax, destmax := destmax, mode := mode,
      currentPass := currentPass, currentInput := d.input, traced := traced,
      maxAppliedRules := maxAppliedRules }
    fuel d.src { d.e with currentOutput := d.output (chooseOutput currentPass lastPass
      d.currentInput) } d.st d.applied multindRule

/-- The statements `currentInput = currentOutput; *srcmax = *dest` after a
pass that wrote to buffer `o` and left `r`. -/
def PipelineState.handOver (d : PipelineState) (o : OutputBuffer) (r : PassResult) :
    PipelineState :=
  { d.afterPass o r with
    currentInput :=
      match o with
      | .passbuf1 => .passbuf1
      | _ => .passbuf2
    srcmax := (d.afterPass o r).e.dest }

/-- A table with corrections and three passes (no rule in any of them). -/
def threePassTable : TranslationTableHeader :=
  { correctionsTable with numPasses := 3 }

/-- The call of `sampleCall` cut down to its first cell, in the modes
`dotsIO` and `noUndefinedDots`. -/
def loopCall : Call :=
  { sampleCall with inlen := some 1, modex := 132 }

/-- The pipeline set up for `loopCall` with `lookbackTable`. -/
def loopPrepared : Prepared :=
  loopCall.pipeline (sampleInternalFor lookbackTable) freshStatics lookbackTable
    (fun k => if k = 0 then 3 else if k = 1 then 1 else 0) 1 (fun _ => 0) 10 (fun _ => 0)
    (fun _ => 0)

/-- A context rule for the cell with dots 1-2: its test is `pass_dots` on
that cell followed by `pass_endTest`, its action is `pass_string` with the
three characters `abc`. -/
def abcContextRule : TranslationTableRule :=
  { zeroRule with opcode := CTO_Context, charslen := 1, dotslen := 9,
                  charsdots := fun k => [0x8003, 64, 1, 0x8003, 32, 34, 3, 97, 98, 99].getD k 0 }

/-- A table with one pass and corrections whose only rule is
`abcContextRule`. -/
def abortTable : TranslationTableHeader :=
  { correctionsTable with
    dots := fun h => if h = 0x8003 % 1123 then [cellRecord 0x8003 [abcContextRule]] else [] }

/-- The call of `twoBufferCall` cut down to its first cell, with capacity 2. -/
def abortCall : Call :=
  { twoBufferCall with inlen := some 1, outlen := some 2 }

/-- The pipeline set up for `abortCall` with `abortTable`. -/
def abortPrepared : Prepared :=
  abortCall.pipeline (sampleInternalFor abortTable) freshStatics abortTable
    (fun k => if k = 0 then 3 else if k = 1 then 1 else 0) 1 (fun _ => 0) 2 (fun _ => 0)
    (fun _ => 0)

/-- The empty table with the pass count -1. -/
def negativePassTable : TranslationTableHeader :=
  { emptyTable with numPasses := -1 }

/-- The number of symbols a rule matches in `back_selectRule`: `charslen` for
a context rule, `dotslen` for any other. -/
def matchLength (r : TranslationTableRule) : Nat :=
  match r.opcode with
  | CTO_Context => r.charslen
  | _ => r.dotslen

/-- The symbols a rule matches in `back_selectRule`: the first `charslen`
entries of `charsdots` for a context rule, the `dotslen` entries after them
for any other. -/
def matchSymbols (r : TranslationTableRule) : Nat → widechar :=
  match r.opcode with
  | CTO_Context => r.charsdots
  | _ => fun k => r.charsdots (r.charslen + k)

/-- The pipeline set up for `theCall`. -/
def thePrepared : Prepared :=
  theCall.pipeline (sampleInternalFor theTable) freshStatics theTable
    (fun k => if k = 0 then 0x2E else 0) 1 (fun _ => 0) 10 (fun _ => 0) (fun _ => 0)

/-- The rule selected in the first loop turn of the primary pass of
`theCall`. -/
def theSelection : Selected :=
  selectionOf (sampleInternalFor theTable) (passEnvOf thePrepared 4 1)
    (backTranslateStart (sampleInternalFor theTable) thePrepared.d.e freshStatics [] zeroRule)

/-! ## Definitions used to state the properties -/

/-- The dot masks `B1 .. B15` in ascending order, each with the character
that names the dot: `'1' .. '9'`, then `'A' .. 'F'`. -/
def dotDigits (K : Internal) : List (Nat × widechar) :=
  [(K.B1, 49), (K.B2, 50), (K.B3, 51), (K.B4, 52), (K.B5, 53), (K.B6, 54), (K.B7, 55),
   (K.B8, 56), (K.B9, 57), (K.B10, 65), (K.B11, 66), (K.B12, 67), (K.B13, 68), (K.B14, 69),
   (K.B15, 70)]

/-- The escape of a dot pattern in words: a backslash, the character of every
dot among 1..15 that is set in `d`, in ascending order, and a slash. -/
def escapeOf (K : Internal) (d : widechar) : List widechar :=
  92 :: (((dotDigits K).filter (fun p => d &&& p.1 ≠ 0)).map Prod.snd ++ [47])

/-- Appending the optional digit of each mask in turn. -/
def appendDigits (d : widechar) : List (Nat × widechar) → List widechar
  | [] => []
  | p :: ps => (if d &&& p.1 ≠ 0 then [p.2] else []) ++ appendDigits d ps

/-- No rule of `chain` wins in the chain walk of `back_selectRule` at this
position, whatever the pending values of `doingMultind`, `multindRule` and
`endReplace` are. -/
def NoAdmissibleRule (K : Internal) (table : TranslationTableHeader) (src srcmax dest : Int)
    (mode : Nat) (currentInput currentOutput : WBuf) (itsANumber itsALetter : Int)
    (previousOpcode : TranslationTableOpcode) (beforeAttributes : Nat) (vars : PassVariables)
    (length : Int) (chain : List TranslationTableRule) : Prop :=
  ∀ (doingMultind : Nat) (multindRule : TranslationTableRule) (endReplace : Int),
    ∃ x, back_selectRuleChain K table src srcmax dest mode currentInput currentOutput
      itsANumber itsALetter previousOpcode beforeAttributes vars length chain doingMultind
      multindRule endReplace = .inr x

/-- The bucket of `backRules` that `back_selectRule` looks at for the two
symbols at `src`. -/
def twoSymbolBucket (K : Internal) (table : TranslationTableHeader) (currentInput : WBuf)
    (src : Int) : List TranslationTableRule :=
  table.backRules
    ((((back_findCharOrDots K (currentInput src) 1 table).realchar <<< 8) +
        (back_findCharOrDots K (currentInput (src + 1)) 1 table).realchar) % K.HASHNUM)

/-- The action of the context rule `rule`, run at `src` with the match
variables `pm`, leaves `endReplace` after `src` whenever it succeeds. -/
def ActionAdvances (K : Internal) (env : PassEnv) (rule : TranslationTableRule) (src : Int)
    (pm : PassMatch) (vars : PassVariables) : Prop :=
  ∀ (allUpper allUpperPhrase : Int) (e : Emit),
    (back_passDoAction K env.table src env.srcmax env.destmax env.mode env.currentInput
      allUpper allUpperPhrase CTO_Context rule pm vars e).1 = true →
    src < (back_passDoAction K env.table src env.srcmax env.destmax env.mode env.currentInput
      allUpper allUpperPhrase CTO_Context rule pm vars e).2.endReplace

/-- The context rule `rule` moves the pass forward: wherever its test holds
at a position `src < srcmax`, its action, if it succeeds, leaves `endReplace`
after `src`. -/
def ContextRuleAdvances (K : Internal) (env : PassEnv) (rule : TranslationTableRule) : Prop :=
  ∀ (src : Int) (vars : PassVariables) (endReplace : Int), src < env.srcmax →
    (back_passDoTest K env.table src env.srcmax env.currentInput CTO_Context rule vars
      endReplace).1 = true →
    ActionAdvances K env rule src
      (back_passDoTest K env.table src env.srcmax env.currentInput CTO_Context rule vars
        endReplace).2 vars

/-- The context rule `rule` does not move the pass back: wherever its test
holds at a position `src`, its action leaves `endReplace` at `src` or after
it. -/
def PassRuleKeeps (K : Internal) (env : PassEnv) (rule : TranslationTableRule) : Prop :=
  ∀ (src : Int) (vars : PassVariables) (endReplace : Int),
    (back_passDoTest K env.table src env.srcmax env.currentInput CTO_Context rule vars
      endReplace).1 = true →
    ∀ (allUpper allUpperPhrase : Int) (e : Emit),
      src ≤ (back_passDoAction K env.table src env.srcmax env.destmax env.mode env.currentInput
        allUpper allUpperPhrase CTO_Context rule
        (back_passDoTest K env.table src env.srcmax env.currentInput CTO_Context rule vars
          endReplace).2 vars e).2.endReplace

/-- The rules in reach of the primary pass move it forward: a context rule
of a bucket of `backRules` or of an `otherRules` chain satisfies
`ContextRuleAdvances`, a context rule of `backPassRules[1]` satisfies
`PassRuleKeeps`, an indicator rule of `handleMultind` that is no context rule
has between 1 and `bound` dots, and one that is a context rule leaves
`endReplace` after the position when its action succeeds on the match
variables that `back_selectRule` hands over with it. -/
structure RulesAdvance (K : Internal) (env : PassEnv) (bound : Nat) : Prop where
  backRules : ∀ h, ∀ r ∈ env.table.backRules h, r.opcode = CTO_Context →
    ContextRuleAdvances K env r
  otherRules : ∀ c, ∀ r ∈ (back_findCharOrDots K c 1 env.table).otherRules,
    r.opcode = CTO_Context → ContextRuleAdvances K env r
  indicators : ∀ code r, multindOffset K env.table code = some r → r.opcode ≠ CTO_Context →
    1 ≤ r.dotslen ∧ r.dotslen ≤ bound
  contextIndicators : ∀ code r, multindOffset K env.table code = some r →
    r.opcode = CTO_Context →
    ∀ (src endReplace : Int) (vars : PassVariables), src < env.srcmax →
      ActionAdvances K env r src (staleMatch K endReplace) vars
  passRules : ∀ r ∈ env.table.backPassRules 1, r.opcode = CTO_Context → PassRuleKeeps K env r

/-- What the rule selected at `src` needs for the turn to move forward: a
match length between 1 and the window (or the longest indicator) unless it is
a context rule, and an action that leaves `endReplace` after `src` if it
is. -/
def SelectionAdvances (K : Internal) (env : PassEnv) (bound : Nat) (src length : Int)
    (vars : PassVariables) (sel : Selected) : Prop :=
  (sel.currentOpcode ≠ CTO_Context →
    1 ≤ sel.currentDotslen ∧
    ((sel.currentDotslen : Int) ≤ length ∨ sel.currentDotslen ≤ bound)) ∧
  (sel.currentOpcode = CTO_Context →
    ActionAdvances K env sel.currentRule src sel.pm vars)

/-- A position of the replacement area of a swap rule at which a segment
starts: position 0, and the position after a segment that starts inside the
area (a segment is its length word followed by its symbols). -/
inductive SegmentStart (rule : TranslationTableRule) : Nat → Prop where
  | zero : SegmentStart rule 0
  | next (p : Nat) : SegmentStart rule p → p < rule.dotslen →
      SegmentStart rule (p + rule.charsdots (rule.charslen + p))

/-- No segment of a swap rule of the table has the length word 0. -/
def SwapSegmentsPositive (table : TranslationTableHeader) : Prop :=
  ∀ offset p, SegmentStart (table.ruleArea offset) p → p < (table.ruleArea offset).dotslen →
    1 ≤ (table.ruleArea offset).charsdots ((table.ruleArea offset).charslen + p)

/-- The output index is within `[0, destmax]` and the output buffer agrees
with `out0` at every index from `destmax` on. -/
def Bounded (destmax : Int) (out0 : WBuf) (s : Emit) : Prop :=
  0 ≤ s.dest ∧ s.dest ≤ destmax ∧ ∀ i : Int, destmax ≤ i → s.currentOutput i = out0 i

/-- The invariant of the primary pass over its loop variables: the emitter
variables are bounded and the remembered word boundary `destword` is an
index between 0 and `destmax`. -/
def BoundedState (destmax : Int) (out0 : WBuf) (b : BackState) : Prop :=
  Bounded destmax out0 b.e ∧ 0 ≤ b.destword ∧ b.destword ≤ destmax

/-- A rule is admissible at the current position, for a window of at most
`length` symbols, when its match symbols fit in the window and equal the
input there, its `after` and `before` attribute masks are satisfied by the
attributes before and after the match, and the predicate of its opcode holds:
the pass test for a context rule, an indicator found by `handleMultind` for a
`CTO_MultInd` rule, the validity check of `back_selectRule` for any other. -/
def admissible (K : Internal) (table : TranslationTableHeader) (src srcmax dest : Int)
    (mode : Nat) (currentInput currentOutput : WBuf) (itsANumber itsALetter : Int)
    (previousOpcode : TranslationTableOpcode) (beforeAttributes : Nat) (vars : PassVariables)
    (length : Int) (r : TranslationTableRule) : Bool :=
  decide ((matchLength r : Int) ≤ length) &&
  compareDots (fun k => currentInput (src + k)) (matchSymbols r) (matchLength r) &&
  (decide (andNot r.after K.CTC_EmpMatch = 0) || hasAttr beforeAttributes r.after) &&
  (decide (andNot r.before K.CTC_EmpMatch = 0) ||
    hasAttr (back_setAfter K (matchLength r) table src srcmax currentInput) r.before) &&
  (match r.opcode with
    | CTO_Context => (back_passDoTest K table src srcmax currentInput CTO_Context r vars 0).1
    | CTO_MultInd => (handleMultind K table (matchLength r) r).1.isSome
    | _ =>
      ruleValid K table src srcmax dest mode currentInput currentOutput itsANumber itsALetter
        previousOpcode beforeAttributes
        (back_setAfter K (matchLength r) table src srcmax currentInput) r (matchLength r))

/-- The chain searched first: the two-symbol bucket, searched only if at
least two input symbols remain and not (`itsANumber` and the current symbol
has `CTC_LitDigit`). -/
def twoSymbolChain (K : Internal) (table : TranslationTableHeader) (src srcmax : Int)
    (currentInput : WBuf) (itsANumber : Int) : List TranslationTableRule :=
  if srcmax - src < 2 ∨
      (itsANumber ≠ 0 ∧
        hasAttr (back_findCharOrDots K (currentInput src) 1 table).attributes K.CTC_LitDigit)
  then []
  else twoSymbolBucket K table currentInput src

/-- The chain searched second: the `otherRules` of the current symbol. -/
def oneSymbolChain (K : Internal) (table : TranslationTableHeader) (src : Int)
    (currentInput : WBuf) : List TranslationTableRule :=
  (back_findCharOrDots K (currentInput src) 1 table).otherRules

/-- What `back_selectRule` returns for the rule `r` that wins the search:
the rule itself with its opcode and match length, or, for a `CTO_MultInd`
rule, the rule of the indicator named by the entry
`charsdots[charslen - dotslen]` of `r` (the read of `handleMultind` with
`doingMultind = dotslen`, which is not 0), with `r` recorded in `multindRule`
and `doingMultind` left at `dotslen - 1`. -/
def ReturnsRule (K : Internal) (table : TranslationTableHeader) (sel : Selected)
    (r : TranslationTableRule) : Prop :=
  (r.opcode ≠ CTO_MultInd →
    sel.currentRule = r ∧ sel.currentOpcode = r.opcode ∧ sel.currentDotslen = matchLength r) ∧
  (r.opcode = CTO_MultInd →
    0 < r.dotslen ∧
    multindOffset K table (multindEntry K table r.dotslen r) = some sel.currentRule ∧
    sel.doingMultind = r.dotslen - 1 ∧
    sel.currentOpcode = sel.currentRule.opcode ∧
    sel.currentDotslen = sel.currentRule.dotslen ∧ sel.multindRule = r)

/-- The letter-sign indicator rule of `multindTable`: the cell with dots
5-6. -/
def letterSignRule : TranslationTableRule :=
  { zeroRule with opcode := CTO_LetterRule, charslen := 0, dotslen := 1,
                  charsdots := fun k => [0x8030].getD k 0 }

/-- A multi-indicator rule for the two cells dots 5-6 and dot 6: its
indicators are the letter sign, then the capital-letter sign. -/
def multindSample : TranslationTableRule :=
  { zeroRule with opcode := CTO_MultInd, charslen := 2, dotslen := 2,
                  charsdots := fun k => [11, 112, 0x8030, 0x8020].getD k 0 }

/-- A table with a letter sign whose only chained rule is `multindSample`, in
the two-symbol bucket of its two cells. -/
def multindTable : TranslationTableHeader :=
  { emptyTable with
    letterSign := some letterSignRule
    backRules := fun h => if h = ((0x8030 <<< 8) + 0x8020) % 1123 then [multindSample] else [] }

/-- The input of two cells: dots 5-6, then dot 6. -/
def multindInput : WBuf := fun k => if k = 0 then 0x8030 else if k = 1 then 0x8020 else 0

/-- The rule that `back_selectRule` returns at the first cell of
`multindInput` with the table `multindTable`, at the start of a pass. -/
def multindSelection : Selected :=
  back_selectRule sampleInternal multindTable 0 2 0 4 multindInput (fun _ => 0) 0 0 CTO_None 0
    zeroRule (back_setBefore sampleInternal multindTable 0 (fun _ => 0))
    freshStatics.passVariables sampleInternal.indeterminate

/-- The value of `*doingMultind` after `n` successive calls of
`handleMultind` for the rule `multindRule`, starting from `doingMultind`. -/
def handleMultindCalls (K : Internal) (table : TranslationTableHeader)
    (multindRule : TranslationTableRule) : Nat → Nat → Nat
  | 0, doingMultind => doingMultind
  | n + 1, doingMultind =>
    handleMultindCalls K table multindRule n (handleMultind K table doingMultind multindRule).2

/-- The state-only opcodes of the primary pass: a rule with one of them
consumes its match and emits nothing. -/
def stateOnlyOpcode : TranslationTableOpcode → Bool
  | CTO_CapsLetterRule | CTO_BegCapsWordRule | CTO_EndCapsWordRule | CTO_BegCapsRule
  | CTO_EndCapsRule | CTO_LetterRule | CTO_NoContractRule | CTO_NumberRule
  | CTO_BegEmph1Rule | CTO_BegEmph2Rule | CTO_BegEmph3Rule | CTO_EndEmph1Rule
  | CTO_EndEmph2Rule | CTO_EndEmph3Rule | CTO_BegCompRule | CTO_EndCompRule => true
  | _ => false

/-- The tracker flags of the primary pass. -/
structure TrackerFlags where
  nextUpper : Int
  allUpper : Int
  allUpperPhrase : Int
  itsALetter : Int
  itsANumber : Int
  deriving DecidableEq, Repr

/-- The tracker flags of a state of the primary pass. -/
def BackState.flags (b : BackState) : TrackerFlags :=
  { nextUpper := b.e.nextUpper, allUpper := b.allUpper, allUpperPhrase := b.allUpperPhrase,
    itsALetter := b.itsALetter, itsANumber := b.itsANumber }

/-- The change of the tracker flags that a state-only opcode names: the next
letter is a capital; a capitalised word or phrase begins or ends; letter
mode begins (and number mode ends); number mode begins. The emphasis and
computer-braille opcodes change no flag. -/
def stateOnlyFlags : TranslationTableOpcode → TrackerFlags → TrackerFlags
  | CTO_CapsLetterRule, f => { f with nextUpper := 1 }
  | CTO_BegCapsWordRule, f => { f with allUpper := 1 }
  | CTO_EndCapsWordRule, f => { f with allUpper := 0 }
  | CTO_BegCapsRule, f => { f with allUpperPhrase := 1 }
  | CTO_EndCapsRule, f => { f with allUpperPhrase := 0 }
  | CTO_LetterRule, f => { f with itsALetter := 1, itsANumber := 0 }
  | CTO_NoContractRule, f => { f with itsALetter := 1, itsANumber := 0 }
  | CTO_NumberRule, f => { f with itsANumber := 1 }
  | _, f => f

/-- A capital-letter indicator rule for the cell with dot 6. -/
def capsLetterRule : TranslationTableRule :=
  { zeroRule with opcode := CTO_CapsLetterRule, charslen := 0, dotslen := 1,
                  charsdots := fun k => [0x8020].getD k 0 }

/-- A single-pass table whose only rule is `capsLetterRule`, in the chain of
the cell with dot 6. -/
def capsTable : TranslationTableHeader :=
  { emptyTable with
    dots := fun h => if h = 0x8020 % 1123 then [cellRecord 0x8020 [capsLetterRule]] else [] }

/-- The parameters of a primary pass with `capsTable` over the two cells
dot 6, dot 1. -/
def capsEnv : PassEnv :=
  { table := capsTable, srcmax := 2, destmax := 10, mode := 4, currentPass := 1,
    currentInput := fun k => if k = 0 then 0x8020 else if k = 1 then 0x8001 else 0,
    traced := false, maxAppliedRules := 0 }

/-- The variables of that primary pass when it enters its loop. -/
def capsStart : BackState :=
  backTranslateStart sampleInternal blankEmit freshStatics [] zeroRule

/-- The opcodes that partial translation switches off: whole word and low
word by their own guard, prefixable word, end word and post-punctuation
because their validity check needs `isEndWord` to hold. -/
def needsWordEnd : TranslationTableOpcode → Bool
  | CTO_WholeWord | CTO_LowWord | CTO_PrefixableWord | CTO_EndWord | CTO_PostPunc => true
  | _ => false

/-- The opcodes `CTO_JoinableWord` and `CTO_JoinNum`. -/
def joinOpcode : TranslationTableOpcode → Bool
  | CTO_JoinableWord | CTO_JoinNum => true
  | _ => false

/-- The `switch` case of `back_passDoTest` for the instruction at
`pm.passIC`, when it is an instruction with a condition: the value of
`itsTrue` and the match variables after the case. The two replacement
markers are such instructions, their condition always holds. There is none
for `pass_not`, for `pass_endTest` and for a code that the pass-variable
handler does not accept. -/
def conditionOutcome (K : Internal) (table : TranslationTableHeader) (srcmax : Int)
    (currentInput : WBuf) (m : Int) (vars : PassVariables) (pm : PassMatch) :
    Option (Bool × PassMatch) :=
  let ic := pm.passIC
  let instr := pm.passInstructions
  match K.passInstruction (instr ic) with
  | .pass_first => some (decide (pm.passSrc = 0), { pm with passIC := ic + 1 })
  | .pass_last => some (decide (pm.passSrc = srcmax), { pm with passIC := ic + 1 })
  | .pass_lookback =>
    let p := pm.passSrc - (instr (ic + 1) : Int)
    if p < 0 then some (false, { pm with passSrc := 0, passIC := ic + 2 })
    else some (true, { pm with passSrc := p, passIC := ic + 2 })
  | .pass_not => none
  | .pass_string =>
    some (matchcurrentInput currentInput pm.passSrc instr ic,
      { pm with passSrc := pm.passSrc + (instr (ic + 1) : Int),
                passIC := ic + (instr (ic + 1) + 2) })
  | .pass_dots =>
    some (matchcurrentInput currentInput pm.passSrc instr ic,
      { pm with passSrc := pm.passSrc + (instr (ic + 1) : Int),
                passIC := ic + (instr (ic + 1) + 2) })
  | .pass_startReplace => some (true, { pm with startReplace := pm.passSrc, passIC := ic + 1 })
  | .pass_endReplace => some (true, { pm with endReplace := pm.passSrc, passIC := ic + 1 })
  | .pass_attributes =>
    let attributes := (instr (ic + 1) <<< 16) ||| instr (ic + 2)
    let r := passAttributesMin K table srcmax currentInput m attributes (instr (ic + 3))
      pm.passSrc
    if r.1 then
      some (true,
        { pm with
          passSrc := passAttributesMax K table srcmax currentInput m attributes
            (instr (ic + 4) - instr (ic + 3)) r.2,
          passIC := ic + 5 })
    else some (false, { pm with passSrc := r.2, passIC := ic + 5 })
  | .pass_swap =>
    let r := back_swapTest table currentInput pm.passSrc instr ic
    some (r.1, { pm with passSrc := r.2, passIC := ic + 5 })
  | .pass_endTest => none
  | _ =>
    match K.handlePassVariableTest instr ic true vars with
    | some (step, itsTrue) => some (itsTrue, { pm with passIC := ic + (step + 1) })
    | none => none

/-- The instructions that a run of the loop of `back_passDoTest` executes,
in order, each with the trial position `*passSrc` at which it is executed:
the loop with its result replaced by a record of its turns. -/
def back_passDoTestTrace (K : Internal) (table : TranslationTableHeader) (srcmax : Int)
    (currentInput : WBuf) (m : Int) (currentRule : TranslationTableRule)
    (vars : PassVariables) : Nat → Bool → PassMatch → List (PassInstruction × Int)
  | 0, _, _ => []
  | fuel + 1, not, pm =>
    if pm.passIC < currentRule.dotslen ∧ pm.passSrc ≤ srcmax then
      (K.passInstruction (pm.passInstructions pm.passIC), pm.passSrc) ::
        (match K.passInstruction (pm.passInstructions pm.passIC) with
          | .pass_not =>
            back_passDoTestTrace K table srcmax currentInput m currentRule vars fuel (!not)
              { pm with passIC := pm.passIC + 1 }
          | .pass_endTest => []
          | _ =>
            match conditionOutcome K table srcmax currentInput m vars pm with
            | some (itsTrue, pm1) =>
              if itsTrue = not then []
              else
                back_passDoTestTrace K table srcmax currentInput m currentRule vars fuel false
                  pm1
            | none => [])
    else []

/-- The match variables with which `back_passDoTest` enters its loop. -/
def testStart (src : Int) (currentRule : TranslationTableRule) (endReplace : Int) : PassMatch :=
  { passSrc := src
    passInstructions := fun k => currentRule.charsdots (currentRule.charslen + k)
    passIC := 0
    startMatch := src
    startReplace := -1
    endReplace := endReplace }

/-- The dots-or-characters selector `m` of `back_passDoTest`. -/
def testSelector (currentOpcode : TranslationTableOpcode) : Int :=
  match currentOpcode with
  | CTO_Correct => 0
  | _ => 1

/-- The trial position at which `instruction` was executed last in a
trace, if it was executed. -/
def lastAt (instruction : PassInstruction) : List (PassInstruction × Int) → Option Int
  | [] => none
  | x :: trace =>
    match lastAt instruction trace with
    | some p => some p
    | none => if x.1 = instruction then some x.2 else none

/-- A context rule without characters whose program is `pass_not`,
`pass_first`, `pass_endTest`: it matches wherever the position is not the
first one. -/
def notFirstRule : TranslationTableRule :=
  { zeroRule with opcode := CTO_Context, charslen := 0, dotslen := 3,
                  charsdots := fun k => [33, 96, 32].getD k 0 }

/-- The trace of the run of `back_passDoTest` with the given arguments. -/
def testTrace (K : Internal) (table : TranslationTableHeader) (src srcmax : Int)
    (currentInput : WBuf) (currentOpcode : TranslationTableOpcode)
    (currentRule : TranslationTableRule) (vars : PassVariables) (endReplace : Int) :
    List (PassInstruction × Int) :=
  back_passDoTestTrace K table srcmax currentInput (testSelector currentOpcode) currentRule
    vars currentRule.dotslen false (testStart src currentRule endReplace)

/-- A context rule without characters whose test is: the cell with dots
1-2, `pass_startReplace`, the cell with dot 1, `pass_endReplace`,
`pass_endTest`. -/
def markedRule : TranslationTableRule :=
  { zeroRule with opcode := CTO_Context, charslen := 0, dotslen := 9,
                  charsdots := fun k => [64, 1, 0x8003, 91, 64, 1, 0x8001, 93, 32].getD k 0 }

/-- A context rule for the cell with dots 1-2 whose test starts with the
code 99, which is no pass instruction. -/
def unknownTestRule : TranslationTableRule :=
  { zeroRule with opcode := CTO_Context, charslen := 1, dotslen := 2,
                  charsdots := fun k => [0x8003, 99, 32].getD k 0 }

/-- A context rule for the cell with dots 1-2: its test is `pass_dots` on
that cell followed by `pass_endTest`, its action is the code 99, which is no
pass instruction. -/
def unknownActionRule : TranslationTableRule :=
  { zeroRule with opcode := CTO_Context, charslen := 1, dotslen := 5,
                  charsdots := fun k => [0x8003, 64, 1, 0x8003, 32, 99].getD k 0 }

/-- A rule of pass 2 with the same program as `unknownActionRule`. -/
def unknownPass2Rule : TranslationTableRule :=
  { zeroRule with opcode := CTO_Pass2, charslen := 0, dotslen := 5,
                  charsdots := fun k => [64, 1, 0x8003, 32, 99].getD k 0 }

/-- A single-pass table whose only rule is `unknownTestRule`. -/
def unknownTestTable : TranslationTableHeader :=
  { emptyTable with
    dots := fun h => if h = 0x8003 % 1123 then [cellRecord 0x8003 [unknownTestRule]] else [] }

/-- A single-pass table whose only rule is `unknownActionRule`. -/
def unknownActionTable : TranslationTableHeader :=
  { emptyTable with
    dots := fun h => if h = 0x8003 % 1123 then [cellRecord 0x8003 [unknownActionRule]] else [] }

/-- A two-pass table whose only rule is `unknownPass2Rule`, in pass 2. -/
def unknownPass2Table : TranslationTableHeader :=
  { emptyTable with
    numPasses := 2
    backPassRules := fun currentPass => if currentPass = 2 then [unknownPass2Rule] else [] }

/-- What the caller sees of a result: the returned value, `*inlen`,
`*outlen`. -/
def CallResult.summary (r : CallResult) : Int × Option Int × Option Int :=
  (r.result, r.inlen, r.outlen)

/-- The instruction codes that `back_passDoTest` has a `case` for. -/
def testInstruction : PassInstruction → Bool
  | .pass_first | .pass_last | .pass_lookback | .pass_not | .pass_string | .pass_dots
  | .pass_startReplace | .pass_endReplace | .pass_attributes | .pass_swap
  | .pass_endTest => true
  | _ => false

/-- The instruction codes that `back_passDoAction` has a `case` for. -/
def actionInstruction : PassInstruction → Bool
  | .pass_string | .pass_dots | .pass_swap | .pass_omit | .pass_copy => true
  | _ => false

/-- The variables of `translatePass` when pass 2 of `twoBufferCall` with
`unknownPass2Table` enters its loop. -/
def unknownPass2Start : PassState :=
  { src := 0
    e := { (twoBufferPrepared unknownPass2Table).d.e with
           dest := 0, nextUpper := 0,
           currentOutput := (twoBufferPrepared unknownPass2Table).d.passbuf2 }
    st := freshStatics
    applied := [] }

/-- A context rule without characters whose program is `pass_attributes`
with the mask `CTC_Letter` of `sampleInternal`, minimum 1 and maximum 2,
followed by `pass_endTest`. -/
def attributesRule : TranslationTableRule :=
  { after := 0, before := 0, patterns := 0, opcode := CTO_Context, charslen := 0, dotslen := 6,
    charsdots := fun k => [36, 0, 2, 1, 2, 32].getD k 0 }

/-- The match variables with which the test of `attributesRule` starts at
position 0. -/
def attributesStart : PassMatch := testStart 0 attributesRule 0

/-- No rule of the chain `backPassRules[currentPass]` of a generic pass both
carries the opcode of the pass and passes its test at a position of the
input, with the pass variables `vars`. -/
def NoMatchingPassRule (K : Internal) (env : PassEnv) (vars : PassVariables) : Prop :=
  ∀ rule ∈ env.table.backPassRules env.currentPass,
    ((env.currentPass = 2 ∧ rule.opcode = CTO_Pass2) ∨
      (env.currentPass = 3 ∧ rule.opcode = CTO_Pass3) ∨
      (env.currentPass = 4 ∧ rule.opcode = CTO_Pass4)) →
    ∀ src endReplace : Int, 0 ≤ src → src < env.srcmax →
      (back_passDoTest K env.table src env.srcmax env.currentInput rule.opcode rule vars
        endReplace).1 = false

/-- The state of `translatePass` after it has copied the first `k` input
symbols and nothing else. -/
def CopiedUpTo (env : PassEnv) (e : Emit) (vars : PassVariables) (k : Int) (p : PassState) :
    Prop :=
  p.src = k ∧ p.e.dest = k ∧ p.e.srcMapping = e.srcMapping ∧ p.st.passVariables = vars ∧
  (∀ i : Int, 0 ≤ i → i < k → p.e.currentOutput i = env.currentInput i) ∧
  (∀ i : Int, i < 0 ∨ k ≤ i → p.e.currentOutput i = e.currentOutput i)

/-- The second generic pass over the two cells (dot 1, dots 1-2) with the
empty table and capacity `destmax`. -/
def emptyPassEnv (destmax : Int) : PassEnv :=
  { table := emptyTable, srcmax := 2, destmax := destmax, mode := 0, currentPass := 2,
    currentInput := fun k => if k = 0 then 0x8001 else 0x8003, traced := false,
    maxAppliedRules := 0 }

/-! ## The retry loop of the JNI wrapper (`LibLouisWrapper.c`) -/

/-- What a call of the engine (`lou_backTranslateString` in
`backTranslateNative`, `lou_translate` in `translateNative`) hands back to
the wrapper: its result and the values left in `inused` and `outused`. -/
structure Attempt where
  result : Int
  inused : Int
  outused : Int

/-- How the `for` loop of the wrapper is left: by `goto freebufs` after a
call that returned 0, by `break`, or by its condition. -/
inductive RetryEnd where
  | failed | fits | exhausted
  deriving DecidableEq, Repr

/-- The `for` loop of `backTranslateNative` and of `translateNative`, entered
with `outlen`: the capacities with which the engine was called, in order,
and how the loop was left; `none` when it does not end within the fuel. The
engine is a parameter: it is called with the capacity and may keep a state
`σ` of its own from one call to the next. -/
def retryLoop {σ : Type} (engine : σ → Int → Attempt × σ) (inlen maxoutlen : Int) :
    Nat → Int → σ → Option (List Int × RetryEnd)
  | 0, outlen, _ => if outlen ≤ maxoutlen then none else some ([], RetryEnd.exhausted)
  | fuel + 1, outlen, s =>
    if outlen ≤ maxoutlen then
      let a := engine s outlen
      if a.1.result = 0 then some ([outlen], RetryEnd.failed)
      else if a.1.inused = inlen ∧ a.1.outused < outlen then some ([outlen], RetryEnd.fits)
      else
        match retryLoop engine inlen maxoutlen fuel (outlen * 2) a.2 with
        | none => none
        | some (tried, e) => some (outlen :: tried, e)
    else some ([], RetryEnd.exhausted)

/-- The loop of `backTranslateNative` with its initialisation `outlen =
MAX(8, inlen * 2)`, `maxoutlen = inlen * 16`. -/
def backTranslateNativeLoop {σ : Type} (engine : σ → Int → Attempt × σ) (inlen : Int)
    (fuel : Nat) (s : σ) : Option (List Int × RetryEnd) :=
  retryLoop engine inlen (inlen * 16) fuel (max 8 (inlen * 2)) s

/-- The loop of `translateNative`, which is written in the same way. -/
def translateNativeLoop {σ : Type} (engine : σ → Int → Attempt × σ) (inlen : Int)
    (fuel : Nat) (s : σ) : Option (List Int × RetryEnd) :=
  retryLoop engine inlen (inlen * 16) fuel (max 8 (inlen * 2)) s

/-- An engine that returns 0 whatever the capacity. -/
def failingEngine (_ : Unit) (_ : Int) : Attempt × Unit :=
  ({ result := 0, inused := 0, outused := 0 }, ())

/-- An engine that consumes four cells and needs 20 characters for them. -/
def twentyEngine (_ : Unit) (outlen : Int) : Attempt × Unit :=
  if 20 ≤ outlen then ({ result := 1, inused := 4, outused := 20 }, ())
  else ({ result := 1, inused := 3, outused := outlen }, ())

/-- The capacities of the retry schedule: `outlen`, then its doubles, while
they do not exceed `maxoutlen`, and at most `n` of them. -/
def doublings (maxoutlen : Int) : Nat → Int → List Int
  | 0, _ => []
  | n + 1, outlen =>
    if outlen ≤ maxoutlen then outlen :: doublings maxoutlen n (outlen * 2) else []

/-- The capacities of the retry schedule for an input of `inlen` symbols:
from `max(8, 2 * inlen)`, doubling while the capacity is at most
`16 * inlen`. -/
def retryCapacities (inlen : Int) : List Int :=
  doublings (inlen * 16) 4 (max 8 (inlen * 2))

/-- The attempts over a list of capacities that stop at the first attempt
that returned 0 (`failed`) or that succeeded with `inused = inlen` and
`outused < outlen` (`fits`): the capacities tried and how the attempts
ended. -/
def retryUntil {σ : Type} (engine : σ → Int → Attempt × σ) (inlen : Int) :
    List Int → σ → List Int × RetryEnd
  | [], _ => ([], RetryEnd.exhausted)
  | outlen :: rest, s =>
    if (engine s outlen).1.result = 0 then ([outlen], RetryEnd.failed)
    else if (engine s outlen).1.inused = inlen ∧ (engine s outlen).1.outused < outlen then
      ([outlen], RetryEnd.fits)
    else
      (outlen :: (retryUntil engine inlen rest (engine s outlen).2).1,
        (retryUntil engine inlen rest (engine s outlen).2).2)

/-- The attempts over a list of capacities that stop only at the first
attempt that succeeded with `inused = inlen` and `outused < outlen`. -/
def retryUntilFits {σ : Type} (engine : σ → Int → Attempt × σ) (inlen : Int) :
    List Int → σ → List Int × RetryEnd
  | [], _ => ([], RetryEnd.exhausted)
  | outlen :: rest, s =>
    if (engine s outlen).1.result ≠ 0 ∧ (engine s outlen).1.inused = inlen ∧
        (engine s outlen).1.outused < outlen then
      ([outlen], RetryEnd.fits)
    else
      (outlen :: (retryUntilFits engine inlen rest (engine s outlen).2).1,
        (retryUntilFits engine inlen rest (engine s outlen).2).2)

/-- The sample constants with two tables: the name `empty` resolves to
`emptyTable`, every other name to `largeSignTable`. -/
def twoTableInternal : Internal :=
  { sampleInternal with
    getTable := fun name => if name = "empty" then some emptyTable else some largeSignTable }

/-- The call of `sampleCall` on the single cell with dot 1, with the table
`empty`, in which the cell is not defined. -/
def undefinedCellCall : Call :=
  { sampleCall with
    tableList := some "empty"
    inbuf := some (fun k => if k = 0 then 1 else 0)
    inlen := some 1 }

/-- The call of `sampleCall` on three cells with dot 1 and capacity 1, with
the table `largeSignTable`, in which the cell is a letter. -/
def threeCellCall : Call :=
  { sampleCall with
    tableList := some "largeSign"
    inbuf := some (fun k => if 0 ≤ k ∧ k < 3 then 1 else 0)
    inlen := some 3
    outlen := some 1 }

/-- The static variables that the call `undefinedCellCall` leaves behind when
it is the first call of the program. -/
def staleStatics : Statics :=
  match _lou_backTranslateWithTracing twoTableInternal undefinedCellCall freshStatics zeroRule
      10 with
  | some r => r.st
  | none => freshStatics

/-- A swap rule with the class of the two cells dot 1 and dots 1-2, and the
two replacement segments `a` and `b`, each with its length prefix 2. -/
def letterSwapRule : TranslationTableRule :=
  { zeroRule with charslen := 2, dotslen := 4,
                  charsdots := fun k => [0x8001, 0x8003, 2, 97, 2, 98].getD k 0 }

/-- A rule of pass 2 whose test is `pass_dots` on the cell with dots 1-3,
`pass_startReplace`, `pass_dots` on the cell with dots 1-2, `pass_endReplace`,
`pass_endTest`, and whose action is `pass_swap` with the swap rule at offset
7: the span to replace is the second cell of the match. -/
def swapSpanRule : TranslationTableRule :=
  { zeroRule with opcode := CTO_Pass2, dotslen := 12,
                  charsdots := fun k =>
                    [64, 1, 0x8005, 91, 64, 1, 0x8003, 93, 32, 37, 0, 7].getD k 0 }

/-- A rule of pass 2 whose test is `pass_startReplace`, `pass_dots` on the
cell with dots 1-2, `pass_endReplace`, `pass_endTest`, and whose action is
`pass_swap` with the swap rule at offset 7: the span to replace starts at
the start of the match. -/
def swapFirstRule : TranslationTableRule :=
  { zeroRule with opcode := CTO_Pass2, dotslen := 9,
                  charsdots := fun k => [91, 64, 1, 0x8003, 93, 32, 37, 0, 7].getD k 0 }

/-- The empty table with `rule` as the only rule of pass 2 and
`letterSwapRule` at offset 7 of the rule area. -/
def swapTable (rule : TranslationTableRule) : TranslationTableHeader :=
  { emptyTable with
    numPasses := 2
    backPassRules := fun currentPass => if currentPass = 2 then [rule] else []
    ruleArea := fun offset => if offset = 7 then letterSwapRule else zeroRule }

/-- Pass 2 with the table `swapTable rule` over `srcmax` symbols of
`currentInput`, with capacity 10. -/
def swapEnv (rule : TranslationTableRule) (currentInput : WBuf) (srcmax : Int) : PassEnv :=
  { table := swapTable rule, srcmax := srcmax, destmax := 10, mode := 0, currentPass := 2,
    currentInput := currentInput, traced := false, maxAppliedRules := 0 }

/-- The input of two cells: dots 1-3, then dots 1-2. -/
def swapSpanInput : WBuf := fun k => if k = 0 then 0x8005 else if k = 1 then 0x8003 else 0

/-- The input of the one cell with dots 1-2. -/
def swapFirstInput : WBuf := fun k => if k = 0 then 0x8003 else 0

/-- What a literal-match instruction contributes to the record of the
comparisons: `pass_string` and `pass_dots`, executed at the trial position
`p` with the operand `n`, compare `input[p]`, `input[p + 1]`, ... with their
`n` symbols, up to the first difference. -/
def literalOf (instruction : PassInstruction) (p : Int) (n : Nat) : List (Int × Nat) :=
  match instruction with
  | .pass_string => [(p, n)]
  | .pass_dots => [(p, n)]
  | _ => []

/-- The literal-match instructions that a run of the loop of
`back_passDoTest` executes, in order, each as the trial position at which it
is executed and its number of symbols: the loop with its result replaced by
a record of its calls of `matchcurrentInput`. -/
def back_passDoTestLiterals (K : Internal) (table : TranslationTableHeader) (srcmax : Int)
    (currentInput : WBuf) (m : Int) (currentRule : TranslationTableRule)
    (vars : PassVariables) : Nat → Bool → PassMatch → List (Int × Nat)
  | 0, _, _ => []
  | fuel + 1, not, pm =>
    if pm.passIC < currentRule.dotslen ∧ pm.passSrc ≤ srcmax then
      match K.passInstruction (pm.passInstructions pm.passIC) with
      | .pass_not =>
        back_passDoTestLiterals K table srcmax currentInput m currentRule vars fuel (!not)
          { pm with passIC := pm.passIC + 1 }
      | .pass_endTest => []
      | _ =>
        literalOf (K.passInstruction (pm.passInstructions pm.passIC)) pm.passSrc
            (pm.passInstructions (pm.passIC + 1)) ++
          (match conditionOutcome K table srcmax currentInput m vars pm with
            | some (itsTrue, pm1) =>
              if itsTrue = not then []
              else
                back_passDoTestLiterals K table srcmax currentInput m currentRule vars fuel
                  false pm1
            | none => [])
    else []

/-- The literal-match instructions of the run of `back_passDoTest` with the
given arguments. -/
def testLiterals (K : Internal) (table : TranslationTableHeader) (src srcmax : Int)
    (currentInput : WBuf) (currentOpcode : TranslationTableOpcode)
    (currentRule : TranslationTableRule) (vars : PassVariables) (endReplace : Int) :
    List (Int × Nat) :=
  back_passDoTestLiterals K table srcmax currentInput (testSelector currentOpcode) currentRule
    vars currentRule.dotslen false (testStart src currentRule endReplace)

/-- A context rule whose program is `pass_dots` on the two cells dots 1-2,
dot 1 and nothing else: it has no `pass_endTest`. -/
def openEndRule : TranslationTableRule :=
  { zeroRule with opcode := CTO_Context, charslen := 0, dotslen := 4,
                  charsdots := fun k => [64, 2, 0x8003, 0x8001].getD k 0 }

/-- A context rule whose test is `pass_startReplace`, the cell with dots
1-2, `pass_endTest`: the start of the span is marked, its end is not. -/
def openSpanRule : TranslationTableRule :=
  { zeroRule with opcode := CTO_Context, charslen := 0, dotslen := 5,
                  charsdots := fun k => [91, 64, 1, 0x8003, 32].getD k 0 }

/-- A context rule for the cell with dots 1-2 whose program is
`pass_startReplace`, `pass_endReplace`, `pass_dots` (that cell),
`pass_endTest`, with no action: the replacement span is empty and both its
ends are the position the rule is tried at. -/
def emptySpanRule : TranslationTableRule :=
  { zeroRule with opcode := CTO_Context, charslen := 1, dotslen := 6,
                  charsdots := fun k => [0x8003, 91, 93, 64, 1, 0x8003, 32].getD k 0 }

/-- The empty table with `emptySpanRule` as the only rule of the cell with
dots 1-2. -/
def emptySpanTable : TranslationTableHeader :=
  { emptyTable with
    dots := fun h => if h = 0x8003 % 1123 then [cellRecord 0x8003 [emptySpanRule]] else [] }

/-- The table `multindTable` with a letter sign of no dots. -/
def zeroIndicatorTable : TranslationTableHeader :=
  { multindTable with letterSign := some { letterSignRule with dotslen := 0 } }

/-- The primary pass over the two cells of `multindInput` with the table
`zeroIndicatorTable`. -/
def zeroIndicatorEnv : PassEnv :=
  { sampleEnv zeroIndicatorTable with srcmax := 2, currentInput := multindInput }

/-- The states in which the turns of the main translation loop of
`backTranslateString` are entered, in order, when the loop is allowed `n`
turns and starts in `b`; the last of them is the state in which the loop is
left from inside a turn, if it is. -/
def backTranslateTurns (K : Internal) (env : PassEnv) (fuel : Nat) :
    Nat → BackState → List BackState
  | 0, _ => []
  | n + 1, b =>
    if b.src < env.srcmax then
      match backTranslateTurn K env fuel b with
      | none => [b]
      | some (Flow.abort, _) => [b]
      | some (Flow.failure, _) => [b]
      | some (_, b1) => b :: backTranslateTurns K env fuel n b1
    else []

/-- The turn entered in state `b` selects a rule with opcode `CTO_Context`
and the `back_passDoAction` of that rule, run by the second `switch`,
fails. -/
def ContextActionFails (K : Internal) (env : PassEnv) (b : BackState) : Prop :=
  (selectionOf K env b).currentOpcode = CTO_Context ∧
  (back_passDoAction K env.table b.src env.srcmax env.destmax env.mode env.currentInput
    b.allUpper b.allUpperPhrase CTO_Context (selectionOf K env b).currentRule
    (selectionOf K env b).pm b.st.passVariables b.e).1 = false

/-- What a pass of `doPasses` is entered with: its parameters and the
variables it reaches through pointers. -/
structure PassEntry where
  env : PassEnv
  src : Int
  e : Emit
  st : Statics
  applied : List TranslationTableRule

/-- The loop of `doPassesLoop` with a record of what every pass it runs is
entered with, in the order in which they are run. -/
def doPassesEntries (K : Internal) (table : TranslationTableHeader) (destmax : Int) (mode : Nat)
    (traced : Bool) (maxAppliedRules : Int) (multindRule : TranslationTableRule)
    (lastPass : Int) (fuel : Nat) : Nat → Int → PipelineState → List PassEntry
  | 0, _, _ => []
  | n + 1, currentPass, d =>
    let o := chooseOutput currentPass lastPass d.currentInput
    let env : PassEnv :=
      { table := table, srcmax := d.srcmax, destmax := destmax, mode := mode,
        currentPass := currentPass, currentInput := d.input, traced := traced,
        maxAppliedRules := maxAppliedRules }
    let entry : PassEntry :=
      { env := env, src := d.src, e := { d.e with currentOutput := d.output o }, st := d.st,
        applied := d.applied }
    match runPass K env fuel d.src { d.e with currentOutput := d.output o } d.st d.applied
        multindRule with
    | none => [entry]
    | some r =>
      let d1 := d.afterPass o r
      if r.result = 0 then [entry]
      else if currentPass = lastPass then [entry]
      else
        entry ::
          doPassesEntries K table destmax mode traced maxAppliedRules multindRule lastPass fuel n
            (currentPass - 1)
            { d1 with
              currentInput :=
                match o with
                | .passbuf1 => .passbuf1
                | _ => .passbuf2
              srcmax := d1.e.dest }

/-- What the passes run by `doPasses` are entered with, in order. -/
def doPassesStarts (K : Internal) (table : TranslationTableHeader) (destmax : Int) (mode : Nat)
    (traced : Bool) (maxAppliedRules : Int) (multindRule : TranslationTableRule) (fuel : Nat)
    (d : PipelineState) : List PassEntry :=
  let lastPass0 : Int := if table.corrections ≠ 0 then 0 else 1
  let firstPass : Int := if mode &&& K.pass1Only ≠ 0 then 1 else table.numPasses
  let lastPass : Int := if mode &&& K.pass1Only ≠ 0 then 1 else lastPass0
  doPassesEntries K table destmax mode traced maxAppliedRules multindRule lastPass fuel fuel
    firstPass d

/-- The primary pass of the call is left by `return 0`: one of the passes
that `doPasses` runs for the pipeline `p` is the primary pass
(`currentPass = 1`), and one of the turns of its main loop selects a context
rule whose action fails. -/
def PrimaryPassAborts (K : Internal) (c : Call) (p : Prepared)
    (multindRule : TranslationTableRule) (fuel : Nat) : Prop :=
  ∃ x ∈ doPassesStarts K p.table p.destmax c.modex p.traced p.maxAppliedRules multindRule fuel
      p.d,
    x.env.currentPass = 1 ∧
    ∃ b ∈ backTranslateTurns K x.env fuel fuel
        (backTranslateStart K x.e x.st x.applied multindRule),
      ContextActionFails K x.env b

/-- What `abortCall` returns with the table `abortTable`. -/
def abortResult : CallResult :=
  match _lou_backTranslateWithTracing (sampleInternalFor abortTable) abortCall freshStatics
    zeroRule 10 with
  | some res => res
  | none => abortCall.unchanged freshStatics

/-! ## Theorems -/

/-! ### The escape of an undefined dot pattern -/

theorem appendDigits_eq (d : widechar) (ps : List (Nat × widechar)) :
    appendDigits d ps = (ps.filter (fun p => d &&& p.1 ≠ 0)).map Prod.snd := by
  induction ps with
  | nil => rfl
  | cons p ps ih =>
    by_cases h : d &&& p.1 = 0
    · simp [appendDigits, List.filter_cons, h, ih]
    · simp [appendDigits, List.filter_cons, h, ih]

theorem undefinedDotsBuffer_eq (K : Internal) (d : widechar) :
    undefinedDotsBuffer K d = escapeOf K d := by
  have h := appendDigits_eq d (dotDigits K)
  unfold escapeOf
  rw [← h]
  simp only [undefinedDotsBuffer, dotDigits, appendDigits, List.append_assoc, List.append_nil,
    List.singleton_append, List.cons_append, List.nil_append]

theorem escapeOf_length (K : Internal) (d : widechar) :
    (escapeOf K d).length = 2 + ((dotDigits K).filter (fun p => d &&& p.1 ≠ 0)).length := by
  simp [escapeOf]; omega

theorem escapeOf_length_le (K : Internal) (d : widechar) : (escapeOf K d).length ≤ 17 := by
  rw [escapeOf_length]
  have h := List.length_filter_le (fun p : Nat × widechar => decide (d &&& p.1 ≠ 0)) (dotDigits K)
  have h2 : (dotDigits K).length = 15 := rfl
  omega

theorem writeRange_inside {α : Type} (b : Int → α) (d : Int) (n : Nat) (f : Nat → α) (i : Nat)
    (h : i < n) : writeRange b d n f (d + i) = f i := by
  unfold writeRange
  have h1 : d ≤ d + (i : Int) ∧ d + (i : Int) < d + (n : Int) := by omega
  rw [if_pos h1]
  congr 1
  omega

theorem writeRange_outside {α : Type} (b : Int → α) (d : Int) (n : Nat) (f : Nat → α) (j : Int)
    (h : j < d ∨ d + n ≤ j) : writeRange b d n f j = b j := by
  unfold writeRange
  have h1 : ¬ (d ≤ j ∧ j < d + (n : Int)) := by omega
  rw [if_neg h1]

/-- C3. In default mode (`noUndefinedDots` clear) and with room for the
escape, `undefinedDots` returns 1, advances `dest` by the length `L` of the
escape and stores exactly the escape at `dest .. dest + L - 1`, leaving every
other output element and every other variable alone. The escape is the
backslash, the characters `'1'..'9','A'..'F'` of the dots among 1..15 set
in `d` in ascending order, and the slash; `L = 2 +` the number of those dots
and `L <= 17`; it depends on `d` only; when exactly dots 1 and 2 are set
among 1..15 it is `\12/`. -/
theorem undefinedDots_escape (K : Internal) (d : widechar) (destmax : Int) (mode : Nat)
    (s : Emit) (hmode : mode &&& K.noUndefinedDots = 0)
    (hfit : s.dest + (escapeOf K d).length ≤ destmax) :
    (undefinedDots K d destmax mode s).1 = true ∧
    (undefinedDots K d destmax mode s).2.dest = s.dest + (escapeOf K d).length ∧
    (∀ i : Nat, i < (escapeOf K d).length →
      (undefinedDots K d destmax mode s).2.currentOutput (s.dest + i)
        = (escapeOf K d).getD i 0) ∧
    (∀ j : Int, j < s.dest ∨ s.dest + (escapeOf K d).length ≤ j →
      (undefinedDots K d destmax mode s).2.currentOutput j = s.currentOutput j) ∧
    { (undefinedDots K d destmax mode s).2 with
        dest := s.dest, currentOutput := s.currentOutput } = s ∧
    (escapeOf K d).length = 2 + ((dotDigits K).filter (fun p => d &&& p.1 ≠ 0)).length ∧
    (escapeOf K d).length ≤ 17 ∧
    (d &&& K.B1 ≠ 0 → d &&& K.B2 ≠ 0 →
      (∀ m ∈ [K.B3, K.B4, K.B5, K.B6, K.B7, K.B8, K.B9, K.B10, K.B11, K.B12, K.B13, K.B14,
        K.B15], d &&& m = 0) →
      escapeOf K d = [92, 49, 50, 47]) := by
  have hfit' : ¬ (s.dest + ((escapeOf K d).length : Int) > destmax) := by omega
  have hrun : undefinedDots K d destmax mode s =
      (true, { s with
        currentOutput := writeRange s.currentOutput s.dest (escapeOf K d).length
          (fun i => (escapeOf K d).getD i 0)
        dest := s.dest + (escapeOf K d).length }) := by
    unfold undefinedDots
    rw [if_neg (by simpa using hmode)]
    simp only [undefinedDotsBuffer_eq]
    rw [if_neg hfit']
  refine ⟨by rw [hrun], by rw [hrun], ?_, ?_, by rw [hrun], escapeOf_length K d,
    escapeOf_length_le K d, ?_⟩
  · intro i hi
    rw [hrun]
    exact writeRange_inside s.currentOutput s.dest _ (fun i => (escapeOf K d).getD i 0) i hi
  · intro j hj
    rw [hrun]
    exact writeRange_outside s.currentOutput s.dest _ (fun i => (escapeOf K d).getD i 0) j hj
  · intro h1 h2 h3
    simp only [List.mem_cons, List.mem_singleton, forall_eq_or_imp, List.not_mem_nil,
      forall_eq] at h3
    obtain ⟨h3, h4, h5, h6, h7, h8, h9, h10, h11, h12, h13, h14, h15, -⟩ := h3
    simp [escapeOf, dotDigits, List.filter_cons, h1, h2, h3, h4, h5, h6, h7, h8, h9, h10, h11,
      h12, h13, h14, h15]

/-- Witness for C3: the pattern with dots 1 and 2 (and bit `B16`) escapes as
`\12/` at `dest = 0` with capacity 4. -/
theorem undefinedDots_escape_witness :
    (0 &&& sampleInternal.noUndefinedDots = 0) ∧
    blankEmit.dest + (escapeOf sampleInternal 0x8003).length ≤ 4 ∧
    (undefinedDots sampleInternal 0x8003 4 0 blankEmit).1 = true ∧
    (undefinedDots sampleInternal 0x8003 4 0 blankEmit).2.dest = 4 ∧
    escapeOf sampleInternal 0x8003 = [92, 49, 50, 47] :=
  have h := undefinedDots_escape sampleInternal 0x8003 4 0 blankEmit (by decide) (by decide)
  ⟨by decide, by decide, h.1, h.2.1, by decide⟩

/-- C4. With the `noUndefinedDots` mode flag set, `undefinedDots` returns 1
and changes neither `dest` nor the output buffer (nor anything else), for
every dot pattern, every `dest` and every `destmax`. -/
theorem undefinedDots_suppressed (K : Internal) (d : widechar) (destmax : Int) (mode : Nat)
    (s : Emit) (hmode : mode &&& K.noUndefinedDots ≠ 0) :
    undefinedDots K d destmax mode s = (true, s) := by
  unfold undefinedDots
  rw [if_pos hmode]

/-- Witness for C4: flag set, `dest = destmax = 0`. -/
theorem undefinedDots_suppressed_witness :
    (128 &&& sampleInternal.noUndefinedDots ≠ 0) ∧
    undefinedDots sampleInternal 0x8003 0 128 blankEmit = (true, blankEmit) :=
  ⟨by decide, undefinedDots_suppressed sampleInternal 0x8003 0 128 blankEmit (by decide)⟩

/-! ### Cursor resolution in `back_updatePositions` -/

theorem putchars_cursor (K : Internal) (chars : Nat → widechar) (count : Nat)
    (table : TranslationTableHeader) (destmax allUpper allUpperPhrase : Int) (s : Emit) :
    (putchars K chars count table destmax allUpper allUpperPhrase s).2.cursorPosition
        = s.cursorPosition ∧
    (putchars K chars count table destmax allUpper allUpperPhrase s).2.cursorStatus
        = s.cursorStatus := by
  unfold putchars
  split_ifs <;> exact ⟨rfl, rfl⟩

/-- C9. In `back_updatePositions`, when the cursor is unresolved
(`cursorStatus = 0`), `src <= cursorPosition < src + inLength` and the
capacity check passes, the cursor becomes `dest + outLength / 2` with the
`dest` of before the emission and is marked resolved; for `outLength >= 1`
that value lies in `[dest, dest + outLength)`. -/
theorem back_updatePositions_resolves_cursor (K : Internal) (outChars : Nat → widechar)
    (inLength outLength : Nat) (table : TranslationTableHeader)
    (src srcmax destmax allUpper allUpperPhrase : Int) (s : Emit)
    (hstatus : s.cursorStatus = 0) (hlo : src ≤ s.cursorPosition)
    (hhi : s.cursorPosition < src + inLength)
    (hcap : ¬ (s.dest + outLength > destmax ∨ src + inLength > srcmax)) :
    (back_updatePositions K outChars inLength outLength table src srcmax destmax allUpper
        allUpperPhrase s).2.cursorPosition = s.dest + ((outLength / 2 : Nat) : Int) ∧
    (back_updatePositions K outChars inLength outLength table src srcmax destmax allUpper
        allUpperPhrase s).2.cursorStatus = 1 ∧
    (1 ≤ outLength →
      s.dest ≤ (back_updatePositions K outChars inLength outLength table src srcmax destmax
          allUpper allUpperPhrase s).2.cursorPosition ∧
      (back_updatePositions K outChars inLength outLength table src srcmax destmax
          allUpper allUpperPhrase s).2.cursorPosition < s.dest + outLength) := by
  have hc : s.cursorStatus = 0 ∧ s.cursorPosition ≥ src ∧ s.cursorPosition < src + inLength :=
    ⟨hstatus, hlo, hhi⟩
  have key :
      (back_updatePositions K outChars inLength outLength table src srcmax destmax allUpper
          allUpperPhrase s).2.cursorPosition = s.dest + ((outLength / 2 : Nat) : Int) ∧
      (back_updatePositions K outChars inLength outLength table src srcmax destmax allUpper
          allUpperPhrase s).2.cursorStatus = 1 := by
    unfold back_updatePositions
    rw [if_neg hcap]
    simp only [if_pos hc]
    constructor
    · rw [(putchars_cursor K outChars outLength table destmax allUpper allUpperPhrase _).1]
      split_ifs <;> rfl
    · rw [(putchars_cursor K outChars outLength table destmax allUpper allUpperPhrase _).2]
      split_ifs <;> rfl
  refine ⟨key.1, key.2, ?_⟩
  intro h1
  rw [key.1]
  have h2 : outLength / 2 < outLength := Nat.div_lt_self (by omega) (by decide)
  omega

/-- Witness for C9: cursor 0, one input symbol, a three-symbol expansion
emitted at `dest = 0`: the cursor resolves to 1. -/
theorem back_updatePositions_resolves_cursor_witness :
    ({ blankEmit with cursorPosition := 0 } : Emit).cursorStatus = 0 ∧
    (back_updatePositions sampleInternal (fun k => 116 + k) 1 3 emptyTable 0 1 10 0 0
        { blankEmit with cursorPosition := 0 }).2.cursorPosition = 1 ∧
    (back_updatePositions sampleInternal (fun k => 116 + k) 1 3 emptyTable 0 1 10 0 0
        { blankEmit with cursorPosition := 0 }).2.cursorStatus = 1 :=
  have h := back_updatePositions_resolves_cursor sampleInternal (fun k => 116 + k) 1 3
    emptyTable 0 1 10 0 0 { blankEmit with cursorPosition := 0 } rfl (by decide) (by decide)
    (by decide)
  ⟨rfl, h.1, h.2.1⟩

/-- C10. Once the cursor is resolved (`cursorStatus = 1`), a call of
`back_updatePositions` changes neither `cursorPosition` nor `cursorStatus`,
whatever the emission is, also when the resolved value lies inside the
input span `[src, src + inLength)` of that emission. -/
theorem back_updatePositions_keeps_resolved_cursor (K : Internal) (outChars : Nat → widechar)
    (inLength outLength : Nat) (table : TranslationTableHeader)
    (src srcmax destmax allUpper allUpperPhrase : Int) (s : Emit)
    (hstatus : s.cursorStatus = 1) :
    (back_updatePositions K outChars inLength outLength table src srcmax destmax allUpper
        allUpperPhrase s).2.cursorPosition = s.cursorPosition ∧
    (back_updatePositions K outChars inLength outLength table src srcmax destmax allUpper
        allUpperPhrase s).2.cursorStatus = 1 := by
  have hc : ¬ (s.cursorStatus = 0 ∧ s.cursorPosition ≥ src ∧
      s.cursorPosition < src + inLength) := by
    rw [hstatus]; simp
  unfold back_updatePositions
  by_cases h1 : s.dest + outLength > destmax ∨ src + inLength > srcmax
  · rw [if_pos h1]
    exact ⟨rfl, hstatus⟩
  · rw [if_neg h1]
    simp only [if_neg hc]
    constructor
    · rw [(putchars_cursor K outChars outLength table destmax allUpper allUpperPhrase _).1]
      split_ifs <;> rfl
    · rw [(putchars_cursor K outChars outLength table destmax allUpper allUpperPhrase _).2]
      split_ifs <;> exact hstatus

/-- Witness for C10: the cursor was resolved to 1; a later emission whose
input span `[1, 2)` contains the value 1 leaves it at 1. -/
theorem back_updatePositions_keeps_resolved_cursor_witness :
    ({ blankEmit with cursorPosition := 1, cursorStatus := 1, dest := 3 } : Emit).cursorStatus
      = 1 ∧
    (back_updatePositions sampleInternal (fun k => 116 + k) 1 3 emptyTable 1 2 10 0 0
        { blankEmit with cursorPosition := 1, cursorStatus := 1, dest := 3 }).2.cursorPosition
      = 1 ∧
    (back_updatePositions sampleInternal (fun k => 116 + k) 1 3 emptyTable 1 2 10 0 0
        { blankEmit with cursorPosition := 1, cursorStatus := 1, dest := 3 }).2.cursorStatus
      = 1 :=
  have h := back_updatePositions_keeps_resolved_cursor sampleInternal (fun k => 116 + k) 1 3
    emptyTable 1 2 10 0 0 { blankEmit with cursorPosition := 1, cursorStatus := 1, dest := 3 }
    rfl
  ⟨rfl, h.1, h.2⟩

/-! ### The final backfill of `outputPos` -/

theorem setAt_same {α : Type} (b : Int → α) (i : Int) (v : α) : setAt b i v i = v := by
  simp [setAt]

theorem setAt_other {α : Type} (b : Int → α) (i j : Int) (v : α) (h : j ≠ i) :
    setAt b i v j = b j := by
  simp [setAt, h]

/-- What the backfill loop leaves in every entry, started at index `k0` with
`n` entries to go and `lastpos = lp`. -/
theorem backfill_spec (n : Nat) :
    ∀ (k0 lp : Int) (a : IBuf) (j : Int),
      ((j < k0 ∨ k0 + n ≤ j) → backfill n k0 lp a j = a j) ∧
      (k0 ≤ j → j < k0 + n → a j ≠ -1 → backfill n k0 lp a j = a j) ∧
      (k0 ≤ j → j < k0 + n → a j = -1 →
        (∃ i, k0 ≤ i ∧ i < j ∧ a i ≠ -1 ∧ (∀ t, i < t → t < j → a t = -1) ∧
            backfill n k0 lp a j = a i) ∨
        ((∀ i, k0 ≤ i → i < j → a i = -1) ∧ backfill n k0 lp a j = lp)) := by
  induction n with
  | zero =>
    intro k0 lp a j
    refine ⟨fun _ => rfl, fun h1 h2 => ?_, fun h1 h2 => ?_⟩
    · exfalso; simp at h2; omega
    · exfalso; simp at h2; omega
  | succ n ih =>
    intro k0 lp a j
    by_cases hk : a k0 = -1
    · have hstep : backfill (n + 1) k0 lp a = backfill n (k0 + 1) lp (setAt a k0 lp) := by
        simp [backfill, hk]
      rw [hstep]
      obtain ⟨ih1, ih2, ih3⟩ := ih (k0 + 1) lp (setAt a k0 lp) j
      refine ⟨fun h => ?_, fun h1 h2 h3 => ?_, fun h1 h2 h3 => ?_⟩
      · rw [ih1 (by push_cast at h; omega)]
        exact setAt_other _ _ _ _ (by push_cast at h; omega)
      · have hne : j ≠ k0 := fun e => h3 (e ▸ hk)
        rw [ih2 (by omega) (by push_cast at h2; omega) (by rwa [setAt_other _ _ _ _ hne])]
        exact setAt_other _ _ _ _ hne
      · by_cases hj : j = k0
        · right
          refine ⟨fun i hi1 hi2 => by omega, ?_⟩
          rw [ih1 (by omega), hj, setAt_same]
        · have hj' : k0 + 1 ≤ j := by omega
          rcases ih3 hj' (by push_cast at h2; omega) (by rwa [setAt_other _ _ _ _ hj]) with
            ⟨i, hi1, hi2, hi3, hi4, hi5⟩ | ⟨hall, hval⟩
          · left
            have hik : i ≠ k0 := by omega
            refine ⟨i, by omega, hi2, ?_, fun t ht1 ht2 => ?_, ?_⟩
            · rwa [setAt_other _ _ _ _ hik] at hi3
            · have := hi4 t ht1 ht2
              rwa [setAt_other _ _ _ _ (by omega)] at this
            · rw [hi5, setAt_other _ _ _ _ hik]
          · right
            refine ⟨fun i hi1 hi2 => ?_, hval⟩
            by_cases hik : i = k0
            · rw [hik]; exact hk
            · have := hall i (by omega) hi2
              rwa [setAt_other _ _ _ _ hik] at this
    · have hstep : backfill (n + 1) k0 lp a = backfill n (k0 + 1) (a k0) a := by
        simp [backfill, hk]
      rw [hstep]
      obtain ⟨ih1, ih2, ih3⟩ := ih (k0 + 1) (a k0) a j
      refine ⟨fun h => ?_, fun h1 h2 h3 => ?_, fun h1 h2 h3 => ?_⟩
      · exact ih1 (by push_cast at h; omega)
      · by_cases hj : j = k0
        · exact ih1 (by omega)
        · exact ih2 (by omega) (by push_cast at h2; omega) h3
      · have hj : j ≠ k0 := fun e => hk (e ▸ h3)
        left
        rcases ih3 (by omega) (by push_cast at h2; omega) h3 with
          ⟨i, hi1, hi2, hi3, hi4, hi5⟩ | ⟨hall, hval⟩
        · exact ⟨i, by omega, hi2, hi3, hi4, hi5⟩
        · exact ⟨k0, le_refl _, by omega, hk, fun t ht1 ht2 => hall t (by omega) ht2, hval⟩

theorem prepareCall_pipeline (K : Internal) (c : Call) (st : Statics) (p : Prepared)
    (hprep : prepareCall K c st = .inr p) :
    ∃ table inbuf inlen outbuf outlen passbuf1 srcMapping,
      c.tableList.bind K.getTable = some table ∧ c.inbuf = some inbuf ∧ c.inlen = some inlen ∧
      c.outbuf = some outbuf ∧ c.outlen = some outlen ∧ c.passbuf1 = some passbuf1 ∧
      c.srcMapping = some srcMapping ∧
      p = c.pipeline K st table inbuf inlen outbuf outlen passbuf1 srcMapping := by
  unfold prepareCall at hprep
  split at hprep
  · rename_i tl inbuf inlen outbuf outlen h1 h2 h3 h4 h5
    split at hprep
    · cases hprep
    · rename_i table h6
      split at hprep
      · cases hprep
      · rename_i passbuf1 h7
        split at hprep
        · cases hprep
        · rename_i srcMapping h8
          split_ifs at hprep
          simp only [Sum.inr.injEq] at hprep
          exact ⟨table, inbuf, inlen, outbuf, outlen, passbuf1, srcMapping,
            by simp [h1, h6], h2, h3, h4, h5, h7, h8, hprep.symm⟩
  · cases hprep

theorem prepareCall_outputPositions (K : Internal) (c : Call) (st : Statics) (p : Prepared)
    (hprep : prepareCall K c st = .inr p) :
    p.d.e.outputPositions
      = c.outputPos.map (fun a => writeRange a 0 p.d.srcmax.toNat (fun _ => -1)) := by
  obtain ⟨table, inbuf, inlen, outbuf, outlen, passbuf1, srcMapping, -, -, -, -, -, -, -, hp⟩ :=
    prepareCall_pipeline K c st p hprep
  rw [hp]
  rfl

/-- C8. When `_lou_backTranslateWithTracing` gets as far as `doPasses` with an
`outputPos` array: before the passes the entries `[0, srcmax)` of the array
are -1; and if `pre` is the array as the passes leave it, the call returns
the array `post` with, for every `k` in `[0, *inlen)` (the returned consumed
length): `post k` is not -1; an entry the passes set (`pre k` not -1) is
unchanged; an entry still -1 gets the value of the nearest preceding entry
that is not -1, or 0 when there is none. Entries outside `[0, *inlen)` are
not touched. -/
theorem backfill_final (K : Internal) (c : Call) (st : Statics)
    (multindRule : TranslationTableRule) (fuel : Nat) (p : Prepared) (goodTrans : Int)
    (d1 : PipelineState) (a pre : IBuf)
    (hprep : prepareCall K c st = .inr p)
    (hpos : c.outputPos = some a)
    (hpass : doPasses K p.table p.destmax c.modex p.traced p.maxAppliedRules multindRule fuel
      p.d = some (goodTrans, d1))
    (hpre : d1.e.outputPositions = some pre) :
    (∃ init, p.d.e.outputPositions = some init ∧
      ∀ k : Int, 0 ≤ k → k < p.d.srcmax → init k = -1) ∧
    ∃ res post n,
      _lou_backTranslateWithTracing K c st multindRule fuel = some res ∧
      res.outputPos = some post ∧ res.inlen = some n ∧
      (∀ k : Int, 0 ≤ k → k < n →
        post k ≠ -1 ∧
        (pre k ≠ -1 → post k = pre k) ∧
        (pre k = -1 →
          (∃ i, 0 ≤ i ∧ i < k ∧ pre i ≠ -1 ∧ (∀ t, i < t → t < k → pre t = -1) ∧
              post k = pre i) ∨
          ((∀ i, 0 ≤ i → i < k → pre i = -1) ∧ post k = 0))) ∧
      (∀ k : Int, k < 0 ∨ n ≤ k → post k = pre k) := by
  constructor
  · refine ⟨writeRange a 0 p.d.srcmax.toNat (fun _ => -1), ?_, fun k h0 h1 => ?_⟩
    · rw [prepareCall_outputPositions K c st p hprep, hpos]; rfl
    · have h := writeRange_inside a 0 p.d.srcmax.toNat (fun _ => (-1 : Int)) k.toNat (by omega)
      rw [show (0 : Int) + (k.toNat : Int) = k by omega] at h
      exact h
  · refine ⟨finishCall c p goodTrans d1,
      backfill (consumedLength p.inlen d1).toNat 0 0 pre, consumedLength p.inlen d1, ?_, ?_, rfl,
      fun k h0 h1 => ?_, fun k hk => ?_⟩
    · simp [_lou_backTranslateWithTracing, hprep, hpass]
    · simp [finishCall, hpre]
    · have hlt : k < 0 + (((consumedLength p.inlen d1).toNat : Nat) : Int) := by omega
      obtain ⟨-, s2, s3⟩ := backfill_spec (consumedLength p.inlen d1).toNat 0 0 pre k
      refine ⟨?_, fun hne => s2 h0 hlt hne, fun he => s3 h0 hlt he⟩
      by_cases he : pre k = -1
      · rcases s3 h0 hlt he with ⟨i, _, _, hi3, _, hi5⟩ | ⟨_, hval⟩
        · rw [hi5]; exact hi3
        · rw [hval]; decide
      · rw [s2 h0 hlt he]; exact he
    · exact (backfill_spec (consumedLength p.inlen d1).toNat 0 0 pre k).1 (by omega)

/-- Witness for C8: `sampleCall` on the empty table. No emission stores an
output position, so both entries of `[0, 2)` are backfilled with 0. -/
theorem backfill_final_witness :
    prepareCall sampleInternal sampleCall freshStatics = .inr samplePrepared ∧
    ∃ res post n,
      _lou_backTranslateWithTracing sampleInternal sampleCall freshStatics zeroRule 10
        = some res ∧
      res.outputPos = some post ∧ res.inlen = some n ∧
      (∀ k : Int, 0 ≤ k → k < n →
        post k ≠ -1 ∧
        (samplePre k ≠ -1 → post k = samplePre k) ∧
        (samplePre k = -1 →
          (∃ i, 0 ≤ i ∧ i < k ∧ samplePre i ≠ -1 ∧ (∀ t, i < t → t < k → samplePre t = -1) ∧
              post k = samplePre i) ∨
          ((∀ i, 0 ≤ i → i < k → samplePre i = -1) ∧ post k = 0))) ∧
      (∀ k : Int, k < 0 ∨ n ≤ k → post k = samplePre k) :=
  ⟨rfl,
    (backfill_final sampleInternal sampleCall freshStatics zeroRule 10 samplePrepared 1
      samplePipelineEnd (fun _ => 77) samplePre rfl rfl rfl rfl).2⟩

/-! ### The terminal fallback of `back_selectRule` -/

theorem undefinedDots_fits (K : Internal) (d : widechar) (destmax : Int) (mode : Nat)
    (s : Emit) (hmode : mode &&& K.noUndefinedDots = 0)
    (hfit : s.dest + (escapeOf K d).length ≤ destmax) :
    undefinedDots K d destmax mode s =
      (true, { s with
        currentOutput := writeRange s.currentOutput s.dest (escapeOf K d).length
          (fun i => (escapeOf K d).getD i 0)
        dest := s.dest + (escapeOf K d).length }) := by
  have hfit' : ¬ (s.dest + ((escapeOf K d).length : Int) > destmax) := by omega
  unfold undefinedDots
  rw [if_neg (by simpa using hmode)]
  simp only [undefinedDotsBuffer_eq]
  rw [if_neg hfit']

theorem noAdmissibleRule_nil (K : Internal) (table : TranslationTableHeader)
    (src srcmax dest : Int) (mode : Nat) (currentInput currentOutput : WBuf)
    (itsANumber itsALetter : Int) (previousOpcode : TranslationTableOpcode)
    (beforeAttributes : Nat) (vars : PassVariables) (length : Int) :
    NoAdmissibleRule K table src srcmax dest mode currentInput currentOutput itsANumber
      itsALetter previousOpcode beforeAttributes vars length [] := by
  intro dm mr er
  exact ⟨(dm, mr, er), rfl⟩

/-- With nothing pending and no winner in either chain, `back_selectRule`
returns the pseudo-rule. -/
theorem back_selectRule_fallback (K : Internal) (table : TranslationTableHeader)
    (src srcmax dest : Int) (mode : Nat) (currentInput currentOutput : WBuf)
    (itsANumber itsALetter : Int) (previousOpcode : TranslationTableOpcode)
    (multindRule : TranslationTableRule) (beforeAttributes : Nat) (vars : PassVariables)
    (endReplace : Int)
    (h0 : NoAdmissibleRule K table src srcmax dest mode currentInput currentOutput itsANumber
      itsALetter previousOpcode beforeAttributes vars (srcmax - src)
      (twoSymbolBucket K table currentInput src))
    (h1 : NoAdmissibleRule K table src srcmax dest mode currentInput currentOutput itsANumber
      itsALetter previousOpcode beforeAttributes vars 1
      (back_findCharOrDots K (currentInput src) 1 table).otherRules) :
    ∃ dm mr er,
      back_selectRule K table src srcmax dest mode currentInput currentOutput itsANumber
        itsALetter previousOpcode 0 multindRule beforeAttributes vars endReplace =
      { currentDotslen := 1, currentOpcode := CTO_None,
        currentRule := pseudoRule currentInput src, doingMultind := dm, multindRule := mr,
        pm := staleMatch K er } := by
  have hnil := noAdmissibleRule_nil K table src srcmax dest mode currentInput currentOutput
    itsANumber itsALetter previousOpcode beforeAttributes vars
  unfold back_selectRule
  simp only [handleMultind, if_true]
  have hw0 : ∃ x, back_selectRuleChain K table src srcmax dest mode currentInput currentOutput
      itsANumber itsALetter previousOpcode beforeAttributes vars (srcmax - src)
      (if srcmax - src < 2 ∨ (itsANumber ≠ 0 ∧
          hasAttr (back_findCharOrDots K (currentInput src) 1 table).attributes K.CTC_LitDigit)
        then []
        else table.backRules
          ((((back_findCharOrDots K (currentInput src) 1 table).realchar <<< 8) +
            (back_findCharOrDots K (currentInput (src + 1)) 1 table).realchar) % K.HASHNUM))
      0 multindRule endReplace = .inr x := by
    split_ifs
    · exact hnil _ _ _ _
    · exact h0 _ _ _
  obtain ⟨⟨dm1, mr1, er1⟩, hx0⟩ := hw0
  rw [hx0]
  have hw1 : ∃ x, back_selectRuleChain K table src srcmax dest mode currentInput currentOutput
      itsANumber itsALetter previousOpcode beforeAttributes vars
      (if srcmax - src ≥ 1 then 1 else srcmax - src)
      (if srcmax - src ≥ 1 then (back_findCharOrDots K (currentInput src) 1 table).otherRules
        else [])
      dm1 mr1 er1 = .inr x := by
    split_ifs
    · exact h1 _ _ _
    · exact hnil _ _ _ _
  obtain ⟨⟨dm2, mr2, er2⟩, hx1⟩ := hw1
  simp only [hx1]
  exact ⟨dm2, mr2, er2, rfl⟩

theorem endOfTurn_src_e (K : Internal) (env : PassEnv) (currentOpcode : TranslationTableOpcode)
    (b : BackState) :
    (endOfTurn K env currentOpcode b).src = b.src ∧ (endOfTurn K env currentOpcode b).e = b.e := by
  unfold endOfTurn
  dsimp only
  split_ifs <;> exact ⟨rfl, rfl⟩

theorem passSelectRule_none (K : Internal) (env : PassEnv) (src : Int) (vars : PassVariables)
    (endReplace : Int)
    (h : (findBackPassRule K env.table src env.srcmax env.currentPass env.currentInput vars
      (env.table.backPassRules env.currentPass) endReplace).1 = none) :
    ∃ er, passSelectRule K env src vars endReplace = (CTO_Always, none, er) := by
  unfold passSelectRule
  generalize findBackPassRule K env.table src env.srcmax env.currentPass env.currentInput vars
      (env.table.backPassRules env.currentPass) endReplace = r at h ⊢
  obtain ⟨r1, r2⟩ := r
  simp only at h
  subst h
  exact ⟨r2, rfl⟩

/-- C5 (amended). With no multi-indicator expansion pending and no winner in
the two-symbol bucket chain nor in the chain of the current symbol,
`back_selectRule` returns the pseudo-rule: opcode `CTO_None`, match length 1,
`charslen` 0, holding the current symbol. If moreover the escape fits (or is
suppressed by `noUndefinedDots`) and no rule of `backPassRules[currentPass]`
passes its test after the replacement, the loop turn ends normally with
`src` increased by exactly 1 and with the emitter variables exactly as
`undefinedDots` leaves them: in default mode the escape is stored at the old
`dest` and `dest` grows by its length, in suppressed mode nothing changes. -/
theorem fallback_turn (K : Internal) (env : PassEnv) (fuel : Nat) (b : BackState)
    (hm : b.doingMultind = 0)
    (h0 : NoAdmissibleRule K env.table b.src env.srcmax b.e.dest env.mode env.currentInput
      b.e.currentOutput b.itsANumber b.itsALetter b.previousOpcode
      (back_setBefore K env.table b.e.dest b.e.currentOutput) b.st.passVariables
      (env.srcmax - b.src) (twoSymbolBucket K env.table env.currentInput b.src))
    (h1 : NoAdmissibleRule K env.table b.src env.srcmax b.e.dest env.mode env.currentInput
      b.e.currentOutput b.itsANumber b.itsALetter b.previousOpcode
      (back_setBefore K env.table b.e.dest b.e.currentOutput) b.st.passVariables 1
      (back_findCharOrDots K (env.currentInput b.src) 1 env.table).otherRules)
    (hfit : env.mode &&& K.noUndefinedDots ≠ 0 ∨
      b.e.dest + (escapeOf K (env.currentInput b.src)).length ≤ env.destmax)
    (hpass : ∀ er, (findBackPassRule K env.table (b.src + 1) env.srcmax env.currentPass
      env.currentInput b.st.passVariables (env.table.backPassRules env.currentPass) er).1
        = none) :
    ((back_selectRule K env.table b.src env.srcmax b.e.dest env.mode env.currentInput
        b.e.currentOutput b.itsANumber b.itsALetter b.previousOpcode b.doingMultind
        b.multindRule (back_setBefore K env.table b.e.dest b.e.currentOutput)
        b.st.passVariables K.indeterminate).currentRule = pseudoRule env.currentInput b.src ∧
      (back_selectRule K env.table b.src env.srcmax b.e.dest env.mode env.currentInput
        b.e.currentOutput b.itsANumber b.itsALetter b.previousOpcode b.doingMultind
        b.multindRule (back_setBefore K env.table b.e.dest b.e.currentOutput)
        b.st.passVariables K.indeterminate).currentDotslen = 1 ∧
      (pseudoRule env.currentInput b.src).charslen = 0 ∧
      (pseudoRule env.currentInput b.src).dotslen = 1 ∧
      (pseudoRule env.currentInput b.src).charsdots 0 = env.currentInput b.src) ∧
    ∃ b',
      backTranslateTurn K env fuel b = some (Flow.next, b') ∧
      b'.src = b.src + 1 ∧
      (env.mode &&& K.noUndefinedDots = 0 →
        b'.e = { b.e with
          currentOutput := writeRange b.e.currentOutput b.e.dest
            (escapeOf K (env.currentInput b.src)).length
            (fun i => (escapeOf K (env.currentInput b.src)).getD i 0)
          dest := b.e.dest + (escapeOf K (env.currentInput b.src)).length }) ∧
      (env.mode &&& K.noUndefinedDots ≠ 0 → b'.e = b.e) := by
  obtain ⟨dm, mr, er, hsel⟩ := back_selectRule_fallback K env.table b.src env.srcmax b.e.dest
    env.mode env.currentInput b.e.currentOutput b.itsANumber b.itsALetter b.previousOpcode
    b.multindRule (back_setBefore K env.table b.e.dest b.e.currentOutput) b.st.passVariables
    K.indeterminate h0 h1
  rw [hm]
  refine ⟨⟨by rw [hsel], by rw [hsel], rfl, rfl, rfl⟩, ?_⟩
  have hud : ∃ e1, undefinedDots K (env.currentInput b.src) env.destmax env.mode b.e = (true, e1) ∧
      (env.mode &&& K.noUndefinedDots = 0 →
        e1 = { b.e with
          currentOutput := writeRange b.e.currentOutput b.e.dest
            (escapeOf K (env.currentInput b.src)).length
            (fun i => (escapeOf K (env.currentInput b.src)).getD i 0)
          dest := b.e.dest + (escapeOf K (env.currentInput b.src)).length }) ∧
      (env.mode &&& K.noUndefinedDots ≠ 0 → e1 = b.e) := by
    by_cases hmode : env.mode &&& K.noUndefinedDots = 0
    · have hf : b.e.dest + (escapeOf K (env.currentInput b.src)).length ≤ env.destmax := by
        rcases hfit with h | h
        · exact absurd hmode h
        · exact h
      exact ⟨_, undefinedDots_fits K _ _ _ _ hmode hf, fun _ => rfl, fun h => absurd hmode h⟩
    · refine ⟨b.e, ?_, fun h => absurd h hmode, fun _ => rfl⟩
      unfold undefinedDots
      rw [if_pos hmode]
  obtain ⟨e1, hrun, hdef, hsup⟩ := hud
  obtain ⟨er', hps⟩ := passSelectRule_none K env (b.src + 1) b.st.passVariables er (hpass er)
  have hturn : ∃ b', backTranslateTurn K env fuel b = some (Flow.next, b') ∧
      b'.src = b.src + 1 ∧ b'.e = e1 := by
    unfold backTranslateTurn
    simp only [hm, hsel, beforeReplacement, replacement, hrun, if_true, afterReplacement,
      staleMatch, hps]
    exact ⟨_, rfl, (endOfTurn_src_e K env _ _).1, (endOfTurn_src_e K env _ _).2⟩
  obtain ⟨b', hb1, hb2, hb3⟩ := hturn
  exact ⟨b', hb1, hb2, fun h => by rw [hb3]; exact hdef h, fun h => by rw [hb3]; exact hsup h⟩

/-- Witness for C5 (amended): the empty table, one undefined cell, capacity
10: the turn emits the four symbols of the escape and ends with `src = 1`. -/
theorem fallback_turn_witness :
    sampleStart.doingMultind = 0 ∧
    ∃ b',
      backTranslateTurn sampleInternal (sampleEnv emptyTable) 10 sampleStart
        = some (Flow.next, b') ∧
      b'.src = sampleStart.src + 1 ∧
      ((sampleEnv emptyTable).mode &&& sampleInternal.noUndefinedDots = 0 →
        b'.e = { sampleStart.e with
          currentOutput := writeRange sampleStart.e.currentOutput sampleStart.e.dest
            (escapeOf sampleInternal ((sampleEnv emptyTable).currentInput sampleStart.src)).length
            (fun i =>
              (escapeOf sampleInternal
                ((sampleEnv emptyTable).currentInput sampleStart.src)).getD i 0)
          dest := sampleStart.e.dest +
            (escapeOf sampleInternal
              ((sampleEnv emptyTable).currentInput sampleStart.src)).length }) ∧
      ((sampleEnv emptyTable).mode &&& sampleInternal.noUndefinedDots ≠ 0 →
        b'.e = sampleStart.e) :=
  ⟨rfl,
    (fallback_turn sampleInternal (sampleEnv emptyTable) 10 sampleStart rfl
      (noAdmissibleRule_nil _ _ _ _ _ _ _ _ _ _ _ _ _ _)
      (noAdmissibleRule_nil _ _ _ _ _ _ _ _ _ _ _ _ _ _)
      (Or.inr (by decide))
      (fun _ => rfl)).2⟩

/-- Counterexample to C5 as stated: in `lookbackTable` nothing is pending,
both chains are empty, `back_selectRule` returns the pseudo-rule and the
escape (4 symbols) fits in the capacity 10; yet the loop turn that handles
it ends with `src = 0`, not `src = 1`, because the context rule of
`backPassRules[1]` is applied after the replacement. -/
theorem fallback_turn_counterexample :
    sampleStart.doingMultind = 0 ∧
    twoSymbolBucket sampleInternal lookbackTable (sampleEnv lookbackTable).currentInput 0 = [] ∧
    (back_findCharOrDots sampleInternal ((sampleEnv lookbackTable).currentInput 0) 1
      lookbackTable).otherRules = [] ∧
    (back_selectRule sampleInternal lookbackTable 0 1 0 0 (sampleEnv lookbackTable).currentInput
      blankEmit.currentOutput 0 0 CTO_None 0 zeroRule
      (back_setBefore sampleInternal lookbackTable 0 blankEmit.currentOutput)
      freshStatics.passVariables 0).currentOpcode = CTO_None ∧
    sampleStart.e.dest + (escapeOf sampleInternal 0x8003).length ≤ 10 ∧
    (backTranslateTurn sampleInternal (sampleEnv lookbackTable) 10 sampleStart).map
      (fun r => (r.2.src, r.2.e.dest)) = some (0, 4) :=
  ⟨rfl, rfl, rfl, rfl, by decide, by decide⟩

/-! ### What a failed capacity check does to the result of the call -/

theorem makeCorrections_result (K : Internal) (env : PassEnv) (fuel : Nat) (src : Int)
    (e : Emit) (st : Statics) (applied : List TranslationTableRule) (r : PassResult)
    (h : makeCorrections K env fuel src e st applied = some r) : r.result = 1 := by
  unfold makeCorrections at h
  split_ifs at h
  · cases h; rfl
  · split at h
    · cases h
    · cases h; rfl

theorem translatePass_result (K : Internal) (env : PassEnv) (fuel : Nat) (e : Emit)
    (st : Statics) (applied : List TranslationTableRule) (r : PassResult)
    (h : translatePass K env fuel e st applied = some r) : r.result = 1 := by
  unfold translatePass at h
  split at h
  · cases h
  · cases h; rfl

theorem beforeReplacement_flow (K : Internal) (env : PassEnv) (sel : Selected) (b : BackState) :
    (beforeReplacement K env sel b).1 ≠ Flow.abort := by
  unfold beforeReplacement
  dsimp only
  repeat' split
  all_goals simp

theorem insertChars_flow (K : Internal) (env : PassEnv) (fuel : Nat) (sel : Selected)
    (b : BackState) (r : Flow × BackState) (h : insertChars K env fuel sel b = some r) :
    r.1 ≠ Flow.abort := by
  unfold insertChars at h
  by_cases hc : sel.currentRule.charslen ≠ 0
  · rw [if_pos hc] at h
    dsimp only at h
    split_ifs at h <;> (cases h; simp)
  · rw [if_neg hc] at h
    split at h
    · cases h
    · cases h
      dsimp only
      split_ifs <;> simp

theorem afterReplacement_flow (K : Internal) (env : PassEnv) (sel : Selected) (endReplace : Int)
    (b : BackState) : (afterReplacement K env sel endReplace b).1 ≠ Flow.abort := by
  unfold afterReplacement
  dsimp only
  repeat' split
  all_goals simp

theorem insertChars_withEnd_flow (K : Internal) (env : PassEnv) (fuel : Nat) (sel : Selected)
    (b : BackState) (er : Int) (x : Flow × BackState × Int)
    (h : (insertChars K env fuel sel b).map (fun x => (x.1, x.2, er)) = some x) :
    x.1 ≠ Flow.abort := by
  cases hi : insertChars K env fuel sel b with
  | none => rw [hi] at h; cases h
  | some r =>
    rw [hi] at h
    cases h
    exact insertChars_flow K env fuel sel b r hi

/-- The replacement `switch` leaves by `return 0` only in the case
`CTO_Context`, when `back_passDoAction` fails. -/
theorem replacement_abort (K : Internal) (env : PassEnv) (fuel : Nat) (sel : Selected)
    (b b' : BackState) (er : Int)
    (h : replacement K env fuel sel b = some (Flow.abort, b', er)) :
    sel.currentOpcode = CTO_Context ∧
    (back_passDoAction K env.table b.src env.srcmax env.destmax env.mode env.currentInput
      b.allUpper b.allUpperPhrase CTO_Context sel.currentRule sel.pm b.st.passVariables b.e).1
        = false := by
  unfold replacement at h
  dsimp only at h
  split at h
  · rename_i hop
    refine ⟨hop, ?_⟩
    by_contra hne
    rw [if_pos (by simpa using hne)] at h
    cases h
  · split_ifs at h <;> cases h
  · split_ifs at h <;> cases h
  · exact absurd rfl (insertChars_withEnd_flow K env fuel sel _ _ _ h)
  · exact absurd rfl (insertChars_withEnd_flow K env fuel sel _ _ _ h)
  · exact absurd rfl (insertChars_withEnd_flow K env fuel sel _ _ _ h)
  · exact absurd rfl (insertChars_withEnd_flow K env fuel sel _ _ _ h)

/-- The first `switch` lets a context rule through to the second. -/
theorem beforeReplacement_context (K : Internal) (env : PassEnv) (sel : Selected)
    (b : BackState) (hop : sel.currentOpcode = CTO_Context) :
    beforeReplacement K env sel b = (Flow.go, b) := by
  unfold beforeReplacement
  rw [hop]

/-- A loop turn of the primary pass leaves by `return 0` exactly when the
rule selected by `back_selectRule` is a context rule whose action fails. -/
theorem backTranslateTurn_abort (K : Internal) (env : PassEnv) (fuel : Nat) (b : BackState) :
    (∃ b', backTranslateTurn K env fuel b = some (Flow.abort, b')) ↔
      ContextActionFails K env b := by
  constructor
  · rintro ⟨b', h⟩
    unfold ContextActionFails selectionOf
    unfold backTranslateTurn at h
    dsimp only at h
    split at h
    · rename_i b1 hb
      split at h
      · cases h
      · rename_i b2 er hr
        split at h
        · cases h
        · rename_i fl b3 op hne ha
          cases h
          exact absurd (congrArg (fun x => x.1) ha) (afterReplacement_flow K env _ _ _)
      · rename_i fl b2 er hne hr
        cases h
        obtain ⟨h1, h2⟩ := replacement_abort K env fuel _ _ _ _ hr
        rw [beforeReplacement_context K env _ _ h1] at hb
        cases hb
        exact ⟨h1, h2⟩
    · rename_i fl b1 hne hb
      cases h
      exact absurd (congrArg (fun x => x.1) hb) (beforeReplacement_flow K env _ _)
  · rintro ⟨h1, h2⟩
    unfold selectionOf at h1 h2
    unfold backTranslateTurn
    dsimp only
    rw [beforeReplacement_context K env _ _ h1]
    dsimp only
    unfold replacement
    dsimp only
    rw [h1]
    dsimp only
    rw [if_neg (by rw [h2]; simp)]
    exact ⟨_, rfl⟩

/-- The main loop is left by `return 0` exactly when one of its turns
selects a context rule whose action fails; a turn that goes to the label
`failure` leaves the result 1. -/
theorem backTranslateLoop_abort (K : Internal) (env : PassEnv) (fuel : Nat) (n : Nat) :
    ∀ (b b1 : BackState) (ok : Bool), backTranslateLoop K env fuel n b = some (ok, b1) →
      (ok = false ↔ ∃ x ∈ backTranslateTurns K env fuel n b, ContextActionFails K env x) := by
  induction n with
  | zero =>
    intro b b1 ok h
    unfold backTranslateLoop at h
    split_ifs at h
    cases h
    unfold backTranslateTurns
    simp
  | succ n ih =>
    intro b b1 ok h
    unfold backTranslateLoop at h
    unfold backTranslateTurns
    split_ifs at h with hlt
    · rw [if_pos hlt]
      split at h
      · cases h
      · rename_i b2 ht
        cases h
        simp only [List.mem_singleton, exists_eq_left, true_iff]
        exact (backTranslateTurn_abort K env fuel b).1 ⟨_, ht⟩
      · rename_i b2 ht
        cases h
        simp only [List.mem_singleton, exists_eq_left, Bool.true_eq_false, false_iff]
        intro hc
        obtain ⟨b', hb'⟩ := (backTranslateTurn_abort K env fuel b).2 hc
        rw [ht] at hb'
        cases hb'
      · rename_i fl b2 hna hnf ht
        have hnot : ¬ ContextActionFails K env b := by
          intro hc
          obtain ⟨b', hb'⟩ := (backTranslateTurn_abort K env fuel b).2 hc
          rw [ht] at hb'
          cases hb'
          exact hna rfl
        rw [ih _ _ _ h]
        constructor
        · rintro ⟨x, hx, hf⟩
          exact ⟨x, List.mem_cons_of_mem _ hx, hf⟩
        · rintro ⟨x, hx, hf⟩
          rcases List.mem_cons.1 hx with hx | hx
          · subst hx
            exact absurd hf hnot
          · exact ⟨x, hx, hf⟩
    · rw [if_neg hlt]
      cases h
      simp

/-- A turn of the main loop that goes to the label `failure` leaves the
loop with the result 1. -/
theorem backTranslateLoop_failure (K : Internal) (env : PassEnv) (fuel : Nat) (n : Nat) :
    ∀ (b b1 : BackState) (ok : Bool), backTranslateLoop K env fuel n b = some (ok, b1) →
      ∀ x ∈ backTranslateTurns K env fuel n b,
        ∀ b', backTranslateTurn K env fuel x = some (Flow.failure, b') → ok = true := by
  induction n with
  | zero =>
    intro b b1 ok h x hx
    unfold backTranslateTurns at hx
    cases hx
  | succ n ih =>
    intro b b1 ok h x hx b' hf
    unfold backTranslateLoop at h
    unfold backTranslateTurns at hx
    split_ifs at h with hlt
    · rw [if_pos hlt] at hx
      split at h
      · cases h
      · rename_i b2 ht
        rw [ht] at hx
        rw [List.mem_singleton.1 hx, ht] at hf
        cases hf
      · cases h
        rfl
      · rename_i fl b2 hna hnf ht
        rw [ht] at hx
        have hl : (match (some (fl, b2) : Option (Flow × BackState)) with
            | none => [b]
            | some (Flow.abort, _) => [b]
            | some (Flow.failure, _) => [b]
            | some (_, b1) => b :: backTranslateTurns K env fuel n b1)
              = b :: backTranslateTurns K env fuel n b2 := by
          cases fl with
          | abort => exact (hna rfl).elim
          | failure => exact (hnf rfl).elim
          | go => rfl
          | next => rfl
        rw [hl] at hx
        rcases List.mem_cons.1 hx with hx | hx
        · rw [hx, ht] at hf
          cases hf
          exact absurd rfl hnf
        · exact ih _ _ _ h x hx b' hf
    · rw [if_neg hlt] at hx
      cases hx

/-- The primary pass returns 1 when a turn of its main loop goes to the
label `failure`. -/
theorem backTranslateString_failure (K : Internal) (env : PassEnv) (fuel : Nat) (e : Emit)
    (st : Statics) (applied : List TranslationTableRule) (multindRule : TranslationTableRule)
    (r : PassResult) (h : backTranslateString K env fuel e st applied multindRule = some r)
    (x : BackState)
    (hx : x ∈ backTranslateTurns K env fuel fuel
      (backTranslateStart K e st applied multindRule))
    (b' : BackState) (hf : backTranslateTurn K env fuel x = some (Flow.failure, b')) :
    r.result = 1 := by
  unfold backTranslateString at h
  split at h
  · cases h
  · cases h
    rfl
  · rename_i b1 hl
    exact absurd (backTranslateLoop_failure K env fuel fuel _ _ _ hl x hx b' hf) (by simp)

/-- The primary pass returns 0 or 1, and 0 exactly when one of the turns of
its main loop selects a context rule whose action fails. -/
theorem backTranslateString_result (K : Internal) (env : PassEnv) (fuel : Nat) (e : Emit)
    (st : Statics) (applied : List TranslationTableRule) (multindRule : TranslationTableRule)
    (r : PassResult) (h : backTranslateString K env fuel e st applied multindRule = some r) :
    (r.result = 1 ∨ r.result = 0) ∧
    (r.result = 0 ↔
      ∃ b ∈ backTranslateTurns K env fuel fuel (backTranslateStart K e st applied multindRule),
        ContextActionFails K env b) := by
  unfold backTranslateString at h
  split at h
  · cases h
  · rename_i b1 hl
    cases h
    refine ⟨Or.inl rfl, ?_⟩
    have := backTranslateLoop_abort K env fuel fuel _ _ _ hl
    constructor
    · intro hc
      exact absurd hc (by unfold backTranslateEnd; simp)
    · intro hx
      exact absurd (this.2 hx) (by simp)
  · rename_i b1 hl
    cases h
    refine ⟨Or.inr rfl, ?_⟩
    have := backTranslateLoop_abort K env fuel fuel _ _ _ hl
    exact ⟨fun _ => this.1 rfl, fun _ => rfl⟩

/-- A pass returns 0 or 1, and 0 exactly when it is the primary pass and one
of the turns of its main loop selects a context rule whose action fails. -/
theorem runPass_result (K : Internal) (env : PassEnv) (fuel : Nat) (src : Int) (e : Emit)
    (st : Statics) (applied : List TranslationTableRule) (multindRule : TranslationTableRule)
    (r : PassResult) (h : runPass K env fuel src e st applied multindRule = some r) :
    (r.result = 1 ∨ r.result = 0) ∧
    (r.result = 0 ↔
      env.currentPass = 1 ∧
      ∃ b ∈ backTranslateTurns K env fuel fuel (backTranslateStart K e st applied multindRule),
        ContextActionFails K env b) := by
  unfold runPass at h
  split_ifs at h with h1 h0
  · obtain ⟨h2, h3⟩ := backTranslateString_result K env fuel e st applied multindRule r h
    exact ⟨h2, ⟨fun hz => ⟨h1, h3.1 hz⟩, fun hx => h3.2 hx.2⟩⟩
  · have h2 := makeCorrections_result K env fuel src e st applied r h
    refine ⟨Or.inl h2, ⟨fun hz => ?_, fun hx => absurd hx.1 h1⟩⟩
    rw [h2] at hz
    cases hz
  · have h2 := translatePass_result K env fuel e st applied r h
    refine ⟨Or.inl h2, ⟨fun hz => ?_, fun hx => absurd hx.1 h1⟩⟩
    rw [h2] at hz
    cases hz

/-- The loop of `doPasses` returns 0 or 1, and 0 exactly when one of the
passes it runs is the primary pass and one of the turns of the main loop of
that pass selects a context rule whose action fails. -/
theorem doPassesLoop_result (K : Internal) (table : TranslationTableHeader) (destmax : Int)
    (mode : Nat) (traced : Bool) (maxAppliedRules : Int) (multindRule : TranslationTableRule)
    (lastPass : Int) (fuel : Nat) (n : Nat) :
    ∀ (currentPass : Int) (d : PipelineState) (g : Int) (d1 : PipelineState),
      doPassesLoop K table destmax mode traced maxAppliedRules multindRule lastPass fuel n
        currentPass d = some (g, d1) →
      (g = 1 ∨ g = 0) ∧
      (g = 0 ↔
        ∃ x ∈ doPassesEntries K table destmax mode traced maxAppliedRules multindRule lastPass
            fuel n currentPass d,
          x.env.currentPass = 1 ∧
          ∃ b ∈ backTranslateTurns K x.env fuel fuel
              (backTranslateStart K x.e x.st x.applied multindRule),
            ContextActionFails K x.env b) := by
  induction n with
  | zero =>
    intro currentPass d g d1 h
    cases h
  | succ n ih =>
    intro currentPass d g d1 h
    unfold doPassesLoop at h
    unfold doPassesEntries
    dsimp only at h ⊢
    split at h
    · cases h
    · rename_i r hr
      obtain ⟨h2, h3⟩ := runPass_result K _ fuel _ _ _ _ _ r hr
      split_ifs at h with h0 h1
      · cases h
        rw [if_pos h0]
        refine ⟨Or.inr rfl, ⟨fun _ => ⟨_, List.mem_singleton.2 rfl, h3.1 h0⟩, fun _ => rfl⟩⟩
      · cases h
        rw [if_neg h0, if_pos h1]
        refine ⟨Or.inl rfl, ⟨fun hc => (by cases hc), ?_⟩⟩
        rintro ⟨x, hx, hf⟩
        rw [List.mem_singleton.1 hx] at hf
        exact absurd (h3.2 hf) h0
      · rw [if_neg h0, if_neg h1]
        obtain ⟨h4, h5⟩ := ih _ _ _ _ h
        refine ⟨h4, ?_⟩
        rw [h5]
        constructor
        · rintro ⟨x, hx, hf⟩
          exact ⟨x, List.mem_cons_of_mem _ hx, hf⟩
        · rintro ⟨x, hx, hf⟩
          rcases List.mem_cons.1 hx with hx | hx
          · rw [hx] at hf
            exact absurd (h3.2 hf) h0
          · exact ⟨x, hx, hf⟩

theorem prepareCall_early_result (K : Internal) (c : Call) (st : Statics) (r : CallResult)
    (h : prepareCall K c st = .inl r) : r.result = 0 := by
  unfold prepareCall at h
  split at h
  · split at h
    · cases h; rfl
    · split at h
      · cases h; rfl
      · split at h
        · cases h; rfl
        · split_ifs at h
          cases h; rfl
  · cases h; rfl

/-- C2 (amended). A call that returns gives 1 or 0, and it gives 0 in
exactly two ways: by an early return before `doPasses`, or because the
primary pass that `doPasses` runs for this call was left by `return 0`, that
is, one of the turns of its main loop selected a rule with opcode
`CTO_Context` whose `back_passDoAction` failed. Every other failed capacity
check (in `undefinedDots`, `back_updatePositions`, `putCharacters`,
`insertSpace`, in `makeCorrections` or in `translatePass`) ends the pass at
its label `failure`, and the pass returns 1: `makeCorrections` and
`translatePass` return 1 whenever they return, and `backTranslateString`
returns 0 exactly when one of the turns of its own main loop selected a
context rule whose action failed, and 1 otherwise, in particular when a turn
went to the label `failure`. -/
theorem capacity_failure_result (K : Internal) (c : Call) (st : Statics)
    (multindRule : TranslationTableRule) (fuel : Nat) (res : CallResult)
    (h : _lou_backTranslateWithTracing K c st multindRule fuel = some res) :
    (res.result = 1 ∨ res.result = 0) ∧
    (res.result = 0 ↔
      (prepareCall K c st = .inl res ∨
        ∃ p, prepareCall K c st = .inr p ∧ PrimaryPassAborts K c p multindRule fuel)) ∧
    (∀ env src e st1 applied r,
      makeCorrections K env fuel src e st1 applied = some r → r.result = 1) ∧
    (∀ env e st1 applied r, translatePass K env fuel e st1 applied = some r → r.result = 1) ∧
    (∀ env e st1 applied mr r,
      backTranslateString K env fuel e st1 applied mr = some r →
      (r.result = 1 ∨ r.result = 0) ∧
      (r.result = 0 ↔
        ∃ b ∈ backTranslateTurns K env fuel fuel (backTranslateStart K e st1 applied mr),
          ContextActionFails K env b) ∧
      ((∃ b ∈ backTranslateTurns K env fuel fuel (backTranslateStart K e st1 applied mr),
          ∃ b', backTranslateTurn K env fuel b = some (Flow.failure, b')) →
        r.result = 1)) := by
  refine ⟨?_, ?_, fun env src e st1 applied r hr => makeCorrections_result K env fuel src e st1
    applied r hr, fun env e st1 applied r hr => translatePass_result K env fuel e st1 applied r
    hr, fun env e st1 applied mr r hr => ?_⟩
  · unfold _lou_backTranslateWithTracing at h
    split at h
    · rename_i r hp
      cases h
      exact Or.inr (prepareCall_early_result K c st _ hp)
    · rename_i p hp
      split at h
      · cases h
      · rename_i g d1 hd
        cases h
        unfold doPasses at hd
        exact (doPassesLoop_result K _ _ _ _ _ _ _ _ _ _ _ _ _ hd).1
  · unfold _lou_backTranslateWithTracing at h
    split at h
    · rename_i r hp
      cases h
      exact ⟨fun _ => Or.inl hp, fun _ => prepareCall_early_result K c st _ hp⟩
    · rename_i p hp
      split at h
      · cases h
      · rename_i g d1 hd
        cases h
        unfold doPasses at hd
        have hk := (doPassesLoop_result K _ _ _ _ _ _ _ _ _ _ _ _ _ hd).2
        constructor
        · intro hz
          exact Or.inr ⟨p, hp, hk.1 hz⟩
        · rintro (hq | ⟨q, hq, hf⟩)
          · rw [hp] at hq
            cases hq
          · rw [hp] at hq
            cases hq
            exact hk.2 hf
  · obtain ⟨h1, h2⟩ := backTranslateString_result K env fuel e st1 applied mr r hr
    refine ⟨h1, h2, ?_⟩
    rintro ⟨b, hb, b', ht⟩
    exact backTranslateString_failure K env fuel e st1 applied mr r hr b hb b' ht

/-- Witness for C2 (amended), one call for each result. `sampleSmallCall` (one
undefined cell, capacity 3) returns `sampleSmallResult`, whose result is 1:
the call returns neither early nor from a context rule. `abortCall` with
`abortTable` (capacity 2, a context rule whose action emits three symbols)
returns `abortResult`, whose result is 0: the primary pass of the call is
left from the turn that selects the context rule. -/
theorem capacity_failure_result_witness :
    (_lou_backTranslateWithTracing sampleInternal sampleSmallCall freshStatics zeroRule 10
        = some sampleSmallResult ∧
      sampleSmallResult.result = 1 ∧
      (sampleSmallResult.result = 0 ↔
        (prepareCall sampleInternal sampleSmallCall freshStatics = .inl sampleSmallResult ∨
          ∃ p, prepareCall sampleInternal sampleSmallCall freshStatics = .inr p ∧
            PrimaryPassAborts sampleInternal sampleSmallCall p zeroRule 10))) ∧
    (_lou_backTranslateWithTracing (sampleInternalFor abortTable) abortCall freshStatics
        zeroRule 10 = some abortResult ∧
      abortResult.result = 0 ∧
      (prepareCall (sampleInternalFor abortTable) abortCall freshStatics = .inl abortResult ∨
        ∃ p, prepareCall (sampleInternalFor abortTable) abortCall freshStatics = .inr p ∧
          PrimaryPassAborts (sampleInternalFor abortTable) abortCall p zeroRule 10)) :=
  ⟨⟨rfl, by decide,
      (capacity_failure_result sampleInternal sampleSmallCall freshStatics zeroRule 10
        sampleSmallResult rfl).2.1⟩,
    ⟨rfl, by decide,
      (capacity_failure_result (sampleInternalFor abortTable) abortCall freshStatics zeroRule 10
        abortResult rfl).2.1.1 (by decide)⟩⟩

/-- Counterexample to C2 as stated: one undefined cell and capacity 3. The
escape needs 4 symbols, so `undefinedDots` fails its capacity check in the
primary pass; the call returns 1, with nothing produced. -/
theorem capacity_failure_counterexample :
    (undefinedDots sampleInternal 0x8003 3 4 blankEmit).1 = false ∧
    (_lou_backTranslateWithTracing sampleInternal sampleSmallCall freshStatics zeroRule 10).map
      (fun res => (res.result, res.outlen)) = some (1, some 0) :=
  ⟨by decide, by decide⟩

/-! ### Position arrays and undefined dot patterns -/

/-- C7 (the code at the failing input). `sampleCall`: two cells without a
definition in the table, capacity 10, both position arrays requested, every
entry of `inputPos` holding 77 before the call. The call succeeds, consumes
both cells and produces 7 symbols (the escapes `\12/` and `\1/`); `outputPos[0..1]` get
the backfill value 0, but no entry of `inputPos[0..6]` is written: each still
holds 77, which is not an index of the consumed input `[0, 2)`. -/
theorem positions_unset_for_undefined_dots :
    (_lou_backTranslateWithTracing sampleInternal sampleCall freshStatics zeroRule 10).map
      (fun res =>
        (res.result, res.inlen, res.outlen,
          res.outbuf.map (fun b => (List.range 7).map (fun j => b j)),
          res.outputPos.map (fun a => (List.range 2).map (fun k => a k)),
          res.inputPos.map (fun a => (List.range 7).map (fun j => a j)))) =
      some (1, some 2, some 7, some [92, 49, 50, 47, 92, 49, 47],
        some [0, 0], some [77, 77, 77, 77, 77, 77, 77]) := by
  rfl

/-! ### Progress of the primary pass -/

theorem beforeReplacement_src (K : Internal) (env : PassEnv) (sel : Selected) (b : BackState)
    (fl : Flow) (b1 : BackState) (h : beforeReplacement K env sel b = (fl, b1)) :
    (fl = Flow.next → b1.src = b.src + sel.currentDotslen) ∧
    (fl = Flow.go → b1.src = b.src) ∧ b1.st = b.st := by
  have key : ((beforeReplacement K env sel b).1 = Flow.next →
        (beforeReplacement K env sel b).2.src = b.src + sel.currentDotslen) ∧
      ((beforeReplacement K env sel b).1 = Flow.go →
        (beforeReplacement K env sel b).2.src = b.src) ∧
      (beforeReplacement K env sel b).2.st = b.st := by
    unfold beforeReplacement
    dsimp only
    repeat' split
    all_goals simp
  rw [h] at key
  exact key

theorem insertCharsLoop_src (K : Internal) (env : PassEnv) (allUpper allUpperPhrase : Int)
    (srclim : Int) (n : Nat) :
    ∀ (src : Int) (s : Emit) (src1 : Int) (e1 : Emit),
      insertCharsLoop K env allUpper allUpperPhrase srclim n src s = some (true, src1, e1) →
      src1 = srclim ∧ src < src1 := by
  induction n with
  | zero =>
    intro src s src1 e1 h
    cases h
  | succ n ih =>
    intro src s src1 e1 h
    unfold insertCharsLoop at h
    dsimp only at h
    split_ifs at h with h1 h2
    · cases h
      exact ⟨h2, by omega⟩
    · obtain ⟨h3, h4⟩ := ih _ _ _ _ h
      exact ⟨h3, by omega⟩
    · cases h

theorem insertChars_src (K : Internal) (env : PassEnv) (fuel : Nat) (sel : Selected)
    (b : BackState) (fl : Flow) (b2 : BackState)
    (h : insertChars K env fuel sel b = some (fl, b2)) :
    fl ≠ Flow.next ∧ (fl = Flow.go → 1 ≤ sel.currentDotslen → b.src + 1 ≤ b2.src) ∧
    b2.st = b.st := by
  unfold insertChars at h
  by_cases hc : sel.currentRule.charslen ≠ 0
  · rw [if_pos hc] at h
    dsimp only at h
    split_ifs at h
    · cases h
      exact ⟨by simp, fun _ hlen => by dsimp only; omega, rfl⟩
    · cases h
      exact ⟨by simp, fun hgo => absurd hgo (by decide), rfl⟩
  · rw [if_neg hc] at h
    split at h
    · cases h
    · rename_i ok src1 e1 hl
      cases ok with
      | false =>
        simp only [Bool.false_eq_true, if_false, Option.some.injEq, Prod.mk.injEq] at h
        obtain ⟨h1, h2⟩ := h
        subst h1 h2
        exact ⟨by simp, fun hgo => absurd hgo (by decide), rfl⟩
      | true =>
        simp only [if_true, Option.some.injEq, Prod.mk.injEq] at h
        obtain ⟨h1, h2⟩ := h
        subst h1 h2
        exact ⟨by simp, fun _ _ => by
          have := (insertCharsLoop_src K env _ _ _ _ _ _ _ _ hl).2
          dsimp only
          omega, rfl⟩

theorem insertChars_withEnd_src (K : Internal) (env : PassEnv) (fuel : Nat) (sel : Selected)
    (b : BackState) (fl : Flow) (b2 : BackState) (er er2 : Int)
    (h : (insertChars K env fuel sel b).map (fun x => (x.1, x.2, er)) = some (fl, b2, er2)) :
    fl ≠ Flow.next ∧ (fl = Flow.go → 1 ≤ sel.currentDotslen → b.src + 1 ≤ b2.src) ∧
    b2.st = b.st := by
  cases hi : insertChars K env fuel sel b with
  | none => rw [hi] at h; cases h
  | some r =>
    rw [hi] at h
    obtain ⟨fl', b3⟩ := r
    simp only [Option.map_some', Option.some.injEq, Prod.mk.injEq] at h
    obtain ⟨h1, h2, -⟩ := h
    subst h1 h2
    exact insertChars_src K env fuel sel b _ _ hi

/-- The second `switch` moves `src` forward when it goes on: by the match
length for a rule that is no context rule, to the `endReplace` of the action
for a context rule. -/
theorem replacement_src (K : Internal) (env : PassEnv) (fuel : Nat) (sel : Selected)
    (b : BackState) (fl : Flow) (b2 : BackState) (er : Int)
    (h : replacement K env fuel sel b = some (fl, b2, er)) :
    fl ≠ Flow.next ∧
    (fl = Flow.go → (sel.currentOpcode ≠ CTO_Context → 1 ≤ sel.currentDotslen) →
      (sel.currentOpcode = CTO_Context →
        ActionAdvances K env sel.currentRule b.src sel.pm b.st.passVariables) →
      b.src + 1 ≤ b2.src) := by
  unfold replacement at h
  dsimp only at h
  split at h
  · rename_i hop
    split_ifs at h with hok
    · cases h
      refine ⟨by simp, fun _ _ hctx => ?_⟩
      have := hctx hop b.allUpper b.allUpperPhrase b.e hok
      dsimp only
      omega
    · cases h
      exact ⟨by simp, fun hgo => by cases hgo⟩
  · rename_i hop
    have hne : sel.currentOpcode ≠ CTO_Context := by
      rw [hop]
      intro hc
      cases hc
    split_ifs at h
    · cases h
      exact ⟨by simp, fun _ hlen _ => by have := hlen hne; dsimp only; omega⟩
    · cases h
      exact ⟨by simp, fun hgo => by cases hgo⟩
  · split_ifs at h
    · cases h
      exact ⟨by simp, fun _ _ _ => by dsimp only; omega⟩
    · cases h
      exact ⟨by simp, fun hgo => by cases hgo⟩
  · rename_i hop
    have hne : sel.currentOpcode ≠ CTO_Context := by
      rw [hop]
      intro hc
      cases hc
    have := insertChars_withEnd_src K env fuel sel _ _ _ _ _ h
    exact ⟨this.1, fun hgo hlen _ => this.2.1 hgo (hlen hne)⟩
  · rename_i hop
    have hne : sel.currentOpcode ≠ CTO_Context := by
      rw [hop]
      intro hc
      cases hc
    have := insertChars_withEnd_src K env fuel sel _ _ _ _ _ h
    exact ⟨this.1, fun hgo hlen _ => this.2.1 hgo (hlen hne)⟩
  · rename_i hop
    have hne : sel.currentOpcode ≠ CTO_Context := by
      rw [hop]
      intro hc
      cases hc
    have := insertChars_withEnd_src K env fuel sel _ _ _ _ _ h
    exact ⟨this.1, fun hgo hlen _ => this.2.1 hgo (hlen hne)⟩
  · rename_i hne _ _ _ _ _
    have := insertChars_withEnd_src K env fuel sel _ _ _ _ _ h
    exact ⟨this.1, fun hgo hlen _ => this.2.1 hgo (hlen (fun hc => hne hc))⟩

/-- A rule found by `findBackPassRule` is a rule of the chain, and its match
variables are those of its own test, which held. -/
theorem findBackPassRule_found (K : Internal) (table : TranslationTableHeader)
    (src srcmax currentPass : Int) (currentInput : WBuf) (vars : PassVariables)
    (chain : List TranslationTableRule) :
    ∀ (er : Int) (rule : TranslationTableRule) (pm : PassMatch) (er1 : Int),
      findBackPassRule K table src srcmax currentPass currentInput vars chain er
        = (some (rule, pm), er1) →
      rule ∈ chain ∧
      ∃ er0, (back_passDoTest K table src srcmax currentInput rule.opcode rule vars er0).1
          = true ∧
        pm = (back_passDoTest K table src srcmax currentInput rule.opcode rule vars er0).2 := by
  induction chain with
  | nil =>
    intro er rule pm er1 h
    cases h
  | cons r rest ih =>
    intro er rule pm er1 h
    unfold findBackPassRule at h
    dsimp only at h
    split at h
    · split at h
      · rename_i hok
        cases h
        exact ⟨List.mem_cons_self _ _, er, hok, rfl⟩
      · obtain ⟨h1, h2⟩ := ih _ _ _ _ h
        exact ⟨List.mem_cons_of_mem _ h1, h2⟩
    · obtain ⟨h1, h2⟩ := ih _ _ _ _ h
      exact ⟨List.mem_cons_of_mem _ h1, h2⟩

/-- The third `switch` never moves `src` back when the context rules of
`backPassRules[1]` do not. -/
theorem afterReplacement_src (K : Internal) (env : PassEnv) (sel : Selected) (endReplace : Int)
    (b : BackState) (fl : Flow) (b3 : BackState) (op : TranslationTableOpcode)
    (h : afterReplacement K env sel endReplace b = (fl, b3, op)) :
    fl ≠ Flow.next ∧
    ((∀ r ∈ env.table.backPassRules env.currentPass, r.opcode = CTO_Context →
        PassRuleKeeps K env r) → b.src ≤ b3.src) := by
  constructor
  · have key : (afterReplacement K env sel endReplace b).1 ≠ Flow.next := by
      unfold afterReplacement
      dsimp only
      repeat' split
      all_goals simp
    rw [h] at key
    exact key
  · intro hpass
    have key : b.src ≤ (afterReplacement K env sel endReplace b).2.1.src := by
      unfold afterReplacement
      dsimp only
      split
      · exact le_refl _
      · exact le_refl _
      · split
        · rename_i rule pm er hps
          unfold passSelectRule at hps
          split at hps
          · rename_i rule1 pm1 er1 hf
            simp only [Prod.mk.injEq, Option.some.injEq] at hps
            obtain ⟨hop, ⟨hr, hpm⟩, -⟩ := hps
            subst hr hpm
            obtain ⟨hmem, er0, htest, hpm⟩ := findBackPassRule_found K env.table b.src
              env.srcmax env.currentPass env.currentInput b.st.passVariables _ _ _ _ _ hf
            rw [hop] at htest hpm
            subst hpm
            exact hpass rule1 hmem hop b.src b.st.passVariables er0 htest b.allUpper
              b.allUpperPhrase b.e
          · cases hps
        · exact le_refl _
    rw [h] at key
    exact key

/-- Progress of one loop turn: the selected rule moves `src` forward and the
context rules of `backPassRules[1]` do not move it back. -/
theorem backTranslateTurn_progress (K : Internal) (env : PassEnv) (fuel : Nat)
    (b b' : BackState)
    (hlen : (selectionOf K env b).currentOpcode ≠ CTO_Context →
      1 ≤ (selectionOf K env b).currentDotslen)
    (hctx : (selectionOf K env b).currentOpcode = CTO_Context →
      ActionAdvances K env (selectionOf K env b).currentRule b.src (selectionOf K env b).pm
        b.st.passVariables)
    (hpass : ∀ r ∈ env.table.backPassRules env.currentPass, r.opcode = CTO_Context →
      PassRuleKeeps K env r)
    (h : backTranslateTurn K env fuel b = some (Flow.next, b')) :
    b.src + 1 ≤ b'.src := by
  unfold selectionOf at hlen hctx
  unfold backTranslateTurn at h
  dsimp only at h
  split at h
  · rename_i b1 hb
    obtain ⟨-, hgo, hst⟩ := beforeReplacement_src K env _ _ _ _ hb
    have hb1 := hgo rfl
    dsimp only at hb1 hst
    split at h
    · cases h
    · rename_i b2 er hr
      have h2 := (replacement_src K env fuel _ _ _ _ _ hr).2 rfl hlen (by
        rw [hb1, hst]
        exact hctx)
      split at h
      · rename_i b3 op ha
        have h3 := (afterReplacement_src K env _ _ _ _ _ _ ha).2 hpass
        cases h
        rw [(endOfTurn_src_e K env op b3).1]
        omega
      · rename_i fl b3 op hne ha
        have h3 := (afterReplacement_src K env _ _ _ _ _ _ ha).1
        simp only [Option.some.injEq, Prod.mk.injEq] at h
        exact absurd h.1 h3
    · rename_i fl b2 er hne hr
      simp only [Option.some.injEq, Prod.mk.injEq] at h
      exact absurd h.1 (replacement_src K env fuel _ _ _ _ _ hr).1
  · rename_i fl b1 hne hb
    simp only [Option.some.injEq, Prod.mk.injEq] at h
    obtain ⟨h4, h5⟩ := h
    subst h4 h5
    obtain ⟨hnext, -, -⟩ := beforeReplacement_src K env _ _ _ _ hb
    have := hnext rfl
    dsimp only at this
    have hnc : (back_selectRule K env.table b.src env.srcmax b.e.dest env.mode env.currentInput
        b.e.currentOutput b.itsANumber b.itsALetter b.previousOpcode b.doingMultind
        b.multindRule (back_setBefore K env.table b.e.dest b.e.currentOutput)
        b.st.passVariables K.indeterminate).currentOpcode ≠ CTO_Context := by
      intro hc
      rw [beforeReplacement_context K env _ _ hc] at hb
      cases hb
    have := hlen hnc
    omega

theorem compareDots_pos (address1 address2 : Nat → widechar) (count : Nat)
    (h : compareDots address1 address2 count = true) : 1 ≤ count := by
  unfold compareDots at h
  by_cases h0 : count = 0
  · simp [h0] at h
  · omega

/-- A rule that wins a chain walk moves the turn forward, if the context
rules of the chain and the indicator rules do. -/
theorem back_selectRuleChain_advances (K : Internal) (env : PassEnv) (src dest : Int)
    (currentOutput : WBuf) (itsANumber itsALetter : Int)
    (previousOpcode : TranslationTableOpcode) (beforeAttributes : Nat) (vars : PassVariables)
    (length : Int) (bound : Nat) (hsrc : src < env.srcmax)
    (hind : ∀ code r, multindOffset K env.table code = some r → r.opcode ≠ CTO_Context →
      1 ≤ r.dotslen ∧ r.dotslen ≤ bound)
    (hcind : ∀ code r, multindOffset K env.table code = some r → r.opcode = CTO_Context →
      ∀ (src endReplace : Int) (vars : PassVariables), src < env.srcmax →
        ActionAdvances K env r src (staleMatch K endReplace) vars)
    (chain : List TranslationTableRule) :
    (∀ r ∈ chain, r.opcode = CTO_Context → ContextRuleAdvances K env r) →
    ∀ (dm : Nat) (mr : TranslationTableRule) (er : Int) (sel : Selected),
      back_selectRuleChain K env.table src env.srcmax dest env.mode env.currentInput
        currentOutput itsANumber itsALetter previousOpcode beforeAttributes vars length chain
        dm mr er = .inl sel →
      SelectionAdvances K env bound src length vars sel := by
  induction chain with
  | nil =>
    intro _ dm mr er sel h
    cases h
  | cons r rest ih =>
    intro hno dm mr er sel h
    have hr := hno r (List.mem_cons_self _ _)
    have hrest := ih (fun x hx => hno x (List.mem_cons_of_mem _ hx))
    unfold back_selectRuleChain at h
    dsimp only at h
    by_cases hop : r.opcode = CTO_Context
    · have hic : (match r.opcode with
          | CTO_Context => true
          | _ => false) = true := by
        rw [hop]
      simp only [hic, if_true] at h
      split at h
      · split at h
        · split at h
          · split_ifs at h with hok
            · cases h
              refine ⟨fun hne => absurd rfl hne, fun _ => ?_⟩
              exact hr hop src vars er hsrc hok
            · exact hrest _ _ _ _ h
          · rename_i hmi
            rw [hop] at hmi
            cases hmi
          · rename_i hne1 hne2
            exact absurd hop hne1
        · exact hrest _ _ _ _ h
      · exact hrest _ _ _ _ h
    · have hic : (match r.opcode with
          | CTO_Context => true
          | _ => false) = false := by
        split
        · rename_i hc
          exact absurd hc hop
        · rfl
      simp only [hic, Bool.false_eq_true, if_false] at h
      split at h
      · rename_i h1
        split at h
        · split at h
          · rename_i hc
            exact absurd hc hop
          · split at h
            · rename_i found dm1 hm
              cases h
              unfold handleMultind at hm
              split_ifs at hm
              · cases hm
              · simp only [Prod.mk.injEq] at hm
                refine ⟨fun hne => ?_, fun hc => ?_⟩
                · obtain ⟨h4, h5⟩ := hind _ _ hm.1 hne
                  exact ⟨h4, Or.inr h5⟩
                · exact hcind _ _ hm.1 hc src er vars hsrc
            · exact hrest _ _ _ _ h
          · split at h
            · cases h
              exact ⟨fun _ => ⟨compareDots_pos _ _ _ h1.2, Or.inl h1.1⟩,
                fun hc => absurd hc hop⟩
            · exact hrest _ _ _ _ h
        · exact hrest _ _ _ _ h
      · exact hrest _ _ _ _ h

/-- The rule that `back_selectRule` returns at a position `src < srcmax`
moves the turn forward, if the rules of the table do. -/
theorem back_selectRule_advances (K : Internal) (env : PassEnv) (src dest : Int)
    (currentOutput : WBuf) (itsANumber itsALetter : Int)
    (previousOpcode : TranslationTableOpcode) (doingMultind : Nat)
    (multindRule : TranslationTableRule) (beforeAttributes : Nat) (vars : PassVariables)
    (endReplace : Int) (bound : Nat) (hadv : RulesAdvance K env bound)
    (hsrc : src < env.srcmax) :
    SelectionAdvances K env bound src (env.srcmax - src) vars
      (back_selectRule K env.table src env.srcmax dest env.mode env.currentInput currentOutput
        itsANumber itsALetter previousOpcode doingMultind multindRule beforeAttributes vars
        endReplace) := by
  unfold back_selectRule
  dsimp only
  split
  · rename_i found dm hm
    unfold handleMultind at hm
    split_ifs at hm
    · cases hm
    · simp only [Prod.mk.injEq] at hm
      refine ⟨fun hne => ?_, fun hc => ?_⟩
      · obtain ⟨h4, h5⟩ := hadv.indicators _ _ hm.1 hne
        exact ⟨h4, Or.inr h5⟩
      · exact hadv.contextIndicators _ _ hm.1 hc src endReplace vars hsrc
  · rename_i dm hm
    split
    · rename_i sel hc
      refine back_selectRuleChain_advances K env src dest currentOutput itsANumber itsALetter
        previousOpcode beforeAttributes vars _ bound hsrc hadv.indicators
        hadv.contextIndicators _ ?_ _ _ _ sel hc
      intro r hr
      split_ifs at hr
      · cases hr
      · exact hadv.backRules _ r hr
    · rename_i dm1 mr1 er1 hc
      split
      · rename_i sel hc1
        have := back_selectRuleChain_advances K env src dest currentOutput itsANumber
          itsALetter previousOpcode beforeAttributes vars _ bound hsrc hadv.indicators
          hadv.contextIndicators _ (by
            intro r hr
            split_ifs at hr
            · exact hadv.otherRules _ r hr
            · cases hr) _ _ _ sel hc1
        refine ⟨fun hne => ?_, this.2⟩
        obtain ⟨h4, h5⟩ := this.1 hne
        refine ⟨h4, ?_⟩
        rcases h5 with h | h
        · left
          split_ifs at h <;> omega
        · exact Or.inr h
      · exact ⟨fun _ => ⟨le_refl _, Or.inl (by dsimp only; omega)⟩,
          fun hc => by cases hc⟩

theorem insertCharsLoop_some (K : Internal) (env : PassEnv) (allUpper allUpperPhrase : Int)
    (srclim : Int) (n : Nat) :
    ∀ (src : Int) (s : Emit), src < srclim → (srclim - src).toNat ≤ n →
      ∃ r, insertCharsLoop K env allUpper allUpperPhrase srclim n src s = some r := by
  induction n with
  | zero =>
    intro src s h1 h2
    omega
  | succ n ih =>
    intro src s h1 h2
    unfold insertCharsLoop
    dsimp only
    split_ifs with h3 h4
    · exact ⟨_, rfl⟩
    · exact ih _ _ (by omega) (by omega)
    · exact ⟨_, rfl⟩

theorem insertChars_some (K : Internal) (env : PassEnv) (fuel : Nat) (sel : Selected)
    (b : BackState) (h1 : 1 ≤ sel.currentDotslen) (h2 : sel.currentDotslen ≤ fuel) :
    ∃ r, insertChars K env fuel sel b = some r := by
  unfold insertChars
  by_cases hc : sel.currentRule.charslen ≠ 0
  · rw [if_pos hc]
    dsimp only
    split_ifs <;> exact ⟨_, rfl⟩
  · rw [if_neg hc]
    obtain ⟨r, hr⟩ := insertCharsLoop_some K env b.allUpper b.allUpperPhrase
      (b.src + sel.currentDotslen) fuel b.src b.e (by omega) (by omega)
    rw [hr]
    obtain ⟨ok, src1, e1⟩ := r
    exact ⟨_, rfl⟩

/-- The second `switch` ends: a context rule needs no inner loop, and for
any other rule the fuel covers the match length. -/
theorem replacement_some (K : Internal) (env : PassEnv) (fuel : Nat) (sel : Selected)
    (b : BackState)
    (h : sel.currentOpcode ≠ CTO_Context → 1 ≤ sel.currentDotslen ∧ sel.currentDotslen ≤ fuel) :
    ∃ r, replacement K env fuel sel b = some r := by
  have hi : sel.currentOpcode ≠ CTO_Context → ∀ b0 : BackState, ∃ r,
      (insertChars K env fuel sel b0).map (fun x => (x.1, x.2, sel.pm.endReplace)) = some r := by
    intro hne b0
    obtain ⟨r, hr⟩ := insertChars_some K env fuel sel b0 (h hne).1 (h hne).2
    rw [hr]
    exact ⟨_, rfl⟩
  unfold replacement
  dsimp only
  split
  · split_ifs <;> exact ⟨_, rfl⟩
  · exact ⟨_, rfl⟩
  · split_ifs <;> exact ⟨_, rfl⟩
  · rename_i hop
    exact hi (by rw [hop]; intro hc; cases hc) _
  · rename_i hop
    exact hi (by rw [hop]; intro hc; cases hc) _
  · rename_i hop
    exact hi (by rw [hop]; intro hc; cases hc) _
  · rename_i hne _ _ _ _ _
    exact hi (fun hc => hne hc) _

theorem backTranslateTurn_some (K : Internal) (env : PassEnv) (fuel : Nat) (b : BackState)
    (h : (selectionOf K env b).currentOpcode ≠ CTO_Context →
      1 ≤ (selectionOf K env b).currentDotslen ∧ (selectionOf K env b).currentDotslen ≤ fuel) :
    ∃ fl b', backTranslateTurn K env fuel b = some (fl, b') ∧ fl ≠ Flow.go := by
  unfold selectionOf at h
  unfold backTranslateTurn
  dsimp only
  split
  · rename_i b1 hb
    obtain ⟨r, hr⟩ := replacement_some K env fuel _ b1 h
    rw [hr]
    split
    · rename_i hn
      cases hn
    · split
      · exact ⟨_, _, rfl, by simp⟩
      · rename_i fl b3 op hne ha
        refine ⟨fl, b3, rfl, ?_⟩
        intro hgo
        subst hgo
        exact hne rfl
    · rename_i fl b2 er hne hr2
      refine ⟨fl, b2, rfl, ?_⟩
      intro hgo
      subst hgo
      exact hne rfl
  · rename_i fl b1 hne hb
    refine ⟨fl, b1, rfl, ?_⟩
    intro hgo
    subst hgo
    exact hne rfl

/-- The selection of a turn entered with `src < srcmax` moves the turn
forward, if the rules of the table do. -/
theorem selectionOf_advances (K : Internal) (env : PassEnv) (bound : Nat)
    (hadv : RulesAdvance K env bound) (b : BackState) (hlt : b.src < env.srcmax) :
    SelectionAdvances K env bound b.src (env.srcmax - b.src) b.st.passVariables
      (selectionOf K env b) :=
  back_selectRule_advances K env b.src b.e.dest b.e.currentOutput b.itsANumber b.itsALetter
    b.previousOpcode b.doingMultind b.multindRule
    (back_setBefore K env.table b.e.dest b.e.currentOutput) b.st.passVariables K.indeterminate
    bound hadv hlt

/-- With rules that move the pass forward the loop of the primary pass,
entered with `0 <= src`, ends within `srcmax - src` turns. -/
theorem backTranslateLoop_some (K : Internal) (env : PassEnv) (fuel bound : Nat)
    (hadv : RulesAdvance K env bound) (hpass : env.currentPass = 1)
    (hb : bound ≤ fuel) (hs : env.srcmax ≤ fuel) (n : Nat) :
    ∀ b : BackState, 0 ≤ b.src → (env.srcmax - b.src).toNat ≤ n →
      ∃ r, backTranslateLoop K env fuel n b = some r := by
  induction n with
  | zero =>
    intro b h0 hn
    unfold backTranslateLoop
    rw [if_neg (by omega)]
    exact ⟨_, rfl⟩
  | succ n ih =>
    intro b h0 hn
    unfold backTranslateLoop
    split_ifs with hlt
    · obtain ⟨hlen, hctx⟩ := selectionOf_advances K env bound hadv b hlt
      obtain ⟨fl, b', ht, hfl⟩ := backTranslateTurn_some K env fuel b (fun hne => by
        obtain ⟨h4, h5⟩ := hlen hne
        refine ⟨h4, ?_⟩
        rcases h5 with h | h
        · omega
        · omega)
      rw [ht]
      cases fl with
      | go => exact absurd rfl hfl
      | abort => exact ⟨_, rfl⟩
      | failure => exact ⟨_, rfl⟩
      | next =>
        have hp := backTranslateTurn_progress K env fuel b b' (fun hne => (hlen hne).1) hctx
          (by rw [hpass]; exact hadv.passRules) ht
        exact ih b' (by omega) (by omega)
    · exact ⟨_, rfl⟩

/-- The action loop leaves in `endReplace` the value it was entered with or,
after a `pass_copy`, the `passSrc` of the match. -/
theorem back_passDoActionLoop_endReplace (K : Internal) (table : TranslationTableHeader)
    (src srcmax destmax : Int) (mode : Nat) (currentInput : WBuf)
    (allUpper allUpperPhrase : Int) (currentOpcode : TranslationTableOpcode)
    (currentRule : TranslationTableRule) (pm : PassMatch) (srcEnd destInitial : Int)
    (fuel : Nat) :
    ∀ a : ActionState,
      (back_passDoActionLoop K table src srcmax destmax mode currentInput allUpper
        allUpperPhrase currentOpcode currentRule pm srcEnd destInitial fuel a).2.endReplace
          = a.endReplace ∨
      (back_passDoActionLoop K table src srcmax destmax mode currentInput allUpper
        allUpperPhrase currentOpcode currentRule pm srcEnd destInitial fuel a).2.endReplace
          = pm.passSrc := by
  induction fuel with
  | zero =>
    intro a
    exact Or.inl rfl
  | succ n ih =>
    intro a
    unfold back_passDoActionLoop
    dsimp only
    by_cases hlt : a.passIC < currentRule.dotslen
    · rw [if_pos hlt]
      split <;> (try split_ifs) <;> (try split) <;>
        first
          | exact Or.inl rfl
          | exact ih _
          | (rcases ih _ with h | h
             · exact Or.inr h
             · exact Or.inr h)
    · rw [if_neg hlt]
      exact Or.inl rfl

/-- The function `back_passDoAction` leaves in `endReplace` the `endReplace`
of the match or, after a `pass_copy`, its `passSrc`. -/
theorem back_passDoAction_endReplace (K : Internal) (table : TranslationTableHeader)
    (src srcmax destmax : Int) (mode : Nat) (currentInput : WBuf)
    (allUpper allUpperPhrase : Int) (currentOpcode : TranslationTableOpcode)
    (currentRule : TranslationTableRule) (pm : PassMatch) (vars : PassVariables) (s : Emit) :
    (back_passDoAction K table src srcmax destmax mode currentInput allUpper allUpperPhrase
      currentOpcode currentRule pm vars s).2.endReplace = pm.endReplace ∨
    (back_passDoAction K table src srcmax destmax mode currentInput allUpper allUpperPhrase
      currentOpcode currentRule pm vars s).2.endReplace = pm.passSrc := by
  unfold back_passDoAction
  dsimp only
  split_ifs
  · exact back_passDoActionLoop_endReplace K table src srcmax destmax mode currentInput allUpper
      allUpperPhrase currentOpcode currentRule pm _ _ _ _
  · exact Or.inl rfl

/-- A context rule whose test, where it holds at `src`, leaves both
`endReplace` and `passSrc` after `src`, moves the pass forward. -/
theorem contextRuleAdvances_of_test (K : Internal) (env : PassEnv) (rule : TranslationTableRule)
    (h : ∀ (src : Int) (vars : PassVariables) (endReplace : Int),
      (back_passDoTest K env.table src env.srcmax env.currentInput CTO_Context rule vars
        endReplace).1 = true →
      src < (back_passDoTest K env.table src env.srcmax env.currentInput CTO_Context rule vars
        endReplace).2.endReplace ∧
      src < (back_passDoTest K env.table src env.srcmax env.currentInput CTO_Context rule vars
        endReplace).2.passSrc) :
    ContextRuleAdvances K env rule := by
  intro src vars er _ htest allUpper allUpperPhrase e _
  obtain ⟨h1, h2⟩ := h src vars er htest
  rcases back_passDoAction_endReplace K env.table src env.srcmax env.destmax env.mode
    env.currentInput allUpper allUpperPhrase CTO_Context rule
    (back_passDoTest K env.table src env.srcmax env.currentInput CTO_Context rule vars er).2
    vars e with h3 | h3
  · rw [h3]
    exact h1
  · rw [h3]
    exact h2

/-- The test of `abcContextRule`, where it holds, ends one cell after the
position it was tried at, and so does its replacement span. -/
theorem abcContextRule_test (table : TranslationTableHeader) (src srcmax : Int)
    (currentInput : WBuf) (vars : PassVariables) (endReplace : Int)
    (h : (back_passDoTest sampleInternal table src srcmax currentInput CTO_Context
      abcContextRule vars endReplace).1 = true) :
    (back_passDoTest sampleInternal table src srcmax currentInput CTO_Context abcContextRule
      vars endReplace).2.endReplace = src + 1 ∧
    (back_passDoTest sampleInternal table src srcmax currentInput CTO_Context abcContextRule
      vars endReplace).2.passSrc = src + 1 := by
  unfold back_passDoTest at h ⊢
  dsimp only at h ⊢
  rw [show abcContextRule.dotslen = 9 from rfl] at h ⊢
  simp [back_passDoTestLoop, abcContextRule, sampleInternal, samplePassInstruction] at h ⊢
  split_ifs at h ⊢
  exact ⟨rfl, rfl⟩

/-- Every `otherRules` chain of `abortTable` is empty or holds
`abcContextRule` alone. -/
theorem abortTable_otherRules (c : widechar) (r : TranslationTableRule)
    (h : r ∈ (back_findCharOrDots sampleInternal c 1 abortTable).otherRules) :
    r = abcContextRule := by
  unfold back_findCharOrDots at h
  dsimp only at h
  rw [if_neg (by decide), if_neg (by decide)] at h
  by_cases hc : c % sampleInternal.HASHNUM = 0x8003 % 1123
  · have hd : abortTable.dots (c % sampleInternal.HASHNUM)
        = [cellRecord 0x8003 [abcContextRule]] := by
      rw [hc]
      rfl
    rw [hd] at h
    by_cases hcc : c = 0x8003
    · subst hcc
      simp [cellRecord] at h
      exact h
    · have hf : List.find? (fun character => character.realchar == c)
          [cellRecord 0x8003 [abcContextRule]] = none := by
        simp [cellRecord]
        exact fun hx => hcc hx.symm
      rw [hf] at h
      cases h
  · have hd : abortTable.dots (c % sampleInternal.HASHNUM) = [] := by
      show (if c % sampleInternal.HASHNUM = 0x8003 % 1123 then _ else _) = _
      rw [if_neg hc]
    rw [hd] at h
    cases h

theorem multindOffset_none (K : Internal) (table : TranslationTableHeader) (code : widechar)
    (h1 : ∀ i j, table.emphRules i j = none) (h2 : table.letterSign = none)
    (h3 : table.noContractSign = none) (h4 : table.numberSign = none)
    (h5 : table.begComp = none) (h6 : table.endComp = none) :
    multindOffset K table code = none := by
  unfold multindOffset
  simp only [h1, h2, h3, h4, h5, h6, ite_self]

/-- The rules of `abortTable`, whose only rule is the context rule
`abcContextRule`, move the primary pass forward. -/
theorem rulesAdvance_abortTable : RulesAdvance sampleInternal (sampleEnv abortTable) 0 where
  backRules := fun _ r hr => by cases hr
  otherRules := fun c r hr _ => by
    rw [abortTable_otherRules c r hr]
    refine contextRuleAdvances_of_test sampleInternal (sampleEnv abortTable) abcContextRule ?_
    intro src vars er htest
    obtain ⟨h1, h2⟩ := abcContextRule_test _ _ _ _ _ _ htest
    rw [h1, h2]
    exact ⟨by omega, by omega⟩
  indicators := fun code r h => by
    rw [show (sampleEnv abortTable).table = abortTable from rfl,
      multindOffset_none sampleInternal abortTable code (fun _ _ => rfl) rfl rfl rfl rfl rfl]
      at h
    cases h
  contextIndicators := fun code r h => by
    rw [show (sampleEnv abortTable).table = abortTable from rfl,
      multindOffset_none sampleInternal abortTable code (fun _ _ => rfl) rfl rfl rfl rfl rfl]
      at h
    cases h
  passRules := fun r hr => by cases hr


/-- C6 (amended). Let the rules in reach of the primary pass move it forward
(`RulesAdvance`): a context rule of a bucket of `backRules` or of an
`otherRules` chain, where its test holds at `src < srcmax` and its action
succeeds, leaves `endReplace` after `src`; so does an indicator rule that is a
context rule; an indicator rule that is none has at least one dot; and a
context rule of `backPassRules[1]`, where its test holds, leaves `endReplace`
at the position or after it. Then every loop turn of the primary pass that is
completed, entered with `src < srcmax`, advances `src` by at least 1; the
loop, allowed `srcmax` turns, ends; and `backTranslateString` returns. (`fuel`
bounds the inner loops: it is at least `srcmax` and at least the longest
indicator.) -/
theorem primary_pass_progress (K : Internal) (env : PassEnv) (fuel bound : Nat)
    (hadv : RulesAdvance K env bound) (hpass : env.currentPass = 1)
    (hb : bound ≤ fuel) (hs : env.srcmax ≤ fuel) :
    (∀ b b', b.src < env.srcmax → backTranslateTurn K env fuel b = some (Flow.next, b') →
      b.src + 1 ≤ b'.src) ∧
    (∀ e st applied multindRule, ∃ r,
      backTranslateLoop K env fuel env.srcmax.toNat
        (backTranslateStart K e st applied multindRule) = some r) ∧
    (∀ e st applied multindRule, ∃ r,
      backTranslateString K env fuel e st applied multindRule = some r) := by
  refine ⟨fun b b' hlt ht => ?_, fun e st applied multindRule => ?_,
    fun e st applied multindRule => ?_⟩
  · obtain ⟨hlen, hctx⟩ := selectionOf_advances K env bound hadv b hlt
    exact backTranslateTurn_progress K env fuel b b' (fun hne => (hlen hne).1) hctx
      (by rw [hpass]; exact hadv.passRules) ht
  · exact backTranslateLoop_some K env fuel bound hadv hpass hb hs _ _ (le_refl _) (by
      show (env.srcmax - 0).toNat ≤ env.srcmax.toNat
      simp)
  · obtain ⟨r, hr⟩ := backTranslateLoop_some K env fuel bound hadv hpass hb hs fuel
      (backTranslateStart K e st applied multindRule) (le_refl _) (by
        show (env.srcmax - 0).toNat ≤ fuel
        omega)
    unfold backTranslateString
    rw [hr]
    obtain ⟨ok, b1⟩ := r
    cases ok <;> exact ⟨_, rfl⟩

/-- Witness for C6 (amended): the primary pass over the cell with dots 1-2
with `abortTable`, whose only rule is a context rule for that cell. -/
theorem primary_pass_progress_witness :
    (sampleEnv abortTable).currentPass = 1 ∧ (sampleEnv abortTable).srcmax ≤ (10 : Nat) ∧
    (selectionOf sampleInternal (sampleEnv abortTable) sampleStart).currentRule.opcode
      = CTO_Context ∧
    (∀ b b', b.src < (sampleEnv abortTable).srcmax →
      backTranslateTurn sampleInternal (sampleEnv abortTable) 10 b = some (Flow.next, b') →
      b.src + 1 ≤ b'.src) ∧
    (∀ e st applied multindRule, ∃ r,
      backTranslateLoop sampleInternal (sampleEnv abortTable) 10
        (sampleEnv abortTable).srcmax.toNat
        (backTranslateStart sampleInternal e st applied multindRule) = some r) ∧
    (∀ e st applied multindRule, ∃ r,
      backTranslateString sampleInternal (sampleEnv abortTable) 10 e st applied multindRule
        = some r) :=
  ⟨rfl, by decide, rfl,
    primary_pass_progress sampleInternal (sampleEnv abortTable) 10 0 rulesAdvance_abortTable
      rfl (by decide) (by decide)⟩

/-- Counterexample to C6 as stated, one table for each way in which a rule
holds the pass back; in each the first loop turn is completed and leaves
`src = 0`, and the loop has not ended after 10 turns. (1) `lookbackTable`, one
input cell, mode `noUndefinedDots`: the context rule of `backPassRules[1]`
looks back and sets `src` to the position before the one it is tried at.
(2) `emptySpanTable`, one input cell: the context rule of the cell is
selected and its replacement span ends where it starts, at `src`.
(3) `zeroIndicatorTable`, two input cells: the multi-indicator rule hands
over a letter sign without dots. -/
theorem primary_pass_progress_counterexample :
    ((sampleEnv lookbackTable).srcmax = 1 ∧
      (backTranslateTurn sampleInternal { sampleEnv lookbackTable with mode := 128 } 10
        sampleStart).map (fun r => (r.1, r.2.src)) = some (Flow.next, 0) ∧
      (backTranslateLoop sampleInternal { sampleEnv lookbackTable with mode := 128 } 10 10
        sampleStart).isNone = true) ∧
    ((sampleEnv emptySpanTable).srcmax = 1 ∧
      (backTranslateTurn sampleInternal (sampleEnv emptySpanTable) 10 sampleStart).map
        (fun r => (r.1, r.2.src)) = some (Flow.next, 0) ∧
      (backTranslateLoop sampleInternal (sampleEnv emptySpanTable) 10 10 sampleStart).isNone
        = true) ∧
    (zeroIndicatorEnv.srcmax = 2 ∧
      (selectionOf sampleInternal zeroIndicatorEnv sampleStart).currentDotslen = 0 ∧
      (backTranslateTurn sampleInternal zeroIndicatorEnv 10 sampleStart).map
        (fun r => (r.1, r.2.src)) = some (Flow.next, 0) ∧
      (backTranslateLoop sampleInternal zeroIndicatorEnv 10 10 sampleStart).isNone = true) :=
  ⟨⟨rfl, by decide, by decide⟩, ⟨rfl, by decide, by decide⟩,
    ⟨rfl, by decide, by decide, by decide⟩⟩


/-! ### Output stays within the capacity -/

theorem bounded_of_le {destmax : Int} {out0 : WBuf} {s s1 : Emit} (hs : Bounded destmax out0 s)
    (h0 : 0 ≤ s1.dest) (h1 : s1.dest ≤ destmax)
    (h2 : ∀ i : Int, destmax ≤ i → s1.currentOutput i = s.currentOutput i) :
    Bounded destmax out0 s1 :=
  ⟨h0, h1, fun i hi => by rw [h2 i hi]; exact hs.2.2 i hi⟩

theorem putchars_bounded (K : Internal) (chars : Nat → widechar) (count : Nat)
    (table : TranslationTableHeader) (destmax allUpper allUpperPhrase : Int) (out0 : WBuf)
    (s : Emit) (hs : Bounded destmax out0 s) :
    Bounded destmax out0 (putchars K chars count table destmax allUpper allUpperPhrase s).2 := by
  unfold putchars
  by_cases h1 : count = 0 ∨ s.dest + count > destmax
  · rw [if_pos h1]
    exact hs
  · rw [if_neg h1]
    have hc : 1 ≤ count := by omega
    have hfit : s.dest + count ≤ destmax := by omega
    have hs0 := hs.1
    dsimp only
    split_ifs
    all_goals
      refine bounded_of_le hs ?_ ?_ ?_
      · dsimp only
        omega
      · dsimp only
        omega
      · intro i hi
        dsimp only
        simp only [writeRange, setAt]
        split_ifs <;> first | rfl | omega

theorem bounded_congr {destmax : Int} {out0 : WBuf} {s s1 : Emit} (h1 : s1.dest = s.dest)
    (h2 : s1.currentOutput = s.currentOutput) (hs : Bounded destmax out0 s) :
    Bounded destmax out0 s1 := by
  unfold Bounded at hs ⊢
  rw [h1, h2]
  exact hs

theorem undefinedDots_bounded (K : Internal) (d : widechar) (destmax : Int) (mode : Nat)
    (out0 : WBuf) (s : Emit) (hs : Bounded destmax out0 s) :
    Bounded destmax out0 (undefinedDots K d destmax mode s).2 := by
  unfold undefinedDots
  have hs0 := hs.1
  generalize undefinedDotsBuffer K d = buffer
  dsimp only
  split_ifs with h1 h2
  · exact hs
  · exact hs
  · refine bounded_of_le hs ?_ ?_ ?_
    · dsimp only
      omega
    · dsimp only
      omega
    · intro i hi
      dsimp only
      simp only [writeRange]
      split_ifs <;> first | rfl | omega

theorem back_updatePositions_bounded (K : Internal) (outChars : Nat → widechar)
    (inLength outLength : Nat) (table : TranslationTableHeader)
    (src srcmax destmax allUpper allUpperPhrase : Int) (out0 : WBuf) (s : Emit)
    (hs : Bounded destmax out0 s) :
    Bounded destmax out0 (back_updatePositions K outChars inLength outLength table src srcmax
      destmax allUpper allUpperPhrase s).2 := by
  unfold back_updatePositions
  by_cases h1 : s.dest + outLength > destmax ∨ src + inLength > srcmax
  · rw [if_pos h1]
    exact hs
  · rw [if_neg h1]
    dsimp only
    apply putchars_bounded
    split_ifs <;> exact bounded_congr rfl rfl hs

theorem putCharacter_bounded (K : Internal) (dots : widechar) (table : TranslationTableHeader)
    (src srcmax destmax : Int) (mode : Nat) (allUpper allUpperPhrase : Int) (out0 : WBuf)
    (s : Emit) (hs : Bounded destmax out0 s) :
    Bounded destmax out0 (putCharacter K dots table src srcmax destmax mode allUpper
      allUpperPhrase s).2 := by
  unfold putCharacter
  split
  · split_ifs
    · exact back_updatePositions_bounded K _ _ _ table src srcmax destmax _ _ out0 s hs
    · exact back_updatePositions_bounded K _ _ _ table src srcmax destmax _ _ out0 s hs
  · exact undefinedDots_bounded K dots destmax mode out0 s hs

theorem putCharacters_bounded (K : Internal) (characters : Nat → widechar)
    (table : TranslationTableHeader) (src srcmax destmax : Int) (mode : Nat)
    (allUpper allUpperPhrase : Int) (out0 : WBuf) (n : Nat) :
    ∀ (k : Nat) (s : Emit), Bounded destmax out0 s →
      Bounded destmax out0 (putCharacters K characters table src srcmax destmax mode allUpper
        allUpperPhrase n k s).2 := by
  induction n with
  | zero =>
    intro k s hs
    exact hs
  | succ n ih =>
    intro k s hs
    unfold putCharacters
    dsimp only
    have h := putCharacter_bounded K (characters k) table src srcmax destmax mode allUpper
      allUpperPhrase out0 s hs
    split_ifs
    · exact ih _ _ h
    · exact h

theorem insertSpace_bounded (K : Internal) (table : TranslationTableHeader)
    (src srcmax destmax allUpper allUpperPhrase : Int) (out0 : WBuf) (s : Emit)
    (hs : Bounded destmax out0 s) :
    Bounded destmax out0 (insertSpace K table src srcmax destmax allUpper allUpperPhrase s).2 := by
  unfold insertSpace
  dsimp only
  have h := back_updatePositions_bounded K (fun _ => 32) 1 1 table src srcmax destmax allUpper
    allUpperPhrase out0 s hs
  split_ifs
  · exact bounded_congr rfl rfl h
  · exact h

theorem copyCharactersContext_bounded (K : Internal) (table : TranslationTableHeader)
    (src srcmax destmax : Int) (mode : Nat) (currentInput : WBuf)
    (allUpper allUpperPhrase : Int) (out0 : WBuf) (n : Nat) :
    ∀ (fromPos : Int) (s : Emit), Bounded destmax out0 s →
      Bounded destmax out0 (copyCharactersContext K table src srcmax destmax mode currentInput
        allUpper allUpperPhrase n fromPos s).2 := by
  induction n with
  | zero =>
    intro fromPos s hs
    exact hs
  | succ n ih =>
    intro fromPos s hs
    unfold copyCharactersContext
    dsimp only
    have h := putCharacter_bounded K (currentInput fromPos) table src srcmax destmax mode
      allUpper allUpperPhrase out0 s hs
    split_ifs
    · exact ih _ _ h
    · exact h

theorem putchars_dest (K : Internal) (chars : Nat → widechar) (count : Nat)
    (table : TranslationTableHeader) (destmax allUpper allUpperPhrase : Int) (s : Emit) :
    s.dest ≤ (putchars K chars count table destmax allUpper allUpperPhrase s).2.dest := by
  unfold putchars
  dsimp only
  split_ifs <;> dsimp only <;> omega

theorem undefinedDots_dest (K : Internal) (d : widechar) (destmax : Int) (mode : Nat)
    (s : Emit) : s.dest ≤ (undefinedDots K d destmax mode s).2.dest := by
  unfold undefinedDots
  generalize undefinedDotsBuffer K d = buffer
  dsimp only
  split_ifs <;> dsimp only <;> omega

theorem back_updatePositions_dest (K : Internal) (outChars : Nat → widechar)
    (inLength outLength : Nat) (table : TranslationTableHeader)
    (src srcmax destmax allUpper allUpperPhrase : Int) (s : Emit) :
    s.dest ≤ (back_updatePositions K outChars inLength outLength table src srcmax
      destmax allUpper allUpperPhrase s).2.dest := by
  unfold back_updatePositions
  by_cases h1 : s.dest + outLength > destmax ∨ src + inLength > srcmax
  · rw [if_pos h1]
  · rw [if_neg h1]
    dsimp only
    refine le_trans ?_ (putchars_dest K outChars outLength table destmax allUpper
      allUpperPhrase _)
    split_ifs <;> exact le_refl _

theorem putCharacter_dest (K : Internal) (dots : widechar) (table : TranslationTableHeader)
    (src srcmax destmax : Int) (mode : Nat) (allUpper allUpperPhrase : Int) (s : Emit) :
    s.dest ≤ (putCharacter K dots table src srcmax destmax mode allUpper
      allUpperPhrase s).2.dest := by
  unfold putCharacter
  split
  · split_ifs
    · exact back_updatePositions_dest K _ _ _ table src srcmax destmax _ _ s
    · exact back_updatePositions_dest K _ _ _ table src srcmax destmax _ _ s
  · exact undefinedDots_dest K dots destmax mode s

theorem copyCharactersContext_dest (K : Internal) (table : TranslationTableHeader)
    (src srcmax destmax : Int) (mode : Nat) (currentInput : WBuf)
    (allUpper allUpperPhrase : Int) (n : Nat) :
    ∀ (fromPos : Int) (s : Emit),
      s.dest ≤ (copyCharactersContext K table src srcmax destmax mode currentInput
        allUpper allUpperPhrase n fromPos s).2.dest := by
  induction n with
  | zero =>
    intro fromPos s
    exact le_refl _
  | succ n ih =>
    intro fromPos s
    unfold copyCharactersContext
    dsimp only
    have h := putCharacter_dest K (currentInput fromPos) table src srcmax destmax mode
      allUpper allUpperPhrase s
    split_ifs
    · exact le_trans h (ih _ _)
    · exact h

theorem copyCharacters_bounded (K : Internal) (fromPos toPos : Int)
    (table : TranslationTableHeader) (src srcmax destmax : Int) (mode : Nat)
    (currentInput : WBuf) (allUpper allUpperPhrase : Int)
    (currentOpcode : TranslationTableOpcode) (out0 : WBuf) (s : Emit)
    (hs : Bounded destmax out0 s) :
    Bounded destmax out0 (copyCharacters K fromPos toPos table src srcmax destmax mode
      currentInput allUpper allUpperPhrase currentOpcode s).2 ∧
    s.dest ≤ (copyCharacters K fromPos toPos table src srcmax destmax mode
      currentInput allUpper allUpperPhrase currentOpcode s).2.dest := by
  unfold copyCharacters
  have hs0 := hs.1
  split
  · exact ⟨copyCharactersContext_bounded K table src srcmax destmax mode currentInput allUpper
      allUpperPhrase out0 _ _ s hs, copyCharactersContext_dest K table src srcmax destmax mode
      currentInput allUpper allUpperPhrase _ _ s⟩
  · dsimp only
    split_ifs with h1 h2
    · exact ⟨hs, le_refl _⟩
    · refine ⟨bounded_of_le hs ?_ ?_ ?_, ?_⟩
      · dsimp only
        omega
      · dsimp only
        omega
      · intro i hi
        dsimp only
        simp only [writeRange]
        split_ifs <;> first | rfl | omega
      · dsimp only
        omega
    · exact ⟨hs, le_refl _⟩


/-! Swap replacement: the positions walked are segment starts, and a segment
with a nonzero length word moves `dest` forward. -/

theorem swapEmit_bounded (swapRule : TranslationTableRule) (destmax : Int) (curSrc : Int)
    (curTest : Nat) (out0 : WBuf)
    (hwf : ∀ p, SegmentStart swapRule p → p < swapRule.dotslen →
      1 ≤ swapRule.charsdots (swapRule.charslen + p))
    (n : Nat) :
    ∀ (curPos curRep lastPos lastRep : Nat) (s : Emit) (lastPos1 lastRep1 : Nat) (s1 : Emit),
      SegmentStart swapRule curPos → SegmentStart swapRule lastPos → Bounded destmax out0 s →
      swapEmit swapRule destmax curSrc curTest n curPos curRep lastPos lastRep s
        = some (lastPos1, lastRep1, s1) →
      SegmentStart swapRule lastPos1 ∧ Bounded destmax out0 s1 ∧ s.dest ≤ s1.dest := by
  induction n with
  | zero =>
    intro curPos curRep lastPos lastRep s lastPos1 lastRep1 s1 hc hl hs h
    simp only [swapEmit, Option.some.injEq, Prod.mk.injEq] at h
    obtain ⟨h1, -, h3⟩ := h
    subst h1 h3
    exact ⟨hl, hs, le_refl _⟩
  | succ n ih =>
    intro curPos curRep lastPos lastRep s lastPos1 lastRep1 s1 hc hl hs h
    unfold swapEmit at h
    dsimp only at h
    have hs0 := hs.1
    split at h
    · rename_i hlt
      have hpos : (1 : Int) ≤ ((swapRule.charsdots (swapRule.charslen + curPos) : Nat) : Int) := by
        exact_mod_cast hwf curPos hc hlt
      split at h
      · split at h
        · cases h
        · rename_i hfit
          simp only [Option.some.injEq, Prod.mk.injEq] at h
          obtain ⟨h1, -, h3⟩ := h
          subst h1 h3
          refine ⟨hc, bounded_of_le hs ?_ ?_ ?_, ?_⟩
          · dsimp only
            omega
          · dsimp only
            omega
          · intro i hi
            dsimp only
            simp only [writeRange]
            split_ifs <;> first | rfl | omega
          · dsimp only
            omega
      · exact ih _ _ _ _ _ _ _ _ (SegmentStart.next curPos hc hlt) hl hs h
    · simp only [Option.some.injEq, Prod.mk.injEq] at h
      obtain ⟨h1, -, h3⟩ := h
      subst h1 h3
      exact ⟨hl, hs, le_refl _⟩

theorem back_swapReplaceLoop_bounded (swapRule : TranslationTableRule) (destmax : Int)
    (currentInput : WBuf) (maxLen : Int) (out0 : WBuf)
    (hwf : ∀ p, SegmentStart swapRule p → p < swapRule.dotslen →
      1 ≤ swapRule.charsdots (swapRule.charslen + p))
    (n : Nat) :
    ∀ (curSrc : Int) (lastPos lastRep : Nat) (s : Emit),
      SegmentStart swapRule lastPos → Bounded destmax out0 s →
      Bounded destmax out0
        (back_swapReplaceLoop swapRule destmax currentInput maxLen n curSrc lastPos lastRep
          s).2 ∧
      s.dest ≤ (back_swapReplaceLoop swapRule destmax currentInput maxLen n curSrc lastPos lastRep
          s).2.dest := by
  induction n with
  | zero =>
    intro curSrc lastPos lastRep s hl hs
    exact ⟨hs, le_refl _⟩
  | succ n ih =>
    intro curSrc lastPos lastRep s hl hs
    unfold back_swapReplaceLoop
    dsimp only
    by_cases h1 : curSrc < maxLen
    · rw [if_pos h1]
      by_cases h2 : swapFind swapRule (currentInput curSrc) swapRule.charslen 0
          = swapRule.charslen
      · rw [if_pos h2]
        exact ⟨hs, le_refl _⟩
      · rw [if_neg h2]
        have hcur : SegmentStart swapRule
            (if swapFind swapRule (currentInput curSrc) swapRule.charslen 0 ≥ lastRep
              then lastPos else 0) := by
          split_ifs
          · exact hl
          · exact SegmentStart.zero
        split
        · exact ⟨hs, le_refl _⟩
        · rename_i lastPos1 lastRep1 s1 he
          obtain ⟨h3, h4, h5⟩ := swapEmit_bounded swapRule destmax curSrc _ out0 hwf _ _ _ _
            _ _ _ _ _ hcur hl hs he
          obtain ⟨h6, h7⟩ := ih (curSrc + 1) lastPos1 lastRep1 s1 h3 h4
          exact ⟨h6, le_trans h5 h7⟩
    · rw [if_neg h1]
      exact ⟨hs, le_refl _⟩

theorem back_swapReplace_bounded (startSrc maxLen : Int) (table : TranslationTableHeader)
    (destmax : Int) (currentInput : WBuf) (passInstructions : Nat → widechar) (passIC : Nat)
    (out0 : WBuf) (s : Emit) (hwf : SwapSegmentsPositive table)
    (hs : Bounded destmax out0 s) :
    Bounded destmax out0
      (back_swapReplace startSrc maxLen table destmax currentInput passInstructions passIC
        s).2 ∧
    s.dest ≤ (back_swapReplace startSrc maxLen table destmax currentInput passInstructions passIC
        s).2.dest := by
  unfold back_swapReplace
  exact back_swapReplaceLoop_bounded _ destmax currentInput maxLen out0
    (fun p hp hlt => hwf _ p hp hlt) _ _ _ _ _ SegmentStart.zero hs

/-- The invariant of the action loop: the output is bounded, and `dest` has
not fallen below `destStart`, nor `destStart` below `destInitial`. -/
theorem back_passDoActionLoop_bounded (K : Internal) (table : TranslationTableHeader)
    (src srcmax destmax : Int) (mode : Nat) (currentInput : WBuf)
    (allUpper allUpperPhrase : Int) (currentOpcode : TranslationTableOpcode)
    (currentRule : TranslationTableRule) (pm : PassMatch) (srcEnd destInitial : Int)
    (out0 : WBuf) (hwf : SwapSegmentsPositive table) (h0 : 0 ≤ destInitial) (fuel : Nat) :
    ∀ a : ActionState, Bounded destmax out0 a.e → destInitial ≤ a.destStart →
      a.destStart ≤ a.e.dest →
      Bounded destmax out0
        (back_passDoActionLoop K table src srcmax destmax mode currentInput allUpper
          allUpperPhrase currentOpcode currentRule pm srcEnd destInitial fuel a).2.e := by
  induction fuel with
  | zero =>
    intro a ha h1 h2
    exact ha
  | succ fuel ih =>
    intro a ha h1 h2
    unfold back_passDoActionLoop
    dsimp only
    have ha0 := ha.1
    have ha1 := ha.2.1
    have hstring : Bounded destmax out0
        (if a.e.dest + ((pm.passInstructions (a.passIC + 1) : Nat) : Int) > destmax then (false, a)
          else
            back_passDoActionLoop K table src srcmax destmax mode currentInput allUpper
              allUpperPhrase currentOpcode currentRule pm srcEnd destInitial fuel
              { a with
                e := { a.e with
                  srcMapping := writeRange a.e.srcMapping a.e.dest
                    (pm.passInstructions (a.passIC + 1)) (fun _ => pm.startMatch)
                  currentOutput := writeRange a.e.currentOutput a.e.dest
                    (pm.passInstructions (a.passIC + 1))
                    (fun k => pm.passInstructions (a.passIC + 2 + k))
                  dest := a.e.dest + ((pm.passInstructions (a.passIC + 1) : Nat) : Int) }
                passIC := a.passIC + (pm.passInstructions (a.passIC + 1) + 2) }).2.e := by
      split_ifs with hfit
      · exact ha
      · refine ih _ (bounded_of_le ha ?_ ?_ ?_) ?_ ?_
        · dsimp only
          omega
        · dsimp only
          omega
        · intro i hi
          dsimp only
          simp only [writeRange]
          split_ifs <;> first | rfl | omega
        · exact h1
        · dsimp only
          omega
    by_cases hic : a.passIC < currentRule.dotslen
    · rw [if_pos hic]
      split
      · exact hstring
      · exact hstring
      · obtain ⟨h3, h4⟩ := back_swapReplace_bounded pm.startReplace
          (a.endReplace - pm.startReplace) table destmax currentInput pm.passInstructions
          a.passIC out0 a.e hwf ha
        split_ifs
        · exact h3
        · exact ih _ h3 h1 (le_trans h2 h4)
      · exact ih _ ha h1 h2
      · have key := fun (e1 : Emit) (hb1 : Bounded destmax out0 e1) =>
          copyCharacters_bounded K pm.startReplace srcEnd table src srcmax
            destmax mode currentInput allUpper allUpperPhrase currentOpcode out0 e1 hb1
        by_cases hc : a.destStart - destInitial > 0
        · simp only [if_pos hc]
          have hb1 : Bounded destmax out0
              { a.e with
                currentOutput := writeRange a.e.currentOutput destInitial
                  (a.destStart - destInitial).toNat
                  (fun i => a.e.currentOutput (a.destStart + i))
                dest := a.e.dest - (a.destStart - destInitial) } := by
            refine bounded_of_le ha ?_ ?_ ?_
            · dsimp only
              omega
            · dsimp only
              omega
            · intro i hi
              dsimp only
              simp only [writeRange]
              split_ifs <;> first | rfl | omega
          have h34 := key _ hb1
          split_ifs
          · refine ih _ h34.1 (le_refl _) ?_
            have h4 := h34.2
            dsimp only at h4 ⊢
            omega
          · exact h34.1
        · simp only [if_neg hc]
          have h34 := key _ ha
          split_ifs
          · exact ih _ h34.1 h1 (le_trans h2 h34.2)
          · exact h34.1
      · split
        · exact ih _ ha h1 h2
        · exact ha
    · rw [if_neg hic]
      exact ha

theorem back_passDoAction_bounded (K : Internal) (table : TranslationTableHeader)
    (src srcmax destmax : Int) (mode : Nat) (currentInput : WBuf)
    (allUpper allUpperPhrase : Int) (currentOpcode : TranslationTableOpcode)
    (currentRule : TranslationTableRule) (pm : PassMatch) (vars : PassVariables) (out0 : WBuf)
    (s : Emit) (hwf : SwapSegmentsPositive table) (hs : Bounded destmax out0 s) :
    Bounded destmax out0
      (back_passDoAction K table src srcmax destmax mode currentInput allUpper allUpperPhrase
        currentOpcode currentRule pm vars s).2.e := by
  unfold back_passDoAction
  dsimp only
  obtain ⟨h3, h4⟩ := copyCharacters_bounded K pm.startMatch pm.startReplace table src srcmax
    destmax mode currentInput allUpper allUpperPhrase currentOpcode out0 s hs
  split_ifs
  · exact back_passDoActionLoop_bounded K table src srcmax destmax mode currentInput allUpper
      allUpperPhrase currentOpcode currentRule pm pm.endReplace s.dest out0 hwf hs.1 _ _ h3 h4
      (le_refl _)
  · exact h3

theorem beforeReplacement_bounded (K : Internal) (env : PassEnv) (sel : Selected)
    (b : BackState) (out0 : WBuf) (hb : BoundedState env.destmax out0 b) :
    BoundedState env.destmax out0 (beforeReplacement K env sel b).2 := by
  have hsp := insertSpace_bounded K env.table b.src env.srcmax env.destmax b.allUpper
    b.allUpperPhrase out0 b.e hb.1
  unfold beforeReplacement
  dsimp only
  repeat' split
  all_goals first
    | exact hb
    | exact ⟨hsp, hb.2⟩

theorem insertCharsLoop_bounded (K : Internal) (env : PassEnv) (allUpper allUpperPhrase : Int)
    (srclim : Int) (out0 : WBuf) (n : Nat) :
    ∀ (src : Int) (s : Emit) (r : Bool × Int × Emit), Bounded env.destmax out0 s →
      insertCharsLoop K env allUpper allUpperPhrase srclim n src s = some r →
      Bounded env.destmax out0 r.2.2 := by
  induction n with
  | zero =>
    intro src s r hs h
    cases h
  | succ n ih =>
    intro src s r hs h
    have hp := putCharacter_bounded K (env.currentInput src) env.table src env.srcmax
      env.destmax env.mode allUpper allUpperPhrase out0 s hs
    unfold insertCharsLoop at h
    dsimp only at h
    split_ifs at h
    · cases h
      exact hp
    · exact ih _ _ _ hp h
    · cases h
      exact hp

theorem insertChars_bounded (K : Internal) (env : PassEnv) (fuel : Nat) (sel : Selected)
    (b : BackState) (out0 : WBuf) (r : Flow × BackState)
    (hb : BoundedState env.destmax out0 b) (h : insertChars K env fuel sel b = some r) :
    BoundedState env.destmax out0 r.2 := by
  have hu := back_updatePositions_bounded K sel.currentRule.charsdots sel.currentRule.dotslen
    sel.currentRule.charslen env.table b.src env.srcmax env.destmax b.allUpper
    b.allUpperPhrase out0 b.e hb.1
  unfold insertChars at h
  by_cases hc : sel.currentRule.charslen ≠ 0
  · rw [if_pos hc] at h
    dsimp only at h
    split_ifs at h
    · cases h
      exact ⟨hu, hb.2⟩
    · cases h
      exact ⟨hu, hb.2⟩
  · rw [if_neg hc] at h
    split at h
    · cases h
    · rename_i ok src1 e1 hl
      have := insertCharsLoop_bounded K env _ _ _ out0 _ _ _ _ hb.1 hl
      cases h
      exact ⟨this, hb.2⟩

theorem insertChars_withEnd_bounded (K : Internal) (env : PassEnv) (fuel : Nat)
    (sel : Selected) (b : BackState) (out0 : WBuf) (er : Int) (r : Flow × BackState × Int)
    (hb : BoundedState env.destmax out0 b)
    (h : (insertChars K env fuel sel b).map (fun x => (x.1, x.2, er)) = some r) :
    BoundedState env.destmax out0 r.2.1 := by
  cases hi : insertChars K env fuel sel b with
  | none => rw [hi] at h; cases h
  | some r1 =>
    rw [hi] at h
    simp only [Option.map_some', Option.some.injEq] at h
    subst h
    exact insertChars_bounded K env fuel sel b out0 _ hb hi

theorem replacement_bounded (K : Internal) (env : PassEnv) (fuel : Nat) (sel : Selected)
    (b : BackState) (out0 : WBuf) (r : Flow × BackState × Int)
    (hwf : SwapSegmentsPositive env.table)
    (hb : BoundedState env.destmax out0 b) (h : replacement K env fuel sel b = some r) :
    BoundedState env.destmax out0 r.2.1 := by
  have ha := back_passDoAction_bounded K env.table b.src env.srcmax env.destmax env.mode
    env.currentInput b.allUpper b.allUpperPhrase CTO_Context sel.currentRule sel.pm
    b.st.passVariables out0 b.e hwf hb.1
  have hp := putCharacters_bounded K sel.currentRule.charsdots env.table
    (b.src + sel.currentDotslen) env.srcmax env.destmax env.mode b.allUpper b.allUpperPhrase
    out0 sel.currentRule.charslen 0 b.e hb.1
  have hu := undefinedDots_bounded K (env.currentInput b.src) env.destmax env.mode out0 b.e hb.1
  unfold replacement at h
  dsimp only at h
  split at h
  · split_ifs at h
    · cases h
      exact ⟨ha, hb.2⟩
    · cases h
      exact ⟨ha, hb.2⟩
  · cases h
    exact ⟨hp, hb.2⟩
  · split_ifs at h
    · cases h
      exact ⟨hu, hb.2⟩
    · cases h
      exact ⟨hu, hb.2⟩
  · refine insertChars_withEnd_bounded K env fuel sel _ out0 _ _ ?_ h
    exact hb
  · refine insertChars_withEnd_bounded K env fuel sel _ out0 _ _ ?_ h
    exact hb
  · refine insertChars_withEnd_bounded K env fuel sel _ out0 _ _ ?_ h
    exact hb
  · exact insertChars_withEnd_bounded K env fuel sel _ out0 _ _ hb h

theorem afterReplacement_bounded (K : Internal) (env : PassEnv) (sel : Selected)
    (endReplace : Int) (b : BackState) (out0 : WBuf)
    (hwf : SwapSegmentsPositive env.table) (hb : BoundedState env.destmax out0 b) :
    BoundedState env.destmax out0 (afterReplacement K env sel endReplace b).2.1 := by
  have hsp := insertSpace_bounded K env.table b.src env.srcmax env.destmax b.allUpper
    b.allUpperPhrase out0 b.e hb.1
  have ha := fun rule pm => back_passDoAction_bounded K env.table b.src env.srcmax env.destmax
    env.mode env.currentInput b.allUpper b.allUpperPhrase CTO_Context rule pm
    b.st.passVariables out0 b.e hwf hb.1
  unfold afterReplacement
  dsimp only
  repeat' split
  all_goals first
    | exact hb
    | exact ⟨hsp, hb.2⟩
    | exact ⟨ha _ _, hb.2⟩

theorem endOfTurn_bounded (K : Internal) (env : PassEnv) (currentOpcode : TranslationTableOpcode)
    (b : BackState) (out0 : WBuf) (hb : BoundedState env.destmax out0 b) :
    BoundedState env.destmax out0 (endOfTurn K env currentOpcode b) := by
  unfold endOfTurn
  dsimp only
  repeat' split
  all_goals first
    | exact hb
    | exact ⟨hb.1, hb.1.1, hb.1.2.1⟩

theorem backTranslateTurn_bounded (K : Internal) (env : PassEnv) (fuel : Nat)
    (b : BackState) (out0 : WBuf) (r : Flow × BackState)
    (hwf : SwapSegmentsPositive env.table) (hb : BoundedState env.destmax out0 b)
    (h : backTranslateTurn K env fuel b = some r) :
    BoundedState env.destmax out0 r.2 := by
  unfold backTranslateTurn at h
  dsimp only at h
  split at h
  · rename_i b1 hbr
    have h1 : BoundedState env.destmax out0 b1 := by
      have e1 := congrArg Prod.snd hbr
      dsimp only at e1
      rw [← e1]
      exact beforeReplacement_bounded K env _ _ out0 hb
    split at h
    · cases h
    · rename_i b2 er hr
      have h2 := replacement_bounded K env fuel _ _ out0 _ hwf h1 hr
      have h3 := afterReplacement_bounded K env
        (back_selectRule K env.table b.src env.srcmax b.e.dest env.mode env.currentInput
          b.e.currentOutput b.itsANumber b.itsALetter b.previousOpcode b.doingMultind
          b.multindRule (back_setBefore K env.table b.e.dest b.e.currentOutput)
          b.st.passVariables K.indeterminate) er b2 out0 hwf h2
      split at h
      · rename_i b3 op ha
        rw [ha] at h3
        cases h
        exact endOfTurn_bounded K env op b3 out0 h3
      · rename_i fl b3 op hne ha
        rw [ha] at h3
        cases h
        exact h3
    · rename_i fl b2 er hne hr
      have h2 := replacement_bounded K env fuel _ _ out0 _ hwf h1 hr
      cases h
      exact h2
  · rename_i fl b1 hne hbr
    have h1 : BoundedState env.destmax out0 b1 := by
      have e1 := congrArg Prod.snd hbr
      dsimp only at e1
      rw [← e1]
      exact beforeReplacement_bounded K env _ _ out0 hb
    cases h
    exact h1

theorem backTranslateLoop_bounded (K : Internal) (env : PassEnv) (fuel : Nat) (out0 : WBuf)
    (hwf : SwapSegmentsPositive env.table) (n : Nat) :
    ∀ (b : BackState) (r : Bool × BackState), BoundedState env.destmax out0 b →
      backTranslateLoop K env fuel n b = some r → BoundedState env.destmax out0 r.2 := by
  induction n with
  | zero =>
    intro b r hb h
    unfold backTranslateLoop at h
    split_ifs at h
    cases h
    exact hb
  | succ n ih =>
    intro b r hb h
    unfold backTranslateLoop at h
    split_ifs at h
    · split at h
      · cases h
      · rename_i b1 ht
        cases h
        exact backTranslateTurn_bounded K env fuel b out0 _ hwf hb ht
      · rename_i b1 ht
        cases h
        exact backTranslateTurn_bounded K env fuel b out0 _ hwf hb ht
      · rename_i fl b1 _ _ ht
        exact ih _ _ (backTranslateTurn_bounded K env fuel b out0 _ hwf hb ht) h
    · cases h
      exact hb

theorem backTranslateEnd_bounded (K : Internal) (env : PassEnv) (b : BackState) (out0 : WBuf)
    (hb : BoundedState env.destmax out0 b) :
    Bounded env.destmax out0 (backTranslateEnd K env b).e := by
  unfold backTranslateEnd
  dsimp only
  split_ifs
  all_goals first
    | exact hb.1
    | exact ⟨hb.2.1, hb.2.2, hb.1.2.2⟩

theorem backTranslateString_bounded (K : Internal) (env : PassEnv) (fuel : Nat) (e : Emit)
    (st : Statics) (applied : List TranslationTableRule) (multindRule : TranslationTableRule)
    (r : PassResult) (hwf : SwapSegmentsPositive env.table) (h0 : 0 ≤ env.destmax)
    (h : backTranslateString K env fuel e st applied multindRule = some r) :
    Bounded env.destmax e.currentOutput r.e := by
  have hs : BoundedState env.destmax e.currentOutput
      (backTranslateStart K e st applied multindRule) :=
    ⟨⟨le_refl _, h0, fun _ _ => rfl⟩, le_refl _, h0⟩
  unfold backTranslateString at h
  split at h
  · cases h
  · rename_i b1 hl
    cases h
    exact backTranslateEnd_bounded K env b1 _
      (backTranslateLoop_bounded K env fuel _ hwf _ _ _ hs hl)
  · rename_i b1 hl
    cases h
    exact (backTranslateLoop_bounded K env fuel _ hwf _ _ _ hs hl).1

theorem makeCorrectionsTurn_bounded (K : Internal) (env : PassEnv) (p : PassState)
    (out0 : WBuf) (hwf : SwapSegmentsPositive env.table)
    (hp : Bounded env.destmax out0 p.e) :
    Bounded env.destmax out0 (makeCorrectionsTurn K env p).2.e := by
  have ha := fun rule pm => back_passDoAction_bounded K env.table p.src env.srcmax env.destmax
    env.mode env.currentInput 0 0 CTO_Correct rule pm p.st.passVariables out0 p.e hwf hp
  unfold makeCorrectionsTurn
  dsimp only
  split
  · split_ifs with hfull
    · exact hp
    · refine bounded_of_le hp ?_ ?_ ?_
      · dsimp only
        have := hp.1
        omega
      · dsimp only
        omega
      · intro i hi
        dsimp only
        simp only [setAt]
        split_ifs <;> first | rfl | omega
  · split
    · split_ifs
      · exact ha _ _
      · exact ha _ _
    · exact hp

theorem makeCorrectionsLoop_bounded (K : Internal) (env : PassEnv) (out0 : WBuf)
    (hwf : SwapSegmentsPositive env.table) (n : Nat) :
    ∀ (p r : PassState), Bounded env.destmax out0 p.e →
      makeCorrectionsLoop K env n p = some r → Bounded env.destmax out0 r.e := by
  induction n with
  | zero =>
    intro p r hp h
    unfold makeCorrectionsLoop at h
    split_ifs at h
    cases h
    exact hp
  | succ n ih =>
    intro p r hp h
    have ht := makeCorrectionsTurn_bounded K env p out0 hwf hp
    unfold makeCorrectionsLoop at h
    split_ifs at h
    · split at h
      · rename_i p1 hturn
        rw [hturn] at ht
        exact ih _ _ ht h
      · rename_i p1 hturn
        rw [hturn] at ht
        cases h
        exact ht
    · cases h
      exact hp

theorem makeCorrections_bounded (K : Internal) (env : PassEnv) (fuel : Nat) (src : Int)
    (e : Emit) (st : Statics) (applied : List TranslationTableRule) (r : PassResult)
    (hwf : SwapSegmentsPositive env.table) (h0 : 0 ≤ env.destmax)
    (hc : env.table.corrections ≠ 0)
    (h : makeCorrections K env fuel src e st applied = some r) :
    Bounded env.destmax e.currentOutput r.e := by
  unfold makeCorrections at h
  rw [if_neg hc] at h
  split at h
  · cases h
  · rename_i p hl
    cases h
    exact makeCorrectionsLoop_bounded K env _ hwf _ _ _ ⟨le_refl _, h0, fun _ _ => rfl⟩ hl

theorem translatePassTurn_bounded (K : Internal) (env : PassEnv) (p : PassState)
    (out0 : WBuf) (hwf : SwapSegmentsPositive env.table)
    (hp : Bounded env.destmax out0 p.e) :
    Bounded env.destmax out0 (translatePassTurn K env p).2.e := by
  have ha := fun (rule : TranslationTableRule) pm =>
    back_passDoAction_bounded K env.table p.src env.srcmax env.destmax
      env.mode env.currentInput 0 0 rule.opcode rule pm p.st.passVariables out0 p.e hwf hp
  unfold translatePassTurn
  dsimp only
  split
  · split_ifs
    · exact ha _ _
    · exact ha _ _
  · split_ifs
    · exact ha _ _
    · exact ha _ _
  · split_ifs
    · exact ha _ _
    · exact ha _ _
  · split_ifs with hfull
    · exact hp
    · refine bounded_of_le hp ?_ ?_ ?_
      · dsimp only
        have := hp.1
        omega
      · dsimp only
        omega
      · intro i hi
        dsimp only
        simp only [setAt]
        split_ifs <;> first | rfl | omega
  · exact hp

theorem translatePassLoop_bounded (K : Internal) (env : PassEnv) (out0 : WBuf)
    (hwf : SwapSegmentsPositive env.table) (n : Nat) :
    ∀ (p : PassState) (r : Bool × PassState), Bounded env.destmax out0 p.e →
      translatePassLoop K env n p = some r → Bounded env.destmax out0 r.2.e := by
  induction n with
  | zero =>
    intro p r hp h
    unfold translatePassLoop at h
    split_ifs at h
    cases h
    exact hp
  | succ n ih =>
    intro p r hp h
    have ht := translatePassTurn_bounded K env p out0 hwf hp
    unfold translatePassLoop at h
    split_ifs at h
    · split at h
      · rename_i p1 hturn
        rw [hturn] at ht
        exact ih _ _ ht h
      · rename_i p1 hturn
        rw [hturn] at ht
        cases h
        exact ht
    · cases h
      exact hp

theorem translatePass_bounded (K : Internal) (env : PassEnv) (fuel : Nat)
    (e : Emit) (st : Statics) (applied : List TranslationTableRule) (r : PassResult)
    (hwf : SwapSegmentsPositive env.table) (h0 : 0 ≤ env.destmax)
    (h : translatePass K env fuel e st applied = some r) :
    Bounded env.destmax e.currentOutput r.e := by
  unfold translatePass at h
  split at h
  · cases h
  · rename_i completed p hl
    have hb := translatePassLoop_bounded K env _ hwf _ _ _ ⟨le_refl _, h0, fun _ _ => rfl⟩ hl
    cases h
    dsimp only
    split_ifs
    · exact bounded_congr rfl rfl hb
    · exact hb

/-- What a pass of the pipeline leaves: a bounded output, or, for the
correction pass of a table without corrections, the variables as they were. -/
theorem runPass_bounded (K : Internal) (env : PassEnv) (fuel : Nat) (src : Int) (e : Emit)
    (st : Statics) (applied : List TranslationTableRule) (multindRule : TranslationTableRule)
    (r : PassResult) (hwf : SwapSegmentsPositive env.table) (h0 : 0 ≤ env.destmax)
    (h : runPass K env fuel src e st applied multindRule = some r) :
    Bounded env.destmax e.currentOutput r.e ∨
      (env.currentPass = 0 ∧ env.table.corrections = 0 ∧ r.result = 1 ∧ r.e = e) := by
  unfold runPass at h
  split_ifs at h with h1 h2
  · exact Or.inl (backTranslateString_bounded K env fuel e st applied multindRule r hwf h0 h)
  · by_cases hc : env.table.corrections = 0
    · right
      unfold makeCorrections at h
      rw [if_pos hc] at h
      cases h
      exact ⟨h2, hc, rfl, rfl⟩
    · exact Or.inl (makeCorrections_bounded K env fuel src e st applied r hwf h0 hc h)
  · exact Or.inl (translatePass_bounded K env fuel e st applied r hwf h0 h)

theorem afterPass_e (d : PipelineState) (o : OutputBuffer) (r : PassResult) :
    (d.afterPass o r).e = r.e := by
  cases o <;> rfl

theorem afterPass_outbuf (d : PipelineState) (o : OutputBuffer) (r : PassResult)
    (destmax : Int) (h : ∀ i : Int, destmax ≤ i → r.e.currentOutput i = d.output o i) :
    ∀ i : Int, destmax ≤ i → (d.afterPass o r).outbuf i = d.outbuf i := by
  intro i hi
  cases o
  · exact h i hi
  · rfl
  · rfl

/-- The pipeline ends with `dest` in `[0, destmax]`, and the caller's buffer
as it was from `destmax` on. -/
theorem doPassesLoop_bounded (K : Internal) (table : TranslationTableHeader) (destmax : Int)
    (mode : Nat) (traced : Bool) (maxAppliedRules : Int) (multindRule : TranslationTableRule)
    (lastPass : Int) (fuel : Nat) (hwf : SwapSegmentsPositive table) (h0 : 0 ≤ destmax)
    (hlast : lastPass = 0 → table.corrections ≠ 0) (n : Nat) :
    ∀ (currentPass : Int) (d : PipelineState) (res : Int × PipelineState),
      doPassesLoop K table destmax mode traced maxAppliedRules multindRule lastPass fuel n
        currentPass d = some res →
      0 ≤ res.2.e.dest ∧ res.2.e.dest ≤ destmax ∧
        ∀ i : Int, destmax ≤ i → res.2.outbuf i = d.outbuf i := by
  induction n with
  | zero =>
    intro currentPass d res h
    cases h
  | succ n ih =>
    intro currentPass d res h
    unfold doPassesLoop at h
    dsimp only at h
    split at h
    · cases h
    · rename_i r hr
      have hrp := runPass_bounded K _ fuel _ _ _ _ multindRule r hwf h0 hr
      dsimp only at hrp
      have hframe : ∀ i : Int, destmax ≤ i →
          r.e.currentOutput i
            = d.output (chooseOutput currentPass lastPass d.currentInput) i := by
        intro i hi
        rcases hrp with hb | ⟨-, -, -, he⟩
        · exact hb.2.2 i hi
        · rw [he]
      have hout := afterPass_outbuf d _ r destmax hframe
      split_ifs at h with hres hlp
      · cases h
        rcases hrp with hb | ⟨-, -, h1, -⟩
        · refine ⟨?_, ?_, hout⟩
          · rw [afterPass_e]
            exact hb.1
          · rw [afterPass_e]
            exact hb.2.1
        · omega
      · cases h
        rcases hrp with hb | ⟨hcp, hc, -, -⟩
        · refine ⟨?_, ?_, hout⟩
          · rw [afterPass_e]
            exact hb.1
          · rw [afterPass_e]
            exact hb.2.1
        · exact absurd hc (hlast (by omega))
      · obtain ⟨h1, h2, h3⟩ := ih _ _ _ h
        refine ⟨h1, h2, fun i hi => ?_⟩
        rw [h3 i hi]
        exact hout i hi

theorem doPasses_bounded (K : Internal) (table : TranslationTableHeader) (destmax : Int)
    (mode : Nat) (traced : Bool) (maxAppliedRules : Int) (multindRule : TranslationTableRule)
    (fuel : Nat) (d : PipelineState) (res : Int × PipelineState)
    (hwf : SwapSegmentsPositive table) (h0 : 0 ≤ destmax)
    (h : doPasses K table destmax mode traced maxAppliedRules multindRule fuel d = some res) :
    0 ≤ res.2.e.dest ∧ res.2.e.dest ≤ destmax ∧
      ∀ i : Int, destmax ≤ i → res.2.outbuf i = d.outbuf i := by
  unfold doPasses at h
  dsimp only at h
  refine doPassesLoop_bounded K table destmax mode traced maxAppliedRules multindRule _ fuel
    hwf h0 ?_ fuel _ d res h
  intro hl
  split_ifs at hl <;> first | assumption | omega

theorem prepareCall_early_output (K : Internal) (c : Call) (st : Statics) (r : CallResult)
    (h : prepareCall K c st = .inl r) : r.outlen = c.outlen ∧ r.outbuf = c.outbuf := by
  unfold prepareCall at h
  split at h
  · split at h
    · cases h; exact ⟨rfl, rfl⟩
    · split at h
      · cases h; exact ⟨rfl, rfl⟩
      · split at h
        · cases h; exact ⟨rfl, rfl⟩
        · split_ifs at h
          cases h; exact ⟨rfl, rfl⟩
  · cases h; exact ⟨rfl, rfl⟩

/-- The call returns a length in `[0, capacity]` and leaves the caller's
buffer as it was from the capacity on. -/
theorem call_bounded (K : Internal) (c : Call) (st : Statics) (multindRule : TranslationTableRule)
    (fuel : Nat) (res : CallResult) (out0 : WBuf) (destmax : Int)
    (hK : ∀ name t, K.getTable name = some t → SwapSegmentsPositive t) (h0 : 0 ≤ destmax)
    (hout : c.outbuf = some out0) (hlen : c.outlen = some destmax)
    (h : _lou_backTranslateWithTracing K c st multindRule fuel = some res) :
    ∃ n out1, res.outlen = some n ∧ res.outbuf = some out1 ∧ 0 ≤ n ∧ n ≤ destmax ∧
      ∀ i : Int, destmax ≤ i → out1 i = out0 i := by
  unfold _lou_backTranslateWithTracing at h
  split at h
  · rename_i r hprep
    cases h
    obtain ⟨h1, h2⟩ := prepareCall_early_output K c st _ hprep
    exact ⟨destmax, out0, by rw [h1, hlen], by rw [h2, hout], h0, le_refl _, fun _ _ => rfl⟩
  · rename_i p hprep
    obtain ⟨table, inbuf, inlen, outbuf, outlen, passbuf1, srcMapping, ht, -, -, ho, hl, -, -,
      hp⟩ := prepareCall_pipeline K c st p hprep
    rw [hout] at ho
    rw [hlen] at hl
    cases ho
    cases hl
    have hwf : SwapSegmentsPositive table := by
      cases htl : c.tableList with
      | none => rw [htl] at ht; cases ht
      | some name =>
        rw [htl] at ht
        exact hK name table ht
    subst hp
    split at h
    · cases h
    · rename_i goodTrans d1 hd
      cases h
      have := doPasses_bounded K _ _ _ _ _ _ _ _ _ hwf h0 hd
      exact ⟨d1.e.dest, d1.outbuf, rfl, rfl, this.1, this.2.1, this.2.2⟩

theorem swapSegmentsPositive_emptyTable : SwapSegmentsPositive emptyTable := by
  intro i p _ hlt
  exact absurd hlt (Nat.not_lt_zero p)


theorem sampleInternal_tables (name : String) (t : TranslationTableHeader)
    (h : sampleInternal.getTable name = some t) : SwapSegmentsPositive t := by
  have h1 : some emptyTable = some t := h
  cases h1
  exact swapSegmentsPositive_emptyTable

/-- C1 (amended). Let no replacement segment of a swap rule in the rule area
have the length word 0 (`SwapSegmentsPositive`), for the table of the pass and
for every table a name resolves to, and let `destmax >= 0`. Call the emitter
variables bounded when `0 <= dest <= destmax` and the output buffer holds what
it held at the start at every index from `destmax` on. Then: each of
`putchars`, `undefinedDots`, `back_updatePositions`, `copyCharacters`,
`back_passDoAction` and `back_swapReplace` takes bounded variables to bounded
variables, whether it succeeds or fails; so does every completed loop turn of
`backTranslateString` (with the remembered `destword` in `[0, destmax]`), of
`makeCorrections` and of `translatePass`; each pass that returns leaves the
variables bounded with respect to the output buffer it was given, where
`makeCorrections` on a table without corrections leaves them untouched; and a
call of `_lou_backTranslateWithTracing` that returns gives a `*outlen` in
`[0, capacity]` and has not changed `outbuf` at any index from the capacity
on. -/
theorem output_within_capacity (K : Internal) (env : PassEnv) (out0 : WBuf)
    (hwf : SwapSegmentsPositive env.table)
    (hK : ∀ name t, K.getTable name = some t → SwapSegmentsPositive t)
    (h0 : 0 ≤ env.destmax) :
    (∀ s : Emit, Bounded env.destmax out0 s →
      (∀ chars count allUpper allUpperPhrase,
        Bounded env.destmax out0
          (putchars K chars count env.table env.destmax allUpper allUpperPhrase s).2) ∧
      (∀ d mode, Bounded env.destmax out0 (undefinedDots K d env.destmax mode s).2) ∧
      (∀ outChars inLength outLength src srcmax allUpper allUpperPhrase,
        Bounded env.destmax out0
          (back_updatePositions K outChars inLength outLength env.table src srcmax env.destmax
            allUpper allUpperPhrase s).2) ∧
      (∀ fromPos toPos src srcmax mode currentInput allUpper allUpperPhrase currentOpcode,
        Bounded env.destmax out0
          (copyCharacters K fromPos toPos env.table src srcmax env.destmax mode currentInput
            allUpper allUpperPhrase currentOpcode s).2) ∧
      (∀ src srcmax mode currentInput allUpper allUpperPhrase currentOpcode currentRule pm vars,
        Bounded env.destmax out0
          (back_passDoAction K env.table src srcmax env.destmax mode currentInput allUpper
            allUpperPhrase currentOpcode currentRule pm vars s).2.e) ∧
      (∀ startSrc maxLen currentInput passInstructions passIC,
        Bounded env.destmax out0
          (back_swapReplace startSrc maxLen env.table env.destmax currentInput passInstructions
            passIC s).2)) ∧
    (∀ fuel b r, BoundedState env.destmax out0 b → backTranslateTurn K env fuel b = some r →
      BoundedState env.destmax out0 r.2) ∧
    (∀ p : PassState, Bounded env.destmax out0 p.e →
      Bounded env.destmax out0 (makeCorrectionsTurn K env p).2.e ∧
      Bounded env.destmax out0 (translatePassTurn K env p).2.e) ∧
    (∀ fuel src e st applied multindRule r,
      (backTranslateString K env fuel e st applied multindRule = some r →
        Bounded env.destmax e.currentOutput r.e) ∧
      (env.table.corrections ≠ 0 → makeCorrections K env fuel src e st applied = some r →
        Bounded env.destmax e.currentOutput r.e) ∧
      (env.table.corrections = 0 → makeCorrections K env fuel src e st applied = some r →
        r.e = e) ∧
      (translatePass K env fuel e st applied = some r →
        Bounded env.destmax e.currentOutput r.e)) ∧
    (∀ c st multindRule fuel res, c.outbuf = some out0 → c.outlen = some env.destmax →
      _lou_backTranslateWithTracing K c st multindRule fuel = some res →
      ∃ n out1, res.outlen = some n ∧ res.outbuf = some out1 ∧ 0 ≤ n ∧ n ≤ env.destmax ∧
        ∀ i : Int, env.destmax ≤ i → out1 i = out0 i) := by
  refine ⟨fun s hs => ⟨?_, ?_, ?_, ?_, ?_, ?_⟩, ?_, ?_, ?_, ?_⟩
  · intro chars count allUpper allUpperPhrase
    exact putchars_bounded K chars count env.table env.destmax allUpper allUpperPhrase out0 s hs
  · intro d mode
    exact undefinedDots_bounded K d env.destmax mode out0 s hs
  · intro outChars inLength outLength src srcmax allUpper allUpperPhrase
    exact back_updatePositions_bounded K outChars inLength outLength env.table src srcmax
      env.destmax allUpper allUpperPhrase out0 s hs
  · intro fromPos toPos src srcmax mode currentInput allUpper allUpperPhrase currentOpcode
    exact (copyCharacters_bounded K fromPos toPos env.table src srcmax env.destmax mode
      currentInput allUpper allUpperPhrase currentOpcode out0 s hs).1
  · intro src srcmax mode currentInput allUpper allUpperPhrase currentOpcode currentRule pm vars
    exact back_passDoAction_bounded K env.table src srcmax env.destmax mode currentInput
      allUpper allUpperPhrase currentOpcode currentRule pm vars out0 s hwf hs
  · intro startSrc maxLen currentInput passInstructions passIC
    exact (back_swapReplace_bounded startSrc maxLen env.table env.destmax currentInput
      passInstructions passIC out0 s hwf hs).1
  · intro fuel b r hb h
    exact backTranslateTurn_bounded K env fuel b out0 r hwf hb h
  · intro p hp
    exact ⟨makeCorrectionsTurn_bounded K env p out0 hwf hp,
      translatePassTurn_bounded K env p out0 hwf hp⟩
  · intro fuel src e st applied multindRule r
    refine ⟨fun h => backTranslateString_bounded K env fuel e st applied multindRule r hwf h0 h,
      fun hc h => makeCorrections_bounded K env fuel src e st applied r hwf h0 hc h, ?_,
      fun h => translatePass_bounded K env fuel e st applied r hwf h0 h⟩
    intro hc h
    unfold makeCorrections at h
    rw [if_pos hc] at h
    cases h
    rfl
  · intro c st multindRule fuel res hout hlen h
    exact call_bounded K c st multindRule fuel res out0 env.destmax hK h0 hout hlen h

/-- Witness for C1 (amended): the empty table has no swap rule, and
`sampleCall` (two undefined cells, capacity 10) returns `*outlen = 7`. -/
theorem output_within_capacity_witness :
    SwapSegmentsPositive (sampleEnv emptyTable).table ∧
    (0 : Int) ≤ (sampleEnv emptyTable).destmax ∧
    (_lou_backTranslateWithTracing sampleInternal sampleCall freshStatics zeroRule 10).map
      (fun res => res.outlen) = some (some 7) ∧
    (∀ res, _lou_backTranslateWithTracing sampleInternal sampleCall freshStatics zeroRule 10
        = some res →
      ∃ n out1, res.outlen = some n ∧ res.outbuf = some out1 ∧ 0 ≤ n ∧
        n ≤ (sampleEnv emptyTable).destmax ∧
        ∀ i : Int, (sampleEnv emptyTable).destmax ≤ i → out1 i = 0) :=
  ⟨swapSegmentsPositive_emptyTable, by decide, by decide,
    fun res h =>
      (output_within_capacity sampleInternal (sampleEnv emptyTable) (fun _ => 0)
        swapSegmentsPositive_emptyTable sampleInternal_tables (by decide)).2.2.2.2
        sampleCall freshStatics zeroRule 10 res rfl rfl h⟩

/-- Counterexample to C1 as stated: `zeroSwapTable`, whose swap rule has a
replacement segment with the length word 0. From bounded variables
(`dest = 0`, capacity 10) `back_swapReplace` on one symbol of the class
passes its capacity check, stores nothing and leaves `dest = -1`, reporting
success; and the call on the single cell dot 1 (the primary pass writes the
three symbols of the escape, the correction pass replaces them through the
swap rule) returns 1 with `*outlen = -3`. -/
theorem output_within_capacity_counterexample :
    Bounded 10 (fun _ => 0) blankEmit ∧
    (back_swapReplace 0 1 zeroSwapTable 10 (fun _ => 92) swapCorrectRule.charsdots 6
      blankEmit).1 = 1 ∧
    (back_swapReplace 0 1 zeroSwapTable 10 (fun _ => 92) swapCorrectRule.charsdots 6
      blankEmit).2.dest = -1 ∧
    (_lou_backTranslateWithTracing zeroSwapInternal zeroSwapCall freshStatics zeroRule 10).map
      (fun res => (res.result, res.outlen)) = some (1, some (-3)) :=
  ⟨⟨le_refl _, by decide, fun _ _ => rfl⟩, by decide, by decide, by decide⟩

/-! ### The cursor on a cell without a definition -/

/-- C11 fails on the code. `undefinedDots` never touches the cursor. On
`cursorCall` (two cells without a definition, cursor on input index 1,
capacity 10) the first loop turn of the primary pass writes the escape of
cell 0 to `[0, 4)` and the second writes the escape of cell 1 to `[4, 7)`,
both leaving the cursor unresolved at 1; the call returns 1 with
`*inlen = 2`, `*outlen = 7` and `*cursorPos = 1`, which is outside `[4, 7)`. -/
theorem cursor_unresolved_for_undefined_dots :
    (∀ (K : Internal) (d : widechar) (destmax : Int) (mode : Nat) (s : Emit),
      (undefinedDots K d destmax mode s).2.cursorStatus = s.cursorStatus ∧
      (undefinedDots K d destmax mode s).2.cursorPosition = s.cursorPosition) ∧
    prepareCall sampleInternal cursorCall freshStatics = .inr cursorPrepared ∧
    cursorEnv.srcmax = 2 ∧
    (backTranslateTurn sampleInternal cursorEnv 10 cursorStart).map cursorView
      = some (Flow.next, 1, 4, 0, 1) ∧
    ((backTranslateTurn sampleInternal cursorEnv 10 cursorStart).bind
      (fun r => backTranslateTurn sampleInternal cursorEnv 10 r.2)).map cursorView
      = some (Flow.next, 2, 7, 0, 1) ∧
    (_lou_backTranslateWithTracing sampleInternal cursorCall freshStatics zeroRule 10).map
      (fun res => (res.result, res.inlen, res.outlen, res.cursorPos))
      = some (1, some 2, some 7, some 1) := by
  refine ⟨?_, rfl, by decide, by decide, by decide, by decide⟩
  intro K d destmax mode s
  unfold undefinedDots
  dsimp only
  split_ifs <;> exact ⟨rfl, rfl⟩

/-! ### The whole-word scenario -/

/-- C12. Scenario on `theTable` (one pass, no corrections; the only rule is
the whole-word rule `theRule`, whose match is the cell with dots 2-3-4-6 and
whose replacement is `the`): the call on the one-cell input with capacity 10
and both position arrays returns 1 with `*inlen = 1`, `*outlen = 3`, the
output `t`, `h`, `e`, and `outputPos[0] = 0`. -/
theorem whole_word_scenario :
    theTable.numPasses = 1 ∧ theTable.corrections = 0 ∧
    (back_findCharOrDots (sampleInternalFor theTable) 0x802E 1 theTable).otherRules.length = 1 ∧
    sampleOpcodeValue
      (selectionOf (sampleInternalFor theTable)
        (passEnvOf (theCall.pipeline (sampleInternalFor theTable) freshStatics theTable
          (fun k => if k = 0 then 0x2E else 0) 1 (fun _ => 0) 10 (fun _ => 0) (fun _ => 0)) 4 1)
        (backTranslateStart (sampleInternalFor theTable)
          (theCall.pipeline (sampleInternalFor theTable) freshStatics theTable
            (fun k => if k = 0 then 0x2E else 0) 1 (fun _ => 0) 10 (fun _ => 0)
            (fun _ => 0)).d.e freshStatics [] zeroRule)).currentOpcode
      = sampleOpcodeValue CTO_WholeWord ∧
    theCall.outlen = some 10 ∧
    (_lou_backTranslateWithTracing (sampleInternalFor theTable) theCall freshStatics zeroRule
        10).map
      (fun res => (res.result, res.inlen, res.outlen,
        res.outbuf.map (fun b => (b 0, b 1, b 2)), res.outputPos.map (fun a => a 0)))
      = some (1, some 1, some 3, some (116, 104, 101), some 0) :=
  ⟨rfl, rfl, by decide, by decide, rfl, rfl⟩

/-! ### Two consecutive large signs -/

theorem findBackPassRule_opcode (K : Internal) (table : TranslationTableHeader)
    (src srcmax currentPass : Int) (currentInput : WBuf) (vars : PassVariables)
    (chain : List TranslationTableRule) :
    ∀ (er : Int) (rule : TranslationTableRule) (pm : PassMatch) (er1 : Int),
      findBackPassRule K table src srcmax currentPass currentInput vars chain er
        = (some (rule, pm), er1) →
      rule.opcode ≠ CTO_LargeSign := by
  induction chain with
  | nil =>
    intro er rule pm er1 h
    cases h
  | cons r rest ih =>
    intro er rule pm er1 h
    unfold findBackPassRule at h
    dsimp only at h
    split at h
    · rename_i happ
      split at h
      · cases h
        intro hop
        rw [hop] at happ
        cases happ
      · exact ih _ _ _ _ h
    · exact ih _ _ _ _ h

theorem passSelectRule_opcode (K : Internal) (env : PassEnv) (src : Int) (vars : PassVariables)
    (endReplace : Int) : (passSelectRule K env src vars endReplace).1 ≠ CTO_LargeSign := by
  unfold passSelectRule
  split
  · rename_i rule pm er hf
    exact findBackPassRule_opcode K env.table src env.srcmax env.currentPass env.currentInput
      vars _ _ _ _ _ hf
  · intro hc
    cases hc

theorem afterReplacement_opcode (K : Internal) (env : PassEnv) (sel : Selected)
    (endReplace : Int) (b : BackState) :
    (afterReplacement K env sel endReplace b).2.2 ≠ CTO_LargeSign ∧
    (afterReplacement K env sel endReplace b).2.1.previousOpcode = b.previousOpcode := by
  have hp := passSelectRule_opcode K env b.src b.st.passVariables endReplace
  unfold afterReplacement
  dsimp only
  split
  · rename_i hop
    rw [hop]
    exact And.intro (by intro hc; cases hc) rfl
  · rename_i hop
    rw [hop]
    exact And.intro (by intro hc; cases hc) rfl
  · split
    · exact And.intro (by intro hc; cases hc) rfl
    · rename_i opcode x y hne hps
      rw [hps] at hp
      exact ⟨hp, rfl⟩

theorem beforeReplacement_previousOpcode (K : Internal) (env : PassEnv) (sel : Selected)
    (b : BackState) : (beforeReplacement K env sel b).2.previousOpcode = b.previousOpcode := by
  unfold beforeReplacement
  dsimp only
  repeat' split
  all_goals rfl

theorem insertChars_previousOpcode (K : Internal) (env : PassEnv) (fuel : Nat) (sel : Selected)
    (b : BackState) (r : Flow × BackState) (h : insertChars K env fuel sel b = some r) :
    r.2.previousOpcode = b.previousOpcode := by
  unfold insertChars at h
  by_cases hc : sel.currentRule.charslen ≠ 0
  · rw [if_pos hc] at h
    dsimp only at h
    split_ifs at h
    · cases h
      rfl
    · cases h
      rfl
  · rw [if_neg hc] at h
    split at h
    · cases h
    · cases h
      rfl

theorem replacement_previousOpcode (K : Internal) (env : PassEnv) (fuel : Nat) (sel : Selected)
    (b : BackState) (r : Flow × BackState × Int) (h : replacement K env fuel sel b = some r) :
    r.2.1.previousOpcode = b.previousOpcode := by
  have key : ∀ (b0 : BackState) (er : Int),
      (insertChars K env fuel sel b0).map (fun x => (x.1, x.2, er)) = some r →
      r.2.1.previousOpcode = b0.previousOpcode := by
    intro b0 er h0
    cases hi : insertChars K env fuel sel b0 with
    | none => rw [hi] at h0; cases h0
    | some r1 =>
      rw [hi] at h0
      simp only [Option.map_some', Option.some.injEq] at h0
      subst h0
      exact insertChars_previousOpcode K env fuel sel b0 _ hi
  unfold replacement at h
  dsimp only at h
  split at h
  · split_ifs at h
    · cases h
      rfl
    · cases h
      rfl
  · cases h
    rfl
  · split_ifs at h
    · cases h
      rfl
    · cases h
      rfl
  · have h0 := key _ _ h
    exact h0
  · have h0 := key _ _ h
    exact h0
  · have h0 := key _ _ h
    exact h0
  · have h0 := key _ _ h
    exact h0

theorem endOfTurn_previousOpcode (K : Internal) (env : PassEnv)
    (currentOpcode : TranslationTableOpcode) (b : BackState)
    (hc : currentOpcode ≠ CTO_LargeSign) (hb : b.previousOpcode ≠ CTO_LargeSign) :
    (endOfTurn K env currentOpcode b).previousOpcode ≠ CTO_LargeSign := by
  unfold endOfTurn
  dsimp only
  repeat' split
  all_goals first
    | exact hc
    | exact hb

/-- No loop turn of the primary pass leaves `previousOpcode = CTO_LargeSign`. -/
theorem backTranslateTurn_previousOpcode (K : Internal) (env : PassEnv) (fuel : Nat)
    (b : BackState) (r : Flow × BackState) (h : backTranslateTurn K env fuel b = some r)
    (hb : b.previousOpcode ≠ CTO_LargeSign) : r.2.previousOpcode ≠ CTO_LargeSign := by
  unfold backTranslateTurn at h
  dsimp only at h
  split at h
  · rename_i b1 hbr
    have h1 : b1.previousOpcode = b.previousOpcode := by
      have e1 := congrArg Prod.snd hbr
      dsimp only at e1
      rw [← e1]
      exact beforeReplacement_previousOpcode K env _ _
    split at h
    · cases h
    · rename_i b2 er hr
      have h2 := replacement_previousOpcode K env fuel _ _ _ hr
      dsimp only at h2
      have h3 := afterReplacement_opcode K env
        (back_selectRule K env.table b.src env.srcmax b.e.dest env.mode env.currentInput
          b.e.currentOutput b.itsANumber b.itsALetter b.previousOpcode b.doingMultind
          b.multindRule (back_setBefore K env.table b.e.dest b.e.currentOutput)
          b.st.passVariables K.indeterminate) er b2
      split at h
      · rename_i b3 op ha
        rw [ha] at h3
        cases h
        refine endOfTurn_previousOpcode K env op b3 h3.1 ?_
        rw [h3.2, h2, h1]
        exact hb
      · rename_i fl b3 op hne ha
        rw [ha] at h3
        cases h
        dsimp only
        rw [h3.2, h2, h1]
        exact hb
    · rename_i fl b2 er hne hr
      have h2 := replacement_previousOpcode K env fuel _ _ _ hr
      cases h
      dsimp only at h2 ⊢
      rw [h2, h1]
      exact hb
  · rename_i fl b1 hne hbr
    have h1 : b1.previousOpcode = b.previousOpcode := by
      have e1 := congrArg Prod.snd hbr
      dsimp only at e1
      rw [← e1]
      exact beforeReplacement_previousOpcode K env _ _
    cases h
    dsimp only
    rw [h1]
    exact hb

theorem beforeReplacement_largeSign (K : Internal) (env : PassEnv) (sel : Selected)
    (b : BackState) (hsel : sel.currentOpcode = CTO_LargeSign)
    (hb : b.previousOpcode ≠ CTO_LargeSign) :
    beforeReplacement K env sel b = (Flow.go, b) := by
  unfold beforeReplacement
  dsimp only
  rw [hsel]
  dsimp only
  split
  · rename_i hp
    exact absurd hp hb
  · rfl

/-- C13 fails on the code. `previousOpcode` is `CTO_None` when the primary
pass starts and no loop turn leaves it equal to `CTO_LargeSign` (after the
replacement `passSelectRule` overwrites `currentOpcode`), so the large-sign
case of the first `switch` never calls `insertSpace`. On `largeSignCall` (two
cells, each matched by the large-sign rule with replacement `X`) both turns
select the large-sign rule and the call returns the two symbols `X`, `X`
with no space between them. -/
theorem largeSign_space_never_inserted :
    (∀ (K : Internal) (e : Emit) (st : Statics) (applied : List TranslationTableRule)
        (multindRule : TranslationTableRule),
      (backTranslateStart K e st applied multindRule).previousOpcode ≠ CTO_LargeSign) ∧
    (∀ (K : Internal) (env : PassEnv) (fuel : Nat) (b : BackState) (r : Flow × BackState),
      backTranslateTurn K env fuel b = some r → b.previousOpcode ≠ CTO_LargeSign →
      r.2.previousOpcode ≠ CTO_LargeSign) ∧
    (∀ (K : Internal) (env : PassEnv) (sel : Selected) (b : BackState),
      sel.currentOpcode = CTO_LargeSign → b.previousOpcode ≠ CTO_LargeSign →
      beforeReplacement K env sel b = (Flow.go, b)) ∧
    prepareCall (sampleInternalFor largeSignTable) largeSignCall freshStatics
      = .inr largeSignPrepared ∧
    sampleOpcodeValue
      (selectionOf (sampleInternalFor largeSignTable) largeSignEnv largeSignStart).currentOpcode
      = sampleOpcodeValue CTO_LargeSign ∧
    (backTranslateTurn (sampleInternalFor largeSignTable) largeSignEnv 10 largeSignStart).map
      opcodeView = some (Flow.next, 1, 1, sampleOpcodeValue CTO_Always) ∧
    (backTranslateTurn (sampleInternalFor largeSignTable) largeSignEnv 10 largeSignStart).map
      (fun r => sampleOpcodeValue
        (selectionOf (sampleInternalFor largeSignTable) largeSignEnv r.2).currentOpcode)
      = some (sampleOpcodeValue CTO_LargeSign) ∧
    ((backTranslateTurn (sampleInternalFor largeSignTable) largeSignEnv 10 largeSignStart).bind
      (fun r => backTranslateTurn (sampleInternalFor largeSignTable) largeSignEnv 10 r.2)).map
      opcodeView = some (Flow.next, 2, 2, sampleOpcodeValue CTO_Always) ∧
    (_lou_backTranslateWithTracing (sampleInternalFor largeSignTable) largeSignCall freshStatics
        zeroRule 10).map
      (fun res => (res.result, res.inlen, res.outlen,
        res.outbuf.map (fun b => (b 0, b 1, b 2))))
      = some (1, some 2, some 2, some (88, 88, 0)) := by
  refine ⟨?_, ?_, ?_, rfl, by decide, by decide, by decide, by decide, rfl⟩
  · intro K e st applied multindRule hc
    cases hc
  · intro K env fuel b r h hb
    exact backTranslateTurn_previousOpcode K env fuel b r h hb
  · intro K env sel b hsel hb
    exact beforeReplacement_largeSign K env sel b hsel hb

/-! ### The order of the passes and their buffers -/

/-- One turn of the loop of `doPasses`, for the returned value and for the
record of the passes. -/
theorem doPasses_step (K : Internal) (table : TranslationTableHeader) (destmax : Int)
    (mode : Nat) (traced : Bool) (maxAppliedRules : Int) (multindRule : TranslationTableRule)
    (lastPass : Int) (fuel n : Nat) (currentPass : Int) (d : PipelineState) :
    (passResultAt K table destmax mode traced maxAppliedRules multindRule lastPass fuel
        currentPass d = none →
      doPassesRuns K table destmax mode traced maxAppliedRules multindRule lastPass fuel (n + 1)
          currentPass d
        = [{ pass := currentPass, reads := d.currentInput,
             writes := chooseOutput currentPass lastPass d.currentInput, returned := none }] ∧
      doPassesLoop K table destmax mode traced maxAppliedRules multindRule lastPass fuel (n + 1)
          currentPass d = none) ∧
    (∀ r, passResultAt K table destmax mode traced maxAppliedRules multindRule lastPass fuel
        currentPass d = some r →
      (r.result = 0 →
        doPassesRuns K table destmax mode traced maxAppliedRules multindRule lastPass fuel
            (n + 1) currentPass d
          = [{ pass := currentPass, reads := d.currentInput,
               writes := chooseOutput currentPass lastPass d.currentInput,
               returned := some r.result }] ∧
        doPassesLoop K table destmax mode traced maxAppliedRules multindRule lastPass fuel
            (n + 1) currentPass d
          = some (0, d.afterPass (chooseOutput currentPass lastPass d.currentInput) r)) ∧
      (r.result ≠ 0 → currentPass = lastPass →
        doPassesRuns K table destmax mode traced maxAppliedRules multindRule lastPass fuel
            (n + 1) currentPass d
          = [{ pass := currentPass, reads := d.currentInput,
               writes := chooseOutput currentPass lastPass d.currentInput,
               returned := some r.result }] ∧
        doPassesLoop K table destmax mode traced maxAppliedRules multindRule lastPass fuel
            (n + 1) currentPass d
          = some (1, d.afterPass (chooseOutput currentPass lastPass d.currentInput) r)) ∧
      (r.result ≠ 0 → currentPass ≠ lastPass →
        doPassesRuns K table destmax mode traced maxAppliedRules multindRule lastPass fuel
            (n + 1) currentPass d
          = { pass := currentPass, reads := d.currentInput,
              writes := chooseOutput currentPass lastPass d.currentInput,
              returned := some r.result } ::
            doPassesRuns K table destmax mode traced maxAppliedRules multindRule lastPass fuel
              n (currentPass - 1)
              (d.handOver (chooseOutput currentPass lastPass d.currentInput) r) ∧
        doPassesLoop K table destmax mode traced maxAppliedRules multindRule lastPass fuel
            (n + 1) currentPass d
          = doPassesLoop K table destmax mode traced maxAppliedRules multindRule lastPass fuel
              n (currentPass - 1)
              (d.handOver (chooseOutput currentPass lastPass d.currentInput) r))) := by
  unfold passResultAt
  refine ⟨fun h => ?_, fun r h => ⟨fun h0 => ?_, fun h0 hl => ?_, fun h0 hl => ?_⟩⟩
  · constructor
    · rw [doPassesRuns]
      dsimp only
      rw [h]
    · rw [doPassesLoop]
      dsimp only
      rw [h]
  · constructor
    · rw [doPassesRuns]
      dsimp only
      rw [h]
      dsimp only
      rw [if_pos h0]
    · rw [doPassesLoop]
      dsimp only
      rw [h]
      dsimp only
      rw [if_pos h0]
  · constructor
    · rw [doPassesRuns]
      dsimp only
      rw [h]
      dsimp only
      rw [if_neg h0, if_pos hl]
    · rw [doPassesLoop]
      dsimp only
      rw [h]
      dsimp only
      rw [if_neg h0, if_pos hl]
  · constructor
    · rw [doPassesRuns]
      dsimp only
      rw [h]
      dsimp only
      rw [if_neg h0, if_neg hl]
      rfl
    · rw [doPassesLoop]
      dsimp only
      rw [h]
      dsimp only
      rw [if_neg h0, if_neg hl]
      rfl

theorem handOver_currentInput (d : PipelineState) (currentPass lastPass : Int)
    (r : PassResult) (h : currentPass ≠ lastPass) :
    (d.handOver (chooseOutput currentPass lastPass d.currentInput) r).currentInput.asOutput
      = chooseOutput currentPass lastPass d.currentInput := by
  unfold chooseOutput
  rw [if_neg h]
  cases d.currentInput <;> rfl

/-- The record of the passes is one record, or a record of a pass that
returned a value other than 0 followed by the record of the remaining turns. -/
theorem doPassesRuns_shape (K : Internal) (table : TranslationTableHeader) (destmax : Int)
    (mode : Nat) (traced : Bool) (maxAppliedRules : Int) (multindRule : TranslationTableRule)
    (lastPass : Int) (fuel n : Nat) (currentPass : Int) (d : PipelineState) :
    ∃ run : PassRun, run.pass = currentPass ∧ run.reads = d.currentInput ∧
      run.writes = chooseOutput currentPass lastPass d.currentInput ∧
      (doPassesRuns K table destmax mode traced maxAppliedRules multindRule lastPass fuel (n + 1)
          currentPass d = [run] ∨
        ∃ r : PassResult, r.result ≠ 0 ∧ currentPass ≠ lastPass ∧
          run.returned = some r.result ∧
          doPassesRuns K table destmax mode traced maxAppliedRules multindRule lastPass fuel
              (n + 1) currentPass d
            = run :: doPassesRuns K table destmax mode traced maxAppliedRules multindRule
                lastPass fuel n (currentPass - 1)
                (d.handOver (chooseOutput currentPass lastPass d.currentInput) r)) := by
  obtain ⟨hnone, hsome⟩ := doPasses_step K table destmax mode traced maxAppliedRules
    multindRule lastPass fuel n currentPass d
  cases hp : passResultAt K table destmax mode traced maxAppliedRules multindRule lastPass fuel
      currentPass d with
  | none => exact ⟨_, rfl, rfl, rfl, Or.inl (hnone hp).1⟩
  | some r =>
    obtain ⟨h0, h1, h2⟩ := hsome r hp
    by_cases hres : r.result = 0
    · exact ⟨_, rfl, rfl, rfl, Or.inl (h0 hres).1⟩
    · by_cases hl : currentPass = lastPass
      · exact ⟨_, rfl, rfl, rfl, Or.inl (h1 hres hl).1⟩
      · exact ⟨_, rfl, rfl, rfl, Or.inr ⟨r, hres, hl, rfl, (h2 hres hl).1⟩⟩

/-- The pass at position `i` of the record has number `currentPass - i`, it
writes to the buffer that `chooseOutput` gives for its number and the buffer
it reads, and the first pass reads `currentInput`. -/
theorem doPassesRuns_getElem (K : Internal) (table : TranslationTableHeader) (destmax : Int)
    (mode : Nat) (traced : Bool) (maxAppliedRules : Int) (multindRule : TranslationTableRule)
    (lastPass : Int) (fuel n : Nat) :
    ∀ (currentPass : Int) (d : PipelineState) (i : Nat) (r : PassRun),
      (doPassesRuns K table destmax mode traced maxAppliedRules multindRule lastPass fuel n
        currentPass d)[i]? = some r →
      r.pass = currentPass - i ∧ r.writes = chooseOutput r.pass lastPass r.reads ∧
        (i = 0 → r.reads = d.currentInput) ∧ i < n := by
  induction n with
  | zero =>
    intro currentPass d i r h
    simp [doPassesRuns] at h
  | succ n ih =>
    intro currentPass d i r h
    obtain ⟨run, hp, hr, hw, hshape⟩ := doPassesRuns_shape K table destmax mode traced
      maxAppliedRules multindRule lastPass fuel n currentPass d
    rcases hshape with hs | ⟨r0, -, -, -, hs⟩
    · rw [hs] at h
      cases i with
      | zero =>
        simp only [List.getElem?_cons_zero, Option.some.injEq] at h
        subst h
        refine ⟨by simp [hp], ?_, fun _ => hr, by omega⟩
        rw [hw, hp, hr]
      | succ j => simp at h
    · rw [hs] at h
      cases i with
      | zero =>
        simp only [List.getElem?_cons_zero, Option.some.injEq] at h
        subst h
        refine ⟨by simp [hp], ?_, fun _ => hr, by omega⟩
        rw [hw, hp, hr]
      | succ j =>
        simp only [List.getElem?_cons_succ] at h
        obtain ⟨h1, h2, -, h4⟩ := ih _ _ _ _ h
        refine ⟨?_, h2, fun h0 => absurd h0 (by omega), by omega⟩
        rw [h1]
        push_cast
        omega

/-- A pass that is followed by another one returned a value other than 0,
is not the pass `lastPass`, and wrote the buffer that the next pass reads. -/
theorem doPassesRuns_consecutive (K : Internal) (table : TranslationTableHeader)
    (destmax : Int) (mode : Nat) (traced : Bool) (maxAppliedRules : Int)
    (multindRule : TranslationTableRule) (lastPass : Int) (fuel n : Nat) :
    ∀ (currentPass : Int) (d : PipelineState) (i : Nat) (r1 r2 : PassRun),
      (doPassesRuns K table destmax mode traced maxAppliedRules multindRule lastPass fuel n
        currentPass d)[i]? = some r1 →
      (doPassesRuns K table destmax mode traced maxAppliedRules multindRule lastPass fuel n
        currentPass d)[i + 1]? = some r2 →
      r2.reads.asOutput = r1.writes ∧ (∃ x, r1.returned = some x ∧ x ≠ 0) ∧
        r1.pass ≠ lastPass := by
  induction n with
  | zero =>
    intro currentPass d i r1 r2 h
    simp [doPassesRuns] at h
  | succ n ih =>
    intro currentPass d i r1 r2 h1 h2
    obtain ⟨run, hp, hr, hw, hshape⟩ := doPassesRuns_shape K table destmax mode traced
      maxAppliedRules multindRule lastPass fuel n currentPass d
    rcases hshape with hs | ⟨r0, hres, hl, hret, hs⟩
    · rw [hs] at h2
      simp at h2
    · rw [hs] at h1 h2
      simp only [List.getElem?_cons_succ] at h2
      cases i with
      | zero =>
        simp only [List.getElem?_cons_zero, Option.some.injEq] at h1
        subst h1
        obtain ⟨-, -, h3, -⟩ := doPassesRuns_getElem K table destmax mode traced
          maxAppliedRules multindRule lastPass fuel n _ _ _ _ h2
        refine ⟨?_, ⟨_, hret, hres⟩, by rw [hp]; exact hl⟩
        rw [h3 rfl, hw]
        exact handOver_currentInput d currentPass lastPass r0 hl
      | succ j =>
        simp only [List.getElem?_cons_succ] at h1
        exact ih _ _ _ _ _ h1 h2

theorem getLast?_cons_of_some {α : Type} (a r : α) (l : List α) (h : l.getLast? = some r) :
    (a :: l).getLast? = some r := by
  cases l with
  | nil => simp at h
  | cons b t =>
    rw [List.getLast?_cons_cons]
    exact h

/-- No pass of the record has a number below `lastPass`, when the first has
none. -/
theorem doPassesRuns_lower (K : Internal) (table : TranslationTableHeader) (destmax : Int)
    (mode : Nat) (traced : Bool) (maxAppliedRules : Int) (multindRule : TranslationTableRule)
    (lastPass : Int) (fuel n : Nat) (currentPass : Int) (d : PipelineState)
    (hcp : lastPass ≤ currentPass) :
    ∀ (i : Nat) (r : PassRun),
      (doPassesRuns K table destmax mode traced maxAppliedRules multindRule lastPass fuel n
        currentPass d)[i]? = some r → lastPass ≤ r.pass := by
  intro i
  induction i with
  | zero =>
    intro r h
    have := (doPassesRuns_getElem K table destmax mode traced maxAppliedRules multindRule
      lastPass fuel n currentPass d 0 r h).1
    rw [this]
    simpa using hcp
  | succ i ih =>
    intro r h
    cases hq : (doPassesRuns K table destmax mode traced maxAppliedRules multindRule lastPass
        fuel n currentPass d)[i]? with
    | none =>
      rw [List.getElem?_eq_none_iff] at hq
      have hlt : i + 1 < (doPassesRuns K table destmax mode traced maxAppliedRules multindRule
          lastPass fuel n currentPass d).length := by
        by_contra hge
        have := List.getElem?_eq_none_iff.mpr (Nat.le_of_not_lt hge)
        rw [this] at h
        cases h
      omega
    | some r1 =>
      have h1 := ih r1 hq
      have h2 := (doPassesRuns_consecutive K table destmax mode traced maxAppliedRules
        multindRule lastPass fuel n currentPass d i r1 r hq h).2.2
      have h3 := (doPassesRuns_getElem K table destmax mode traced maxAppliedRules multindRule
        lastPass fuel n currentPass d i r1 hq).1
      have h4 := (doPassesRuns_getElem K table destmax mode traced maxAppliedRules multindRule
        lastPass fuel n currentPass d (i + 1) r h).1
      push_cast at h4
      omega

/-- When the loop of `doPasses` returns, the last pass of the record is the
one whose value decided: it returned 0 and the loop returns 0, or it is the
pass `lastPass`, returned another value and the loop returns 1. -/
theorem doPassesLoop_some_last (K : Internal) (table : TranslationTableHeader) (destmax : Int)
    (mode : Nat) (traced : Bool) (maxAppliedRules : Int) (multindRule : TranslationTableRule)
    (lastPass : Int) (fuel n : Nat) :
    ∀ (currentPass : Int) (d : PipelineState) (g : Int) (d1 : PipelineState),
      doPassesLoop K table destmax mode traced maxAppliedRules multindRule lastPass fuel n
        currentPass d = some (g, d1) →
      ∃ r x, (doPassesRuns K table destmax mode traced maxAppliedRules multindRule lastPass fuel
          n currentPass d).getLast? = some r ∧ r.returned = some x ∧
        ((x = 0 ∧ g = 0) ∨ (x ≠ 0 ∧ g = 1 ∧ r.pass = lastPass)) := by
  induction n with
  | zero =>
    intro currentPass d g d1 h
    simp [doPassesLoop] at h
  | succ n ih =>
    intro currentPass d g d1 h
    obtain ⟨hnone, hsome⟩ := doPasses_step K table destmax mode traced maxAppliedRules
      multindRule lastPass fuel n currentPass d
    cases hp : passResultAt K table destmax mode traced maxAppliedRules multindRule lastPass
        fuel currentPass d with
    | none =>
      rw [(hnone hp).2] at h
      cases h
    | some r =>
      obtain ⟨h0, h1, h2⟩ := hsome r hp
      by_cases hres : r.result = 0
      · obtain ⟨hruns, hloop⟩ := h0 hres
        rw [hloop] at h
        cases h
        exact ⟨_, _, by rw [hruns]; rfl, rfl, Or.inl ⟨hres, rfl⟩⟩
      · by_cases hl : currentPass = lastPass
        · obtain ⟨hruns, hloop⟩ := h1 hres hl
          rw [hloop] at h
          cases h
          exact ⟨_, _, by rw [hruns]; rfl, rfl, Or.inr ⟨hres, rfl, hl⟩⟩
        · obtain ⟨hruns, hloop⟩ := h2 hres hl
          rw [hloop] at h
          obtain ⟨r1, x, h3, h4, h5⟩ := ih _ _ _ _ h
          exact ⟨r1, x, by rw [hruns]; exact getLast?_cons_of_some _ _ _ h3, h4, h5⟩

/-- When the loop of `doPasses` is allowed enough turns and does not return,
the last pass of the record did not return. -/
theorem doPassesLoop_none_last (K : Internal) (table : TranslationTableHeader) (destmax : Int)
    (mode : Nat) (traced : Bool) (maxAppliedRules : Int) (multindRule : TranslationTableRule)
    (lastPass : Int) (fuel n : Nat) :
    ∀ (currentPass : Int) (d : PipelineState), lastPass ≤ currentPass →
      currentPass - lastPass < n →
      doPassesLoop K table destmax mode traced maxAppliedRules multindRule lastPass fuel n
        currentPass d = none →
      ∃ r, (doPassesRuns K table destmax mode traced maxAppliedRules multindRule lastPass fuel
          n currentPass d).getLast? = some r ∧ r.returned = none := by
  induction n with
  | zero =>
    intro currentPass d h1 h2 h
    simp at h2
    omega
  | succ n ih =>
    intro currentPass d hle hlt h
    obtain ⟨hnone, hsome⟩ := doPasses_step K table destmax mode traced maxAppliedRules
      multindRule lastPass fuel n currentPass d
    cases hp : passResultAt K table destmax mode traced maxAppliedRules multindRule lastPass
        fuel currentPass d with
    | none => exact ⟨_, by rw [(hnone hp).1]; rfl, rfl⟩
    | some r =>
      obtain ⟨h0, h1, h2⟩ := hsome r hp
      by_cases hres : r.result = 0
      · rw [(h0 hres).2] at h
        cases h
      · by_cases hl : currentPass = lastPass
        · rw [(h1 hres hl).2] at h
          cases h
        · obtain ⟨hruns, hloop⟩ := h2 hres hl
          rw [hloop] at h
          obtain ⟨r1, h3, h4⟩ := ih _ _ (by omega) (by push_cast at hlt; omega) h
          exact ⟨r1, by rw [hruns]; exact getLast?_cons_of_some _ _ _ h3, h4⟩

theorem doPasses_eq_loop (K : Internal) (table : TranslationTableHeader) (destmax : Int)
    (mode : Nat) (traced : Bool) (maxAppliedRules : Int) (multindRule : TranslationTableRule)
    (fuel : Nat) (d : PipelineState) :
    doPasses K table destmax mode traced maxAppliedRules multindRule fuel d
      = doPassesLoop K table destmax mode traced maxAppliedRules multindRule
          (lastPassOf K table mode) fuel fuel (firstPassOf K table mode) d := rfl

theorem runPass_dispatch (K : Internal) (env : PassEnv) (fuel : Nat) (src : Int) (e : Emit)
    (st : Statics) (applied : List TranslationTableRule) (multindRule : TranslationTableRule) :
    (env.currentPass = 1 →
      runPass K env fuel src e st applied multindRule
        = backTranslateString K env fuel e st applied multindRule) ∧
    (env.currentPass = 0 →
      runPass K env fuel src e st applied multindRule
        = makeCorrections K env fuel src e st applied) ∧
    (env.currentPass ≠ 1 → env.currentPass ≠ 0 →
      runPass K env fuel src e st applied multindRule
        = translatePass K env fuel e st applied) := by
  unfold runPass
  refine ⟨fun h => ?_, fun h => ?_, fun h1 h0 => ?_⟩
  · rw [if_pos h]
  · rw [if_neg (by omega), if_pos h]
  · rw [if_neg h1, if_neg h0]

/-- A loop of the primary pass whose turn gives back the state it was
entered with, with input left, does not end. -/
theorem backTranslateLoop_stuck (K : Internal) (env : PassEnv) (b : BackState)
    (hsrc : b.src < env.srcmax)
    (hfix : ∀ fuel, backTranslateTurn K env fuel b = some (Flow.next, b)) :
    ∀ fuel n, backTranslateLoop K env fuel n b = none := by
  intro fuel n
  induction n with
  | zero =>
    unfold backTranslateLoop
    rw [if_pos hsrc]
  | succ n ih =>
    unfold backTranslateLoop
    rw [if_pos hsrc, hfix]
    exact ih

theorem backTranslateString_none (K : Internal) (env : PassEnv) (fuel : Nat) (e : Emit)
    (st : Statics) (applied : List TranslationTableRule) (multindRule : TranslationTableRule)
    (h : backTranslateLoop K env fuel fuel (backTranslateStart K e st applied multindRule)
      = none) :
    backTranslateString K env fuel e st applied multindRule = none := by
  unfold backTranslateString
  rw [h]

/-- C14 (amended). For a table with `1 <= numPasses`, a mode without
`pass1Only` and an allowance of more loop turns than there are passes:
`lastPass` is 0 when the table declares corrections and 1 otherwise; the
passes that `doPasses` runs have the numbers `numPasses`, `numPasses - 1`,
... in this order (position `i` of the record holds pass `numPasses - i`),
none below `lastPass`, so each number at most once; pass 1 is run by
`backTranslateString`, pass 0 by `makeCorrections`, any other by
`translatePass`; a pass is followed by another only if it returned a value
other than 0; if `doPasses` does not return, its last pass did not return; if
it returns, either the last pass run returned 0 and `doPasses` returns 0, or
the last pass run is pass `lastPass`, it returned another value, and
`doPasses` returns 1. -/
theorem doPasses_order (K : Internal) (table : TranslationTableHeader) (destmax : Int)
    (mode : Nat) (traced : Bool) (maxAppliedRules : Int) (multindRule : TranslationTableRule)
    (fuel : Nat) (d : PipelineState)
    (hmode : mode &&& K.pass1Only = 0) (hnum : 1 ≤ table.numPasses)
    (hfuel : table.numPasses - lastPassOf K table mode < fuel) :
    lastPassOf K table mode = (if table.corrections ≠ 0 then 0 else 1) ∧
    (∀ (i : Nat) (r : PassRun),
      (doPassesTrace K table destmax mode traced maxAppliedRules multindRule fuel d)[i]?
        = some r →
      r.pass = table.numPasses - i ∧ lastPassOf K table mode ≤ r.pass) ∧
    (∀ (i : Nat) (r : PassRun),
      (doPassesTrace K table destmax mode traced maxAppliedRules multindRule fuel d)[i]?
        = some r →
      i + 1 < (doPassesTrace K table destmax mode traced maxAppliedRules multindRule fuel
        d).length →
      ∃ x, r.returned = some x ∧ x ≠ 0) ∧
    (doPasses K table destmax mode traced maxAppliedRules multindRule fuel d = none →
      ∃ r, (doPassesTrace K table destmax mode traced maxAppliedRules multindRule fuel
        d).getLast? = some r ∧ r.returned = none) ∧
    (∀ (g : Int) (d1 : PipelineState),
      doPasses K table destmax mode traced maxAppliedRules multindRule fuel d = some (g, d1) →
      ∃ r x, (doPassesTrace K table destmax mode traced maxAppliedRules multindRule fuel
          d).getLast? = some r ∧ r.returned = some x ∧
        ((x = 0 ∧ g = 0) ∨ (x ≠ 0 ∧ g = 1 ∧ r.pass = lastPassOf K table mode))) ∧
    (∀ (env : PassEnv) (fuel1 : Nat) (src : Int) (e : Emit) (st : Statics)
        (applied : List TranslationTableRule),
      (env.currentPass = 1 →
        runPass K env fuel1 src e st applied multindRule
          = backTranslateString K env fuel1 e st applied multindRule) ∧
      (env.currentPass = 0 →
        runPass K env fuel1 src e st applied multindRule
          = makeCorrections K env fuel1 src e st applied) ∧
      (env.currentPass ≠ 1 → env.currentPass ≠ 0 →
        runPass K env fuel1 src e st applied multindRule
          = translatePass K env fuel1 e st applied)) := by
  have hfirst : firstPassOf K table mode = table.numPasses := by
    unfold firstPassOf
    rw [if_neg (not_not.mpr hmode)]
  have hlast : lastPassOf K table mode = (if table.corrections ≠ 0 then 0 else 1) := by
    unfold lastPassOf
    rw [if_neg (not_not.mpr hmode)]
  have hle : lastPassOf K table mode ≤ firstPassOf K table mode := by
    rw [hfirst, hlast]
    split_ifs <;> omega
  refine ⟨hlast, ?_, ?_, ?_, ?_, ?_⟩
  · intro i r h
    unfold doPassesTrace at h
    have h1 := (doPassesRuns_getElem K table destmax mode traced maxAppliedRules multindRule
      _ fuel fuel _ d i r h).1
    have h2 := doPassesRuns_lower K table destmax mode traced maxAppliedRules multindRule
      _ fuel fuel _ d hle i r h
    rw [hfirst] at h1
    exact ⟨h1, h2⟩
  · intro i r h hlt
    unfold doPassesTrace at h hlt
    have h2 := List.getElem?_eq_getElem hlt
    exact (doPassesRuns_consecutive K table destmax mode traced maxAppliedRules multindRule
      _ fuel fuel _ d i r _ h h2).2.1
  · intro h
    rw [doPasses_eq_loop] at h
    unfold doPassesTrace
    refine doPassesLoop_none_last K table destmax mode traced maxAppliedRules multindRule _
      fuel fuel _ d hle ?_ h
    rw [hfirst]
    exact hfuel
  · intro g d1 h
    rw [doPasses_eq_loop] at h
    unfold doPassesTrace
    exact doPassesLoop_some_last K table destmax mode traced maxAppliedRules multindRule _
      fuel fuel _ d g d1 h
  · intro env fuel1 src e st applied
    exact runPass_dispatch K env fuel1 src e st applied multindRule

/-- Witness for C14 (amended): `threePassTable` (three passes and
corrections) runs the passes 3, 2, 1, 0 and `doPasses` returns 1. -/
theorem doPasses_order_witness :
    4 &&& (sampleInternalFor threePassTable).pass1Only = 0 ∧ 1 ≤ threePassTable.numPasses ∧
    (doPassesTrace (sampleInternalFor threePassTable) threePassTable 10 4 false 0 zeroRule 10
        (twoBufferPrepared threePassTable).d).map (fun r => (r.pass, r.returned))
      = [(3, some 1), (2, some 1), (1, some 1), (0, some 1)] ∧
    (doPasses (sampleInternalFor threePassTable) threePassTable 10 4 false 0 zeroRule 10
        (twoBufferPrepared threePassTable).d).map Prod.fst = some 1 ∧
    (∀ (i : Nat) (r : PassRun),
      (doPassesTrace (sampleInternalFor threePassTable) threePassTable 10 4 false 0 zeroRule 10
        (twoBufferPrepared threePassTable).d)[i]? = some r →
      r.pass = threePassTable.numPasses - i ∧
        lastPassOf (sampleInternalFor threePassTable) threePassTable 4 ≤ r.pass) :=
  ⟨by decide, by decide, by decide, by decide,
    (doPasses_order (sampleInternalFor threePassTable) threePassTable 10 4 false 0 zeroRule 10
      (twoBufferPrepared threePassTable).d (by decide) (by decide) (by decide)).2.1⟩

/-- Counterexample to C14 as stated: `lookbackTable` has one pass and no
corrections; on `loopCall` (one cell, escapes suppressed) every loop turn of
the primary pass gives back the state it started from, so the pass, `doPasses`
and the call do not return, whatever the allowance. -/
theorem doPasses_order_counterexample :
    1 ≤ lookbackTable.numPasses ∧ 132 &&& (sampleInternalFor lookbackTable).pass1Only = 0 ∧
    prepareCall (sampleInternalFor lookbackTable) loopCall freshStatics = .inr loopPrepared ∧
    (∀ fuel : Nat,
      doPasses (sampleInternalFor lookbackTable) lookbackTable 10 132 false 0 zeroRule fuel
        loopPrepared.d = none) ∧
    (∀ fuel : Nat,
      _lou_backTranslateWithTracing (sampleInternalFor lookbackTable) loopCall freshStatics
        zeroRule fuel = none) := by
  have hstuck : ∀ fuel n : Nat,
      backTranslateLoop (sampleInternalFor lookbackTable) (passEnvOf loopPrepared 132 1) fuel n
        (backTranslateStart (sampleInternalFor lookbackTable)
          { loopPrepared.d.e with currentOutput := loopPrepared.d.outbuf } freshStatics []
          zeroRule) = none :=
    backTranslateLoop_stuck _ _ _ (by decide) (fun _ => rfl)
  have hdo : ∀ fuel : Nat,
      doPasses (sampleInternalFor lookbackTable) lookbackTable 10 132 false 0 zeroRule fuel
        loopPrepared.d = none := by
    intro fuel
    rw [doPasses_eq_loop]
    cases fuel with
    | zero => rfl
    | succ f =>
      refine ((doPasses_step (sampleInternalFor lookbackTable) lookbackTable 10 132 false 0
        zeroRule _ (f + 1) f _ loopPrepared.d).1 ?_).2
      exact backTranslateString_none _ _ _ _ _ _ _ (hstuck (f + 1) (f + 1))
  refine ⟨by decide, by decide, rfl, hdo, ?_⟩
  intro fuel
  show (match doPasses (sampleInternalFor lookbackTable) lookbackTable 10 132 false 0 zeroRule
      fuel loopPrepared.d with
    | none => none
    | some (goodTrans, d1) => some (finishCall loopCall loopPrepared goodTrans d1)) = none
  rw [hdo]

theorem lt_length_of_getElem? {α : Type} {l : List α} {i : Nat} {a : α}
    (h : l[i]? = some a) : i < l.length := by
  by_contra hge
  rw [List.getElem?_eq_none_iff.mpr (Nat.le_of_not_lt hge)] at h
  cases h

/-- C15 (amended). For a table that declares corrections (with
`1 <= numPasses` and a mode without `pass1Only`), whenever `doPasses` runs the
correction pass (pass 0, `makeCorrections`): it is the last pass run and
writes to `outbuf`; the pass run right before it is the primary pass (pass 1,
`backTranslateString`), which returned a value other than 0 and wrote to a
scratch buffer; and that scratch buffer is what the correction pass reads.
So the primary pass runs before the correction pass, and the output of the
primary pass is the input of the correction pass. -/
theorem corrections_after_primary (K : Internal) (table : TranslationTableHeader)
    (destmax : Int) (mode : Nat) (traced : Bool) (maxAppliedRules : Int)
    (multindRule : TranslationTableRule) (fuel : Nat) (d : PipelineState)
    (hcorr : table.corrections ≠ 0) (hmode : mode &&& K.pass1Only = 0)
    (hnum : 1 ≤ table.numPasses) :
    (∀ (i : Nat) (r : PassRun),
      (doPassesTrace K table destmax mode traced maxAppliedRules multindRule fuel d)[i]?
        = some r → r.pass = 0 →
      r.writes = .outbuf ∧
      (doPassesTrace K table destmax mode traced maxAppliedRules multindRule fuel d)[i + 1]?
        = none ∧
      ∃ (j : Nat) (r1 : PassRun), j + 1 = i ∧
        (doPassesTrace K table destmax mode traced maxAppliedRules multindRule fuel d)[j]?
          = some r1 ∧
        r1.pass = 1 ∧ r1.writes = r.reads.asOutput ∧ r1.writes ≠ .outbuf ∧
        ∃ x, r1.returned = some x ∧ x ≠ 0) ∧
    (∀ (env : PassEnv) (fuel1 : Nat) (src : Int) (e : Emit) (st : Statics)
        (applied : List TranslationTableRule),
      (env.currentPass = 1 →
        runPass K env fuel1 src e st applied multindRule
          = backTranslateString K env fuel1 e st applied multindRule) ∧
      (env.currentPass = 0 →
        runPass K env fuel1 src e st applied multindRule
          = makeCorrections K env fuel1 src e st applied)) := by
  have hfirst : firstPassOf K table mode = table.numPasses := by
    unfold firstPassOf
    rw [if_neg (not_not.mpr hmode)]
  have hlast : lastPassOf K table mode = 0 := by
    unfold lastPassOf
    rw [if_neg (not_not.mpr hmode), if_pos hcorr]
  constructor
  · intro i r h hp
    unfold doPassesTrace at h ⊢
    rw [hlast] at h ⊢
    rw [hfirst] at h ⊢
    obtain ⟨h1, h2, -, -⟩ := doPassesRuns_getElem K table destmax mode traced maxAppliedRules
      multindRule 0 fuel fuel _ d i r h
    have hi : 1 ≤ i := by omega
    obtain ⟨j, rfl⟩ : ∃ j, i = j + 1 := ⟨i - 1, by omega⟩
    have hj := List.getElem?_eq_getElem (Nat.lt_of_succ_lt (lt_length_of_getElem? h))
    obtain ⟨h3, -, -, -⟩ := doPassesRuns_getElem K table destmax mode traced maxAppliedRules
      multindRule 0 fuel fuel _ d j _ hj
    obtain ⟨h4, h5, -⟩ := doPassesRuns_consecutive K table destmax mode traced maxAppliedRules
      multindRule 0 fuel fuel _ d j _ r hj h
    refine ⟨?_, ?_, j, _, rfl, hj, ?_, h4.symm, ?_, h5⟩
    · rw [h2, hp]
      rfl
    · cases hq : (doPassesRuns K table destmax mode traced maxAppliedRules multindRule 0 fuel
          fuel table.numPasses d)[j + 1 + 1]? with
      | none => rfl
      | some r2 =>
        have := (doPassesRuns_consecutive K table destmax mode traced maxAppliedRules
          multindRule 0 fuel fuel _ d (j + 1) r r2 h hq).2.2
        exact absurd hp this
    · push_cast at h1
      omega
    · rw [← h4]
      cases r.reads <;> simp [ScratchBuffer.asOutput]
  · intro env fuel1 src e st applied
    exact ⟨(runPass_dispatch K env fuel1 src e st applied multindRule).1,
      (runPass_dispatch K env fuel1 src e st applied multindRule).2.1⟩

/-- Witness for C15 (amended): on `correctionsTable` the correction pass is
the second pass run; it reads `passbuf2`, which the primary pass wrote. -/
theorem corrections_after_primary_witness :
    correctionsTable.corrections ≠ 0 ∧ 4 &&& (sampleInternalFor correctionsTable).pass1Only = 0 ∧
    1 ≤ correctionsTable.numPasses ∧
    (doPassesTrace (sampleInternalFor correctionsTable) correctionsTable 10 4 false 0 zeroRule
      10 (twoBufferPrepared correctionsTable).d)[1]?
      = some { pass := 0, reads := .passbuf2, writes := .outbuf, returned := some 1 } ∧
    (doPassesTrace (sampleInternalFor correctionsTable) correctionsTable 10 4 false 0 zeroRule
      10 (twoBufferPrepared correctionsTable).d)[1 + 1]? = none :=
  ⟨by decide, by decide, by decide, by decide,
    ((corrections_after_primary (sampleInternalFor correctionsTable) correctionsTable 10 4 false
      0 zeroRule 10 (twoBufferPrepared correctionsTable).d (by decide) (by decide)
      (by decide)).1 1 { pass := 0, reads := .passbuf2, writes := .outbuf, returned := some 1 }
      (by decide) rfl).2.1⟩

/-- Counterexample to C15 as stated: on `correctionsTable`, which declares
corrections, the first pass run is the primary pass (pass 1), reading the
input in `passbuf1`; the correction pass (pass 0) runs after it and reads the
buffer the primary pass wrote. -/
theorem corrections_after_primary_counterexample :
    correctionsTable.corrections ≠ 0 ∧
    doPassesTrace (sampleInternalFor correctionsTable) correctionsTable 10 4 false 0 zeroRule 10
        (twoBufferPrepared correctionsTable).d
      = [{ pass := 1, reads := .passbuf1, writes := .passbuf2, returned := some 1 },
         { pass := 0, reads := .passbuf2, writes := .outbuf, returned := some 1 }] :=
  ⟨by decide, by decide⟩

theorem chooseOutput_outbuf_iff (currentPass lastPass : Int) (currentInput : ScratchBuffer) :
    (chooseOutput currentPass lastPass currentInput = .outbuf ↔ currentPass = lastPass) ∧
    chooseOutput currentPass lastPass currentInput ≠ currentInput.asOutput := by
  unfold chooseOutput
  by_cases h : currentPass = lastPass
  · rw [if_pos h]
    exact ⟨⟨fun _ => h, fun _ => rfl⟩, by cases currentInput <;> simp [ScratchBuffer.asOutput]⟩
  · rw [if_neg h]
    cases currentInput <;> simp [ScratchBuffer.asOutput, h]

/-- C16 (amended). In `doPasses`, entered with the input in `passbuf1`, for a
table with `1 <= numPasses`: a pass writes to `outbuf` exactly when it is the
pass numbered `lastPass`, and to `passbuf1` or `passbuf2` otherwise; so every
pass that is followed by another writes to a scratch buffer, and when
`doPasses` returns 1 the last pass run wrote to `outbuf`. In every pass the
buffer written differs from the buffer read; the first pass reads `passbuf1`
and each later pass reads the buffer the pass before it wrote; and a pass
writes to `passbuf2` only if `pass1Only` is clear and the table has
`numPasses > 1` or corrections (the condition under which `passbuf2` is
allocated). -/
theorem pass_buffers (K : Internal) (table : TranslationTableHeader) (destmax : Int)
    (mode : Nat) (traced : Bool) (maxAppliedRules : Int) (multindRule : TranslationTableRule)
    (fuel : Nat) (d : PipelineState)
    (hin : d.currentInput = .passbuf1) (hnum : 1 ≤ table.numPasses) :
    (∀ (i : Nat) (r : PassRun),
      (doPassesTrace K table destmax mode traced maxAppliedRules multindRule fuel d)[i]?
        = some r →
      (r.writes = .outbuf ↔ r.pass = lastPassOf K table mode) ∧
      r.writes ≠ r.reads.asOutput ∧
      (r.writes = .passbuf2 →
        mode &&& K.pass1Only = 0 ∧ (table.numPasses > 1 ∨ table.corrections ≠ 0)) ∧
      (i + 1 < (doPassesTrace K table destmax mode traced maxAppliedRules multindRule fuel
          d).length → r.writes ≠ .outbuf)) ∧
    (∀ r : PassRun,
      (doPassesTrace K table destmax mode traced maxAppliedRules multindRule fuel d)[0]?
        = some r → r.reads = .passbuf1) ∧
    (∀ (i : Nat) (r1 r2 : PassRun),
      (doPassesTrace K table destmax mode traced maxAppliedRules multindRule fuel d)[i]?
        = some r1 →
      (doPassesTrace K table destmax mode traced maxAppliedRules multindRule fuel d)[i + 1]?
        = some r2 →
      r2.reads.asOutput = r1.writes) ∧
    (∀ d1 : PipelineState,
      doPasses K table destmax mode traced maxAppliedRules multindRule fuel d = some (1, d1) →
      ∃ r, (doPassesTrace K table destmax mode traced maxAppliedRules multindRule fuel
          d).getLast? = some r ∧ r.writes = .outbuf) := by
  have hle : lastPassOf K table mode ≤ firstPassOf K table mode := by
    unfold lastPassOf firstPassOf
    split_ifs <;> omega
  refine ⟨?_, ?_, ?_, ?_⟩
  · intro i r h
    unfold doPassesTrace at h ⊢
    obtain ⟨h1, h2, -, -⟩ := doPassesRuns_getElem K table destmax mode traced maxAppliedRules
      multindRule _ fuel fuel _ d i r h
    have hlow := doPassesRuns_lower K table destmax mode traced maxAppliedRules multindRule
      _ fuel fuel _ d hle i r h
    obtain ⟨h3, h4⟩ := chooseOutput_outbuf_iff r.pass (lastPassOf K table mode) r.reads
    rw [← h2] at h3 h4
    refine ⟨h3, h4, ?_, ?_⟩
    · intro hw
      have hne : r.pass ≠ lastPassOf K table mode := by
        intro hc
        rw [h3.mpr hc] at hw
        cases hw
      unfold firstPassOf at h1
      unfold lastPassOf at hlow hne
      by_cases hm : mode &&& K.pass1Only = 0
      · refine ⟨hm, ?_⟩
        rw [if_neg (not_not.mpr hm)] at h1 hlow hne
        by_cases hc : table.corrections ≠ 0
        · exact Or.inr hc
        · rw [if_neg hc] at hlow hne
          left
          omega
      · rw [if_pos hm] at h1 hlow hne
        omega
    · intro hlt
      have hnext := List.getElem?_eq_getElem hlt
      have := (doPassesRuns_consecutive K table destmax mode traced maxAppliedRules
        multindRule _ fuel fuel _ d i r _ h hnext).2.2
      intro hw
      exact this (h3.mp hw)
  · intro r h
    unfold doPassesTrace at h
    rw [← hin]
    exact (doPassesRuns_getElem K table destmax mode traced maxAppliedRules multindRule _ fuel
      fuel _ d 0 r h).2.2.1 rfl
  · intro i r1 r2 h1 h2
    unfold doPassesTrace at h1 h2
    exact (doPassesRuns_consecutive K table destmax mode traced maxAppliedRules multindRule _
      fuel fuel _ d i r1 r2 h1 h2).1
  · intro d1 h
    rw [doPasses_eq_loop] at h
    obtain ⟨r, x, h1, -, h3⟩ := doPassesLoop_some_last K table destmax mode traced
      maxAppliedRules multindRule _ fuel fuel _ d 1 d1 h
    unfold doPassesTrace
    refine ⟨r, h1, ?_⟩
    rcases h3 with ⟨-, h0⟩ | ⟨-, -, hp⟩
    · omega
    · have hget := h1
      rw [List.getLast?_eq_getElem?] at hget
      have h2 := (doPassesRuns_getElem K table destmax mode traced maxAppliedRules multindRule
        _ fuel fuel _ d _ r hget).2.1
      rw [h2]
      exact (chooseOutput_outbuf_iff r.pass (lastPassOf K table mode) r.reads).1.mpr hp

/-- Witness for C16 (amended): on `threePassTable` the four passes write
`passbuf2`, `passbuf1`, `passbuf2` and `outbuf`, each reading what the one
before wrote, and `doPasses` returns 1. -/
theorem pass_buffers_witness :
    (twoBufferPrepared threePassTable).d.currentInput = .passbuf1 ∧
    1 ≤ threePassTable.numPasses ∧
    (doPassesTrace (sampleInternalFor threePassTable) threePassTable 10 4 false 0 zeroRule 10
        (twoBufferPrepared threePassTable).d).map (fun r => (r.pass, r.reads, r.writes))
      = [(3, .passbuf1, .passbuf2), (2, .passbuf2, .passbuf1), (1, .passbuf1, .passbuf2),
         (0, .passbuf2, .outbuf)] ∧
    (∀ d1 : PipelineState,
      doPasses (sampleInternalFor threePassTable) threePassTable 10 4 false 0 zeroRule 10
        (twoBufferPrepared threePassTable).d = some (1, d1) →
      ∃ r, (doPassesTrace (sampleInternalFor threePassTable) threePassTable 10 4 false 0
          zeroRule 10 (twoBufferPrepared threePassTable).d).getLast? = some r ∧
        r.writes = .outbuf) :=
  ⟨rfl, by decide, by decide,
    (pass_buffers (sampleInternalFor threePassTable) threePassTable 10 4 false 0 zeroRule 10
      (twoBufferPrepared threePassTable).d rfl (by decide)).2.2.2⟩

/-- Counterexample to C16 as stated. On `abortCall` with `abortTable` (one
pass and corrections, capacity 2) the action of the context rule fails in
the primary pass, which returns 0: it is the last pass run, and the buffer
it was given is `passbuf2`, not `outbuf`; `doPasses` returns 0. And with
`negativePassTable` (pass count -1, no corrections) the first pass run is
given `passbuf2` although the condition for allocating it is false. -/
theorem pass_buffers_counterexample :
    abortPrepared.d.currentInput = .passbuf1 ∧ 1 ≤ abortTable.numPasses ∧
    doPassesTrace (sampleInternalFor abortTable) abortTable 2 4 false 0 zeroRule 10
        abortPrepared.d
      = [{ pass := 1, reads := .passbuf1, writes := .passbuf2, returned := some 0 }] ∧
    (doPasses (sampleInternalFor abortTable) abortTable 2 4 false 0 zeroRule 10
        abortPrepared.d).map Prod.fst = some 0 ∧
    (doPassesTrace (sampleInternalFor negativePassTable) negativePassTable 10 4 false 0
        zeroRule 10 (twoBufferPrepared negativePassTable).d)[0]?
      = some { pass := -1, reads := .passbuf1, writes := .passbuf2, returned := some 1 } ∧
    Call.needsPassbuf2 (sampleInternalFor negativePassTable) sampleCall negativePassTable
      = false :=
  ⟨rfl, by decide, by decide, by decide, by decide, by decide⟩

/-- C17. With the `pass1Only` flag set in the mode, whatever `numPasses` and
`corrections` are, `doPasses` (allowed at least one loop turn) runs exactly
one pass: `backTranslateString` with pass number 1, reading `currentInput`
and writing to `outbuf`; and `doPasses` returns what that pass gives: nothing
if the pass does not return, 0 if it returns 0, and 1 otherwise, with the
state the pass leaves. -/
theorem pass1Only_single_pass (K : Internal) (table : TranslationTableHeader) (destmax : Int)
    (mode : Nat) (traced : Bool) (maxAppliedRules : Int) (multindRule : TranslationTableRule)
    (f : Nat) (d : PipelineState) (hmode : mode &&& K.pass1Only ≠ 0) :
    doPassesTrace K table destmax mode traced maxAppliedRules multindRule (f + 1) d
      = [{ pass := 1, reads := d.currentInput, writes := .outbuf,
           returned :=
             (backTranslateString K
               { table := table, srcmax := d.srcmax, destmax := destmax, mode := mode,
                 currentPass := 1, currentInput := d.input, traced := traced,
                 maxAppliedRules := maxAppliedRules }
               (f + 1) { d.e with currentOutput := d.outbuf } d.st d.applied multindRule).map
               (fun r => r.result) }] ∧
    doPasses K table destmax mode traced maxAppliedRules multindRule (f + 1) d
      = (backTranslateString K
          { table := table, srcmax := d.srcmax, destmax := destmax, mode := mode,
            currentPass := 1, currentInput := d.input, traced := traced,
            maxAppliedRules := maxAppliedRules }
          (f + 1) { d.e with currentOutput := d.outbuf } d.st d.applied multindRule).map
          (fun r => (if r.result = 0 then 0 else 1, d.afterPass .outbuf r)) := by
  have hfirst : firstPassOf K table mode = 1 := by
    unfold firstPassOf
    rw [if_pos hmode]
  have hlast : lastPassOf K table mode = 1 := by
    unfold lastPassOf
    rw [if_pos hmode]
  rw [doPasses_eq_loop]
  unfold doPassesTrace
  rw [hfirst, hlast]
  obtain ⟨hnone, hsome⟩ := doPasses_step K table destmax mode traced maxAppliedRules
    multindRule 1 (f + 1) f 1 d
  have hres : passResultAt K table destmax mode traced maxAppliedRules multindRule 1 (f + 1) 1 d
      = backTranslateString K
          { table := table, srcmax := d.srcmax, destmax := destmax, mode := mode,
            currentPass := 1, currentInput := d.input, traced := traced,
            maxAppliedRules := maxAppliedRules }
          (f + 1) { d.e with currentOutput := d.outbuf } d.st d.applied multindRule := rfl
  rw [← hres]
  cases hp : passResultAt K table destmax mode traced maxAppliedRules multindRule 1 (f + 1) 1
      d with
  | none =>
    obtain ⟨h1, h2⟩ := hnone hp
    rw [h1, h2]
    exact ⟨rfl, rfl⟩
  | some r =>
    obtain ⟨h0, h1, -⟩ := hsome r hp
    by_cases hr : r.result = 0
    · obtain ⟨h2, h3⟩ := h0 hr
      rw [h2, h3]
      refine ⟨rfl, ?_⟩
      simp only [Option.map_some', if_pos hr]
      rfl
    · obtain ⟨h2, h3⟩ := h1 hr rfl
      rw [h2, h3]
      refine ⟨rfl, ?_⟩
      simp only [Option.map_some', if_neg hr]
      rfl

/-- Witness for C17: `threePassTable` (three passes and corrections) in the
modes `pass1Only` and `dotsIO` runs the primary pass alone, into `outbuf`. -/
theorem pass1Only_single_pass_witness :
    20 &&& (sampleInternalFor threePassTable).pass1Only ≠ 0 ∧
    doPassesTrace (sampleInternalFor threePassTable) threePassTable 10 20 false 0 zeroRule
        (9 + 1) (twoBufferPrepared threePassTable).d
      = [{ pass := 1, reads := .passbuf1, writes := .outbuf, returned := some 1 }] ∧
    doPasses (sampleInternalFor threePassTable) threePassTable 10 20 false 0 zeroRule (9 + 1)
        (twoBufferPrepared threePassTable).d
      = (backTranslateString (sampleInternalFor threePassTable)
          { table := threePassTable, srcmax := (twoBufferPrepared threePassTable).d.srcmax,
            destmax := 10, mode := 20, currentPass := 1,
            currentInput := (twoBufferPrepared threePassTable).d.input, traced := false,
            maxAppliedRules := 0 }
          (9 + 1)
          { (twoBufferPrepared threePassTable).d.e with
            currentOutput := (twoBufferPrepared threePassTable).d.outbuf }
          (twoBufferPrepared threePassTable).d.st (twoBufferPrepared threePassTable).d.applied
          zeroRule).map
          (fun r => (if r.result = 0 then 0 else 1,
            (twoBufferPrepared threePassTable).d.afterPass .outbuf r)) :=
  ⟨by decide, by decide,
    (pass1Only_single_pass (sampleInternalFor threePassTable) threePassTable 10 20 false 0
      zeroRule 9 (twoBufferPrepared threePassTable).d (by decide)).2⟩

/-! ### The character classifier -/

theorem find?_first {α : Type} (p : α → Bool) (pre : List α) (a : α) (post : List α)
    (hpre : ∀ x ∈ pre, p x = false) (ha : p a = true) :
    (pre ++ a :: post).find? p = some a := by
  induction pre with
  | nil => simp [List.find?_cons, ha]
  | cons b t ih =>
    have hb := hpre b (List.mem_cons_self _ _)
    have ht := ih (fun x hx => hpre x (List.mem_cons_of_mem _ hx))
    simp only [List.cons_append, List.find?_cons, hb]
    exact ht

/-- C18. Let `bucket` be the chain that `back_findCharOrDots(c, m, table)`
walks: `characters[c % HASHNUM]` when `m = 0`, `dots[c % HASHNUM]` otherwise.
If the chain holds an entry with `realchar = c`, the function returns the
first such entry in chain order; if it holds none, it returns a record with
attributes `CTC_Space`, with `realchar`, `uppercase` and `lowercase` equal to
`c`, without definition rule and without other rules. One of the two cases
always applies, so the lookup gives a record for every symbol and table. -/
theorem back_findCharOrDots_lookup (K : Internal) (c : widechar) (m : Int)
    (table : TranslationTableHeader) :
    (∀ (pre : List TranslationTableCharacter) (ch : TranslationTableCharacter)
        (post : List TranslationTableCharacter),
      (if m = 0 then table.characters (c % K.HASHNUM) else table.dots (c % K.HASHNUM))
        = pre ++ ch :: post →
      (∀ x ∈ pre, x.realchar ≠ c) → ch.realchar = c →
      back_findCharOrDots K c m table = ch) ∧
    ((∀ x ∈ (if m = 0 then table.characters (c % K.HASHNUM) else table.dots (c % K.HASHNUM)),
        x.realchar ≠ c) →
      (back_findCharOrDots K c m table).attributes = K.CTC_Space ∧
      (back_findCharOrDots K c m table).realchar = c ∧
      (back_findCharOrDots K c m table).uppercase = c ∧
      (back_findCharOrDots K c m table).lowercase = c ∧
      (back_findCharOrDots K c m table).definitionRule = none ∧
      (back_findCharOrDots K c m table).otherRules = []) ∧
    ((∃ ch ∈ (if m = 0 then table.characters (c % K.HASHNUM) else table.dots (c % K.HASHNUM)),
        ch.realchar = c ∧ back_findCharOrDots K c m table = ch) ∨
      (∀ x ∈ (if m = 0 then table.characters (c % K.HASHNUM) else table.dots (c % K.HASHNUM)),
        x.realchar ≠ c)) := by
  refine ⟨?_, ?_, ?_⟩
  · intro pre ch post hb hpre hch
    unfold back_findCharOrDots
    dsimp only
    rw [hb, find?_first _ pre ch post (fun x hx => by simpa using hpre x hx) (by simpa using hch)]
  · intro hnone
    have hf : (if m = 0 then table.characters (c % K.HASHNUM)
        else table.dots (c % K.HASHNUM)).find? (fun character => character.realchar == c)
          = none := by
      rw [List.find?_eq_none]
      intro x hx
      simpa using hnone x hx
    unfold back_findCharOrDots
    dsimp only
    rw [hf]
    dsimp only
    by_cases hm : m = 0
    · rw [if_pos hm]
      exact ⟨rfl, rfl, rfl, rfl, rfl, rfl⟩
    · rw [if_neg hm]
      exact ⟨rfl, rfl, rfl, rfl, rfl, rfl⟩
  · cases hf : (if m = 0 then table.characters (c % K.HASHNUM)
        else table.dots (c % K.HASHNUM)).find? (fun character => character.realchar == c) with
    | none =>
      right
      rw [List.find?_eq_none] at hf
      intro x hx
      simpa using hf x hx
    | some ch =>
      left
      refine ⟨ch, List.mem_of_find?_eq_some hf, by simpa using List.find?_some hf, ?_⟩
      unfold back_findCharOrDots
      dsimp only
      rw [hf]

/-! ### The match window of the selected rule -/

theorem compareDots_eq (address1 address2 : Nat → widechar) (count : Nat)
    (h : compareDots address1 address2 count = true) :
    ∀ k, k < count → address1 k = address2 k := by
  unfold compareDots at h
  by_cases h0 : count = 0
  · simp [h0] at h
  · rw [if_neg h0] at h
    intro k hk
    rw [List.all_eq_true] at h
    simpa using h k (List.mem_range.mpr hk)

theorem matchLength_eq (r : TranslationTableRule) :
    (if (match r.opcode with
        | CTO_Context => true
        | _ => false) = true then r.charslen else r.dotslen) = matchLength r := by
  unfold matchLength
  generalize r.opcode = op
  cases op <;> rfl

theorem matchSymbols_eq (r : TranslationTableRule) :
    (if (match r.opcode with
        | CTO_Context => true
        | _ => false) = true then r.charsdots
      else fun k => r.charsdots (r.charslen + k)) = matchSymbols r := by
  unfold matchSymbols
  generalize r.opcode = op
  cases op <;> rfl

/-- A rule that wins a chain walk is either the indicator rule that
`handleMultind` finds for a `CTO_MultInd` rule of the chain, or a rule of the
chain whose match symbols equal the input window. -/
theorem back_selectRuleChain_window (K : Internal) (table : TranslationTableHeader)
    (src srcmax dest : Int) (mode : Nat) (currentInput currentOutput : WBuf)
    (itsANumber itsALetter : Int) (previousOpcode : TranslationTableOpcode)
    (beforeAttributes : Nat) (vars : PassVariables) (length : Int)
    (chain : List TranslationTableRule) :
    ∀ (dm : Nat) (mr : TranslationTableRule) (er : Int) (sel : Selected),
      back_selectRuleChain K table src srcmax dest mode currentInput currentOutput itsANumber
        itsALetter previousOpcode beforeAttributes vars length chain dm mr er = .inl sel →
      (∃ rule ∈ chain, rule.opcode = CTO_MultInd ∧
        handleMultind K table (matchLength rule) rule
          = (some sel.currentRule, sel.doingMultind) ∧ sel.multindRule = rule) ∨
      (sel.currentRule ∈ chain ∧ sel.currentOpcode = sel.currentRule.opcode ∧
        sel.currentDotslen = matchLength sel.currentRule ∧ 1 ≤ sel.currentDotslen ∧
        (sel.currentDotslen : Int) ≤ length ∧
        ∀ k, k < sel.currentDotslen →
          currentInput (src + k) = matchSymbols sel.currentRule k) := by
  induction chain with
  | nil =>
    intro dm mr er sel h
    cases h
  | cons r rest ih =>
    intro dm mr er sel h
    have hrest : ∀ (dm : Nat) (mr : TranslationTableRule) (er : Int),
        back_selectRuleChain K table src srcmax dest mode currentInput currentOutput itsANumber
          itsALetter previousOpcode beforeAttributes vars length rest dm mr er = .inl sel →
        (∃ rule ∈ r :: rest, rule.opcode = CTO_MultInd ∧
          handleMultind K table (matchLength rule) rule
            = (some sel.currentRule, sel.doingMultind) ∧ sel.multindRule = rule) ∨
        (sel.currentRule ∈ r :: rest ∧ sel.currentOpcode = sel.currentRule.opcode ∧
          sel.currentDotslen = matchLength sel.currentRule ∧ 1 ≤ sel.currentDotslen ∧
          (sel.currentDotslen : Int) ≤ length ∧
          ∀ k, k < sel.currentDotslen →
            currentInput (src + k) = matchSymbols sel.currentRule k) := by
      intro dm1 mr1 er1 h1
      rcases ih dm1 mr1 er1 sel h1 with ⟨rule, hm, hx⟩ | ⟨hm, hx⟩
      · exact Or.inl ⟨rule, List.mem_cons_of_mem _ hm, hx⟩
      · exact Or.inr ⟨List.mem_cons_of_mem _ hm, hx⟩
    unfold back_selectRuleChain at h
    dsimp only at h
    rw [matchLength_eq, matchSymbols_eq] at h
    split at h
    · rename_i h1
      have hwin := compareDots_eq _ _ _ h1.2
      have hpos := compareDots_pos _ _ _ h1.2
      split at h
      · split at h
        · rename_i hop
          split at h
          · cases h
            right
            refine ⟨List.mem_cons_self _ _, hop.symm, rfl, hpos, h1.1, hwin⟩
          · exact hrest _ _ _ h
        · rename_i hop
          split at h
          · rename_i found dm1 hm
            cases h
            left
            exact ⟨r, List.mem_cons_self _ _, hop, hm, rfl⟩
          · exact hrest _ _ _ h
        · split at h
          · cases h
            right
            exact ⟨List.mem_cons_self _ _, rfl, rfl, hpos, h1.1, hwin⟩
          · exact hrest _ _ _ h
      · exact hrest _ _ _ h
    · exact hrest _ _ _ h

/-- C20. Called with `src < srcmax`, `back_selectRule` returns a rule in one
of these ways. (a) A pending multi-indicator expansion gives its next
indicator rule, or (b) a `CTO_MultInd` rule of a chain starts an expansion
and gives its first indicator rule: in both the rule comes from
`handleMultind`, not from a chain. (c) Otherwise the rule is taken from the
two-symbol bucket, from the single-symbol chain `otherRules` of the current
symbol, or is the fallback pseudo-rule; then the reported match length `L`
satisfies `1 <= L <= srcmax - src`, it is the number of match symbols of the
rule, and `input[src + k]` equals match symbol `k` of the rule for every
`k < L`; a rule from the single-symbol chain, and the fallback, have
`L = 1`. -/
theorem back_selectRule_window (K : Internal) (table : TranslationTableHeader)
    (src srcmax dest : Int) (mode : Nat) (currentInput currentOutput : WBuf)
    (itsANumber itsALetter : Int) (previousOpcode : TranslationTableOpcode)
    (doingMultind : Nat) (multindRule : TranslationTableRule) (beforeAttributes : Nat)
    (vars : PassVariables) (endReplace : Int) (sel : Selected)
    (hsel : back_selectRule K table src srcmax dest mode currentInput currentOutput itsANumber
      itsALetter previousOpcode doingMultind multindRule beforeAttributes vars endReplace = sel)
    (hsrc : src < srcmax) :
    (doingMultind ≠ 0 ∧
      handleMultind K table doingMultind multindRule
        = (some sel.currentRule, sel.doingMultind)) ∨
    (∃ rule, (rule ∈ twoSymbolBucket K table currentInput src ∨
        rule ∈ (back_findCharOrDots K (currentInput src) 1 table).otherRules) ∧
      rule.opcode = CTO_MultInd ∧
      handleMultind K table (matchLength rule) rule
        = (some sel.currentRule, sel.doingMultind) ∧ sel.multindRule = rule) ∨
    (1 ≤ sel.currentDotslen ∧ (sel.currentDotslen : Int) ≤ srcmax - src ∧
      sel.currentDotslen = matchLength sel.currentRule ∧
      (∀ k, k < sel.currentDotslen →
        currentInput (src + k) = matchSymbols sel.currentRule k) ∧
      ((sel.currentRule ∈ twoSymbolBucket K table currentInput src ∧ 2 ≤ srcmax - src ∧
          sel.currentOpcode = sel.currentRule.opcode) ∨
        (sel.currentRule ∈ (back_findCharOrDots K (currentInput src) 1 table).otherRules ∧
          sel.currentDotslen = 1 ∧ sel.currentOpcode = sel.currentRule.opcode) ∨
        (sel.currentRule = pseudoRule currentInput src ∧ sel.currentDotslen = 1 ∧
          sel.currentOpcode = CTO_None))) := by
  subst hsel
  unfold back_selectRule
  dsimp only
  split
  · rename_i found dm hm
    left
    refine ⟨?_, hm⟩
    intro h0
    unfold handleMultind at hm
    rw [if_pos h0] at hm
    cases hm
  · rename_i dm hm
    split
    · rename_i sel hc
      rcases back_selectRuleChain_window K table src srcmax dest mode currentInput
        currentOutput itsANumber itsALetter previousOpcode beforeAttributes vars _ _ _ _ _ sel hc
        with ⟨rule, hmem, hop, hh, hmr⟩ | ⟨hmem, hop, hlen, hpos, hle, hwin⟩
      · right
        left
        refine ⟨rule, Or.inl ?_, hop, hh, hmr⟩
        split_ifs at hmem
        · cases hmem
        · exact hmem
      · right
        right
        refine ⟨hpos, hle, hlen, hwin, Or.inl ⟨?_, ?_, hop⟩⟩
        · split_ifs at hmem
          · cases hmem
          · exact hmem
        · split_ifs at hmem with hc0
          · cases hmem
          · omega
    · rename_i dm1 mr1 er1 hc
      split
      · rename_i sel hc1
        rcases back_selectRuleChain_window K table src srcmax dest mode currentInput
          currentOutput itsANumber itsALetter previousOpcode beforeAttributes vars _ _ _ _ _ sel
          hc1 with ⟨rule, hmem, hop, hh, hmr⟩ | ⟨hmem, hop, hlen, hpos, hle, hwin⟩
        · right
          left
          refine ⟨rule, Or.inr ?_, hop, hh, hmr⟩
          split_ifs at hmem
          · exact hmem
          · cases hmem
        · right
          right
          have hone : sel.currentDotslen = 1 := by
            split_ifs at hle <;> omega
          refine ⟨hpos, by omega, hlen, hwin, Or.inr (Or.inl ⟨?_, hone, hop⟩)⟩
          split_ifs at hmem
          · exact hmem
          · cases hmem
      · right
        right
        refine ⟨le_refl _, by dsimp only; omega, rfl, ?_, Or.inr (Or.inr ⟨rfl, rfl, rfl⟩)⟩
        intro k hk
        have hk0 : k = 0 := by
          dsimp only at hk
          omega
        subst hk0
        simp [matchSymbols, pseudoRule]

/-- Witness for C20: in the first loop turn of `theCall` (`src = 0`,
`srcmax = 1`) no expansion is pending or started, and the selected rule has
match length 1 with its match symbol equal to the input cell. -/
theorem back_selectRule_window_witness :
    (0 : Int) < (passEnvOf thePrepared 4 1).srcmax ∧
    sampleOpcodeValue theSelection.currentOpcode = sampleOpcodeValue CTO_WholeWord ∧
    theSelection.currentDotslen = 1 ∧
    (theSelection.currentDotslen : Int) ≤ (passEnvOf thePrepared 4 1).srcmax - 0 ∧
    theSelection.currentDotslen = matchLength theSelection.currentRule ∧
    (∀ k, k < theSelection.currentDotslen →
      (passEnvOf thePrepared 4 1).currentInput (0 + k)
        = matchSymbols theSelection.currentRule k) := by
  have h := back_selectRule_window (sampleInternalFor theTable) theTable 0
    (passEnvOf thePrepared 4 1).srcmax 0 4 (passEnvOf thePrepared 4 1).currentInput
    (fun _ => 0) 0 0 CTO_None 0 zeroRule
    (back_setBefore (sampleInternalFor theTable) theTable 0 (fun _ => 0))
    (sampleInternal.resetPassVariables freshStatics.passVariables) sampleInternal.indeterminate
    theSelection rfl (by decide)
  rcases h with ⟨h0, -⟩ | ⟨rule, hmem, hop, -⟩ | ⟨-, h2, h3, h4, -⟩
  · exact absurd rfl h0
  · rcases hmem with hm | hm
    · cases hm
    · have hr : rule = theRule := by
        have hm1 : rule ∈ [theRule] := hm
        simpa using hm1
      rw [hr] at hop
      cases hop
  · exact ⟨by decide, by decide, by decide, h2, h3, h4⟩

/-! ### The search order of `back_selectRule` -/

/-- The outcome of a pass test does not depend on the value that the
caller's `endReplace` holds when the test starts; the two runs leave the same
match variables, `endReplace` apart. -/
theorem back_passDoTestLoop_endReplace (K : Internal) (table : TranslationTableHeader)
    (srcmax : Int) (currentInput : WBuf) (m : Int) (currentRule : TranslationTableRule)
    (vars : PassVariables) (fuel : Nat) :
    ∀ (not : Bool) (s : Int) (instr : Nat → widechar) (ic : Nat) (sm sr e1 e2 : Int),
      (back_passDoTestLoop K table srcmax currentInput m currentRule vars fuel not
          { passSrc := s, passInstructions := instr, passIC := ic, startMatch := sm,
            startReplace := sr, endReplace := e1 }).1
        = (back_passDoTestLoop K table srcmax currentInput m currentRule vars fuel not
          { passSrc := s, passInstructions := instr, passIC := ic, startMatch := sm,
            startReplace := sr, endReplace := e2 }).1 := by
  induction fuel with
  | zero =>
    intro not s instr ic sm sr e1 e2
    rfl
  | succ fuel ih =>
    intro not s instr ic sm sr e1 e2
    unfold back_passDoTestLoop
    dsimp only
    by_cases h1 : ic < currentRule.dotslen
    · rw [if_pos h1, if_pos h1]
      by_cases h2 : s > srcmax
      · rw [if_pos h2, if_pos h2]
      · rw [if_neg h2, if_neg h2]
        split
        all_goals first
          | (split_ifs <;> first | rfl | exact ih _ _ _ _ _ _ _ _)
          | exact ih _ _ _ _ _ _ _ _
          | rfl
          | (split <;> first | rfl | (split_ifs <;> first | rfl | exact ih _ _ _ _ _ _ _ _))
    · rw [if_neg h1, if_neg h1]

theorem back_passDoTest_endReplace (K : Internal) (table : TranslationTableHeader)
    (src srcmax : Int) (currentInput : WBuf) (currentOpcode : TranslationTableOpcode)
    (currentRule : TranslationTableRule) (vars : PassVariables) (e1 e2 : Int) :
    (back_passDoTest K table src srcmax currentInput currentOpcode currentRule vars e1).1
      = (back_passDoTest K table src srcmax currentInput currentOpcode currentRule vars e2).1 := by
  unfold back_passDoTest
  exact back_passDoTestLoop_endReplace K table srcmax currentInput _ currentRule vars _ _ _ _ _
    _ _ _ _

/-- A rule that is not admissible is passed over by the chain walk. -/
theorem back_selectRuleChain_skip (K : Internal) (table : TranslationTableHeader)
    (src srcmax dest : Int) (mode : Nat) (currentInput currentOutput : WBuf)
    (itsANumber itsALetter : Int) (previousOpcode : TranslationTableOpcode)
    (beforeAttributes : Nat) (vars : PassVariables) (length : Int)
    (r : TranslationTableRule) (rest : List TranslationTableRule)
    (hr : admissible K table src srcmax dest mode currentInput currentOutput itsANumber
      itsALetter previousOpcode beforeAttributes vars length r = false)
    (dm : Nat) (mr : TranslationTableRule) (er : Int) :
    ∃ dm1 mr1 er1,
      back_selectRuleChain K table src srcmax dest mode currentInput currentOutput itsANumber
        itsALetter previousOpcode beforeAttributes vars length (r :: rest) dm mr er
      = back_selectRuleChain K table src srcmax dest mode currentInput currentOutput itsANumber
        itsALetter previousOpcode beforeAttributes vars length rest dm1 mr1 er1 := by
  unfold admissible at hr
  rw [back_selectRuleChain]
  dsimp only
  rw [matchLength_eq, matchSymbols_eq]
  split
  · rename_i h1
    split
    · rename_i h2
      have h3 : (match r.opcode with
          | CTO_Context =>
            (back_passDoTest K table src srcmax currentInput CTO_Context r vars 0).1
          | CTO_MultInd => (handleMultind K table (matchLength r) r).1.isSome
          | _ =>
            ruleValid K table src srcmax dest mode currentInput currentOutput itsANumber
              itsALetter previousOpcode beforeAttributes
              (back_setAfter K (matchLength r) table src srcmax currentInput) r
              (matchLength r)) = false := by
        simpa [h1.1, h1.2, h2.1, h2.2] using hr
      split
      · rename_i hop
        rw [hop] at h3
        dsimp only at h3
        rw [back_passDoTest_endReplace K table src srcmax currentInput CTO_Context r vars er 0,
          h3]
        exact ⟨_, _, _, rfl⟩
      · rename_i hop
        rw [hop] at h3
        dsimp only at h3
        split
        · rename_i found dm1 hm
          rw [hm] at h3
          cases h3
        · exact ⟨_, _, _, rfl⟩
      · rename_i hop1 hop2
        have h4 : ruleValid K table src srcmax dest mode currentInput currentOutput itsANumber
            itsALetter previousOpcode beforeAttributes
            (back_setAfter K (matchLength r) table src srcmax currentInput) r
            (matchLength r) = false := by
          split at h3
          · rename_i hop
            exact absurd hop (hop1 · )
          · rename_i hop
            exact absurd hop (hop2 · )
          · exact h3
        rw [h4]
        exact ⟨_, _, _, rfl⟩
    · exact ⟨_, _, _, rfl⟩
  · exact ⟨_, _, _, rfl⟩

/-- A call of `handleMultind` that finds a rule: an expansion was pending,
the rule is the one named by the entry read, and one entry less is pending. -/
theorem handleMultind_eq_some (K : Internal) (table : TranslationTableHeader)
    (doingMultind : Nat) (multindRule found : TranslationTableRule) (dm : Nat)
    (h : handleMultind K table doingMultind multindRule = (some found, dm)) :
    multindOffset K table (multindEntry K table doingMultind multindRule) = some found ∧
    dm = doingMultind - 1 ∧ 0 < doingMultind := by
  unfold handleMultind at h
  split_ifs at h with h0
  · cases h
  · simp only [Prod.mk.injEq] at h
    exact ⟨h.1, h.2.symm, by omega⟩

theorem matchLength_multind (r : TranslationTableRule) (h : r.opcode = CTO_MultInd) :
    matchLength r = r.dotslen := by
  unfold matchLength
  rw [h]

/-- An admissible rule at the head of the chain ends the walk. -/
theorem back_selectRuleChain_take (K : Internal) (table : TranslationTableHeader)
    (src srcmax dest : Int) (mode : Nat) (currentInput currentOutput : WBuf)
    (itsANumber itsALetter : Int) (previousOpcode : TranslationTableOpcode)
    (beforeAttributes : Nat) (vars : PassVariables) (length : Int)
    (r : TranslationTableRule) (rest : List TranslationTableRule)
    (hr : admissible K table src srcmax dest mode currentInput currentOutput itsANumber
      itsALetter previousOpcode beforeAttributes vars length r = true)
    (dm : Nat) (mr : TranslationTableRule) (er : Int) :
    ∃ sel,
      back_selectRuleChain K table src srcmax dest mode currentInput currentOutput itsANumber
        itsALetter previousOpcode beforeAttributes vars length (r :: rest) dm mr er = .inl sel ∧
      ReturnsRule K table sel r := by
  unfold admissible at hr
  simp only [Bool.and_eq_true, Bool.or_eq_true, decide_eq_true_eq] at hr
  obtain ⟨⟨⟨⟨h1, h2⟩, h3⟩, h4⟩, h5⟩ := hr
  rw [back_selectRuleChain]
  dsimp only
  rw [matchLength_eq, matchSymbols_eq, if_pos ⟨h1, h2⟩, if_pos ⟨h3, h4⟩]
  split
  · rename_i hop
    rw [hop] at h5
    dsimp only at h5
    rw [back_passDoTest_endReplace K table src srcmax currentInput CTO_Context r vars er 0, h5]
    refine ⟨_, rfl, ?_, ?_⟩
    · intro _
      exact ⟨rfl, hop.symm, rfl⟩
    · intro hm
      rw [hop] at hm
      cases hm
  · rename_i hop
    rw [hop] at h5
    dsimp only at h5
    split
    · rename_i found dm1 hm
      refine ⟨_, rfl, ?_, ?_⟩
      · intro hne
        exact absurd hop hne
      · intro _
        rw [matchLength_multind r hop] at hm
        obtain ⟨e1, e2, e3⟩ := handleMultind_eq_some K table _ _ _ _ hm
        exact ⟨e3, e1, e2, rfl, rfl, rfl⟩
    · rename_i dm1 hm
      rw [hm] at h5
      cases h5
  · rename_i hop1 hop2
    have h6 : ruleValid K table src srcmax dest mode currentInput currentOutput itsANumber
        itsALetter previousOpcode beforeAttributes
        (back_setAfter K (matchLength r) table src srcmax currentInput) r
        (matchLength r) = true := by
      split at h5
      · rename_i hop
        exact absurd hop (hop1 · )
      · rename_i hop
        exact absurd hop (hop2 · )
      · exact h5
    rw [h6]
    refine ⟨_, rfl, ?_, ?_⟩
    · intro _
      exact ⟨rfl, rfl, rfl⟩
    · intro hm
      exact absurd hm (hop2 · )

/-- The walk over a chain without an admissible rule finds nothing. -/
theorem back_selectRuleChain_none (K : Internal) (table : TranslationTableHeader)
    (src srcmax dest : Int) (mode : Nat) (currentInput currentOutput : WBuf)
    (itsANumber itsALetter : Int) (previousOpcode : TranslationTableOpcode)
    (beforeAttributes : Nat) (vars : PassVariables) (length : Int)
    (chain : List TranslationTableRule) :
    (∀ r ∈ chain, admissible K table src srcmax dest mode currentInput currentOutput
      itsANumber itsALetter previousOpcode beforeAttributes vars length r = false) →
    ∀ (dm : Nat) (mr : TranslationTableRule) (er : Int),
      ∃ x, back_selectRuleChain K table src srcmax dest mode currentInput currentOutput
        itsANumber itsALetter previousOpcode beforeAttributes vars length chain dm mr er
          = .inr x := by
  induction chain with
  | nil =>
    intro _ dm mr er
    exact ⟨_, rfl⟩
  | cons r rest ih =>
    intro hall dm mr er
    obtain ⟨dm1, mr1, er1, hs⟩ := back_selectRuleChain_skip K table src srcmax dest mode
      currentInput currentOutput itsANumber itsALetter previousOpcode beforeAttributes vars
      length r rest (hall r (List.mem_cons_self _ _)) dm mr er
    rw [hs]
    exact ih (fun x hx => hall x (List.mem_cons_of_mem _ hx)) dm1 mr1 er1

/-- The walk over a chain returns for the first admissible rule of the
chain. -/
theorem back_selectRuleChain_first (K : Internal) (table : TranslationTableHeader)
    (src srcmax dest : Int) (mode : Nat) (currentInput currentOutput : WBuf)
    (itsANumber itsALetter : Int) (previousOpcode : TranslationTableOpcode)
    (beforeAttributes : Nat) (vars : PassVariables) (length : Int)
    (r : TranslationTableRule) (post : List TranslationTableRule)
    (hr : admissible K table src srcmax dest mode currentInput currentOutput itsANumber
      itsALetter previousOpcode beforeAttributes vars length r = true)
    (pre : List TranslationTableRule) :
    (∀ x ∈ pre, admissible K table src srcmax dest mode currentInput currentOutput
      itsANumber itsALetter previousOpcode beforeAttributes vars length x = false) →
    ∀ (dm : Nat) (mr : TranslationTableRule) (er : Int),
      ∃ sel, back_selectRuleChain K table src srcmax dest mode currentInput currentOutput
        itsANumber itsALetter previousOpcode beforeAttributes vars length (pre ++ r :: post)
        dm mr er = .inl sel ∧ ReturnsRule K table sel r := by
  induction pre with
  | nil =>
    intro _ dm mr er
    exact back_selectRuleChain_take K table src srcmax dest mode currentInput currentOutput
      itsANumber itsALetter previousOpcode beforeAttributes vars length r post hr dm mr er
  | cons x rest ih =>
    intro hall dm mr er
    obtain ⟨dm1, mr1, er1, hs⟩ := back_selectRuleChain_skip K table src srcmax dest mode
      currentInput currentOutput itsANumber itsALetter previousOpcode beforeAttributes vars
      length x (rest ++ r :: post) (hall x (List.mem_cons_self _ _)) dm mr er
    rw [List.cons_append, hs]
    exact ih (fun y hy => hall y (List.mem_cons_of_mem _ hy)) dm1 mr1 er1

/-- C19 (amended). Called with `src < srcmax` and no multi-indicator
expansion pending (`doingMultind = 0`), `back_selectRule` stops at the first
admissible rule in this fixed search order: the two-symbol bucket (searched
only if at least 2 input symbols remain and not (`itsANumber` and the current
symbol has `CTC_LitDigit`)), then the `otherRules` chain of the current
symbol with a window of one symbol, each in chain order, then the `CTO_None`
fallback. For that rule it returns the rule itself with its opcode and match
length, unless the rule is a `CTO_MultInd` rule: then it returns the rule of
the indicator named by the entry `charsdots[charslen - dotslen]` of that rule
(what `handleMultind` reads with `doingMultind = dotslen`, see
`multindEntry`), with the opcode and `dotslen` of the indicator rule, records
the `CTO_MultInd` rule in `multindRule` and leaves `doingMultind = dotslen -
1`. A rule is admissible when its match symbols fit in the window and equal
the input there, its before/after masks are satisfied and the predicate of
its opcode holds; for a `CTO_MultInd` rule the predicate is that this
indicator is defined in the table. No later rule is chosen over an earlier
admissible one. -/
theorem back_selectRule_first_admissible (K : Internal) (table : TranslationTableHeader)
    (src srcmax dest : Int) (mode : Nat) (currentInput currentOutput : WBuf)
    (itsANumber itsALetter : Int) (previousOpcode : TranslationTableOpcode)
    (multindRule : TranslationTableRule) (beforeAttributes : Nat) (vars : PassVariables)
    (endReplace : Int) (hsrc : src < srcmax) :
    (∀ pre r post,
      twoSymbolChain K table src srcmax currentInput itsANumber = pre ++ r :: post →
      (∀ x ∈ pre, admissible K table src srcmax dest mode currentInput currentOutput
        itsANumber itsALetter previousOpcode beforeAttributes vars (srcmax - src) x = false) →
      admissible K table src srcmax dest mode currentInput currentOutput itsANumber itsALetter
        previousOpcode beforeAttributes vars (srcmax - src) r = true →
      ReturnsRule K table
        (back_selectRule K table src srcmax dest mode currentInput currentOutput itsANumber
          itsALetter previousOpcode 0 multindRule beforeAttributes vars endReplace) r) ∧
    ((∀ x ∈ twoSymbolChain K table src srcmax currentInput itsANumber,
        admissible K table src srcmax dest mode currentInput currentOutput itsANumber
          itsALetter previousOpcode beforeAttributes vars (srcmax - src) x = false) →
      (∀ pre r post,
        oneSymbolChain K table src currentInput = pre ++ r :: post →
        (∀ x ∈ pre, admissible K table src srcmax dest mode currentInput currentOutput
          itsANumber itsALetter previousOpcode beforeAttributes vars 1 x = false) →
        admissible K table src srcmax dest mode currentInput currentOutput itsANumber
          itsALetter previousOpcode beforeAttributes vars 1 r = true →
        ReturnsRule K table
          (back_selectRule K table src srcmax dest mode currentInput currentOutput itsANumber
            itsALetter previousOpcode 0 multindRule beforeAttributes vars endReplace) r) ∧
      ((∀ x ∈ oneSymbolChain K table src currentInput,
          admissible K table src srcmax dest mode currentInput currentOutput itsANumber
            itsALetter previousOpcode beforeAttributes vars 1 x = false) →
        (back_selectRule K table src srcmax dest mode currentInput currentOutput itsANumber
            itsALetter previousOpcode 0 multindRule beforeAttributes vars
            endReplace).currentRule = pseudoRule currentInput src ∧
        (back_selectRule K table src srcmax dest mode currentInput currentOutput itsANumber
            itsALetter previousOpcode 0 multindRule beforeAttributes vars
            endReplace).currentOpcode = CTO_None ∧
        (back_selectRule K table src srcmax dest mode currentInput currentOutput itsANumber
            itsALetter previousOpcode 0 multindRule beforeAttributes vars
            endReplace).currentDotslen = 1)) ∧
    (∀ r : TranslationTableRule, r.opcode = CTO_MultInd →
      (handleMultind K table (matchLength r) r).1
        = (if r.dotslen = 0 then none
          else multindOffset K table (multindEntry K table r.dotslen r)) ∧
      (handleMultind K table (matchLength r) r).2 = r.dotslen - 1) := by
  have hlen : srcmax - src ≥ 1 := by omega
  have hchain0 : (if srcmax - src < 2 ∨
      (itsANumber ≠ 0 ∧
        hasAttr (back_findCharOrDots K (currentInput src) 1 table).attributes K.CTC_LitDigit)
      then []
      else table.backRules
        ((((back_findCharOrDots K (currentInput src) 1 table).realchar <<< 8) +
          (back_findCharOrDots K (currentInput (src + 1)) 1 table).realchar) % K.HASHNUM))
      = twoSymbolChain K table src srcmax currentInput itsANumber := rfl
  have hm : handleMultind K table 0 multindRule = (none, 0) := rfl
  refine ⟨?_, ?_, ?_⟩
  rotate_left 2
  · intro r hop
    rw [matchLength_multind r hop]
    unfold handleMultind
    by_cases h0 : r.dotslen = 0
    · rw [if_pos h0, if_pos h0, h0]
      exact ⟨rfl, rfl⟩
    · rw [if_neg h0, if_neg h0]
      exact ⟨rfl, rfl⟩
  · intro pre r post hc hpre hr
    obtain ⟨sel, hs, hret⟩ := back_selectRuleChain_first K table src srcmax dest mode
      currentInput currentOutput itsANumber itsALetter previousOpcode beforeAttributes vars
      (srcmax - src) r post hr pre hpre 0 multindRule endReplace
    unfold back_selectRule
    dsimp only
    rw [hm]
    dsimp only
    rw [hchain0, hc, hs]
    exact hret
  · intro h0
    obtain ⟨⟨dm1, mr1, er1⟩, hs0⟩ := back_selectRuleChain_none K table src srcmax dest mode
      currentInput currentOutput itsANumber itsALetter previousOpcode beforeAttributes vars
      (srcmax - src) _ h0 0 multindRule endReplace
    refine ⟨?_, ?_⟩
    · intro pre r post hc hpre hr
      obtain ⟨sel, hs, hret⟩ := back_selectRuleChain_first K table src srcmax dest mode
        currentInput currentOutput itsANumber itsALetter previousOpcode beforeAttributes vars
        1 r post hr pre hpre dm1 mr1 er1
      unfold oneSymbolChain at hc
      unfold back_selectRule
      dsimp only
      rw [hm]
      dsimp only
      rw [hchain0, hs0]
      dsimp only
      rw [if_pos hlen, if_pos hlen, hc, hs]
      exact hret
    · intro h1
      obtain ⟨⟨dm2, mr2, er2⟩, hs1⟩ := back_selectRuleChain_none K table src srcmax dest mode
        currentInput currentOutput itsANumber itsALetter previousOpcode beforeAttributes vars
        1 _ h1 dm1 mr1 er1
      unfold oneSymbolChain at hs1
      unfold back_selectRule
      dsimp only
      rw [hm]
      dsimp only
      rw [hchain0, hs0]
      dsimp only
      rw [if_pos hlen, if_pos hlen, hs1]
      exact ⟨rfl, rfl, rfl⟩

/-- Witness for C19: on the single cell of `theCall` the two-symbol bucket is
not searched, `theRule` is the first admissible rule of the single-symbol
chain, and it is the rule returned, with its opcode and match length 1. -/
theorem back_selectRule_first_admissible_witness :
    (0 : Int) < (passEnvOf thePrepared 4 1).srcmax ∧
    twoSymbolChain (sampleInternalFor theTable) theTable 0 (passEnvOf thePrepared 4 1).srcmax
      (passEnvOf thePrepared 4 1).currentInput 0 = [] ∧
    oneSymbolChain (sampleInternalFor theTable) theTable 0
      (passEnvOf thePrepared 4 1).currentInput = [theRule] ∧
    theSelection.currentRule = theRule ∧
    theSelection.currentOpcode = theRule.opcode ∧
    theSelection.currentDotslen = 1 := by
  have h := ((back_selectRule_first_admissible (sampleInternalFor theTable) theTable 0
    (passEnvOf thePrepared 4 1).srcmax 0 4 (passEnvOf thePrepared 4 1).currentInput
    (fun _ => 0) 0 0 CTO_None zeroRule
    (back_setBefore (sampleInternalFor theTable) theTable 0 (fun _ => 0))
    (sampleInternal.resetPassVariables freshStatics.passVariables) sampleInternal.indeterminate
    (by decide)).2.1 (fun x hx => by cases hx)).1 [] theRule [] rfl (fun x hx => by cases hx) rfl
  have h1 := h.1 (by intro hc; cases hc)
  exact ⟨by decide, rfl, rfl, h1.1, h1.2.1, h1.2.2⟩

/-- Counterexample to C19 as stated: with the table `multindTable` and the
two cells of `multindInput`, no expansion pending, the two-symbol bucket is
the chain `[multindSample]` and `multindSample` is admissible (it matches
both cells and its first indicator, the letter sign, is defined), so it is
the first admissible rule of the search order; the rule returned is not
`multindSample` but `letterSignRule`, with opcode `CTO_LetterRule` and match
length 1 instead of `CTO_MultInd` and 2. -/
theorem back_selectRule_first_admissible_counterexample :
    twoSymbolChain sampleInternal multindTable 0 2 multindInput 0 = [multindSample] ∧
    admissible sampleInternal multindTable 0 2 0 4 multindInput (fun _ => 0) 0 0 CTO_None
      (back_setBefore sampleInternal multindTable 0 (fun _ => 0)) freshStatics.passVariables
      (2 - 0) multindSample = true ∧
    matchLength multindSample = 2 ∧
    sampleOpcodeValue multindSample.opcode = 46 ∧
    multindSelection.currentRule = letterSignRule ∧
    multindSelection.currentRule ≠ multindSample ∧
    sampleOpcodeValue multindSelection.currentOpcode = 117 ∧
    multindSelection.currentDotslen = 1 ∧
    multindSelection.doingMultind = 1 := by
  refine ⟨rfl, by decide, rfl, rfl, rfl, ?_, by decide, by decide, by decide⟩
  intro h
  exact absurd (congrArg TranslationTableRule.dotslen h) (by decide)

/-! ### A pending multi-indicator expansion -/

theorem multindEntry_inside (K : Internal) (table : TranslationTableHeader) (d : Nat)
    (multindRule : TranslationTableRule) (h : d ≤ multindRule.charslen) :
    multindEntry K table d multindRule = multindRule.charsdots (multindRule.charslen - d) := by
  unfold multindEntry
  dsimp only
  rw [if_pos (by omega)]
  congr 1
  omega

theorem multindEntry_before (K : Internal) (table : TranslationTableHeader) (d : Nat)
    (multindRule : TranslationTableRule) (h : multindRule.charslen < d) :
    multindEntry K table d multindRule
      = K.charsdotsBefore table multindRule (d - multindRule.charslen) := by
  unfold multindEntry
  dsimp only
  rw [if_neg (by omega)]
  congr 1
  omega

theorem handleMultindCalls_eq (K : Internal) (table : TranslationTableHeader)
    (multindRule : TranslationTableRule) (n : Nat) :
    ∀ d, handleMultindCalls K table multindRule n d = d - n := by
  induction n with
  | zero =>
    intro d
    rfl
  | succ n ih =>
    intro d
    rw [handleMultindCalls, ih]
    unfold handleMultind
    split_ifs with h0
    · dsimp only
      omega
    · dsimp only
      omega

/-- C21. With an expansion pending (`doingMultind > 0`): if the indicator
named by the entry `charsdots[charslen - doingMultind]` of the
multi-indicator rule (read with its `int` index, see `multindEntry`) is
defined in the table, `back_selectRule` returns the rule of that indicator
with its opcode and `dotslen`, and `doingMultind` one less; the value
returned does not depend on the chains of the table or on the input.
Every call of `handleMultind` lowers `doingMultind` by exactly 1, so after
`n <= doingMultind` calls it is `doingMultind - n`, call number `n` (from 0)
reads the entry with index `charslen - (doingMultind - n)
= charslen - doingMultind + n`, the entries are read in listed order, and
after `doingMultind` calls nothing is pending: the next call finds nothing
and leaves `doingMultind = 0`. The entry read is the entry of the array when
`doingMultind <= charslen`, and the word so many places before the array
when `doingMultind > charslen`. -/
theorem pending_multind_priority (K : Internal) (table : TranslationTableHeader)
    (src srcmax dest : Int) (mode : Nat) (currentInput currentOutput : WBuf)
    (itsANumber itsALetter : Int) (previousOpcode : TranslationTableOpcode)
    (doingMultind : Nat) (multindRule : TranslationTableRule) (beforeAttributes : Nat)
    (vars : PassVariables) (endReplace : Int) (hd : 0 < doingMultind) :
    (∀ sub,
      multindOffset K table (multindEntry K table doingMultind multindRule) = some sub →
      back_selectRule K table src srcmax dest mode currentInput currentOutput itsANumber
        itsALetter previousOpcode doingMultind multindRule beforeAttributes vars endReplace
        = { currentDotslen := sub.dotslen, currentOpcode := sub.opcode, currentRule := sub,
            doingMultind := doingMultind - 1, multindRule := multindRule,
            pm := staleMatch K endReplace }) ∧
    (handleMultind K table doingMultind multindRule).2 + 1 = doingMultind ∧
    (∀ n, n ≤ doingMultind →
      handleMultindCalls K table multindRule n doingMultind = doingMultind - n) ∧
    (∀ n, n < doingMultind →
      (handleMultind K table (handleMultindCalls K table multindRule n doingMultind)
          multindRule).1
        = multindOffset K table (multindEntry K table (doingMultind - n) multindRule)) ∧
    (∀ n, n < doingMultind →
      (multindRule.charslen : Int) - ((doingMultind - n : Nat) : Int)
        = (multindRule.charslen : Int) - (doingMultind : Int) + (n : Int)) ∧
    (∀ d, d ≤ multindRule.charslen →
      multindEntry K table d multindRule = multindRule.charsdots (multindRule.charslen - d)) ∧
    (∀ d, multindRule.charslen < d →
      multindEntry K table d multindRule
        = K.charsdotsBefore table multindRule (d - multindRule.charslen)) ∧
    handleMultind K table (handleMultindCalls K table multindRule doingMultind doingMultind)
      multindRule = (none, 0) := by
  have hne : doingMultind ≠ 0 := by omega
  refine ⟨?_, ?_, ?_, ?_, ?_, ?_, ?_, ?_⟩
  · intro sub hsub
    have hm : handleMultind K table doingMultind multindRule
        = (some sub, doingMultind - 1) := by
      unfold handleMultind
      rw [if_neg hne, hsub]
    unfold back_selectRule
    dsimp only
    rw [hm]
  · unfold handleMultind
    rw [if_neg hne]
    dsimp only
    omega
  · intro n _
    exact handleMultindCalls_eq K table multindRule n doingMultind
  · intro n hn
    rw [handleMultindCalls_eq]
    have hne1 : doingMultind - n ≠ 0 := by omega
    unfold handleMultind
    rw [if_neg hne1]
  · intro n hn
    omega
  · intro d hle
    exact multindEntry_inside K table d multindRule hle
  · intro d hlt
    exact multindEntry_before K table d multindRule hlt
  · rw [handleMultindCalls_eq, Nat.sub_self]
    rfl

/-- Witness for C21: with both indicators of `multindSample` pending, the
rule returned on `multindInput` is the letter-sign rule of `multindTable`,
and one indicator stays pending. -/
theorem pending_multind_priority_witness :
    0 < 2 ∧
    back_selectRule sampleInternal multindTable 0 2 0 4 multindInput (fun _ => 0) 0 0 CTO_None
      2 multindSample (back_setBefore sampleInternal multindTable 0 (fun _ => 0))
      freshStatics.passVariables sampleInternal.indeterminate
      = { currentDotslen := letterSignRule.dotslen, currentOpcode := letterSignRule.opcode,
          currentRule := letterSignRule, doingMultind := 2 - 1, multindRule := multindSample,
          pm := staleMatch sampleInternal sampleInternal.indeterminate } :=
  ⟨by decide,
   (pending_multind_priority sampleInternal multindTable 0 2 0 4 multindInput (fun _ => 0) 0 0
      CTO_None 2 multindSample (back_setBefore sampleInternal multindTable 0 (fun _ => 0))
      freshStatics.passVariables sampleInternal.indeterminate (by decide)).1 letterSignRule
      rfl⟩

/-! ### The early return on an unresolved table or a missing argument -/

/-- C22. When one of `tableList`, `inbuf`, `inlen`, `outbuf`, `outlen` is
`NULL`, or `lou_getTable` does not resolve the table name,
`_lou_backTranslateWithTracing` returns 0 from the code before `doPasses`
(so for every allowance of loop turns, none being needed), and the caller
sees `*inlen`, `*outlen`, `outbuf`, `typeform`, `spacing`, both position
arrays, `*cursorPos`, the rule trace and the statics exactly as passed in. -/
theorem unresolved_call_unchanged (K : Internal) (c : Call) (st : Statics)
    (multindRule : TranslationTableRule) (fuel : Nat)
    (h : c.tableList = none ∨ c.inbuf = none ∨ c.inlen = none ∨ c.outbuf = none ∨
      c.outlen = none ∨ ∃ name, c.tableList = some name ∧ K.getTable name = none) :
    prepareCall K c st = .inl (c.unchanged st) ∧
    _lou_backTranslateWithTracing K c st multindRule fuel = some (c.unchanged st) ∧
    (c.unchanged st).result = 0 ∧
    (c.unchanged st).inlen = c.inlen ∧
    (c.unchanged st).outlen = c.outlen ∧
    (c.unchanged st).outbuf = c.outbuf ∧
    (c.unchanged st).typeform = c.typeform ∧
    (c.unchanged st).spacing = c.spacing ∧
    (c.unchanged st).outputPos = c.outputPos ∧
    (c.unchanged st).inputPos = c.inputPos ∧
    (c.unchanged st).cursorPos = c.cursorPos ∧
    (c.unchanged st).rules = c.rules ∧
    (c.unchanged st).rulesLen = c.rulesLen ∧
    (c.unchanged st).st = st := by
  have hp : prepareCall K c st = .inl (c.unchanged st) := by
    unfold prepareCall
    rcases h with h | h | h | h | h | ⟨name, h, hn⟩
    · rw [h]
    · rw [h]
      cases c.tableList <;> rfl
    · rw [h]
      cases c.tableList <;> cases c.inbuf <;> rfl
    · rw [h]
      cases c.tableList <;> cases c.inbuf <;> cases c.inlen <;> rfl
    · rw [h]
      cases c.tableList <;> cases c.inbuf <;> cases c.inlen <;> cases c.outbuf <;> rfl
    · rw [h]
      cases c.inbuf <;> cases c.inlen <;> cases c.outbuf <;> cases c.outlen <;>
        first
          | rfl
          | (dsimp only
             rw [hn])
  refine ⟨hp, ?_, rfl, rfl, rfl, rfl, rfl, rfl, rfl, rfl, rfl, rfl, rfl, rfl⟩
  unfold _lou_backTranslateWithTracing
  rw [hp]

/-- Witness for C22: `sampleCall` without a table name, and `sampleCall` when
no table name resolves, return 0 with the caller's memory unchanged, even
with no loop turn allowed. -/
theorem unresolved_call_unchanged_witness :
    _lou_backTranslateWithTracing sampleInternal { sampleCall with tableList := none }
      freshStatics zeroRule 0
      = some (Call.unchanged { sampleCall with tableList := none } freshStatics) ∧
    _lou_backTranslateWithTracing { sampleInternal with getTable := fun _ => none } sampleCall
      freshStatics zeroRule 0 = some (sampleCall.unchanged freshStatics) :=
  ⟨(unresolved_call_unchanged sampleInternal { sampleCall with tableList := none } freshStatics
      zeroRule 0 (Or.inl rfl)).2.1,
   (unresolved_call_unchanged { sampleInternal with getTable := fun _ => none } sampleCall
      freshStatics zeroRule 0
      (Or.inr (Or.inr (Or.inr (Or.inr (Or.inr ⟨_, rfl, rfl⟩)))))).2.1⟩

/-! ### The fill rule of `back_updatePositions` -/

theorem fillOutputPositions_succ (srcMapping : IBuf) (src dest : Int) (n : Nat) (op : IBuf) :
    fillOutputPositions srcMapping src dest (n + 1) op
      = setAt (fillOutputPositions srcMapping src dest n op) (srcMapping (src + n))
          (dest + n) := by
  unfold fillOutputPositions
  simp [List.range_succ, List.foldl_append]

theorem fillInputPositions_succ (srcMapping : IBuf) (src dest : Int) (n : Nat) (ip : IBuf) :
    fillInputPositions srcMapping src dest (n + 1) ip
      = setAt (fillInputPositions srcMapping src dest n ip) (dest + n)
          (srcMapping (src + n)) := by
  unfold fillInputPositions
  simp [List.range_succ, List.foldl_append]

theorem fillConst_succ (index : Nat → Int) (v : Int) (lo hi : Nat) (a : IBuf) :
    fillConst index v lo (hi + 1) a
      = if lo ≤ hi then setAt (fillConst index v lo hi a) (index hi) v
        else fillConst index v lo hi a := by
  unfold fillConst
  rw [List.range_succ, List.filter_append, List.foldl_append]
  by_cases h : lo ≤ hi
  · rw [if_pos h]
    simp [List.filter_cons, h]
  · rw [if_neg h]
    simp [List.filter_cons, h]

/-- The entry of the last `k` with a given mapped index holds `dest + k`. -/
theorem fillOutputPositions_last (srcMapping : IBuf) (src dest : Int) (op : IBuf) (n : Nat) :
    ∀ k, k < n →
      (∀ k2, k < k2 → k2 < n → srcMapping (src + k2) ≠ srcMapping (src + k)) →
      fillOutputPositions srcMapping src dest n op (srcMapping (src + k)) = dest + k := by
  induction n with
  | zero =>
    intro k hk
    omega
  | succ n ih =>
    intro k hk hlast
    rw [fillOutputPositions_succ]
    by_cases hkn : k = n
    · subst hkn
      exact setAt_same _ _ _
    · have hk1 : k < n := by omega
      rw [setAt_other _ _ _ _ (hlast n hk1 (Nat.lt_succ_self n)).symm]
      exact ih k hk1 (fun k2 h1 h2 => hlast k2 h1 (Nat.lt_succ_of_lt h2))

/-- An index written by the loop holds `dest + k` for one of the `k`. -/
theorem fillOutputPositions_range (srcMapping : IBuf) (src dest : Int) (op : IBuf) (i : Int)
    (n : Nat) :
    (∃ k, k < n ∧ srcMapping (src + k) = i) →
    ∃ k, k < n ∧ fillOutputPositions srcMapping src dest n op i = dest + k := by
  induction n with
  | zero =>
    rintro ⟨k, hk, -⟩
    omega
  | succ n ih =>
    rintro ⟨k, hk, hi⟩
    rw [fillOutputPositions_succ]
    by_cases hn : srcMapping (src + n) = i
    · refine ⟨n, Nat.lt_succ_self n, ?_⟩
      rw [← hn]
      exact setAt_same _ _ _
    · have hkn : k ≠ n := by
        intro h
        rw [h] at hi
        exact hn hi
      obtain ⟨k1, hk1, h1⟩ := ih ⟨k, by omega, hi⟩
      refine ⟨k1, Nat.lt_succ_of_lt hk1, ?_⟩
      rw [setAt_other _ _ _ _ (fun h => hn h.symm)]
      exact h1

theorem fillInputPositions_get (srcMapping : IBuf) (src dest : Int) (ip : IBuf) (n : Nat) :
    ∀ j, j < n → fillInputPositions srcMapping src dest n ip (dest + j)
      = srcMapping (src + j) := by
  induction n with
  | zero =>
    intro j hj
    omega
  | succ n ih =>
    intro j hj
    rw [fillInputPositions_succ]
    by_cases hjn : j = n
    · subst hjn
      exact setAt_same _ _ _
    · rw [setAt_other _ _ _ _ (by omega)]
      exact ih j (by omega)

theorem fillConst_get (index : Nat → Int) (v : Int) (lo : Nat) (a : IBuf) (i : Int)
    (hi : Nat) :
    (∃ k, lo ≤ k ∧ k < hi ∧ index k = i) → fillConst index v lo hi a i = v := by
  induction hi with
  | zero =>
    rintro ⟨k, -, hk, -⟩
    omega
  | succ hi ih =>
    rintro ⟨k, hlo, hk, hik⟩
    rw [fillConst_succ]
    by_cases hkn : k = hi
    · subst hkn
      rw [if_pos hlo, ← hik]
      exact setAt_same _ _ _
    · have h1 := ih ⟨k, hlo, by omega, hik⟩
      split_ifs
      · by_cases hx : i = index hi
        · rw [hx]
          exact setAt_same _ _ _
        · rw [setAt_other _ _ _ _ hx]
          exact h1
      · exact h1

theorem fillConst_other (index : Nat → Int) (v : Int) (lo : Nat) (a : IBuf) (i : Int)
    (hi : Nat) :
    (∀ k, lo ≤ k → k < hi → index k ≠ i) → fillConst index v lo hi a i = a i := by
  induction hi with
  | zero =>
    intro _
    rfl
  | succ hi ih =>
    intro h
    rw [fillConst_succ]
    have h1 := ih (fun k h1 h2 => h k h1 (Nat.lt_succ_of_lt h2))
    split_ifs with hlo
    · rw [setAt_other _ _ _ _ (fun hx => h hi hlo (Nat.lt_succ_self hi) hx.symm)]
      exact h1
    · exact h1

/-- The function `putchars` leaves the position arrays and `srcMapping`
alone. -/
theorem putchars_positions (K : Internal) (chars : Nat → widechar) (count : Nat)
    (table : TranslationTableHeader) (destmax allUpper allUpperPhrase : Int) (s : Emit) :
    (putchars K chars count table destmax allUpper allUpperPhrase s).2.inputPositions
        = s.inputPositions ∧
    (putchars K chars count table destmax allUpper allUpperPhrase s).2.outputPositions
        = s.outputPositions ∧
    (putchars K chars count table destmax allUpper allUpperPhrase s).2.srcMapping
        = s.srcMapping := by
  unfold putchars
  dsimp only
  split_ifs <;> exact ⟨rfl, rfl, rfl⟩

theorem putchars_ok (K : Internal) (chars : Nat → widechar) (count : Nat)
    (table : TranslationTableHeader) (destmax allUpper allUpperPhrase : Int) (s : Emit) :
    (putchars K chars count table destmax allUpper allUpperPhrase s).1
      = decide (¬ (count = 0 ∨ s.dest + count > destmax)) := by
  unfold putchars
  dsimp only
  by_cases h1 : count = 0 ∨ s.dest + count > destmax
  · rw [if_pos h1]
    exact (decide_eq_false (not_not_intro h1)).symm
  · rw [if_neg h1]
    split_ifs <;> exact (decide_eq_true h1).symm

/-- What `back_updatePositions` leaves in the two position arrays once its
capacity check has passed. -/
theorem back_updatePositions_arrays (K : Internal) (outChars : Nat → widechar)
    (inLength outLength : Nat) (table : TranslationTableHeader)
    (src srcmax destmax allUpper allUpperPhrase : Int) (s : Emit)
    (hcap : ¬ (s.dest + outLength > destmax ∨ src + inLength > srcmax)) :
    (back_updatePositions K outChars inLength outLength table src srcmax destmax allUpper
        allUpperPhrase s).1 = decide (outLength ≠ 0) ∧
    (back_updatePositions K outChars inLength outLength table src srcmax destmax allUpper
        allUpperPhrase s).2.outputPositions
      = s.outputPositions.map (fun op =>
          if outLength ≤ inLength then
            fillConst (fun k => s.srcMapping (src + k)) (s.dest + outLength - 1) outLength
              inLength (fillOutputPositions s.srcMapping src s.dest outLength op)
          else fillOutputPositions s.srcMapping src s.dest inLength op) ∧
    (back_updatePositions K outChars inLength outLength table src srcmax destmax allUpper
        allUpperPhrase s).2.inputPositions
      = s.inputPositions.map (fun ip =>
          if outLength ≤ inLength then fillInputPositions s.srcMapping src s.dest outLength ip
          else
            fillConst (fun k => s.dest + k) (s.srcMapping (src + inLength - 1)) inLength
              outLength (fillInputPositions s.srcMapping src s.dest inLength ip)) := by
  unfold back_updatePositions
  rw [if_neg hcap]
  dsimp only
  rw [putchars_ok, (putchars_positions _ _ _ _ _ _ _ _).1,
    (putchars_positions _ _ _ _ _ _ _ _).2.1]
  have hd : ¬ (s.dest + outLength > destmax) := fun h => hcap (Or.inl h)
  refine ⟨?_, ?_, ?_⟩
  · by_cases h0 : outLength = 0
    · split_ifs <;> simp [h0]
    · have h1 : ¬ (outLength = 0 ∨ s.dest + outLength > destmax) := by
        rintro (h | h)
        · exact h0 h
        · exact hd h
      split_ifs <;> simp [h0, hd]
  · split_ifs <;> cases s.outputPositions <;> simp
  · split_ifs <;> cases s.inputPositions <;> simp

/-- C23 (amended). After a successful `back_updatePositions` that consumes
the input range `[src, src+inLength)` and emits `[dest, dest+outLength)`,
`outputPositions` maps consumed input index number `k` (that is
`srcMapping[src+k]`; if `srcMapping` lists an index more than once its last
occurrence decides) to `dest + k` while `k < outLength` and to the last
output index `dest + outLength - 1` from there on, that is to
`dest + min(k, outLength - 1)`. So the first consumed index is mapped to
`dest`, and every consumed index is mapped to `dest` when one symbol is
emitted. -/
theorem outputPositions_fill (K : Internal) (outChars : Nat → widechar)
    (inLength outLength : Nat) (table : TranslationTableHeader)
    (src srcmax destmax allUpper allUpperPhrase : Int) (s : Emit) (op : IBuf)
    (hop : s.outputPositions = some op)
    (hok : (back_updatePositions K outChars inLength outLength table src srcmax destmax
      allUpper allUpperPhrase s).1 = true) :
    ∃ op1,
      (back_updatePositions K outChars inLength outLength table src srcmax destmax allUpper
        allUpperPhrase s).2.outputPositions = some op1 ∧
      (∀ k, k < inLength →
        (∀ k2, k < k2 → k2 < inLength →
          s.srcMapping (src + k2) ≠ s.srcMapping (src + k)) →
        op1 (s.srcMapping (src + k)) = s.dest + ((min k (outLength - 1) : Nat) : Int)) ∧
      (outLength = 1 → ∀ k, k < inLength → op1 (s.srcMapping (src + k)) = s.dest) := by
  have hcap : ¬ (s.dest + outLength > destmax ∨ src + inLength > srcmax) := by
    intro hc
    unfold back_updatePositions at hok
    rw [if_pos hc] at hok
    cases hok
  obtain ⟨h1, h2, -⟩ := back_updatePositions_arrays K outChars inLength outLength table src
    srcmax destmax allUpper allUpperPhrase s hcap
  rw [h1] at hok
  have hpos : outLength ≠ 0 := of_decide_eq_true hok
  rw [hop] at h2
  refine ⟨_, h2, ?_, ?_⟩
  · intro k hk hlast
    by_cases hle : outLength ≤ inLength
    · dsimp only
      rw [if_pos hle]
      by_cases hko : k < outLength
      · rw [fillConst_other _ _ _ _ _ _ (fun k2 h3 h4 => hlast k2 (by omega) h4),
          fillOutputPositions_last _ _ _ _ _ k hko
            (fun k2 h3 h4 => hlast k2 h3 (by omega))]
        have hm : min k (outLength - 1) = k := by omega
        rw [hm]
      · rw [fillConst_get _ _ _ _ _ _ ⟨k, by omega, hk, rfl⟩]
        have hm : min k (outLength - 1) = outLength - 1 := by omega
        rw [hm]
        omega
    · dsimp only
      rw [if_neg hle,
        fillOutputPositions_last _ _ _ _ _ k hk hlast]
      have hm : min k (outLength - 1) = k := by omega
      rw [hm]
  · intro hone k hk
    subst hone
    have hle : 1 ≤ inLength := by omega
    dsimp only
    rw [if_pos hle]
    by_cases hex : ∃ k2, 1 ≤ k2 ∧ k2 < inLength ∧ s.srcMapping (src + k2) = s.srcMapping (src + k)
    · rw [fillConst_get _ _ _ _ _ _ hex]
      push_cast
      omega
    · have hk0 : k = 0 := by
        by_contra hne
        exact hex ⟨k, by omega, hk, rfl⟩
      subst hk0
      rw [fillConst_other _ _ _ _ _ _
          (fun k2 h3 h4 h5 => hex ⟨k2, h3, h4, h5⟩),
        fillOutputPositions_last _ _ _ _ _ 0 (by omega) (fun k2 h3 h4 => by omega)]
      simp

/-- Witness for C23: two cells replaced by the two characters `a`, `b` at
`src = 0`, `dest = 0` with the identity mapping: input 0 is mapped to output
0 and input 1 to output 1. -/
theorem outputPositions_fill_witness :
    ∃ op1,
      (back_updatePositions sampleInternal (fun k => [97, 98].getD k 0) 2 2 emptyTable 0 2 10 0
        0 { blankEmit with outputPositions := some (fun _ => -1) }).2.outputPositions
          = some op1 ∧
      op1 0 = 0 ∧ op1 1 = 1 := by
  obtain ⟨op1, h1, h2, -⟩ := outputPositions_fill sampleInternal (fun k => [97, 98].getD k 0) 2
    2 emptyTable 0 2 10 0 0 { blankEmit with outputPositions := some (fun _ => -1) }
    (fun _ => -1) rfl (by decide)
  refine ⟨op1, h1, ?_, ?_⟩
  · have h := h2 0 (by decide) (fun k2 h3 h4 => by
      have hk : k2 = 1 := by omega
      subst hk
      decide)
    simpa [blankEmit] using h
  · have h := h2 1 (by decide) (fun k2 h3 h4 => by omega)
    simpa [blankEmit] using h

/-- Counterexample to C23 as stated: two cells replaced by two characters at
`src = 0`, `dest = 0` with the identity mapping. The emission succeeds, and
input index 1 of the consumed range is mapped to output index 1, not to the
first output index 0 of the emitted span. -/
theorem outputPositions_fill_counterexample :
    (back_updatePositions sampleInternal (fun k => [97, 98].getD k 0) 2 2 emptyTable 0 2 10 0 0
      { blankEmit with outputPositions := some (fun _ => -1) }).1 = true ∧
    (back_updatePositions sampleInternal (fun k => [97, 98].getD k 0) 2 2 emptyTable 0 2 10 0 0
      { blankEmit with outputPositions := some (fun _ => -1) }).2.dest = 2 ∧
    (back_updatePositions sampleInternal (fun k => [97, 98].getD k 0) 2 2 emptyTable 0 2 10 0 0
      { blankEmit with outputPositions := some (fun _ => -1) }).2.outputPositions.map
        (fun a => (a 0, a 1)) = some (0, 1) := by
  refine ⟨by decide, by decide, by decide⟩

/-- C24. In `back_updatePositions` with both arrays requested, the capacity
check passing and `inLength, outLength >= 1` the emission succeeds, and: in
the expansion case (`outLength > inLength`)
`inputPositions[dest+j] = srcMapping[src+inLength-1]` for every `j` in
`[inLength, outLength)`; in the contraction case (`outLength <= inLength`)
`outputPositions[srcMapping[src+k]] = dest+outLength-1` for every `k` in
`[outLength, inLength)`. In both cases every output index of the emitted
span receives an input index of the consumed range, and every input index
of the consumed range receives an output index of the emitted span. -/
theorem positions_without_hole (K : Internal) (outChars : Nat → widechar)
    (inLength outLength : Nat) (table : TranslationTableHeader)
    (src srcmax destmax allUpper allUpperPhrase : Int) (s : Emit) (ip op : IBuf)
    (hip : s.inputPositions = some ip) (hop : s.outputPositions = some op)
    (hcap : ¬ (s.dest + outLength > destmax ∨ src + inLength > srcmax))
    (hin : 1 ≤ inLength) (hout : 1 ≤ outLength) :
    ∃ ip1 op1,
      (back_updatePositions K outChars inLength outLength table src srcmax destmax allUpper
        allUpperPhrase s).1 = true ∧
      (back_updatePositions K outChars inLength outLength table src srcmax destmax allUpper
        allUpperPhrase s).2.inputPositions = some ip1 ∧
      (back_updatePositions K outChars inLength outLength table src srcmax destmax allUpper
        allUpperPhrase s).2.outputPositions = some op1 ∧
      (outLength > inLength → ∀ j, inLength ≤ j → j < outLength →
        ip1 (s.dest + j) = s.srcMapping (src + inLength - 1)) ∧
      (outLength ≤ inLength → ∀ k, outLength ≤ k → k < inLength →
        op1 (s.srcMapping (src + k)) = s.dest + outLength - 1) ∧
      (∀ j, j < outLength → ∃ k, k < inLength ∧ ip1 (s.dest + j) = s.srcMapping (src + k)) ∧
      (∀ k, k < inLength → ∃ j, j < outLength ∧ op1 (s.srcMapping (src + k)) = s.dest + j) := by
  obtain ⟨h1, h2, h3⟩ := back_updatePositions_arrays K outChars inLength outLength table src
    srcmax destmax allUpper allUpperPhrase s hcap
  rw [hop] at h2
  rw [hip] at h3
  have hne : outLength ≠ 0 := by omega
  refine ⟨_, _, ?_, h3, h2, ?_, ?_, ?_, ?_⟩
  · rw [h1]
    exact decide_eq_true hne
  · intro hgt j hj1 hj2
    dsimp only
    rw [if_neg (by omega)]
    exact fillConst_get _ _ _ _ _ _ ⟨j, hj1, hj2, rfl⟩
  · intro hle k hk1 hk2
    dsimp only
    rw [if_pos hle]
    exact fillConst_get _ _ _ _ _ _ ⟨k, hk1, hk2, rfl⟩
  · intro j hj
    dsimp only
    by_cases hle : outLength ≤ inLength
    · rw [if_pos hle]
      exact ⟨j, by omega, fillInputPositions_get _ _ _ _ _ j hj⟩
    · rw [if_neg hle]
      by_cases hji : j < inLength
      · refine ⟨j, hji, ?_⟩
        rw [fillConst_other _ _ _ _ _ _ (fun k2 h4 h5 => by omega)]
        exact fillInputPositions_get _ _ _ _ _ j hji
      · refine ⟨inLength - 1, by omega, ?_⟩
        rw [fillConst_get _ _ _ _ _ _ ⟨j, by omega, hj, rfl⟩]
        congr 1
        omega
  · intro k hk
    dsimp only
    by_cases hle : outLength ≤ inLength
    · rw [if_pos hle]
      by_cases hex : ∃ k2, outLength ≤ k2 ∧ k2 < inLength ∧
          s.srcMapping (src + k2) = s.srcMapping (src + k)
      · refine ⟨outLength - 1, by omega, ?_⟩
        rw [fillConst_get _ _ _ _ _ _ hex]
        omega
      · have hko : k < outLength := by
          by_contra hne1
          exact hex ⟨k, by omega, hk, rfl⟩
        rw [fillConst_other _ _ _ _ _ _ (fun k2 h4 h5 h6 => hex ⟨k2, h4, h5, h6⟩)]
        exact fillOutputPositions_range _ _ _ _ _ _ ⟨k, hko, rfl⟩
    · rw [if_neg hle]
      obtain ⟨j, hj, he⟩ := fillOutputPositions_range s.srcMapping src s.dest op
        (s.srcMapping (src + k)) inLength ⟨k, hk, rfl⟩
      exact ⟨j, by omega, he⟩

/-- Witness for C24: one cell replaced by the three characters `t`, `h`, `e`
at `src = 0`, `dest = 0` with the identity mapping (expansion): the output
indices 1 and 2 receive the input index 0. -/
theorem positions_without_hole_witness :
    ∃ ip1,
      (back_updatePositions sampleInternal theRule.charsdots 1 3 emptyTable 0 1 10 0 0
        { blankEmit with inputPositions := some (fun _ => 77),
                         outputPositions := some (fun _ => -1) }).2.inputPositions
          = some ip1 ∧
      ip1 1 = 0 ∧ ip1 2 = 0 := by
  obtain ⟨ip1, op1, -, h1, -, h2, -⟩ := positions_without_hole sampleInternal
    theRule.charsdots 1 3 emptyTable 0 1 10 0 0
    { blankEmit with inputPositions := some (fun _ => 77),
                     outputPositions := some (fun _ => -1) }
    (fun _ => 77) (fun _ => -1) rfl rfl (by decide) (by decide) (by decide)
  refine ⟨ip1, h1, ?_, ?_⟩
  · have h := h2 (by decide) 1 (by decide) (by decide)
    simpa [blankEmit] using h
  · have h := h2 (by decide) 2 (by decide) (by decide)
    simpa [blankEmit] using h

/-! ### The state-only opcodes of the primary pass -/

/-- A rule that wins a chain walk and is not a context rule is reported with
its `dotslen` as match length. -/
theorem back_selectRuleChain_dotslen (K : Internal) (table : TranslationTableHeader)
    (src srcmax dest : Int) (mode : Nat) (currentInput currentOutput : WBuf)
    (itsANumber itsALetter : Int) (previousOpcode : TranslationTableOpcode)
    (beforeAttributes : Nat) (vars : PassVariables) (length : Int)
    (chain : List TranslationTableRule) :
    ∀ (dm : Nat) (mr : TranslationTableRule) (er : Int) (sel : Selected),
      back_selectRuleChain K table src srcmax dest mode currentInput currentOutput itsANumber
        itsALetter previousOpcode beforeAttributes vars length chain dm mr er = .inl sel →
      sel.currentOpcode = CTO_Context ∨ sel.currentDotslen = sel.currentRule.dotslen := by
  induction chain with
  | nil =>
    intro dm mr er sel h
    cases h
  | cons r rest ih =>
    intro dm mr er sel h
    unfold back_selectRuleChain at h
    dsimp only at h
    rw [matchLength_eq, matchSymbols_eq] at h
    split at h
    · split at h
      · split at h
        · split at h
          · cases h
            exact Or.inl rfl
          · exact ih _ _ _ _ h
        · split at h
          · cases h
            exact Or.inr rfl
          · exact ih _ _ _ _ h
        · rename_i hop1 hop2
          split at h
          · cases h
            right
            show matchLength r = r.dotslen
            unfold matchLength
            generalize r.opcode = op at hop1
            cases op <;> first | rfl | exact absurd rfl hop1
          · exact ih _ _ _ _ h
      · exact ih _ _ _ _ h
    · exact ih _ _ _ _ h

theorem back_selectRule_dotslen (K : Internal) (table : TranslationTableHeader)
    (src srcmax dest : Int) (mode : Nat) (currentInput currentOutput : WBuf)
    (itsANumber itsALetter : Int) (previousOpcode : TranslationTableOpcode)
    (doingMultind : Nat) (multindRule : TranslationTableRule) (beforeAttributes : Nat)
    (vars : PassVariables) (endReplace : Int) :
    (back_selectRule K table src srcmax dest mode currentInput currentOutput itsANumber
      itsALetter previousOpcode doingMultind multindRule beforeAttributes vars
      endReplace).currentOpcode = CTO_Context ∨
    (back_selectRule K table src srcmax dest mode currentInput currentOutput itsANumber
      itsALetter previousOpcode doingMultind multindRule beforeAttributes vars
      endReplace).currentDotslen
      = (back_selectRule K table src srcmax dest mode currentInput currentOutput itsANumber
          itsALetter previousOpcode doingMultind multindRule beforeAttributes vars
          endReplace).currentRule.dotslen := by
  unfold back_selectRule
  dsimp only
  split
  · exact Or.inr rfl
  · split
    · rename_i sel hc
      exact back_selectRuleChain_dotslen K table src srcmax dest mode currentInput
        currentOutput itsANumber itsALetter previousOpcode beforeAttributes vars _ _ _ _ _ sel hc
    · split
      · rename_i sel hc
        exact back_selectRuleChain_dotslen K table src srcmax dest mode currentInput
          currentOutput itsANumber itsALetter previousOpcode beforeAttributes vars _ _ _ _ _
          sel hc
      · exact Or.inr rfl

/-- The first `switch` for a state-only opcode: `continue` after `*src +=
currentDotslen`, with the flags changed as the opcode names. -/
theorem beforeReplacement_stateOnly (K : Internal) (env : PassEnv) (sel : Selected)
    (b : BackState) (hop : stateOnlyOpcode sel.currentOpcode = true) :
    beforeReplacement K env sel b
      = (Flow.next,
          { b with
            src := b.src + sel.currentDotslen
            e := { b.e with nextUpper := (stateOnlyFlags sel.currentOpcode b.flags).nextUpper }
            allUpper := (stateOnlyFlags sel.currentOpcode b.flags).allUpper
            allUpperPhrase := (stateOnlyFlags sel.currentOpcode b.flags).allUpperPhrase
            itsALetter := (stateOnlyFlags sel.currentOpcode b.flags).itsALetter
            itsANumber := (stateOnlyFlags sel.currentOpcode b.flags).itsANumber }) := by
  unfold beforeReplacement
  dsimp only
  generalize sel.currentOpcode = op at hop
  cases op <;> first | (cases hop; done) | rfl

/-- C25. When the rule selected in a loop turn of `backTranslateString` has
a state-only opcode, the turn ends by `continue` with `src` advanced by the
match length of the rule (its `dotslen`); `dest`, the output buffer, both
position arrays, `srcMapping`, the spacing buffer, the cursor and its status,
`previousOpcode`, the remembered word boundary and the statics are
unchanged; and the tracker flags change exactly as the opcode names:
`nextUpper := 1` (capital letter), `allUpper := 1 / 0` (capitalised word
begins / ends), `allUpperPhrase := 1 / 0` (capitalised phrase begins /
ends), `itsALetter := 1` with `itsANumber := 0` (letter, no-contraction),
`itsANumber := 1` (number), nothing for the emphasis and computer-braille
opcodes. -/
theorem stateOnly_turn (K : Internal) (env : PassEnv) (fuel : Nat) (b : BackState)
    (hop : stateOnlyOpcode (selectionOf K env b).currentOpcode = true) :
    ∃ b1, backTranslateTurn K env fuel b = some (Flow.next, b1) ∧
      b1.src = b.src + (selectionOf K env b).currentDotslen ∧
      (selectionOf K env b).currentDotslen = (selectionOf K env b).currentRule.dotslen ∧
      b1.e.dest = b.e.dest ∧
      b1.e.currentOutput = b.e.currentOutput ∧
      b1.e.outputPositions = b.e.outputPositions ∧
      b1.e.inputPositions = b.e.inputPositions ∧
      b1.e.srcMapping = b.e.srcMapping ∧
      b1.e.spacebuf = b.e.spacebuf ∧
      b1.e.cursorPosition = b.e.cursorPosition ∧
      b1.e.cursorStatus = b.e.cursorStatus ∧
      b1.previousOpcode = b.previousOpcode ∧
      b1.srcword = b.srcword ∧
      b1.destword = b.destword ∧
      b1.st = b.st ∧
      b1.flags = stateOnlyFlags (selectionOf K env b).currentOpcode b.flags := by
  have hlen : (selectionOf K env b).currentDotslen
      = (selectionOf K env b).currentRule.dotslen := by
    rcases back_selectRule_dotslen K env.table b.src env.srcmax b.e.dest env.mode
      env.currentInput b.e.currentOutput b.itsANumber b.itsALetter b.previousOpcode
      b.doingMultind b.multindRule (back_setBefore K env.table b.e.dest b.e.currentOutput)
      b.st.passVariables K.indeterminate with hc | hc
    · have hc1 : (selectionOf K env b).currentOpcode = CTO_Context := hc
      rw [hc1] at hop
      cases hop
    · exact hc
  have hturn : backTranslateTurn K env fuel b
      = some (beforeReplacement K env (selectionOf K env b)
          { b with
            applied := recordRule env.traced env.maxAppliedRules b.applied
              (selectionOf K env b).currentRule
            doingMultind := (selectionOf K env b).doingMultind
            multindRule := (selectionOf K env b).multindRule }) := by
    unfold backTranslateTurn
    dsimp only
    have hb := beforeReplacement_stateOnly K env (selectionOf K env b)
      { b with
        applied := recordRule env.traced env.maxAppliedRules b.applied
          (selectionOf K env b).currentRule
        doingMultind := (selectionOf K env b).doingMultind
        multindRule := (selectionOf K env b).multindRule } hop
    unfold selectionOf at hb ⊢
    rw [hb]
  rw [hturn, beforeReplacement_stateOnly K env (selectionOf K env b) _ hop]
  exact ⟨_, rfl, rfl, hlen, rfl, rfl, rfl, rfl, rfl, rfl, rfl, rfl, rfl, rfl, rfl, rfl, rfl⟩

/-- Witness for C25: on the cell with dot 6, whose only rule in `capsTable`
is the capital-letter indicator, the first loop turn moves `src` from 0 to 1,
leaves `dest = 0` and sets `nextUpper`. -/
theorem stateOnly_turn_witness :
    ∃ b1, backTranslateTurn sampleInternal capsEnv 10 capsStart = some (Flow.next, b1) ∧
      b1.src = 1 ∧ b1.e.dest = 0 ∧
      b1.flags = { nextUpper := 1, allUpper := 0, allUpperPhrase := 0, itsALetter := 0,
                   itsANumber := 0 } := by
  obtain ⟨b1, h1, h2, -, h3, -, -, -, -, -, -, -, -, -, -, -, h4⟩ :=
    stateOnly_turn sampleInternal capsEnv 10 capsStart (by decide)
  refine ⟨b1, h1, ?_, ?_, ?_⟩
  · rw [h2]
    decide
  · rw [h3]
    rfl
  · rw [h4]
    decide

/-! ### Partial translation -/

/-- A rule that wins a chain walk is admissible, and the walk returns it as
`ReturnsRule` says. -/
theorem back_selectRuleChain_admissible (K : Internal) (table : TranslationTableHeader)
    (src srcmax dest : Int) (mode : Nat) (currentInput currentOutput : WBuf)
    (itsANumber itsALetter : Int) (previousOpcode : TranslationTableOpcode)
    (beforeAttributes : Nat) (vars : PassVariables) (length : Int)
    (chain : List TranslationTableRule) :
    ∀ (dm : Nat) (mr : TranslationTableRule) (er : Int) (sel : Selected),
      back_selectRuleChain K table src srcmax dest mode currentInput currentOutput itsANumber
        itsALetter previousOpcode beforeAttributes vars length chain dm mr er = .inl sel →
      ∃ r ∈ chain,
        admissible K table src srcmax dest mode currentInput currentOutput itsANumber
          itsALetter previousOpcode beforeAttributes vars length r = true ∧
        ReturnsRule K table sel r := by
  induction chain with
  | nil =>
    intro dm mr er sel h
    cases h
  | cons r rest ih =>
    intro dm mr er sel h
    cases hr : admissible K table src srcmax dest mode currentInput currentOutput itsANumber
      itsALetter previousOpcode beforeAttributes vars length r
    · obtain ⟨dm1, mr1, er1, hs⟩ := back_selectRuleChain_skip K table src srcmax dest mode
        currentInput currentOutput itsANumber itsALetter previousOpcode beforeAttributes vars
        length r rest hr dm mr er
      rw [hs] at h
      obtain ⟨x, hx, hadm, hret⟩ := ih dm1 mr1 er1 sel h
      exact ⟨x, List.mem_cons_of_mem _ hx, hadm, hret⟩
    · obtain ⟨sel1, hs, hret⟩ := back_selectRuleChain_take K table src srcmax dest mode
        currentInput currentOutput itsANumber itsALetter previousOpcode beforeAttributes vars
        length r rest hr dm mr er
      rw [hs] at h
      cases h
      exact ⟨r, List.mem_cons_self _ _, hr, hret⟩

/-- A rule found by `handleMultind` is an indicator rule of the table. -/
theorem handleMultind_some (K : Internal) (table : TranslationTableHeader) (doingMultind : Nat)
    (multindRule found : TranslationTableRule) (dm : Nat)
    (h : handleMultind K table doingMultind multindRule = (some found, dm)) :
    ∃ code, multindOffset K table code = some found := by
  unfold handleMultind at h
  split_ifs at h
  · cases h
  · exact ⟨_, congrArg Prod.fst h⟩

/-- In partial translation the validity check of a rule whose opcode needs a
word end fails. -/
theorem ruleValid_partialTrans (K : Internal) (table : TranslationTableHeader)
    (src srcmax dest : Int) (mode : Nat) (currentInput currentOutput : WBuf)
    (itsANumber itsALetter : Int) (previousOpcode : TranslationTableOpcode)
    (beforeAttributes afterAttributes : Nat) (r : TranslationTableRule) (len : Nat)
    (hmode : mode &&& K.partialTrans ≠ 0) (hop : needsWordEnd r.opcode = true) :
    ruleValid K table src srcmax dest mode currentInput currentOutput itsANumber itsALetter
      previousOpcode beforeAttributes afterAttributes r len = false := by
  have hend : isEndWord K table src srcmax mode currentInput len = false := by
    unfold isEndWord
    rw [if_pos hmode]
  unfold ruleValid
  dsimp only
  rw [hend]
  generalize r.opcode = op at hop
  cases op <;> first | (cases hop; done) | simp [hmode]

/-- In partial translation the validity check of a joinable-word or
join-number rule is the test of what precedes it. -/
theorem ruleValid_join (K : Internal) (table : TranslationTableHeader)
    (src srcmax dest : Int) (mode : Nat) (currentInput currentOutput : WBuf)
    (itsANumber itsALetter : Int) (previousOpcode : TranslationTableOpcode)
    (beforeAttributes afterAttributes : Nat) (r : TranslationTableRule) (len : Nat)
    (hmode : mode &&& K.partialTrans ≠ 0) (hop : joinOpcode r.opcode = true) :
    ruleValid K table src srcmax dest mode currentInput currentOutput itsANumber itsALetter
      previousOpcode beforeAttributes afterAttributes r len
      = hasAttr beforeAttributes (K.CTC_Space ||| K.CTC_Punctuation) := by
  unfold ruleValid
  dsimp only
  generalize r.opcode = op at hop
  cases op <;> first | (cases hop; done) | simp [hmode]

/-- In partial translation a rule whose opcode needs a word end is not
admissible. -/
theorem admissible_partialTrans (K : Internal) (table : TranslationTableHeader)
    (src srcmax dest : Int) (mode : Nat) (currentInput currentOutput : WBuf)
    (itsANumber itsALetter : Int) (previousOpcode : TranslationTableOpcode)
    (beforeAttributes : Nat) (vars : PassVariables) (length : Int) (r : TranslationTableRule)
    (hmode : mode &&& K.partialTrans ≠ 0) (hop : needsWordEnd r.opcode = true) :
    admissible K table src srcmax dest mode currentInput currentOutput itsANumber itsALetter
      previousOpcode beforeAttributes vars length r = false := by
  have hv := ruleValid_partialTrans K table src srcmax dest mode currentInput currentOutput
    itsANumber itsALetter previousOpcode beforeAttributes
    (back_setAfter K (matchLength r) table src srcmax currentInput) r (matchLength r) hmode hop
  unfold admissible
  have hlast : (match r.opcode with
      | CTO_Context => (back_passDoTest K table src srcmax currentInput CTO_Context r vars 0).1
      | CTO_MultInd => (handleMultind K table (matchLength r) r).1.isSome
      | _ =>
        ruleValid K table src srcmax dest mode currentInput currentOutput itsANumber
          itsALetter previousOpcode beforeAttributes
          (back_setAfter K (matchLength r) table src srcmax currentInput) r
          (matchLength r)) = false := by
    rw [hv]
    generalize r.opcode = op at hop
    cases op <;> first | (cases hop; done) | rfl
  rw [hlast, Bool.and_false]

/-- C26. In partial translation (`mode & partialTrans` set): `isEndWord`
returns 0 for every table, input and position; a rule with opcode
`CTO_WholeWord`, `CTO_LowWord`, `CTO_PrefixableWord`, `CTO_EndWord` or
`CTO_PostPunc` is never admissible, so `back_selectRule` never takes one
from a chain (it reports such an opcode only for a rule handed out by
`handleMultind` from the indicator entries of the table); and for a
`CTO_JoinableWord` / `CTO_JoinNum` rule the validity check is the test that
space or punctuation precedes, whatever follows the match, so that such a
rule is admissible exactly when its match symbols and masks fit and space or
punctuation precedes. -/
theorem partialTrans_selection (K : Internal) (mode : Nat)
    (hmode : mode &&& K.partialTrans ≠ 0) :
    (∀ (table : TranslationTableHeader) (src srcmax : Int) (currentInput : WBuf)
        (currentDotslen : Nat),
      isEndWord K table src srcmax mode currentInput currentDotslen = false) ∧
    (∀ (table : TranslationTableHeader) (src srcmax dest : Int)
        (currentInput currentOutput : WBuf) (itsANumber itsALetter : Int)
        (previousOpcode : TranslationTableOpcode) (beforeAttributes : Nat)
        (vars : PassVariables) (length : Int) (r : TranslationTableRule),
      needsWordEnd r.opcode = true →
      admissible K table src srcmax dest mode currentInput currentOutput itsANumber itsALetter
        previousOpcode beforeAttributes vars length r = false) ∧
    (∀ (table : TranslationTableHeader) (src srcmax dest : Int)
        (currentInput currentOutput : WBuf) (itsANumber itsALetter : Int)
        (previousOpcode : TranslationTableOpcode) (doingMultind : Nat)
        (multindRule : TranslationTableRule) (beforeAttributes : Nat) (vars : PassVariables)
        (endReplace : Int),
      needsWordEnd
        (back_selectRule K table src srcmax dest mode currentInput currentOutput itsANumber
          itsALetter previousOpcode doingMultind multindRule beforeAttributes vars
          endReplace).currentOpcode = true →
      ∃ code,
        multindOffset K table code
          = some (back_selectRule K table src srcmax dest mode currentInput currentOutput
              itsANumber itsALetter previousOpcode doingMultind multindRule beforeAttributes
              vars endReplace).currentRule) ∧
    (∀ (table : TranslationTableHeader) (src srcmax dest : Int)
        (currentInput currentOutput : WBuf) (itsANumber itsALetter : Int)
        (previousOpcode : TranslationTableOpcode) (beforeAttributes afterAttributes : Nat)
        (r : TranslationTableRule) (len : Nat),
      joinOpcode r.opcode = true →
      ruleValid K table src srcmax dest mode currentInput currentOutput itsANumber itsALetter
        previousOpcode beforeAttributes afterAttributes r len
        = hasAttr beforeAttributes (K.CTC_Space ||| K.CTC_Punctuation)) ∧
    (∀ (table : TranslationTableHeader) (src srcmax dest : Int)
        (currentInput currentOutput : WBuf) (itsANumber itsALetter : Int)
        (previousOpcode : TranslationTableOpcode) (beforeAttributes : Nat)
        (vars : PassVariables) (length : Int) (r : TranslationTableRule),
      joinOpcode r.opcode = true →
      admissible K table src srcmax dest mode currentInput currentOutput itsANumber itsALetter
        previousOpcode beforeAttributes vars length r
        = (decide ((matchLength r : Int) ≤ length) &&
            compareDots (fun k => currentInput (src + k)) (matchSymbols r) (matchLength r) &&
            (decide (andNot r.after K.CTC_EmpMatch = 0) || hasAttr beforeAttributes r.after) &&
            (decide (andNot r.before K.CTC_EmpMatch = 0) ||
              hasAttr (back_setAfter K (matchLength r) table src srcmax currentInput)
                r.before) &&
            hasAttr beforeAttributes (K.CTC_Space ||| K.CTC_Punctuation))) := by
  refine ⟨?_, ?_, ?_, ?_, ?_⟩
  · intro table src srcmax currentInput currentDotslen
    unfold isEndWord
    rw [if_pos hmode]
  · intro table src srcmax dest currentInput currentOutput itsANumber itsALetter
      previousOpcode beforeAttributes vars length r hop
    exact admissible_partialTrans K table src srcmax dest mode currentInput currentOutput
      itsANumber itsALetter previousOpcode beforeAttributes vars length r hmode hop
  · intro table src srcmax dest currentInput currentOutput itsANumber itsALetter
      previousOpcode doingMultind multindRule beforeAttributes vars endReplace
    have key : ∀ (length : Int) (chain : List TranslationTableRule) (dm : Nat)
        (mr : TranslationTableRule) (er : Int) (sel : Selected),
        back_selectRuleChain K table src srcmax dest mode currentInput currentOutput
          itsANumber itsALetter previousOpcode beforeAttributes vars length chain dm mr er
          = .inl sel →
        needsWordEnd sel.currentOpcode = true →
        ∃ code, multindOffset K table code = some sel.currentRule := by
      intro length chain dm mr er sel hc hn
      obtain ⟨r, -, hadm, hret⟩ := back_selectRuleChain_admissible K table src srcmax dest
        mode currentInput currentOutput itsANumber itsALetter previousOpcode beforeAttributes
        vars length chain dm mr er sel hc
      by_cases hm : r.opcode = CTO_MultInd
      · exact ⟨_, (hret.2 hm).2.1⟩
      · exfalso
        have hopc := (hret.1 hm).2.1
        rw [hopc] at hn
        have hf := admissible_partialTrans K table src srcmax dest mode currentInput
          currentOutput itsANumber itsALetter previousOpcode beforeAttributes vars length r
          hmode hn
        rw [hf] at hadm
        cases hadm
    unfold back_selectRule
    dsimp only
    split
    · rename_i found dm hm
      intro _
      exact handleMultind_some K table _ _ _ _ hm
    · split
      · rename_i sel hc
        exact key _ _ _ _ _ sel hc
      · split
        · rename_i sel hc
          exact key _ _ _ _ _ sel hc
        · intro hn
          cases hn
  · intro table src srcmax dest currentInput currentOutput itsANumber itsALetter
      previousOpcode beforeAttributes afterAttributes r len hop
    exact ruleValid_join K table src srcmax dest mode currentInput currentOutput itsANumber
      itsALetter previousOpcode beforeAttributes afterAttributes r len hmode hop
  · intro table src srcmax dest currentInput currentOutput itsANumber itsALetter
      previousOpcode beforeAttributes vars length r hop
    have hv := ruleValid_join K table src srcmax dest mode currentInput currentOutput
      itsANumber itsALetter previousOpcode beforeAttributes
      (back_setAfter K (matchLength r) table src srcmax currentInput) r (matchLength r) hmode
      hop
    unfold admissible
    have hlast : (match r.opcode with
        | CTO_Context =>
          (back_passDoTest K table src srcmax currentInput CTO_Context r vars 0).1
        | CTO_MultInd => (handleMultind K table (matchLength r) r).1.isSome
        | _ =>
          ruleValid K table src srcmax dest mode currentInput currentOutput itsANumber
            itsALetter previousOpcode beforeAttributes
            (back_setAfter K (matchLength r) table src srcmax currentInput) r
            (matchLength r)) = hasAttr beforeAttributes (K.CTC_Space ||| K.CTC_Punctuation) := by
      rw [hv]
      generalize r.opcode = op at hop
      cases op <;> first | (cases hop; done) | rfl
    rw [hlast]

/-- Witness for C26: with the partial-translation flag added to the mode of
`theCall`, the whole-word rule `theRule`, which is admissible on the single
cell in the full mode, is not admissible, and the cell falls through to the
`CTO_None` fallback. -/
theorem partialTrans_selection_witness :
    (4 ||| 256) &&& sampleInternal.partialTrans ≠ 0 ∧
    admissible (sampleInternalFor theTable) theTable 0 1 0 4
      (passEnvOf thePrepared 4 1).currentInput (fun _ => 0) 0 0 CTO_None
      (back_setBefore (sampleInternalFor theTable) theTable 0 (fun _ => 0))
      freshStatics.passVariables 1 theRule = true ∧
    admissible (sampleInternalFor theTable) theTable 0 1 0 (4 ||| 256)
      (passEnvOf thePrepared 4 1).currentInput (fun _ => 0) 0 0 CTO_None
      (back_setBefore (sampleInternalFor theTable) theTable 0 (fun _ => 0))
      freshStatics.passVariables 1 theRule = false ∧
    sampleOpcodeValue
      (back_selectRule (sampleInternalFor theTable) theTable 0 1 0 (4 ||| 256)
        (passEnvOf thePrepared 4 1).currentInput (fun _ => 0) 0 0 CTO_None 0 zeroRule
        (back_setBefore (sampleInternalFor theTable) theTable 0 (fun _ => 0))
        freshStatics.passVariables 0).currentOpcode = sampleOpcodeValue CTO_None :=
  ⟨by decide, by decide,
   (partialTrans_selection (sampleInternalFor theTable) (4 ||| 256) (by decide)).2.1 theTable 0 1
     0 (passEnvOf thePrepared 4 1).currentInput (fun _ => 0) 0 0 CTO_None
     (back_setBefore (sampleInternalFor theTable) theTable 0 (fun _ => 0))
     freshStatics.passVariables 1 theRule rfl,
   by decide⟩

/-! ### The test interpreter, instruction by instruction -/

theorem back_passDoTest_eq_loop (K : Internal) (table : TranslationTableHeader)
    (src srcmax : Int) (currentInput : WBuf) (currentOpcode : TranslationTableOpcode)
    (currentRule : TranslationTableRule) (vars : PassVariables) (endReplace : Int) :
    back_passDoTest K table src srcmax currentInput currentOpcode currentRule vars endReplace
      = back_passDoTestLoop K table srcmax currentInput (testSelector currentOpcode)
          currentRule vars currentRule.dotslen false (testStart src currentRule endReplace) :=
  rfl

theorem finish_eq {α : Type} (not itsTrue : Bool) (a b : α) :
    (if ((!not && !itsTrue) || (not && itsTrue)) = true then a else b)
      = if itsTrue = not then a else b := by
  cases not <;> cases itsTrue <;> rfl

/-- A turn of the test loop on an instruction with a condition: the test
fails when the condition equals the pending negation, else it goes on
without negation. -/
theorem back_passDoTestLoop_condition (K : Internal) (table : TranslationTableHeader)
    (srcmax : Int) (currentInput : WBuf) (m : Int) (currentRule : TranslationTableRule)
    (vars : PassVariables) (fuel : Nat) (not : Bool) (pm : PassMatch)
    (hic : pm.passIC < currentRule.dotslen) (hsrc : pm.passSrc ≤ srcmax)
    (itsTrue : Bool) (pm1 : PassMatch)
    (h : conditionOutcome K table srcmax currentInput m vars pm = some (itsTrue, pm1)) :
    back_passDoTestLoop K table srcmax currentInput m currentRule vars (fuel + 1) not pm
      = if itsTrue = not then (false, pm1)
        else back_passDoTestLoop K table srcmax currentInput m currentRule vars fuel false
          pm1 := by
  rw [back_passDoTestLoop]
  rw [if_pos hic, if_neg (by omega)]
  unfold conditionOutcome at h
  dsimp only at h ⊢
  generalize K.passInstruction (pm.passInstructions pm.passIC) = ins at h ⊢
  cases ins
  case pass_not => cases h
  case pass_endTest => cases h
  case pass_lookback =>
    dsimp only at h ⊢
    split_ifs at h with hp
    · cases h
      rw [if_pos hp]
      exact finish_eq _ _ _ _
    · cases h
      rw [if_neg hp]
      exact finish_eq _ _ _ _
  case pass_attributes =>
    dsimp only at h ⊢
    split_ifs at h with hp
    · cases h
      rw [if_pos hp]
      exact finish_eq _ _ _ _
    · cases h
      rw [if_neg hp]
      exact finish_eq _ _ _ _
  case pass_omit =>
    dsimp only at h ⊢
    split at h
    · rename_i step t hh
      cases h
      exact finish_eq _ _ _ _
    · cases h
  case pass_copy =>
    dsimp only at h ⊢
    split at h
    · rename_i step t hh
      cases h
      exact finish_eq _ _ _ _
    · cases h
  case pass_other =>
    dsimp only at h ⊢
    split at h
    · rename_i step t hh
      cases h
      exact finish_eq _ _ _ _
    · cases h
  all_goals
    dsimp only at h ⊢
    cases h
    exact finish_eq _ _ _ _

/-- A turn of the test loop on `pass_not` flips the pending negation. -/
theorem back_passDoTestLoop_not (K : Internal) (table : TranslationTableHeader)
    (srcmax : Int) (currentInput : WBuf) (m : Int) (currentRule : TranslationTableRule)
    (vars : PassVariables) (fuel : Nat) (not : Bool) (pm : PassMatch)
    (hic : pm.passIC < currentRule.dotslen) (hsrc : pm.passSrc ≤ srcmax)
    (h : K.passInstruction (pm.passInstructions pm.passIC) = .pass_not) :
    back_passDoTestLoop K table srcmax currentInput m currentRule vars (fuel + 1) not pm
      = back_passDoTestLoop K table srcmax currentInput m currentRule vars fuel (!not)
          { pm with passIC := pm.passIC + 1 } := by
  rw [back_passDoTestLoop]
  rw [if_pos hic, if_neg (by omega)]
  dsimp only
  rw [h]

/-- A turn of the test loop on `pass_endTest` ends the test with a match. -/
theorem back_passDoTestLoop_endTest (K : Internal) (table : TranslationTableHeader)
    (srcmax : Int) (currentInput : WBuf) (m : Int) (currentRule : TranslationTableRule)
    (vars : PassVariables) (fuel : Nat) (not : Bool) (pm : PassMatch)
    (hic : pm.passIC < currentRule.dotslen) (hsrc : pm.passSrc ≤ srcmax)
    (h : K.passInstruction (pm.passInstructions pm.passIC) = .pass_endTest) :
    back_passDoTestLoop K table srcmax currentInput m currentRule vars (fuel + 1) not pm
      = (true,
          { pm with
            passIC := pm.passIC + 1
            startReplace := if pm.startReplace = -1 then pm.startMatch else pm.startReplace
            endReplace := if pm.startReplace = -1 then pm.passSrc else pm.endReplace }) := by
  rw [back_passDoTestLoop]
  rw [if_pos hic, if_neg (by omega)]
  dsimp only
  rw [h]
  dsimp only
  split_ifs <;> rfl

/-- A turn of the test loop on a code that is no instruction of the test and
that the pass-variable handler does not accept: the test fails. -/
theorem back_passDoTestLoop_unknown (K : Internal) (table : TranslationTableHeader)
    (srcmax : Int) (currentInput : WBuf) (m : Int) (currentRule : TranslationTableRule)
    (vars : PassVariables) (fuel : Nat) (not : Bool) (pm : PassMatch)
    (hic : pm.passIC < currentRule.dotslen) (hsrc : pm.passSrc ≤ srcmax)
    (hnot : K.passInstruction (pm.passInstructions pm.passIC) ≠ .pass_not)
    (hend : K.passInstruction (pm.passInstructions pm.passIC) ≠ .pass_endTest)
    (h : conditionOutcome K table srcmax currentInput m vars pm = none) :
    back_passDoTestLoop K table srcmax currentInput m currentRule vars (fuel + 1) not pm
      = (false, pm) := by
  rw [back_passDoTestLoop]
  rw [if_pos hic, if_neg (by omega)]
  unfold conditionOutcome at h
  dsimp only at h ⊢
  generalize K.passInstruction (pm.passInstructions pm.passIC) = ins at h hnot hend ⊢
  cases ins
  case pass_not => exact absurd rfl hnot
  case pass_endTest => exact absurd rfl hend
  case pass_omit =>
    dsimp only at h ⊢
    split at h
    · cases h
    · rfl
  case pass_copy =>
    dsimp only at h ⊢
    split at h
    · cases h
    · rfl
  case pass_other =>
    dsimp only at h ⊢
    split at h
    · cases h
    · rfl
  all_goals
    dsimp only at h
    first
      | cases h
      | (split_ifs at h)

/-- C28. In the loop of `back_passDoTest`, a `pass_lookback N` instruction
met at trial position `p`: when `p >= N` the position becomes `p - N` and
the instruction counts as true (the test goes on, unless a negation is
pending, which makes it fail); when `p < N` the position is clamped to 0 and
the instruction counts as false (the test fails, unless a negation is
pending, which lets it go on from position 0). So without a pending negation
an underflowing look-back makes the whole test fail. -/
theorem lookback_clamped (K : Internal) (table : TranslationTableHeader) (srcmax : Int)
    (currentInput : WBuf) (m : Int) (currentRule : TranslationTableRule)
    (vars : PassVariables) (fuel : Nat) (not : Bool) (pm : PassMatch)
    (hic : pm.passIC < currentRule.dotslen) (hsrc : pm.passSrc ≤ srcmax)
    (h : K.passInstruction (pm.passInstructions pm.passIC) = .pass_lookback) :
    ((pm.passInstructions (pm.passIC + 1) : Int) ≤ pm.passSrc →
      back_passDoTestLoop K table srcmax currentInput m currentRule vars (fuel + 1) not pm
        = if not = true then
            (false,
              { pm with passSrc := pm.passSrc - (pm.passInstructions (pm.passIC + 1) : Int),
                        passIC := pm.passIC + 2 })
          else
            back_passDoTestLoop K table srcmax currentInput m currentRule vars fuel false
              { pm with passSrc := pm.passSrc - (pm.passInstructions (pm.passIC + 1) : Int),
                        passIC := pm.passIC + 2 }) ∧
    (pm.passSrc < (pm.passInstructions (pm.passIC + 1) : Int) →
      back_passDoTestLoop K table srcmax currentInput m currentRule vars (fuel + 1) not pm
        = if not = true then
            back_passDoTestLoop K table srcmax currentInput m currentRule vars fuel false
              { pm with passSrc := 0, passIC := pm.passIC + 2 }
          else (false, { pm with passSrc := 0, passIC := pm.passIC + 2 })) ∧
    (pm.passSrc < (pm.passInstructions (pm.passIC + 1) : Int) → not = false →
      (back_passDoTestLoop K table srcmax currentInput m currentRule vars (fuel + 1) not
        pm).1 = false) := by
  have hge : (pm.passInstructions (pm.passIC + 1) : Int) ≤ pm.passSrc →
      conditionOutcome K table srcmax currentInput m vars pm
        = some (true,
            { pm with passSrc := pm.passSrc - (pm.passInstructions (pm.passIC + 1) : Int),
                      passIC := pm.passIC + 2 }) := by
    intro hp
    unfold conditionOutcome
    dsimp only
    rw [h]
    dsimp only
    rw [if_neg (by omega)]
  have hlt : pm.passSrc < (pm.passInstructions (pm.passIC + 1) : Int) →
      conditionOutcome K table srcmax currentInput m vars pm
        = some (false, { pm with passSrc := 0, passIC := pm.passIC + 2 }) := by
    intro hp
    unfold conditionOutcome
    dsimp only
    rw [h]
    dsimp only
    rw [if_pos (by omega)]
  refine ⟨?_, ?_, ?_⟩
  · intro hp
    rw [back_passDoTestLoop_condition K table srcmax currentInput m currentRule vars fuel not
      pm hic hsrc _ _ (hge hp)]
    cases not <;> rfl
  · intro hp
    rw [back_passDoTestLoop_condition K table srcmax currentInput m currentRule vars fuel not
      pm hic hsrc _ _ (hlt hp)]
    cases not <;> rfl
  · intro hp hn
    rw [back_passDoTestLoop_condition K table srcmax currentInput m currentRule vars fuel not
      pm hic hsrc _ _ (hlt hp), hn]
    rfl

/-- Witness for C28: the test of `lookbackRule` (`pass_lookback 1`,
`pass_endTest`) tried at position 0 fails. -/
theorem lookback_clamped_witness :
    (back_passDoTest sampleInternal lookbackTable 0 1 (fun _ => 0x8003) CTO_Context
      lookbackRule (fun _ => 0) 0).1 = false :=
  (lookback_clamped sampleInternal lookbackTable 1 (fun _ => 0x8003) 1 lookbackRule
    (fun _ => 0) 2 false (testStart 0 lookbackRule 0) (by decide) (by decide) rfl).2.2
    (by decide) rfl

/-- C29. The loop of `back_passDoTest` is a left-to-right conjunction with a
one-shot negation. On an instruction with a condition it fails at once when
the condition, inverted if a negation is pending, is false (the condition
equals the pending negation flag); otherwise it goes on to the next
instruction with the negation flag cleared, so that a negation applies to
one instruction only. A `pass_not` flips the pending negation and goes on
without a check, so two consecutive `pass_not` cancel each other. -/
theorem test_conjunction (K : Internal) (table : TranslationTableHeader) (srcmax : Int)
    (currentInput : WBuf) (m : Int) (currentRule : TranslationTableRule)
    (vars : PassVariables) (fuel : Nat) (not : Bool) (pm : PassMatch)
    (hic : pm.passIC < currentRule.dotslen) (hsrc : pm.passSrc ≤ srcmax) :
    (∀ itsTrue pm1,
      conditionOutcome K table srcmax currentInput m vars pm = some (itsTrue, pm1) →
      back_passDoTestLoop K table srcmax currentInput m currentRule vars (fuel + 1) not pm
        = if itsTrue = not then (false, pm1)
          else back_passDoTestLoop K table srcmax currentInput m currentRule vars fuel false
            pm1) ∧
    (K.passInstruction (pm.passInstructions pm.passIC) = .pass_not →
      back_passDoTestLoop K table srcmax currentInput m currentRule vars (fuel + 1) not pm
        = back_passDoTestLoop K table srcmax currentInput m currentRule vars fuel (!not)
            { pm with passIC := pm.passIC + 1 }) ∧
    (K.passInstruction (pm.passInstructions pm.passIC) = .pass_not →
      K.passInstruction (pm.passInstructions (pm.passIC + 1)) = .pass_not →
      pm.passIC + 1 < currentRule.dotslen →
      back_passDoTestLoop K table srcmax currentInput m currentRule vars (fuel + 2) not pm
        = back_passDoTestLoop K table srcmax currentInput m currentRule vars fuel not
            { pm with passIC := pm.passIC + 2 }) := by
  refine ⟨?_, ?_, ?_⟩
  · intro itsTrue pm1 h
    exact back_passDoTestLoop_condition K table srcmax currentInput m currentRule vars fuel
      not pm hic hsrc itsTrue pm1 h
  · intro h
    exact back_passDoTestLoop_not K table srcmax currentInput m currentRule vars fuel not pm
      hic hsrc h
  · intro h1 h2 hic2
    rw [back_passDoTestLoop_not K table srcmax currentInput m currentRule vars (fuel + 1) not
        pm hic hsrc h1,
      back_passDoTestLoop_not K table srcmax currentInput m currentRule vars fuel (!not)
        { pm with passIC := pm.passIC + 1 } hic2 hsrc h2, Bool.not_not]

/-- Witness for C29: the test of `notFirstRule` (`pass_not`, `pass_first`,
`pass_endTest`) tried at position 0 goes from `pass_not` to `pass_first` with
the negation pending and fails there; tried at position 1 it matches. -/
theorem test_conjunction_witness :
    back_passDoTestLoop sampleInternal emptyTable 2 (fun _ => 0x8003) 1 notFirstRule
        (fun _ => 0) 3 false (testStart 0 notFirstRule 0)
      = back_passDoTestLoop sampleInternal emptyTable 2 (fun _ => 0x8003) 1 notFirstRule
          (fun _ => 0) 2 true { testStart 0 notFirstRule 0 with passIC := 1 } ∧
    (back_passDoTest sampleInternal emptyTable 0 2 (fun _ => 0x8003) CTO_Context notFirstRule
      (fun _ => 0) 0).1 = false ∧
    (back_passDoTest sampleInternal emptyTable 1 2 (fun _ => 0x8003) CTO_Context notFirstRule
      (fun _ => 0) 0).1 = true :=
  ⟨(test_conjunction sampleInternal emptyTable 2 (fun _ => 0x8003) 1 notFirstRule (fun _ => 0)
      2 false (testStart 0 notFirstRule 0) (by decide) (by decide)).2.1 rfl,
   by decide, by decide⟩

/-! ### The replacement span reported at `pass_endTest` -/

theorem getLast?_cons_cases {α : Type} (x y : α) (tr : List α)
    (h : (x :: tr).getLast? = some y) : (tr = [] ∧ x = y) ∨ tr.getLast? = some y := by
  cases tr with
  | nil =>
    left
    rw [List.getLast?_singleton] at h
    exact ⟨rfl, Option.some.inj h⟩
  | cons z l =>
    right
    rw [List.getLast?_cons_cons] at h
    exact h

theorem lastAt_none (i : PassInstruction) (tr : List (PassInstruction × Int)) :
    (∀ x ∈ tr, x.1 ≠ i) → lastAt i tr = none := by
  induction tr with
  | nil =>
    intro _
    rfl
  | cons x tr ih =>
    intro h
    rw [lastAt, ih (fun y hy => h y (List.mem_cons_of_mem _ hy))]
    dsimp only
    rw [if_neg (h x (List.mem_cons_self _ _))]

theorem passAttributesMin_ge (K : Internal) (table : TranslationTableHeader) (srcmax : Int)
    (currentInput : WBuf) (m : Int) (attributes : Nat) (n : Nat) :
    ∀ p, p ≤ (passAttributesMin K table srcmax currentInput m attributes n p).2 := by
  induction n with
  | zero =>
    intro p
    exact Int.le_refl p
  | succ n ih =>
    intro p
    rw [passAttributesMin]
    have := ih (p + 1)
    split_ifs <;> first | exact Int.le_refl p | omega

theorem passAttributesMax_ge (K : Internal) (table : TranslationTableHeader) (srcmax : Int)
    (currentInput : WBuf) (m : Int) (attributes : Nat) (n : Nat) :
    ∀ p, p ≤ passAttributesMax K table srcmax currentInput m attributes n p := by
  induction n with
  | zero =>
    intro p
    exact Int.le_refl p
  | succ n ih =>
    intro p
    rw [passAttributesMax]
    have := ih (p + 1)
    split_ifs <;> first | exact Int.le_refl p | omega

theorem back_swapTestRun_ge (swapRule : TranslationTableRule) (currentInput : WBuf) (n : Nat) :
    ∀ p, p ≤ back_swapTestRun swapRule currentInput n p := by
  induction n with
  | zero =>
    intro p
    exact Int.le_refl p
  | succ n ih =>
    intro p
    rw [back_swapTestRun]
    have := ih (p + 1)
    split_ifs <;> first | exact Int.le_refl p | omega

theorem back_swapTest_ge (table : TranslationTableHeader) (currentInput : WBuf) (passSrc : Int)
    (passInstructions : Nat → widechar) (passIC : Nat) :
    passSrc ≤ (back_swapTest table currentInput passSrc passInstructions passIC).2 := by
  unfold back_swapTest
  dsimp only
  split_ifs
  · dsimp only
    omega
  · have := back_swapTestRun_ge (swapRuleOf table passInstructions passIC) currentInput
      (passInstructions (passIC + 4) - (passInstructions passIC + 3))
      (passSrc + ((passInstructions passIC + 3 : Nat) : Int))
    dsimp only
    omega
  · exact Int.le_refl passSrc

/-- What an instruction with a condition leaves in the match variables: the
start of the match is kept, the trial position stays non-negative, and the
replacement bounds change only at their markers. -/
theorem conditionOutcome_frame (K : Internal) (table : TranslationTableHeader) (srcmax : Int)
    (currentInput : WBuf) (m : Int) (vars : PassVariables) (pm pm1 : PassMatch)
    (itsTrue : Bool)
    (h : conditionOutcome K table srcmax currentInput m vars pm = some (itsTrue, pm1)) :
    pm1.startMatch = pm.startMatch ∧
    (0 ≤ pm.passSrc → 0 ≤ pm1.passSrc) ∧
    (K.passInstruction (pm.passInstructions pm.passIC) = .pass_startReplace →
      pm1.startReplace = pm.passSrc) ∧
    (K.passInstruction (pm.passInstructions pm.passIC) ≠ .pass_startReplace →
      pm1.startReplace = pm.startReplace) ∧
    (K.passInstruction (pm.passInstructions pm.passIC) = .pass_endReplace →
      pm1.endReplace = pm.passSrc) ∧
    (K.passInstruction (pm.passInstructions pm.passIC) ≠ .pass_endReplace →
      pm1.endReplace = pm.endReplace) := by
  unfold conditionOutcome at h
  dsimp only at h
  generalize K.passInstruction (pm.passInstructions pm.passIC) = ins at h ⊢
  have hmin := passAttributesMin_ge K table srcmax currentInput m
    ((pm.passInstructions (pm.passIC + 1) <<< 16) ||| pm.passInstructions (pm.passIC + 2))
    (pm.passInstructions (pm.passIC + 3)) pm.passSrc
  have hmax := passAttributesMax_ge K table srcmax currentInput m
    ((pm.passInstructions (pm.passIC + 1) <<< 16) ||| pm.passInstructions (pm.passIC + 2))
    (pm.passInstructions (pm.passIC + 4) - pm.passInstructions (pm.passIC + 3))
    (passAttributesMin K table srcmax currentInput m
      ((pm.passInstructions (pm.passIC + 1) <<< 16) ||| pm.passInstructions (pm.passIC + 2))
      (pm.passInstructions (pm.passIC + 3)) pm.passSrc).2
  have hswap := back_swapTest_ge table currentInput pm.passSrc pm.passInstructions pm.passIC
  cases ins
  case pass_not => cases h
  case pass_endTest => cases h
  case pass_lookback =>
    dsimp only at h
    split_ifs at h <;> cases h <;> refine ⟨rfl, ?_, ?_, ?_, ?_, ?_⟩ <;>
      first
        | (intro _
           rfl)
        | (intro h0
           dsimp only
           omega)
        | (intro hc
           cases hc)
  case pass_attributes =>
    dsimp only at h
    split_ifs at h <;> cases h <;> refine ⟨rfl, ?_, ?_, ?_, ?_, ?_⟩ <;>
      first
        | (intro _
           rfl)
        | (intro h0
           dsimp only
           omega)
        | (intro hc
           cases hc)
  case pass_omit =>
    dsimp only at h
    split at h
    · cases h
      refine ⟨rfl, ?_, ?_, ?_, ?_, ?_⟩ <;>
        first
          | (intro _
             rfl)
          | (intro h0
             exact h0)
          | (intro hc
             cases hc)
    · cases h
  case pass_copy =>
    dsimp only at h
    split at h
    · cases h
      refine ⟨rfl, ?_, ?_, ?_, ?_, ?_⟩ <;>
        first
          | (intro _
             rfl)
          | (intro h0
             exact h0)
          | (intro hc
             cases hc)
    · cases h
  case pass_other =>
    dsimp only at h
    split at h
    · cases h
      refine ⟨rfl, ?_, ?_, ?_, ?_, ?_⟩ <;>
        first
          | (intro _
             rfl)
          | (intro h0
             exact h0)
          | (intro hc
             cases hc)
    · cases h
  all_goals
    dsimp only at h
    cases h
    refine ⟨rfl, ?_, ?_, ?_, ?_, ?_⟩ <;>
      first
        | (intro _
           rfl)
        | (intro h0
           dsimp only
           omega)
        | (intro hc
           cases hc)
        | (intro hc
           exact absurd rfl hc)

theorem back_passDoTestTrace_stop (K : Internal) (table : TranslationTableHeader)
    (srcmax : Int) (currentInput : WBuf) (m : Int) (currentRule : TranslationTableRule)
    (vars : PassVariables) (fuel : Nat) (not : Bool) (pm : PassMatch)
    (hc : ¬ (pm.passIC < currentRule.dotslen ∧ pm.passSrc ≤ srcmax)) :
    back_passDoTestTrace K table srcmax currentInput m currentRule vars (fuel + 1) not pm
      = [] := by
  rw [back_passDoTestTrace, if_neg hc]

theorem back_passDoTestTrace_not (K : Internal) (table : TranslationTableHeader)
    (srcmax : Int) (currentInput : WBuf) (m : Int) (currentRule : TranslationTableRule)
    (vars : PassVariables) (fuel : Nat) (not : Bool) (pm : PassMatch)
    (hc : pm.passIC < currentRule.dotslen ∧ pm.passSrc ≤ srcmax)
    (h : K.passInstruction (pm.passInstructions pm.passIC) = .pass_not) :
    back_passDoTestTrace K table srcmax currentInput m currentRule vars (fuel + 1) not pm
      = (.pass_not, pm.passSrc) ::
          back_passDoTestTrace K table srcmax currentInput m currentRule vars fuel (!not)
            { pm with passIC := pm.passIC + 1 } := by
  rw [back_passDoTestTrace, if_pos hc, h]

theorem back_passDoTestTrace_endTest (K : Internal) (table : TranslationTableHeader)
    (srcmax : Int) (currentInput : WBuf) (m : Int) (currentRule : TranslationTableRule)
    (vars : PassVariables) (fuel : Nat) (not : Bool) (pm : PassMatch)
    (hc : pm.passIC < currentRule.dotslen ∧ pm.passSrc ≤ srcmax)
    (h : K.passInstruction (pm.passInstructions pm.passIC) = .pass_endTest) :
    back_passDoTestTrace K table srcmax currentInput m currentRule vars (fuel + 1) not pm
      = [(.pass_endTest, pm.passSrc)] := by
  rw [back_passDoTestTrace, if_pos hc, h]

theorem back_passDoTestTrace_other (K : Internal) (table : TranslationTableHeader)
    (srcmax : Int) (currentInput : WBuf) (m : Int) (currentRule : TranslationTableRule)
    (vars : PassVariables) (fuel : Nat) (not : Bool) (pm : PassMatch)
    (hc : pm.passIC < currentRule.dotslen ∧ pm.passSrc ≤ srcmax)
    (h1 : K.passInstruction (pm.passInstructions pm.passIC) ≠ .pass_not)
    (h2 : K.passInstruction (pm.passInstructions pm.passIC) ≠ .pass_endTest) :
    back_passDoTestTrace K table srcmax currentInput m currentRule vars (fuel + 1) not pm
      = (K.passInstruction (pm.passInstructions pm.passIC), pm.passSrc) ::
          (match conditionOutcome K table srcmax currentInput m vars pm with
            | some (itsTrue, pm1) =>
              if itsTrue = not then []
              else
                back_passDoTestTrace K table srcmax currentInput m currentRule vars fuel false
                  pm1
            | none => []) := by
  rw [back_passDoTestTrace, if_pos hc]
  generalize conditionOutcome K table srcmax currentInput m vars pm = co
  generalize K.passInstruction (pm.passInstructions pm.passIC) = ins at h1 h2
  cases ins <;> first | rfl | exact absurd rfl h1 | exact absurd rfl h2

/-- The match variables that a run of the test loop reports when its last
turn is `pass_endTest`, in terms of the markers it executed. -/
theorem back_passDoTestLoop_span (K : Internal) (table : TranslationTableHeader)
    (srcmax : Int) (currentInput : WBuf) (m : Int) (currentRule : TranslationTableRule)
    (vars : PassVariables) (q : Int) :
    ∀ (fuel : Nat) (not : Bool) (pm : PassMatch), 0 ≤ pm.passSrc →
      (back_passDoTestTrace K table srcmax currentInput m currentRule vars fuel not
        pm).getLast? = some (.pass_endTest, q) →
      (back_passDoTestLoop K table srcmax currentInput m currentRule vars fuel not pm).1
        = true ∧
      (back_passDoTestLoop K table srcmax currentInput m currentRule vars fuel not
        pm).2.startMatch = pm.startMatch ∧
      (back_passDoTestLoop K table srcmax currentInput m currentRule vars fuel not
        pm).2.startReplace
        = (lastAt .pass_startReplace
            (back_passDoTestTrace K table srcmax currentInput m currentRule vars fuel not
              pm)).getD (if pm.startReplace = -1 then pm.startMatch else pm.startReplace) ∧
      (back_passDoTestLoop K table srcmax currentInput m currentRule vars fuel not
        pm).2.endReplace
        = if lastAt .pass_startReplace
              (back_passDoTestTrace K table srcmax currentInput m currentRule vars fuel not
                pm) = none ∧ pm.startReplace = -1 then q
          else
            (lastAt .pass_endReplace
              (back_passDoTestTrace K table srcmax currentInput m currentRule vars fuel not
                pm)).getD pm.endReplace := by
  intro fuel
  induction fuel with
  | zero =>
    intro not pm _ hlast
    cases hlast
  | succ fuel ih =>
    intro not pm h0 hlast
    by_cases hc : pm.passIC < currentRule.dotslen ∧ pm.passSrc ≤ srcmax
    · by_cases hnot : K.passInstruction (pm.passInstructions pm.passIC) = .pass_not
      · rw [back_passDoTestTrace_not K table srcmax currentInput m currentRule vars fuel not
          pm hc hnot] at hlast ⊢
        rw [back_passDoTestLoop_not K table srcmax currentInput m currentRule vars fuel not pm
          hc.1 hc.2 hnot]
        rcases getLast?_cons_cases _ _ _ hlast with ⟨-, hx⟩ | htail
        · cases hx
        · obtain ⟨r1, r2, r3, r4⟩ := ih (!not) { pm with passIC := pm.passIC + 1 } h0 htail
          refine ⟨r1, r2, ?_, ?_⟩
          · rw [r3, lastAt]
            cases lastAt PassInstruction.pass_startReplace
              (back_passDoTestTrace K table srcmax currentInput m currentRule vars fuel (!not)
                { pm with passIC := pm.passIC + 1 }) <;> rfl
          · rw [r4, lastAt, lastAt]
            cases lastAt PassInstruction.pass_startReplace
              (back_passDoTestTrace K table srcmax currentInput m currentRule vars fuel (!not)
                { pm with passIC := pm.passIC + 1 }) <;>
            cases lastAt PassInstruction.pass_endReplace
              (back_passDoTestTrace K table srcmax currentInput m currentRule vars fuel (!not)
                { pm with passIC := pm.passIC + 1 }) <;> rfl
      · by_cases hend : K.passInstruction (pm.passInstructions pm.passIC) = .pass_endTest
        · rw [back_passDoTestTrace_endTest K table srcmax currentInput m currentRule vars fuel
            not pm hc hend] at hlast ⊢
          rw [back_passDoTestLoop_endTest K table srcmax currentInput m currentRule vars fuel
            not pm hc.1 hc.2 hend]
          rw [List.getLast?_singleton] at hlast
          have hq : pm.passSrc = q := congrArg Prod.snd (Option.some.inj hlast)
          refine ⟨rfl, rfl, rfl, ?_⟩
          dsimp only [lastAt]
          rw [← hq]
          by_cases hs : pm.startReplace = -1
          · simp [hs]
          · simp [hs]
        · rw [back_passDoTestTrace_other K table srcmax currentInput m currentRule vars fuel
            not pm hc hnot hend] at hlast ⊢
          cases hco : conditionOutcome K table srcmax currentInput m vars pm with
          | none =>
            rw [hco] at hlast
            rw [List.getLast?_singleton] at hlast
            exact absurd (congrArg Prod.fst (Option.some.inj hlast)) hend
          | some x =>
            obtain ⟨itsTrue, pm1⟩ := x
            rw [hco] at hlast
            dsimp only at hlast ⊢
            by_cases ht : itsTrue = not
            · rw [if_pos ht, List.getLast?_singleton] at hlast
              exact absurd (congrArg Prod.fst (Option.some.inj hlast)) hend
            · rw [if_neg ht] at hlast ⊢
              rw [back_passDoTestLoop_condition K table srcmax currentInput m currentRule vars
                fuel not pm hc.1 hc.2 itsTrue pm1 hco, if_neg ht]
              rcases getLast?_cons_cases _ _ _ hlast with ⟨-, hx⟩ | htail
              · exact absurd (congrArg Prod.fst hx) hend
              · obtain ⟨f1, f2, f3, f4, f5, f6⟩ := conditionOutcome_frame K table srcmax
                  currentInput m vars pm pm1 itsTrue hco
                obtain ⟨r1, r2, r3, r4⟩ := ih false pm1 (f2 h0) htail
                refine ⟨r1, r2.trans f1, ?_, ?_⟩
                · rw [r3, lastAt]
                  cases lastAt PassInstruction.pass_startReplace
                    (back_passDoTestTrace K table srcmax currentInput m currentRule vars fuel
                      false pm1) with
                  | some p => rfl
                  | none =>
                    dsimp only
                    by_cases hs : K.passInstruction (pm.passInstructions pm.passIC)
                        = .pass_startReplace
                    · rw [if_pos hs, f3 hs, f1]
                      have hne : pm.passSrc ≠ -1 := by omega
                      simp [hne]
                    · rw [if_neg hs, f4 hs, f1]
                · rw [r4, lastAt, lastAt]
                  by_cases hs : K.passInstruction (pm.passInstructions pm.passIC)
                      = .pass_startReplace
                  · have hne : K.passInstruction (pm.passInstructions pm.passIC)
                        ≠ .pass_endReplace := by
                      rw [hs]
                      decide
                    have hne1 : pm.passSrc ≠ -1 := by omega
                    rw [f3 hs, f6 hne]
                    cases lastAt PassInstruction.pass_startReplace
                      (back_passDoTestTrace K table srcmax currentInput m currentRule vars
                        fuel false pm1) <;>
                    cases lastAt PassInstruction.pass_endReplace
                      (back_passDoTestTrace K table srcmax currentInput m currentRule vars
                        fuel false pm1) <;> simp [hs, hne, hne1]
                  · rw [f4 hs]
                    by_cases he : K.passInstruction (pm.passInstructions pm.passIC)
                        = .pass_endReplace
                    · rw [f5 he]
                      cases lastAt PassInstruction.pass_startReplace
                        (back_passDoTestTrace K table srcmax currentInput m currentRule vars
                          fuel false pm1) <;>
                      cases lastAt PassInstruction.pass_endReplace
                        (back_passDoTestTrace K table srcmax currentInput m currentRule vars
                          fuel false pm1) <;> simp [hs, he]
                    · rw [f6 he]
                      cases lastAt PassInstruction.pass_startReplace
                        (back_passDoTestTrace K table srcmax currentInput m currentRule vars
                          fuel false pm1) <;>
                      cases lastAt PassInstruction.pass_endReplace
                        (back_passDoTestTrace K table srcmax currentInput m currentRule vars
                          fuel false pm1) <;> simp [hs, he]
    · rw [back_passDoTestTrace_stop K table srcmax currentInput m currentRule vars fuel not pm
        hc] at hlast
      cases hlast

/-- C30. When the run of `back_passDoTest`, started at a position
`src >= 0`, reaches `pass_endTest` at trial position `q`, it reports a match
with `startMatch = src`. If no `pass_startReplace` marker was executed, the
replacement span is the matched span: `startReplace = src` and
`endReplace = q`. If a `pass_startReplace` marker was executed,
`startReplace` is the trial position at that marker (the last one executed),
and `endReplace` is the trial position at the `pass_endReplace` marker (the
last one executed); when no `pass_endReplace` marker was executed,
`endReplace` keeps the value the caller's variable had. -/
theorem endTest_replacement_span (K : Internal) (table : TranslationTableHeader)
    (src srcmax : Int) (currentInput : WBuf) (currentOpcode : TranslationTableOpcode)
    (currentRule : TranslationTableRule) (vars : PassVariables) (endReplace q : Int)
    (hsrc : 0 ≤ src)
    (hend : (testTrace K table src srcmax currentInput currentOpcode currentRule vars
      endReplace).getLast? = some (.pass_endTest, q)) :
    (back_passDoTest K table src srcmax currentInput currentOpcode currentRule vars
      endReplace).1 = true ∧
    (back_passDoTest K table src srcmax currentInput currentOpcode currentRule vars
      endReplace).2.startMatch = src ∧
    ((∀ x ∈ testTrace K table src srcmax currentInput currentOpcode currentRule vars
        endReplace, x.1 ≠ .pass_startReplace) →
      (back_passDoTest K table src srcmax currentInput currentOpcode currentRule vars
        endReplace).2.startReplace = src ∧
      (back_passDoTest K table src srcmax currentInput currentOpcode currentRule vars
        endReplace).2.endReplace = q) ∧
    (∀ p,
      lastAt .pass_startReplace
        (testTrace K table src srcmax currentInput currentOpcode currentRule vars endReplace)
        = some p →
      (back_passDoTest K table src srcmax currentInput currentOpcode currentRule vars
        endReplace).2.startReplace = p ∧
      (∀ e,
        lastAt .pass_endReplace
          (testTrace K table src srcmax currentInput currentOpcode currentRule vars
            endReplace) = some e →
        (back_passDoTest K table src srcmax currentInput currentOpcode currentRule vars
          endReplace).2.endReplace = e) ∧
      (lastAt .pass_endReplace
          (testTrace K table src srcmax currentInput currentOpcode currentRule vars
            endReplace) = none →
        (back_passDoTest K table src srcmax currentInput currentOpcode currentRule vars
          endReplace).2.endReplace = endReplace)) := by
  unfold testTrace at hend ⊢
  rw [back_passDoTest_eq_loop]
  obtain ⟨r1, r2, r3, r4⟩ := back_passDoTestLoop_span K table srcmax currentInput
    (testSelector currentOpcode) currentRule vars q currentRule.dotslen false
    (testStart src currentRule endReplace) hsrc hend
  refine ⟨r1, r2, ?_, ?_⟩
  · intro hno
    have hl := lastAt_none _ _ hno
    rw [r3, r4, hl]
    exact ⟨rfl, rfl⟩
  · intro p hp
    rw [r3, r4, hp]
    refine ⟨rfl, ?_, ?_⟩
    · intro e he
      rw [he]
      simp
    · intro he
      rw [he]
      simp [testStart]

/-- Witness for C30: the test of `markedRule` on the cells dots 1-2, dot 1
started at position 0 reaches `pass_endTest` at position 2, with the start
marker executed at position 1 and the end marker at position 2, and reports
`startMatch = 0`, `startReplace = 1`, `endReplace = 2`; the test of
`abcContextRule`, which has no marker, reaches `pass_endTest` at position 1
and reports the span from 0 to 1. -/
theorem endTest_replacement_span_witness :
    (back_passDoTest sampleInternal emptyTable 0 2
      (fun k => if k = 0 then 0x8003 else if k = 1 then 0x8001 else 0) CTO_Context markedRule
      (fun _ => 0) 7).1 = true ∧
    (back_passDoTest sampleInternal emptyTable 0 2
      (fun k => if k = 0 then 0x8003 else if k = 1 then 0x8001 else 0) CTO_Context markedRule
      (fun _ => 0) 7).2.startMatch = 0 ∧
    (back_passDoTest sampleInternal emptyTable 0 2
      (fun k => if k = 0 then 0x8003 else if k = 1 then 0x8001 else 0) CTO_Context markedRule
      (fun _ => 0) 7).2.startReplace = 1 ∧
    (back_passDoTest sampleInternal emptyTable 0 2
      (fun k => if k = 0 then 0x8003 else if k = 1 then 0x8001 else 0) CTO_Context markedRule
      (fun _ => 0) 7).2.endReplace = 2 ∧
    (let r := back_passDoTest sampleInternal emptyTable 0 1 (fun _ => 0x8003) CTO_Context
        abcContextRule (fun _ => 0) 7
     (r.1, r.2.startMatch, r.2.startReplace, r.2.endReplace)) = (true, 0, 0, 1) := by
  have h := endTest_replacement_span sampleInternal emptyTable 0 2
    (fun k => if k = 0 then 0x8003 else if k = 1 then 0x8001 else 0) CTO_Context markedRule
    (fun _ => 0) 7 2 (by decide) (by decide)
  have h3 := h.2.2.2 1 (by decide)
  exact ⟨h.1, h.2.1, h3.1, h3.2.1 2 (by decide), by decide⟩

/-! ### A code that is no pass instruction -/

/-- The test loop on a code that has no `case` and that the pass-variable
handler does not accept: the test fails, pending negation or not. -/
theorem back_passDoTestLoop_unrecognised (K : Internal) (table : TranslationTableHeader)
    (srcmax : Int) (currentInput : WBuf) (m : Int) (currentRule : TranslationTableRule)
    (vars : PassVariables) (fuel : Nat) (not : Bool) (pm : PassMatch)
    (hic : pm.passIC < currentRule.dotslen) (hsrc : pm.passSrc ≤ srcmax)
    (hins : testInstruction (K.passInstruction (pm.passInstructions pm.passIC)) = false)
    (hh : K.handlePassVariableTest pm.passInstructions pm.passIC true vars = none) :
    back_passDoTestLoop K table srcmax currentInput m currentRule vars (fuel + 1) not pm
      = (false, pm) := by
  refine back_passDoTestLoop_unknown K table srcmax currentInput m currentRule vars fuel not pm
    hic hsrc ?_ ?_ ?_
  · intro hc
    rw [hc] at hins
    cases hins
  · intro hc
    rw [hc] at hins
    cases hins
  · unfold conditionOutcome
    dsimp only
    generalize K.passInstruction (pm.passInstructions pm.passIC) = ins at hins
    cases ins <;> first | (cases hins; done) | (dsimp only; rw [hh])

/-- The action loop on a code that has no `case` and that the pass-variable
handler does not accept: the action fails. -/
theorem back_passDoActionLoop_unrecognised (K : Internal) (table : TranslationTableHeader)
    (src srcmax destmax : Int) (mode : Nat) (currentInput : WBuf)
    (allUpper allUpperPhrase : Int) (currentOpcode : TranslationTableOpcode)
    (currentRule : TranslationTableRule) (pm : PassMatch) (srcEnd destInitial : Int)
    (fuel : Nat) (a : ActionState)
    (hic : a.passIC < currentRule.dotslen)
    (hins : actionInstruction (K.passInstruction (pm.passInstructions a.passIC)) = false)
    (hh : K.handlePassVariableAction pm.passInstructions a.passIC a.vars = none) :
    back_passDoActionLoop K table src srcmax destmax mode currentInput allUpper allUpperPhrase
      currentOpcode currentRule pm srcEnd destInitial (fuel + 1) a = (false, a) := by
  rw [back_passDoActionLoop]
  rw [if_pos hic]
  dsimp only
  generalize K.passInstruction (pm.passInstructions a.passIC) = ins at hins
  cases ins <;> first | (cases hins; done) | (dsimp only; rw [hh])

/-- A test that fails takes its rule out of the walk of
`findBackPassRule`. -/
theorem findBackPassRule_skip (K : Internal) (table : TranslationTableHeader)
    (src srcmax : Int) (currentPass : Int) (currentInput : WBuf) (vars : PassVariables)
    (r : TranslationTableRule) (rest : List TranslationTableRule) (endReplace : Int)
    (h : (back_passDoTest K table src srcmax currentInput r.opcode r vars endReplace).1
      = false) :
    ∃ er, findBackPassRule K table src srcmax currentPass currentInput vars (r :: rest)
        endReplace
      = findBackPassRule K table src srcmax currentPass currentInput vars rest er := by
  rw [findBackPassRule]
  dsimp only
  split_ifs with h1 h2
  · rw [h] at h2
    cases h2
  · exact ⟨_, rfl⟩
  · exact ⟨_, rfl⟩

/-- A loop turn of the primary pass whose selected rule is a context rule
with a failing action leaves by `return 0`. -/
theorem backTranslateTurn_context_abort (K : Internal) (env : PassEnv) (fuel : Nat)
    (b : BackState)
    (hsel : (selectionOf K env b).currentOpcode = CTO_Context)
    (hact : (back_passDoAction K env.table b.src env.srcmax env.destmax env.mode
      env.currentInput b.allUpper b.allUpperPhrase CTO_Context
      (selectionOf K env b).currentRule (selectionOf K env b).pm b.st.passVariables b.e).1
        = false) :
    ∃ b1, backTranslateTurn K env fuel b = some (Flow.abort, b1) := by
  unfold selectionOf at hsel hact
  unfold backTranslateTurn
  dsimp only
  unfold beforeReplacement
  dsimp only
  rw [hsel]
  dsimp only
  unfold replacement
  dsimp only
  rw [hsel]
  dsimp only
  rw [hact]
  exact ⟨_, rfl⟩

theorem backTranslateLoop_abort_turn (K : Internal) (env : PassEnv) (fuel n : Nat)
    (b b1 : BackState) (hsrc : b.src < env.srcmax)
    (h : backTranslateTurn K env fuel b = some (Flow.abort, b1)) :
    backTranslateLoop K env fuel (n + 1) b = some (false, b1) := by
  rw [backTranslateLoop, if_pos hsrc, h]

theorem backTranslateString_abort (K : Internal) (env : PassEnv) (fuel : Nat) (e : Emit)
    (st : Statics) (applied : List TranslationTableRule) (multindRule : TranslationTableRule)
    (b1 : BackState)
    (h : backTranslateLoop K env fuel fuel (backTranslateStart K e st applied multindRule)
      = some (false, b1)) :
    (backTranslateString K env fuel e st applied multindRule).map (fun r => r.result)
      = some 0 := by
  unfold backTranslateString
  rw [h]
  rfl

/-- A pass that returned 0 ends `doPasses` with the value 0. -/
theorem doPassesLoop_zero (K : Internal) (table : TranslationTableHeader) (destmax : Int)
    (mode : Nat) (traced : Bool) (maxAppliedRules : Int) (multindRule : TranslationTableRule)
    (lastPass : Int) (fuel n : Nat) :
    ∀ (currentPass : Int) (d : PipelineState),
      (∃ run ∈ doPassesRuns K table destmax mode traced maxAppliedRules multindRule lastPass
          fuel n currentPass d, run.returned = some 0) →
      ∃ d1, doPassesLoop K table destmax mode traced maxAppliedRules multindRule lastPass fuel
        n currentPass d = some (0, d1) := by
  induction n with
  | zero =>
    rintro currentPass d ⟨run, hm, -⟩
    cases hm
  | succ n ih =>
    rintro currentPass d ⟨run, hm, hret⟩
    obtain ⟨hnone, hsome⟩ := doPasses_step K table destmax mode traced maxAppliedRules
      multindRule lastPass fuel n currentPass d
    cases hp : passResultAt K table destmax mode traced maxAppliedRules multindRule lastPass
      fuel currentPass d with
    | none =>
      rw [(hnone hp).1] at hm
      rw [List.mem_singleton] at hm
      rw [hm] at hret
      cases hret
    | some r =>
      obtain ⟨h0, hlast, hgo⟩ := hsome r hp
      by_cases hr : r.result = 0
      · exact ⟨_, (h0 hr).2⟩
      · by_cases hl : currentPass = lastPass
        · rw [(hlast hr hl).1] at hm
          rw [List.mem_singleton] at hm
          rw [hm] at hret
          exact absurd (Option.some.inj hret) hr
        · rw [(hgo hr hl).1] at hm
          rw [(hgo hr hl).2]
          rcases List.mem_cons.mp hm with hm1 | hm1
          · rw [hm1] at hret
            exact absurd (Option.some.inj hret) hr
          · exact ih _ _ ⟨run, hm1, hret⟩

/-- C27 (amended). A code of a pass program that is not recognised (no
`case` of the interpreter, and not accepted by the pass-variable handler):
met in the test part it makes `back_passDoTest` return 0, which only says
that the rule does not match: `findBackPassRule` goes on with the next rule
and a context rule is not admissible in `back_selectRule`; met in the action
part it makes `back_passDoAction` return 0. For the context rule selected by
`back_selectRule` in the primary pass a failed action makes
`backTranslateString` return 0, and a pass that returns 0 makes `doPasses`
and the whole call return 0. `makeCorrections` and `translatePass` return 1
whenever they return, so a failed action of a `Correct`, `Pass2`, `Pass3` or
`Pass4` rule ends the pass early without failing the call. -/
theorem unrecognised_instruction (K : Internal) :
    (∀ (table : TranslationTableHeader) (srcmax : Int) (currentInput : WBuf) (m : Int)
        (currentRule : TranslationTableRule) (vars : PassVariables) (fuel : Nat) (not : Bool)
        (pm : PassMatch),
      pm.passIC < currentRule.dotslen → pm.passSrc ≤ srcmax →
      testInstruction (K.passInstruction (pm.passInstructions pm.passIC)) = false →
      K.handlePassVariableTest pm.passInstructions pm.passIC true vars = none →
      back_passDoTestLoop K table srcmax currentInput m currentRule vars (fuel + 1) not pm
        = (false, pm)) ∧
    (∀ (table : TranslationTableHeader) (src srcmax currentPass : Int) (currentInput : WBuf)
        (vars : PassVariables) (r : TranslationTableRule) (rest : List TranslationTableRule)
        (endReplace : Int),
      (back_passDoTest K table src srcmax currentInput r.opcode r vars endReplace).1 = false →
      ∃ er, findBackPassRule K table src srcmax currentPass currentInput vars (r :: rest)
          endReplace
        = findBackPassRule K table src srcmax currentPass currentInput vars rest er) ∧
    (∀ (table : TranslationTableHeader) (src srcmax dest : Int) (mode : Nat)
        (currentInput currentOutput : WBuf) (itsANumber itsALetter : Int)
        (previousOpcode : TranslationTableOpcode) (beforeAttributes : Nat)
        (vars : PassVariables) (length : Int) (r : TranslationTableRule),
      r.opcode = CTO_Context →
      (back_passDoTest K table src srcmax currentInput CTO_Context r vars 0).1 = false →
      admissible K table src srcmax dest mode currentInput currentOutput itsANumber itsALetter
        previousOpcode beforeAttributes vars length r = false) ∧
    (∀ (table : TranslationTableHeader) (src srcmax destmax : Int) (mode : Nat)
        (currentInput : WBuf) (allUpper allUpperPhrase : Int)
        (currentOpcode : TranslationTableOpcode) (currentRule : TranslationTableRule)
        (pm : PassMatch) (srcEnd destInitial : Int) (fuel : Nat) (a : ActionState),
      a.passIC < currentRule.dotslen →
      actionInstruction (K.passInstruction (pm.passInstructions a.passIC)) = false →
      K.handlePassVariableAction pm.passInstructions a.passIC a.vars = none →
      back_passDoActionLoop K table src srcmax destmax mode currentInput allUpper
        allUpperPhrase currentOpcode currentRule pm srcEnd destInitial (fuel + 1) a
        = (false, a)) ∧
    (∀ (env : PassEnv) (fuel : Nat) (b : BackState),
      (selectionOf K env b).currentOpcode = CTO_Context →
      (back_passDoAction K env.table b.src env.srcmax env.destmax env.mode env.currentInput
        b.allUpper b.allUpperPhrase CTO_Context (selectionOf K env b).currentRule
        (selectionOf K env b).pm b.st.passVariables b.e).1 = false →
      ∃ b1, backTranslateTurn K env fuel b = some (Flow.abort, b1) ∧
        ∀ n, b.src < env.srcmax →
          backTranslateLoop K env fuel (n + 1) b = some (false, b1)) ∧
    (∀ (env : PassEnv) (fuel : Nat) (e : Emit) (st : Statics)
        (applied : List TranslationTableRule) (multindRule : TranslationTableRule)
        (b1 : BackState),
      backTranslateLoop K env fuel fuel (backTranslateStart K e st applied multindRule)
        = some (false, b1) →
      (backTranslateString K env fuel e st applied multindRule).map (fun r => r.result)
        = some 0) ∧
    (∀ (c : Call) (st : Statics) (multindRule : TranslationTableRule) (fuel : Nat)
        (p : Prepared),
      prepareCall K c st = .inr p →
      (∃ run ∈ doPassesTrace K p.table p.destmax c.modex p.traced p.maxAppliedRules
          multindRule fuel p.d, run.returned = some 0) →
      ∃ res, _lou_backTranslateWithTracing K c st multindRule fuel = some res ∧
        res.result = 0) ∧
    (∀ (env : PassEnv) (fuel : Nat) (src : Int) (e : Emit) (st : Statics)
        (applied : List TranslationTableRule) (r : PassResult),
      makeCorrections K env fuel src e st applied = some r → r.result = 1) ∧
    (∀ (env : PassEnv) (fuel : Nat) (e : Emit) (st : Statics)
        (applied : List TranslationTableRule) (r : PassResult),
      translatePass K env fuel e st applied = some r → r.result = 1) := by
  refine ⟨?_, ?_, ?_, ?_, ?_, ?_, ?_, ?_, ?_⟩
  · intro table srcmax currentInput m currentRule vars fuel not pm hic hsrc hins hh
    exact back_passDoTestLoop_unrecognised K table srcmax currentInput m currentRule vars fuel
      not pm hic hsrc hins hh
  · intro table src srcmax currentPass currentInput vars r rest endReplace h
    exact findBackPassRule_skip K table src srcmax currentPass currentInput vars r rest
      endReplace h
  · intro table src srcmax dest mode currentInput currentOutput itsANumber itsALetter
      previousOpcode beforeAttributes vars length r hop h
    unfold admissible
    rw [hop]
    dsimp only
    rw [h, Bool.and_false]
  · intro table src srcmax destmax mode currentInput allUpper allUpperPhrase currentOpcode
      currentRule pm srcEnd destInitial fuel a hic hins hh
    exact back_passDoActionLoop_unrecognised K table src srcmax destmax mode currentInput
      allUpper allUpperPhrase currentOpcode currentRule pm srcEnd destInitial fuel a hic hins
      hh
  · intro env fuel b hsel hact
    obtain ⟨b1, hb1⟩ := backTranslateTurn_context_abort K env fuel b hsel hact
    exact ⟨b1, hb1, fun n hsrc => backTranslateLoop_abort_turn K env fuel n b b1 hsrc hb1⟩
  · intro env fuel e st applied multindRule b1 h
    exact backTranslateString_abort K env fuel e st applied multindRule b1 h
  · intro c st multindRule fuel p hp hrun
    unfold doPassesTrace at hrun
    obtain ⟨d1, hd1⟩ := doPassesLoop_zero K p.table p.destmax c.modex p.traced
      p.maxAppliedRules multindRule (lastPassOf K p.table c.modex) fuel fuel
      (firstPassOf K p.table c.modex) p.d hrun
    refine ⟨finishCall c p 0 d1, ?_, rfl⟩
    unfold _lou_backTranslateWithTracing
    rw [hp]
    dsimp only
    rw [doPasses_eq_loop, hd1]
  · intro env fuel src e st applied r h
    exact makeCorrections_result K env fuel src e st applied r h
  · intro env fuel e st applied r h
    exact translatePass_result K env fuel e st applied r h

/-- Witness for C27: with `unknownActionTable` the primary pass of
`twoBufferCall` selects the context rule for the first cell, its action
meets the code 99, the pass returns 0 and the call returns 0. -/
theorem unrecognised_instruction_witness :
    prepareCall (sampleInternalFor unknownActionTable) twoBufferCall freshStatics
      = .inr (twoBufferPrepared unknownActionTable) ∧
    doPassesTrace (sampleInternalFor unknownActionTable) unknownActionTable 10 4 false 0
        zeroRule 20 (twoBufferPrepared unknownActionTable).d
      = [{ pass := 1, reads := .passbuf1, writes := .outbuf, returned := some 0 }] ∧
    ∃ res, _lou_backTranslateWithTracing (sampleInternalFor unknownActionTable) twoBufferCall
        freshStatics zeroRule 20 = some res ∧ res.result = 0 :=
  ⟨rfl, by decide,
   (unrecognised_instruction (sampleInternalFor unknownActionTable)).2.2.2.2.2.2.1
     twoBufferCall freshStatics zeroRule 20 (twoBufferPrepared unknownActionTable) rfl
     ⟨{ pass := 1, reads := .passbuf1, writes := .outbuf, returned := some 0 }, by decide,
       rfl⟩⟩

/-- Counterexample to C27 as stated. The code 99 is no pass instruction.
With `unknownTestTable` the test of the context rule for the first cell meets
it and fails, the rule is not selected, and the call on the two cells
returns 1 with both cells translated. With `unknownPass2Table` the rule of
pass 2 matches the first cell, its action meets the code 99 and the loop turn
leaves by `goto failure`; pass 2 returns 1, the primary pass runs after it
and the call returns 1. -/
theorem unrecognised_instruction_counterexample :
    testInstruction (sampleInternal.passInstruction 99) = false ∧
    actionInstruction (sampleInternal.passInstruction 99) = false ∧
    (back_passDoTest (sampleInternalFor unknownTestTable) unknownTestTable 0 2
      (twoBufferPrepared unknownTestTable).d.input CTO_Context unknownTestRule
      freshStatics.passVariables 0).1 = false ∧
    (_lou_backTranslateWithTracing (sampleInternalFor unknownTestTable) twoBufferCall
      freshStatics zeroRule 20).map CallResult.summary = some (1, some 2, some 7) ∧
    (translatePassTurn (sampleInternalFor unknownPass2Table)
      (passEnvOf (twoBufferPrepared unknownPass2Table) 4 2) unknownPass2Start).1 = false ∧
    doPassesTrace (sampleInternalFor unknownPass2Table) unknownPass2Table 10 4 false 0
        zeroRule 20 (twoBufferPrepared unknownPass2Table).d
      = [{ pass := 2, reads := .passbuf1, writes := .passbuf2, returned := some 1 },
         { pass := 1, reads := .passbuf2, writes := .outbuf, returned := some 1 }] ∧
    (_lou_backTranslateWithTracing (sampleInternalFor unknownPass2Table) twoBufferCall
      freshStatics zeroRule 20).map CallResult.summary = some (1, some 0, some 0) := by
  refine ⟨rfl, rfl, by decide, by decide, by decide, by decide, by decide⟩

/-! ### The emitters `putchars` and `back_updatePositions` on their own -/

theorem writeRange_shifted {α : Type} (b : Int → α) (d : Int) (n : Nat) (f : Nat → α) (k : Nat)
    (h1 : 1 ≤ k) (h2 : k < n + 1) :
    writeRange b (d + 1) n (fun i => f (1 + i)) (d + k) = f k := by
  have h := writeRange_inside b (d + 1) n (fun i => f (1 + i)) (k - 1) (by omega)
  have e1 : d + 1 + ((k - 1 : Nat) : Int) = d + (k : Int) := by omega
  have e2 : 1 + (k - 1) = k := by omega
  rw [e1] at h
  rw [h]
  dsimp only
  rw [e2]

/-- C38. For `count >= 1` and `dest + count <= destmax`, `putchars` returns
1, advances `dest` by exactly `count`, stores `count` symbols at
`output[dest .. dest + count)` and leaves every other output element and the
mapping, the position arrays, the cursor and the spacing buffer alone;
output symbol `k` is the uppercase variant in the table of `chars[k]` when
`allUpper` or `allUpperPhrase` is set, or when `k = 0` and `nextUpper` was
set, and `chars[k]` otherwise; `nextUpper` is 0 afterwards. For `count = 0`
or `dest + count > destmax` it returns 0 and changes nothing. -/
theorem putchars_capitalisation (K : Internal) (chars : Nat → widechar) (count : Nat)
    (table : TranslationTableHeader) (destmax allUpper allUpperPhrase : Int) (s : Emit) :
    (1 ≤ count ∧ s.dest + count ≤ destmax →
      (putchars K chars count table destmax allUpper allUpperPhrase s).1 = true ∧
      (putchars K chars count table destmax allUpper allUpperPhrase s).2.dest
        = s.dest + count ∧
      (putchars K chars count table destmax allUpper allUpperPhrase s).2.nextUpper = 0 ∧
      (∀ k : Nat, k < count →
        (putchars K chars count table destmax allUpper allUpperPhrase s).2.currentOutput
            (s.dest + k)
          = if allUpper ≠ 0 ∨ allUpperPhrase ≠ 0 ∨ (k = 0 ∧ s.nextUpper ≠ 0) then
              (back_findCharOrDots K (chars k) 0 table).uppercase
            else chars k) ∧
      (∀ j : Int, j < s.dest ∨ s.dest + count ≤ j →
        (putchars K chars count table destmax allUpper allUpperPhrase s).2.currentOutput j
          = s.currentOutput j) ∧
      (putchars K chars count table destmax allUpper allUpperPhrase s).2.srcMapping
        = s.srcMapping ∧
      (putchars K chars count table destmax allUpper allUpperPhrase s).2.outputPositions
        = s.outputPositions ∧
      (putchars K chars count table destmax allUpper allUpperPhrase s).2.inputPositions
        = s.inputPositions ∧
      (putchars K chars count table destmax allUpper allUpperPhrase s).2.cursorPosition
        = s.cursorPosition ∧
      (putchars K chars count table destmax allUpper allUpperPhrase s).2.cursorStatus
        = s.cursorStatus ∧
      (putchars K chars count table destmax allUpper allUpperPhrase s).2.spacebuf
        = s.spacebuf) ∧
    (count = 0 ∨ s.dest + count > destmax →
      putchars K chars count table destmax allUpper allUpperPhrase s = (false, s)) := by
  refine ⟨?_, ?_⟩
  · rintro ⟨hc, hd⟩
    have hcap : ¬ (count = 0 ∨ s.dest + count > destmax) := by omega
    unfold putchars
    rw [if_neg hcap]
    dsimp only
    by_cases hn : s.nextUpper ≠ 0
    · have hn0 : ¬ s.nextUpper = 0 := hn
      by_cases hu : allUpper = 0 ∧ allUpperPhrase = 0
      · simp only [if_pos hn, if_pos hu]
        refine ⟨?_, ?_, ?_, ?_, ?_, ?_, ?_, ?_, ?_, ?_, ?_⟩ <;> first | trivial | rfl | exact hn0 | omega | skip
        · intro k hk
          by_cases hk0 : k = 0
          · subst hk0
            rw [if_pos (Or.inr (Or.inr ⟨rfl, hn⟩))]
            rw [writeRange_outside _ _ _ _ _ (Or.inl (by omega))]
            simp [setAt]
          · rw [if_neg (by
              rintro (h | h | ⟨h, -⟩)
              · exact h hu.1
              · exact h hu.2
              · exact hk0 h)]
            exact writeRange_shifted _ s.dest (count - 1) chars k (by omega) (by omega)
        · intro j hj
          rw [writeRange_outside _ _ _ _ _ (by omega)]
          exact setAt_other _ _ _ _ (by omega)
      · simp only [if_pos hn, if_neg hu]
        have hup : allUpper ≠ 0 ∨ allUpperPhrase ≠ 0 ∨ False := by
          by_cases h1 : allUpper = 0
          · by_cases h2 : allUpperPhrase = 0
            · exact absurd ⟨h1, h2⟩ hu
            · exact Or.inr (Or.inl h2)
          · exact Or.inl h1
        refine ⟨?_, ?_, ?_, ?_, ?_, ?_, ?_, ?_, ?_, ?_, ?_⟩ <;> first | trivial | rfl | exact hn0 | omega | skip
        · intro k hk
          rw [if_pos (by
            rcases hup with h | h | h
            · exact Or.inl h
            · exact Or.inr (Or.inl h)
            · exact absurd h id)]
          by_cases hk0 : k = 0
          · subst hk0
            rw [writeRange_outside _ _ _ _ _ (Or.inl (by omega))]
            simp [setAt]
          · exact writeRange_shifted _ s.dest (count - 1)
              (fun i => (back_findCharOrDots K (chars i) 0 table).uppercase) k (by omega)
              (by omega)
        · intro j hj
          rw [writeRange_outside _ _ _ _ _ (by omega)]
          exact setAt_other _ _ _ _ (by omega)
    · have hn0 : s.nextUpper = 0 := not_not.mp hn
      by_cases hu : allUpper = 0 ∧ allUpperPhrase = 0
      · simp only [if_neg hn, if_pos hu]
        refine ⟨?_, ?_, ?_, ?_, ?_, ?_, ?_, ?_, ?_, ?_, ?_⟩ <;> first | trivial | rfl | exact hn0 | omega | skip
        · intro k hk
          rw [if_neg (by
            rintro (h | h | ⟨-, h⟩)
            · exact h hu.1
            · exact h hu.2
            · exact h hn0)]
          have h := writeRange_inside s.currentOutput s.dest (count - 0)
            (fun i => chars (0 + i)) k (by omega)
          rw [h]
          simp
        · intro j hj
          exact writeRange_outside _ _ _ _ _ (by omega)
      · simp only [if_neg hn, if_neg hu]
        have hup : allUpper ≠ 0 ∨ allUpperPhrase ≠ 0 := by
          by_cases h1 : allUpper = 0
          · by_cases h2 : allUpperPhrase = 0
            · exact absurd ⟨h1, h2⟩ hu
            · exact Or.inr h2
          · exact Or.inl h1
        refine ⟨?_, ?_, ?_, ?_, ?_, ?_, ?_, ?_, ?_, ?_, ?_⟩ <;> first | trivial | rfl | exact hn0 | omega | skip
        · intro k hk
          rw [if_pos (by
            rcases hup with h | h
            · exact Or.inl h
            · exact Or.inr (Or.inl h))]
          have h := writeRange_inside s.currentOutput s.dest (count - 0)
            (fun i => (back_findCharOrDots K (chars (0 + i)) 0 table).uppercase) k (by omega)
          rw [h]
          simp
        · intro j hj
          exact writeRange_outside _ _ _ _ _ (by omega)
  · intro h
    unfold putchars
    rw [if_pos h]

/-- C37. On a capacity failure `back_updatePositions` is atomic: whenever
`dest + outLength > destmax` or `src + inLength > srcmax` it returns 0 and
the whole output state is the one it was given, so `dest`, the output
buffer, `cursorPosition`, `cursorStatus`, `outputPositions`,
`inputPositions` and `nextUpper` are all unchanged. -/
theorem back_updatePositions_atomic (K : Internal) (outChars : Nat → widechar)
    (inLength outLength : Nat) (table : TranslationTableHeader) (src srcmax destmax : Int)
    (allUpper allUpperPhrase : Int) (s : Emit)
    (h : s.dest + outLength > destmax ∨ src + inLength > srcmax) :
    back_updatePositions K outChars inLength outLength table src srcmax destmax allUpper
        allUpperPhrase s = (false, s) ∧
    (back_updatePositions K outChars inLength outLength table src srcmax destmax allUpper
        allUpperPhrase s).2.dest = s.dest ∧
    (back_updatePositions K outChars inLength outLength table src srcmax destmax allUpper
        allUpperPhrase s).2.currentOutput = s.currentOutput ∧
    (back_updatePositions K outChars inLength outLength table src srcmax destmax allUpper
        allUpperPhrase s).2.cursorPosition = s.cursorPosition ∧
    (back_updatePositions K outChars inLength outLength table src srcmax destmax allUpper
        allUpperPhrase s).2.cursorStatus = s.cursorStatus ∧
    (back_updatePositions K outChars inLength outLength table src srcmax destmax allUpper
        allUpperPhrase s).2.outputPositions = s.outputPositions ∧
    (back_updatePositions K outChars inLength outLength table src srcmax destmax allUpper
        allUpperPhrase s).2.inputPositions = s.inputPositions ∧
    (back_updatePositions K outChars inLength outLength table src srcmax destmax allUpper
        allUpperPhrase s).2.nextUpper = s.nextUpper := by
  have e : back_updatePositions K outChars inLength outLength table src srcmax destmax allUpper
      allUpperPhrase s = (false, s) := by
    unfold back_updatePositions
    rw [if_pos h]
  rw [e]
  exact ⟨rfl, rfl, rfl, rfl, rfl, rfl, rfl, rfl⟩

/-- C37, at a concrete input: two symbols for an output of capacity 1, and
one symbol for an input that has none left. -/
theorem back_updatePositions_atomic_witness :
    (blankEmit.dest + (2 : Nat) > 1 ∨ (0 : Int) + (1 : Nat) > 1) ∧
    back_updatePositions sampleInternal (fun _ => 65) 1 2 emptyTable 0 1 1 0 0 blankEmit
      = (false, blankEmit) :=
  ⟨by decide,
    (back_updatePositions_atomic sampleInternal (fun _ => 65) 1 2 emptyTable 0 1 1 0 0 blankEmit
      (by decide)).1⟩

/-! ### The swap test and the attribute test of a pass program -/

theorem back_swapTestRun_members (swapRule : TranslationTableRule) (currentInput : WBuf)
    (hpos : 0 < swapRule.charslen) (n : Nat) :
    ∀ p i, p ≤ i → i < back_swapTestRun swapRule currentInput n p →
      ∃ t, t < swapRule.charslen ∧ currentInput i = swapRule.charsdots t := by
  induction n with
  | zero =>
    intro p i h1 h2
    rw [back_swapTestRun] at h2
    omega
  | succ n ih =>
    intro p i h1 h2
    rw [back_swapTestRun] at h2
    split_ifs at h2 with hany
    · omega
    · by_cases hi : i = p
      · subst hi
        refine ⟨0, hpos, ?_⟩
        by_contra hne
        apply hany
        rw [List.any_eq_true]
        exact ⟨0, List.mem_range.mpr hpos, by simpa using hne⟩
      · exact ih (p + 1) i (by omega) h2

/-- C36. Whenever `back_swapTest` returns 1 it has moved the trial position
from `p` to some `q >= p`, and every input symbol in `[p, q)` is one of the
first `charslen` entries of the `charsdots` of the swap rule; whenever the
symbol at `p` is none of these entries, as always when there is no entry, it
returns 0 and leaves the trial position at `p`. -/
theorem back_swapTest_members (table : TranslationTableHeader) (currentInput : WBuf)
    (passSrc : Int) (passInstructions : Nat → widechar) (passIC : Nat) :
    ((back_swapTest table currentInput passSrc passInstructions passIC).1 = true →
      passSrc ≤ (back_swapTest table currentInput passSrc passInstructions passIC).2 ∧
      ∀ i : Int, passSrc ≤ i →
        i < (back_swapTest table currentInput passSrc passInstructions passIC).2 →
        ∃ t, t < (swapRuleOf table passInstructions passIC).charslen ∧
          currentInput i = (swapRuleOf table passInstructions passIC).charsdots t) ∧
    ((¬ ∃ t, t < (swapRuleOf table passInstructions passIC).charslen ∧
          currentInput passSrc = (swapRuleOf table passInstructions passIC).charsdots t) →
      back_swapTest table currentInput passSrc passInstructions passIC = (false, passSrc)) ∧
    ((swapRuleOf table passInstructions passIC).charslen = 0 →
      back_swapTest table currentInput passSrc passInstructions passIC = (false, passSrc)) := by
  have hfirst : ∀ n : Nat,
      (List.range n).all (fun curLen =>
        (List.range (swapRuleOf table passInstructions passIC).charslen).any
          (fun curTest => currentInput (passSrc + curLen)
            == (swapRuleOf table passInstructions passIC).charsdots curTest)) = true →
      ∀ k : Nat, k < n → ∃ t, t < (swapRuleOf table passInstructions passIC).charslen ∧
        currentInput (passSrc + k) = (swapRuleOf table passInstructions passIC).charsdots t := by
    intro n hall k hk
    rw [List.all_eq_true] at hall
    have h1 := hall k (List.mem_range.mpr hk)
    rw [List.any_eq_true] at h1
    obtain ⟨t, ht, he⟩ := h1
    exact ⟨t, List.mem_range.mp ht, by simpa using he⟩
  have hfail : (¬ ∃ t, t < (swapRuleOf table passInstructions passIC).charslen ∧
        currentInput passSrc = (swapRuleOf table passInstructions passIC).charsdots t) →
      back_swapTest table currentInput passSrc passInstructions passIC = (false, passSrc) := by
    intro hno
    unfold back_swapTest
    dsimp only
    rw [if_neg]
    intro hall
    apply hno
    have := hfirst (passInstructions passIC + 3) hall 0 (by omega)
    simpa using this
  refine ⟨?_, hfail, ?_⟩
  · intro hr
    refine ⟨back_swapTest_ge table currentInput passSrc passInstructions passIC, ?_⟩
    intro i hi1 hi2
    unfold back_swapTest at hr hi2
    dsimp only at hr hi2
    split_ifs at hr hi2 with hall heq
    · dsimp only at hi2
      have := hfirst (passInstructions passIC + 3) hall (i - passSrc).toNat (by omega)
      have e : passSrc + ((i - passSrc).toNat : Int) = i := by omega
      rw [e] at this
      exact this
    · dsimp only at hi2
      by_cases hlt : i < passSrc + ((passInstructions passIC + 3 : Nat) : Int)
      · have := hfirst (passInstructions passIC + 3) hall (i - passSrc).toNat (by omega)
        have e : passSrc + ((i - passSrc).toNat : Int) = i := by omega
        rw [e] at this
        exact this
      · have hpos : 0 < (swapRuleOf table passInstructions passIC).charslen := by
          obtain ⟨t, ht, -⟩ := hfirst (passInstructions passIC + 3) hall 0 (by omega)
          omega
        exact back_swapTestRun_members (swapRuleOf table passInstructions passIC) currentInput
          hpos _ _ i (by omega) hi2
  · intro h0
    apply hfail
    rintro ⟨t, ht, -⟩
    omega

theorem passAttributesMin_run (K : Internal) (table : TranslationTableHeader) (srcmax : Int)
    (currentInput : WBuf) (m : Int) (attributes : Nat) (n : Nat) :
    ∀ p : Int,
      ((passAttributesMin K table srcmax currentInput m attributes n p).1 = true ↔
        ∀ k : Nat, k < n → p + k < srcmax ∧
          hasAttr (back_findCharOrDots K (currentInput (p + k)) m table).attributes attributes
            = true) ∧
      ((passAttributesMin K table srcmax currentInput m attributes n p).1 = true →
        (passAttributesMin K table srcmax currentInput m attributes n p).2 = p + n) ∧
      ∃ j : Nat, j ≤ n ∧
        (passAttributesMin K table srcmax currentInput m attributes n p).2 = p + j := by
  induction n with
  | zero =>
    intro p
    rw [passAttributesMin]
    refine ⟨⟨fun _ k hk => absurd hk (Nat.not_lt_zero k), fun _ => rfl⟩, fun _ => by simp,
      ⟨0, Nat.le_refl 0, by simp⟩⟩
  | succ n ih =>
    intro p
    rw [passAttributesMin]
    by_cases h1 : p ≥ srcmax
    · rw [if_pos h1]
      refine ⟨⟨fun h => (by cases h), fun h => ?_⟩, fun h => (by cases h),
        ⟨0, Nat.zero_le _, by simp⟩⟩
      have := (h 0 (Nat.succ_pos n)).1
      simp at this
      omega
    · rw [if_neg h1]
      by_cases h2 : ¬ hasAttr (back_findCharOrDots K (currentInput p) m table).attributes
          attributes
      · rw [if_pos h2]
        refine ⟨⟨fun h => (by cases h), fun h => ?_⟩, fun h => (by cases h),
          ⟨0, Nat.zero_le _, by simp⟩⟩
        have := (h 0 (Nat.succ_pos n)).2
        simp at this
        exact absurd this h2
      · rw [if_neg h2]
        obtain ⟨ih1, ih2, j, hj, ihj⟩ := ih (p + 1)
        refine ⟨⟨fun h k hk => ?_, fun h => ?_⟩, fun h => ?_, ⟨j + 1, by omega, ?_⟩⟩
        · by_cases hk0 : k = 0
          · subst hk0
            refine ⟨by simp; omega, ?_⟩
            simpa using h2
          · have := ih1.mp h (k - 1) (by omega)
            have e : p + 1 + ((k - 1 : Nat) : Int) = p + (k : Int) := by omega
            rw [e] at this
            exact this
        · apply ih1.mpr
          intro k hk
          have := h (k + 1) (by omega)
          have e : p + ((k + 1 : Nat) : Int) = p + 1 + (k : Int) := by omega
          rw [e] at this
          exact this
        · rw [ih2 h]
          omega
        · rw [ihj]
          omega

theorem passAttributesMax_run (K : Internal) (table : TranslationTableHeader) (srcmax : Int)
    (currentInput : WBuf) (m : Int) (attributes : Nat) (n : Nat) :
    ∀ q : Int, q ≤ srcmax →
      ∃ j : Nat, j ≤ n ∧
        passAttributesMax K table srcmax currentInput m attributes n q = q + j ∧
        (∀ k : Nat, k < j → q + k < srcmax ∧
          hasAttr (back_findCharOrDots K (currentInput (q + k)) m table).attributes attributes
            = true) ∧
        (j = n ∨ q + j = srcmax ∨
          hasAttr (back_findCharOrDots K (currentInput (q + j)) m table).attributes attributes
            = false) := by
  induction n with
  | zero =>
    intro q _
    rw [passAttributesMax]
    exact ⟨0, Nat.le_refl 0, by simp, fun k hk => absurd hk (Nat.not_lt_zero k), Or.inl rfl⟩
  | succ n ih =>
    intro q hq
    rw [passAttributesMax]
    by_cases h1 : q < srcmax
    · rw [if_pos h1]
      by_cases h2 : ¬ hasAttr (back_findCharOrDots K (currentInput q) m table).attributes
          attributes
      · rw [if_pos h2]
        refine ⟨0, Nat.zero_le _, by simp, fun k hk => absurd hk (Nat.not_lt_zero k),
          Or.inr (Or.inr ?_)⟩
        simpa using h2
      · rw [if_neg h2]
        obtain ⟨j, hj, e, hall, hstop⟩ := ih (q + 1) (by omega)
        refine ⟨j + 1, by omega, by rw [e]; omega, fun k hk => ?_, ?_⟩
        · by_cases hk0 : k = 0
          · subst hk0
            refine ⟨by simp; omega, ?_⟩
            simpa using h2
          · have := hall (k - 1) (by omega)
            have e1 : q + 1 + ((k - 1 : Nat) : Int) = q + (k : Int) := by omega
            rw [e1] at this
            exact this
        · have e1 : q + ((j + 1 : Nat) : Int) = q + 1 + (j : Int) := by omega
          rw [e1]
          rcases hstop with h | h | h
          · exact Or.inl (by omega)
          · exact Or.inr (Or.inl h)
          · exact Or.inr (Or.inr h)
    · rw [if_neg h1]
      exact ⟨0, Nat.zero_le _, by simp, fun k hk => absurd hk (Nat.not_lt_zero k),
        Or.inr (Or.inl (by simp; omega))⟩

/-- C31. A turn of the loop of `back_passDoTest` on a `pass_attributes`
instruction with mask `A = (w1 << 16) | w2`, minimum `w3` and maximum `w4`,
at the trial position `p`: its condition is true iff the `w3`
symbols `input[p .. p + w3)` all lie below `srcmax` and all have an
attribute in `A`; the turn moves the trial position forward by some `n` and
the instruction counter by 5; when the condition is true, `w3 <= n <=
max(w3, w4)`, each of the `n` symbols passed has an attribute in `A`, and
the run is greedy: `n >= w4`, or `p + n = srcmax`, or `input[p + n]` has no
attribute in `A`. -/
theorem pass_attributes_run (K : Internal) (table : TranslationTableHeader)
    (srcmax : Int) (currentInput : WBuf) (m : Int) (currentRule : TranslationTableRule)
    (vars : PassVariables) (fuel : Nat) (not : Bool) (pm : PassMatch)
    (hic : pm.passIC < currentRule.dotslen) (hsrc : pm.passSrc ≤ srcmax)
    (hi : K.passInstruction (pm.passInstructions pm.passIC) = .pass_attributes) :
    ∃ (itsTrue : Bool) (n : Nat),
      back_passDoTestLoop K table srcmax currentInput m currentRule vars (fuel + 1) not pm
        = (if itsTrue = not then
            (false, { pm with passSrc := pm.passSrc + n, passIC := pm.passIC + 5 })
          else
            back_passDoTestLoop K table srcmax currentInput m currentRule vars fuel false
              { pm with passSrc := pm.passSrc + n, passIC := pm.passIC + 5 }) ∧
      (itsTrue = true ↔
        ∀ k : Nat, k < pm.passInstructions (pm.passIC + 3) →
          pm.passSrc + k < srcmax ∧
          hasAttr (back_findCharOrDots K (currentInput (pm.passSrc + k)) m table).attributes
            ((pm.passInstructions (pm.passIC + 1) <<< 16)
              ||| pm.passInstructions (pm.passIC + 2)) = true) ∧
      (itsTrue = true →
        pm.passInstructions (pm.passIC + 3) ≤ n ∧
        n ≤ max (pm.passInstructions (pm.passIC + 3)) (pm.passInstructions (pm.passIC + 4)) ∧
        (∀ k : Nat, k < n →
          pm.passSrc + k < srcmax ∧
          hasAttr (back_findCharOrDots K (currentInput (pm.passSrc + k)) m table).attributes
            ((pm.passInstructions (pm.passIC + 1) <<< 16)
              ||| pm.passInstructions (pm.passIC + 2)) = true) ∧
        (n ≥ pm.passInstructions (pm.passIC + 4) ∨ pm.passSrc + n = srcmax ∨
          hasAttr (back_findCharOrDots K (currentInput (pm.passSrc + n)) m table).attributes
            ((pm.passInstructions (pm.passIC + 1) <<< 16)
              ||| pm.passInstructions (pm.passIC + 2)) = false)) := by
  obtain ⟨mn, hmn⟩ : ∃ mn : Nat, pm.passInstructions (pm.passIC + 3) = mn := ⟨_, rfl⟩
  obtain ⟨mx, hmx⟩ : ∃ mx : Nat, pm.passInstructions (pm.passIC + 4) = mx := ⟨_, rfl⟩
  rw [hmn, hmx]
  obtain ⟨hiff, hpos, j0, hj0, hj0e⟩ := passAttributesMin_run K table srcmax currentInput m
    ((pm.passInstructions (pm.passIC + 1) <<< 16) ||| pm.passInstructions (pm.passIC + 2))
    (mn) pm.passSrc
  cases hr : (passAttributesMin K table srcmax currentInput m
    ((pm.passInstructions (pm.passIC + 1) <<< 16) ||| pm.passInstructions (pm.passIC + 2))
    (mn) pm.passSrc).1
  · refine ⟨false, j0, ?_, ?_, fun h => by cases h⟩
    · apply back_passDoTestLoop_condition K table srcmax currentInput m currentRule vars fuel
        not pm hic hsrc
      unfold conditionOutcome
      dsimp only
      rw [hi]
      dsimp only
      rw [hmn, hmx]
      rw [hr, ← hj0e]
      rfl
    · rw [hr] at hiff
      exact hiff
  · have hall := hiff.mp hr
    have hq : pm.passSrc + (mn : Int) ≤ srcmax := by
      by_cases h0 : mn = 0
      · rw [h0]
        simpa using hsrc
      · have := (hall (mn - 1) (by omega)).1
        omega
    obtain ⟨j, hj, hje, hjall, hjstop⟩ := passAttributesMax_run K table srcmax currentInput m
      ((pm.passInstructions (pm.passIC + 1) <<< 16) ||| pm.passInstructions (pm.passIC + 2))
      (mx - mn)
      (pm.passSrc + (mn : Int)) hq
    refine ⟨true, mn + j, ?_, ?_, fun _ => ⟨?_, ?_, ?_, ?_⟩⟩
    · apply back_passDoTestLoop_condition K table srcmax currentInput m currentRule vars fuel
        not pm hic hsrc
      unfold conditionOutcome
      dsimp only
      rw [hi]
      dsimp only
      rw [hmn, hmx]
      rw [hr, hpos hr, hje]
      have e : pm.passSrc + (mn : Int) + (j : Int)
          = pm.passSrc + ((mn + j : Nat) : Int) := by
        omega
      rw [e]
      rfl
    · exact ⟨fun _ => hall, fun _ => rfl⟩
    · exact Nat.le_add_right mn j
    · have hj1 : j ≤ mx - mn := hj
      rcases Nat.le_total mn mx with h | h
      · exact le_trans (show mn + j ≤ mx by omega) (le_max_right mn mx)
      · have hj2 : j = 0 := by omega
        subst hj2
        exact le_max_left mn mx
    · intro k hk
      by_cases hk1 : k < mn
      · exact hall k hk1
      · have := hjall (k - mn) (by omega)
        have e : pm.passSrc + (mn : Int)
            + ((k - mn : Nat) : Int) = pm.passSrc + (k : Int) := by
          omega
        rw [e] at this
        exact this
    · have e : pm.passSrc + ((mn + j : Nat) : Int)
          = pm.passSrc + (mn : Int) + (j : Int) := by
        omega
      rw [e]
      rcases hjstop with h | h | h
      · have h1 : j = mx - mn := h
        exact Or.inl (show mn + j ≥ mx by omega)
      · exact Or.inr (Or.inl h)
      · exact Or.inr (Or.inr h)

/-- C31, at a concrete input: the first turn of the test of `attributesRule`
at position 0 of a two-symbol input. -/
theorem pass_attributes_run_witness :
    ∃ (itsTrue : Bool) (n : Nat),
      back_passDoTestLoop sampleInternal emptyTable 2 (fun _ => 0x8001) 1 attributesRule
          (fun _ => 0) (5 + 1) false attributesStart
        = (if itsTrue = false then
            (false, { attributesStart with passSrc := attributesStart.passSrc + n,
                                           passIC := attributesStart.passIC + 5 })
          else
            back_passDoTestLoop sampleInternal emptyTable 2 (fun _ => 0x8001) 1 attributesRule
              (fun _ => 0) 5 false
              { attributesStart with passSrc := attributesStart.passSrc + n,
                                     passIC := attributesStart.passIC + 5 }) ∧
      (itsTrue = true ↔
        ∀ k : Nat, k < attributesStart.passInstructions (attributesStart.passIC + 3) →
          attributesStart.passSrc + k < 2 ∧
          hasAttr (back_findCharOrDots sampleInternal ((fun _ => 0x8001 : WBuf)
              (attributesStart.passSrc + k)) 1 emptyTable).attributes
            ((attributesStart.passInstructions (attributesStart.passIC + 1) <<< 16)
              ||| attributesStart.passInstructions (attributesStart.passIC + 2)) = true) ∧
      (itsTrue = true →
        attributesStart.passInstructions (attributesStart.passIC + 3) ≤ n ∧
        n ≤ max (attributesStart.passInstructions (attributesStart.passIC + 3))
          (attributesStart.passInstructions (attributesStart.passIC + 4)) ∧
        (∀ k : Nat, k < n →
          attributesStart.passSrc + k < 2 ∧
          hasAttr (back_findCharOrDots sampleInternal ((fun _ => 0x8001 : WBuf)
              (attributesStart.passSrc + k)) 1 emptyTable).attributes
            ((attributesStart.passInstructions (attributesStart.passIC + 1) <<< 16)
              ||| attributesStart.passInstructions (attributesStart.passIC + 2)) = true) ∧
        (n ≥ attributesStart.passInstructions (attributesStart.passIC + 4) ∨
          attributesStart.passSrc + n = 2 ∨
          hasAttr (back_findCharOrDots sampleInternal ((fun _ => 0x8001 : WBuf)
              (attributesStart.passSrc + n)) 1 emptyTable).attributes
            ((attributesStart.passInstructions (attributesStart.passIC + 1) <<< 16)
              ||| attributesStart.passInstructions (attributesStart.passIC + 2)) = false)) :=
  pass_attributes_run sampleInternal emptyTable 2 (fun _ => 0x8001) 1 attributesRule
    (fun _ => 0) 5 false attributesStart (by decide) (by decide) rfl

/-! ### A generic pass without an applicable rule -/

theorem findBackPassRule_no_match (K : Internal) (env : PassEnv) (vars : PassVariables)
    (src : Int) (h0 : 0 ≤ src) (h1 : src < env.srcmax)
    (hp : env.currentPass = 2 ∨ env.currentPass = 3 ∨ env.currentPass = 4)
    (chain : List TranslationTableRule) :
    (∀ rule ∈ chain,
      ((env.currentPass = 2 ∧ rule.opcode = CTO_Pass2) ∨
        (env.currentPass = 3 ∧ rule.opcode = CTO_Pass3) ∨
        (env.currentPass = 4 ∧ rule.opcode = CTO_Pass4)) →
      ∀ src endReplace : Int, 0 ≤ src → src < env.srcmax →
        (back_passDoTest K env.table src env.srcmax env.currentInput rule.opcode rule vars
          endReplace).1 = false) →
    ∀ er, (findBackPassRule K env.table src env.srcmax env.currentPass env.currentInput vars
      chain er).1 = none := by
  induction chain with
  | nil =>
    intro _ er
    rfl
  | cons r rest ih =>
    intro hno er
    have hr := hno r (List.mem_cons_self _ _)
    have hrest := ih (fun x hx => hno x (List.mem_cons_of_mem _ hx))
    unfold findBackPassRule
    dsimp only
    split
    · rename_i happ
      have htest : (back_passDoTest K env.table src env.srcmax env.currentInput r.opcode r vars
          er).1 = false := by
        split at happ
        · exfalso
          have := of_decide_eq_true happ
          omega
        · exfalso
          have := of_decide_eq_true happ
          omega
        · rename_i hop
          exact hr (Or.inl ⟨of_decide_eq_true happ, hop⟩) src er h0 h1
        · rename_i hop
          exact hr (Or.inr (Or.inl ⟨of_decide_eq_true happ, hop⟩)) src er h0 h1
        · rename_i hop
          exact hr (Or.inr (Or.inr ⟨of_decide_eq_true happ, hop⟩)) src er h0 h1
        · cases happ
      rw [htest]
      exact hrest _
    · exact hrest er

theorem skipSpaces_ge (K : Internal) (table : TranslationTableHeader) (srcmax : Int)
    (currentInput : WBuf) (n : Nat) :
    ∀ (src : Int) (st : Statics),
      src ≤ (skipSpaces K table srcmax currentInput n src st).1 := by
  induction n with
  | zero =>
    intro src st
    exact Int.le_refl src
  | succ n ih =>
    intro src st
    rw [skipSpaces]
    have := ih (src + 1) (checkAttr K (currentInput src) K.CTC_Space 1 table st).2
    split_ifs <;> first | exact Int.le_refl src | (dsimp only; omega) | omega

theorem translatePassTurn_copy (K : Internal) (env : PassEnv) (p : PassState)
    (h0 : 0 ≤ p.src) (h1 : p.src < env.srcmax)
    (hp : env.currentPass = 2 ∨ env.currentPass = 3 ∨ env.currentPass = 4)
    (hno : NoMatchingPassRule K env p.st.passVariables) :
    translatePassTurn K env p
      = if p.e.dest + 1 > env.destmax then (false, p)
        else
          (true, { p with
            e := { p.e with
              srcMapping := setAt p.e.srcMapping p.e.dest (p.e.srcMapping p.src)
              currentOutput := setAt p.e.currentOutput p.e.dest (env.currentInput p.src)
              dest := p.e.dest + 1 }
            src := p.src + 1 }) := by
  obtain ⟨er, he⟩ := passSelectRule_none K env p.src p.st.passVariables K.indeterminate
    (findBackPassRule_no_match K env p.st.passVariables p.src h0 h1 hp _ hno _)
  unfold translatePassTurn
  dsimp only
  rw [he]

theorem translatePassLoop_copy (K : Internal) (env : PassEnv) (e : Emit) (vars : PassVariables)
    (hp : env.currentPass = 2 ∨ env.currentPass = 3 ∨ env.currentPass = 4)
    (hno : NoMatchingPassRule K env vars) (n : Nat) :
    ∀ (k : Int) (p : PassState), 0 ≤ k → k ≤ env.srcmax → k ≤ env.destmax →
      env.srcmax - k ≤ n → CopiedUpTo env e vars k p →
      ∃ (c : Bool) (p1 : PassState), translatePassLoop K env n p = some (c, p1) ∧
        p1.st = p.st ∧ p1.applied = p.applied ∧
        (env.srcmax ≤ env.destmax → c = true ∧ CopiedUpTo env e vars env.srcmax p1) ∧
        (env.srcmax > env.destmax → c = false ∧ CopiedUpTo env e vars env.destmax p1) := by
  induction n with
  | zero =>
    intro k p hk0 hk1 hk2 hn hinv
    have hsrc : p.src = k := hinv.1
    have hks : k = env.srcmax := by omega
    rw [translatePassLoop, if_neg (by omega)]
    refine ⟨true, p, rfl, rfl, rfl, fun _ => ⟨rfl, ?_⟩, fun h => by omega⟩
    rw [← hks]
    exact hinv
  | succ n ih =>
    intro k p hk0 hk1 hk2 hn hinv
    obtain ⟨hsrc, hdest, hmap, hvars, hout, hrest⟩ := hinv
    rw [translatePassLoop]
    by_cases hlt : p.src < env.srcmax
    · rw [if_pos hlt]
      rw [translatePassTurn_copy K env p (by omega) hlt hp (by rw [hvars]; exact hno)]
      by_cases hcap : p.e.dest + 1 > env.destmax
      · rw [if_pos hcap]
        dsimp only
        have hkd : k = env.destmax := by omega
        refine ⟨false, p, rfl, rfl, rfl, fun h => by omega, fun _ => ⟨rfl, ?_⟩⟩
        rw [← hkd]
        exact ⟨hsrc, hdest, hmap, hvars, hout, hrest⟩
      · rw [if_neg hcap]
        dsimp only
        apply ih (k + 1) _ (by omega) (by omega) (by omega) (by omega)
        refine ⟨by dsimp only; omega, by dsimp only; omega, ?_, hvars, ?_, ?_⟩
        · dsimp only
          rw [← hmap]
          funext j
          unfold setAt
          split_ifs with hj
          · rw [hj, hsrc, hdest]
          · rfl
        · intro i hi0 hi1
          dsimp only
          by_cases hik : i = k
          · rw [hik, hdest, hsrc]
            exact setAt_same _ _ _
          · rw [setAt_other _ _ _ _ (by omega)]
            exact hout i hi0 (by omega)
        · intro i hi
          dsimp only
          rw [setAt_other _ _ _ _ (by omega)]
          exact hrest i (by omega)
    · rw [if_neg hlt]
      have hks : k = env.srcmax := by omega
      refine ⟨true, p, rfl, rfl, rfl, fun _ => ⟨rfl, ?_⟩, fun h => by omega⟩
      rw [← hks]
      exact ⟨hsrc, hdest, hmap, hvars, hout, hrest⟩

/-- C39. A generic pass without an applicable rule is the identity. For the
pass number 2, 3 or 4, lengths that are not negative and `fuel >= srcmax`
loop turns, if no rule of `backPassRules[currentPass]` both carries the
opcode of the pass and passes its test at a position of the input (as when
the chain is empty), `translatePass` returns 1; with `srcmax <= destmax` it
ends with `src = dest = srcmax`, `output[i] = input[i]` for every `i <
srcmax`, and `srcMapping` unchanged; with `srcmax > destmax` it copies
exactly the first `destmax` symbols, leaves the rest of the output alone
and stops with `dest = destmax`, `src` not before `destmax`. -/
theorem translatePass_identity (K : Internal) (env : PassEnv) (fuel : Nat) (e : Emit)
    (st : Statics) (applied : List TranslationTableRule)
    (hp : env.currentPass = 2 ∨ env.currentPass = 3 ∨ env.currentPass = 4)
    (hs : 0 ≤ env.srcmax) (hd : 0 ≤ env.destmax) (hfuel : env.srcmax ≤ fuel)
    (hno : NoMatchingPassRule K env (K.resetPassVariables st.passVariables)) :
    ∃ r : PassResult, translatePass K env fuel e st applied = some r ∧ r.result = 1 ∧
      (env.srcmax ≤ env.destmax →
        r.src = env.srcmax ∧ r.e.dest = env.srcmax ∧
        (∀ i : Int, 0 ≤ i → i < env.srcmax → r.e.currentOutput i = env.currentInput i) ∧
        (∀ i : Int, i < 0 ∨ env.srcmax ≤ i → r.e.currentOutput i = e.currentOutput i) ∧
        r.e.srcMapping = e.srcMapping) ∧
      (env.srcmax > env.destmax →
        r.e.dest = env.destmax ∧ env.destmax ≤ r.src ∧
        (∀ i : Int, 0 ≤ i → i < env.destmax → r.e.currentOutput i = env.currentInput i) ∧
        (∀ i : Int, i < 0 ∨ env.destmax ≤ i → r.e.currentOutput i = e.currentOutput i) ∧
        r.e.srcMapping = e.srcMapping) := by
  obtain ⟨c, p1, hl, hst, happ, hle, hgt⟩ := translatePassLoop_copy K env e
    (K.resetPassVariables st.passVariables) hp hno fuel 0
    { src := 0, e := { e with dest := 0, nextUpper := 0 },
      st := { st with passVariables := K.resetPassVariables st.passVariables },
      applied := applied }
    (Int.le_refl 0) hs hd (by omega)
    ⟨rfl, rfl, rfl, rfl, fun i h1 h2 => by omega, fun i _ => rfl⟩
  unfold translatePass
  rw [hl]
  dsimp only
  refine ⟨_, rfl, rfl, ?_, ?_⟩
  · intro h
    obtain ⟨hc, hsrc, hdest, hmap, -, hout, hrest⟩ := hle h
    subst hc
    rw [if_pos rfl, if_neg (by omega)]
    dsimp only
    refine ⟨hsrc, hdest, hout, hrest, ?_⟩
    rw [← hmap]
    funext j
    unfold setAt
    split_ifs with hj
    · rw [hj, hsrc, hdest]
    · rfl
  · intro h
    obtain ⟨hc, hsrc, hdest, hmap, -, hout, hrest⟩ := hgt h
    subst hc
    rw [if_pos (by omega)]
    dsimp only
    refine ⟨hdest, ?_, hout, hrest, hmap⟩
    have := skipSpaces_ge K env.table env.srcmax env.currentInput
      (env.srcmax - p1.src).toNat p1.src p1.st
    omega

/-- C39, at a concrete input: pass 2 with the empty table over two cells,
with capacity 5. -/
theorem translatePass_identity_witness :
    ∃ r : PassResult,
      translatePass sampleInternal (emptyPassEnv 5) 2 blankEmit freshStatics [] = some r ∧
      r.result = 1 ∧
      ((emptyPassEnv 5).srcmax ≤ (emptyPassEnv 5).destmax →
        r.src = (emptyPassEnv 5).srcmax ∧ r.e.dest = (emptyPassEnv 5).srcmax ∧
        (∀ i : Int, 0 ≤ i → i < (emptyPassEnv 5).srcmax →
          r.e.currentOutput i = (emptyPassEnv 5).currentInput i) ∧
        (∀ i : Int, i < 0 ∨ (emptyPassEnv 5).srcmax ≤ i →
          r.e.currentOutput i = blankEmit.currentOutput i) ∧
        r.e.srcMapping = blankEmit.srcMapping) ∧
      ((emptyPassEnv 5).srcmax > (emptyPassEnv 5).destmax →
        r.e.dest = (emptyPassEnv 5).destmax ∧ (emptyPassEnv 5).destmax ≤ r.src ∧
        (∀ i : Int, 0 ≤ i → i < (emptyPassEnv 5).destmax →
          r.e.currentOutput i = (emptyPassEnv 5).currentInput i) ∧
        (∀ i : Int, i < 0 ∨ (emptyPassEnv 5).destmax ≤ i →
          r.e.currentOutput i = blankEmit.currentOutput i) ∧
        r.e.srcMapping = blankEmit.srcMapping) :=
  translatePass_identity sampleInternal (emptyPassEnv 5) 2 blankEmit freshStatics []
    (Or.inl rfl) (by decide) (by decide) (by decide)
    (fun rule hr => nomatch hr)

/-! ### The retry loop of the JNI wrapper -/

theorem retryLoop_schedule {σ : Type} (engine : σ → Int → Attempt × σ)
    (inlen maxoutlen : Int) (k : Nat) :
    ∀ (fuel : Nat) (outlen : Int) (s : σ), k ≤ fuel → 0 < outlen →
      maxoutlen < outlen * 2 ^ k →
      retryLoop engine inlen maxoutlen fuel outlen s
        = some (retryUntil engine inlen (doublings maxoutlen k outlen) s) := by
  induction k with
  | zero =>
    intro fuel outlen s _ _ hmax
    have hgt : ¬ outlen ≤ maxoutlen := by
      simp at hmax
      omega
    cases fuel with
    | zero =>
      rw [retryLoop, if_neg hgt]
      rfl
    | succ f =>
      rw [retryLoop, if_neg hgt]
      rfl
  | succ k ih =>
    intro fuel outlen s hf hpos hmax
    obtain ⟨f, rfl⟩ : ∃ f, fuel = f + 1 := ⟨fuel - 1, by omega⟩
    rw [retryLoop, doublings]
    by_cases hle : outlen ≤ maxoutlen
    · rw [if_pos hle, if_pos hle]
      dsimp only
      rw [retryUntil]
      by_cases h0 : (engine s outlen).1.result = 0
      · rw [if_pos h0, if_pos h0]
      · rw [if_neg h0, if_neg h0]
        by_cases h1 : (engine s outlen).1.inused = inlen ∧ (engine s outlen).1.outused < outlen
        · rw [if_pos h1, if_pos h1]
        · rw [if_neg h1, if_neg h1]
          rw [ih f (outlen * 2) (engine s outlen).2 (by omega) (by omega)
            (by rw [pow_succ] at hmax; linarith)]
    · rw [if_neg hle, if_neg hle]
      rfl

theorem doublings_length (maxoutlen : Int) (n : Nat) :
    ∀ outlen, (doublings maxoutlen n outlen).length ≤ n := by
  induction n with
  | zero =>
    intro outlen
    exact Nat.le_refl 0
  | succ n ih =>
    intro outlen
    rw [doublings]
    split_ifs
    · have := ih (outlen * 2)
      simp only [List.length_cons]
      omega
    · exact Nat.zero_le _

theorem doublings_ge (maxoutlen : Int) (n : Nat) :
    ∀ outlen : Int, 0 ≤ outlen → ∀ c ∈ doublings maxoutlen n outlen, outlen ≤ c := by
  induction n with
  | zero =>
    intro outlen _ c hc
    cases hc
  | succ n ih =>
    intro outlen h0 c hc
    rw [doublings] at hc
    split_ifs at hc
    · rcases List.mem_cons.mp hc with h | h
      · omega
      · have := ih (outlen * 2) (by omega) c h
        omega
    · cases hc

theorem retryUntil_prefix {σ : Type} (engine : σ → Int → Attempt × σ) (inlen : Int)
    (l : List Int) :
    ∀ s, (retryUntil engine inlen l s).1 <+: l := by
  induction l with
  | nil =>
    intro s
    exact List.prefix_refl []
  | cons c rest ih =>
    intro s
    rw [retryUntil]
    split_ifs
    · exact ⟨rest, rfl⟩
    · exact ⟨rest, rfl⟩
    · exact (List.prefix_cons_inj c).mpr (ih _)

/-- C34 (amended). The retry loop of `backTranslateNative`, and the same loop
of `translateNative`, for every `inlen` (so for `inlen >= 0`) and integers
that do not overflow: with fuel for four turns it ends; the capacities it calls the engine with
are those of the schedule `max(8, 2 * inlen)`, doubled while at most `16 *
inlen`, up to and including the first attempt that either returned 0 or
succeeded with `inused = inlen` and `outused < outlen`; the schedule has at
most 4 capacities, none below 8, and for `inlen >= 4` it is `2 * inlen`,
`4 * inlen`, `8 * inlen`, `16 * inlen`. -/
theorem retry_schedule {σ : Type} (engine : σ → Int → Attempt × σ) (inlen : Int)
    (fuel : Nat) (s : σ) (hf : 4 ≤ fuel) :
    backTranslateNativeLoop engine inlen fuel s
      = some (retryUntil engine inlen (retryCapacities inlen) s) ∧
    translateNativeLoop engine inlen fuel s
      = some (retryUntil engine inlen (retryCapacities inlen) s) ∧
    (retryUntil engine inlen (retryCapacities inlen) s).1 <+: retryCapacities inlen ∧
    (retryUntil engine inlen (retryCapacities inlen) s).1.length ≤ 4 ∧
    (retryCapacities inlen).length ≤ 4 ∧
    (∀ c ∈ retryCapacities inlen, 8 ≤ c) ∧
    (4 ≤ inlen →
      retryCapacities inlen = [2 * inlen, 4 * inlen, 8 * inlen, 16 * inlen]) := by
  have hloop : retryLoop engine inlen (inlen * 16) fuel (max 8 (inlen * 2)) s
      = some (retryUntil engine inlen (retryCapacities inlen) s) := by
    apply retryLoop_schedule engine inlen (inlen * 16) 4 fuel _ s hf
    · have := le_max_left (8 : Int) (inlen * 2)
      omega
    · have h1 := le_max_left (8 : Int) (inlen * 2)
      have h2 := le_max_right (8 : Int) (inlen * 2)
      norm_num
      omega
  have hlen := doublings_length (inlen * 16) 4 (max 8 (inlen * 2))
  have hpre := retryUntil_prefix engine inlen (retryCapacities inlen) s
  refine ⟨hloop, hloop, hpre, ?_, hlen, ?_, ?_⟩
  · exact le_trans hpre.length_le hlen
  · intro c hc
    have h1 := le_max_left (8 : Int) (inlen * 2)
    have := doublings_ge (inlen * 16) 4 (max 8 (inlen * 2)) (by omega) c hc
    omega
  · intro h4
    have hm : max 8 (inlen * 2) = inlen * 2 := max_eq_right (by omega)
    unfold retryCapacities
    rw [hm]
    simp only [doublings]
    rw [if_pos (by omega), if_pos (by omega), if_pos (by omega), if_pos (by omega)]
    have e1 : inlen * 2 = 2 * inlen := by omega
    have e2 : inlen * 2 * 2 = 4 * inlen := by omega
    have e3 : inlen * 2 * 2 * 2 = 8 * inlen := by omega
    have e4 : inlen * 2 * 2 * 2 * 2 = 16 * inlen := by omega
    rw [e4, e3, e2, e1]

/-- C34 (amended), at a concrete input: four cells that need 20 characters
are tried with the capacities 8, 16 and 32. -/
theorem retry_schedule_witness :
    backTranslateNativeLoop twentyEngine 4 4 () = some ([8, 16, 32], RetryEnd.fits) :=
  (retry_schedule twentyEngine 4 4 () (by decide)).1.trans (by decide)

/-- C34 as it was written fails: with an engine that returns 0 the loop for
four cells is left at its first attempt, with capacity 8, although no attempt
succeeded with `inused = inlen` and `outused < outlen`; stopping only at such
an attempt would try the capacities 8, 16, 32 and 64. -/
theorem retry_schedule_counterexample :
    backTranslateNativeLoop failingEngine 4 4 () = some ([8], RetryEnd.failed) ∧
    translateNativeLoop failingEngine 4 4 () = some ([8], RetryEnd.failed) ∧
    retryUntilFits failingEngine 4 (retryCapacities 4) ()
      = ([8, 16, 32, 64], RetryEnd.exhausted) ∧
    backTranslateNativeLoop failingEngine 4 4 ()
      ≠ some (retryUntilFits failingEngine 4 (retryCapacities 4) ()) := by
  decide

/-! ### The cache of `checkAttr` -/

theorem checkAttr_miss (K : Internal) (c : widechar) (a : Nat) (m : Int)
    (table : TranslationTableHeader) (st : Statics) (h : c ≠ st.prevc) :
    checkAttr K c a m table st
      = (hasAttr (back_findCharOrDots K c m table).attributes a,
          { st with preva := (back_findCharOrDots K c m table).attributes, prevc := c }) := by
  unfold checkAttr
  dsimp only
  rw [if_pos h]

theorem checkAttr_hit (K : Internal) (c : widechar) (a : Nat) (m : Int)
    (table : TranslationTableHeader) (st : Statics) (h : c = st.prevc) :
    checkAttr K c a m table st = (hasAttr st.preva a, st) := by
  unfold checkAttr
  dsimp only
  rw [if_neg (not_not_intro h)]

theorem checkAttr_coherent (K : Internal) (c : widechar) (a : Nat) (m : Int)
    (table : TranslationTableHeader) (st : Statics)
    (h : c ≠ st.prevc ∨ st.preva = (back_findCharOrDots K st.prevc m table).attributes) :
    (checkAttr K c a m table st).1 = hasAttr (back_findCharOrDots K c m table).attributes a ∧
    (checkAttr K c a m table st).2.preva
      = (back_findCharOrDots K (checkAttr K c a m table st).2.prevc m table).attributes := by
  by_cases hc : c = st.prevc
  · rw [checkAttr_hit K c a m table st hc]
    rcases h with h | h
    · exact absurd hc h
    · dsimp only
      rw [h, hc]
      exact ⟨rfl, rfl⟩
  · rw [checkAttr_miss K c a m table st hc]
    exact ⟨rfl, rfl⟩

/-- C35. The cache of `checkAttr` is keyed on the symbol only and starts
as the pair (0, 0), so it is not transparent. From the initial state,
`checkAttr(0, CTC_Space, 1, table)` with the empty table returns 0 although
the attributes of the symbol 0 there are `CTC_Space`. After a call for the
cell 0x8001 with the empty table, where the cell is a space, the call for
the same cell with `largeSignTable`, where it is a letter, still returns 1;
and after a call for it with `m = 0`, the call with `m = 1` and the same
table returns 1 as well. What holds: a call for a symbol that is not the
cached one returns 1 iff `back_findCharOrDots(c, m, table)->attributes & a`
is non-zero, and so does every call when the cached attributes are those of
the cached symbol for this `m` and this table; the cache is then left in
such a state. -/
theorem checkAttr_cache_stale :
    ((checkAttr sampleInternal 0 sampleInternal.CTC_Space 1 emptyTable freshStatics).1 = false ∧
      hasAttr (back_findCharOrDots sampleInternal 0 1 emptyTable).attributes
        sampleInternal.CTC_Space = true) ∧
    ((checkAttr sampleInternal 0x8001 sampleInternal.CTC_Space 1 largeSignTable
        (checkAttr sampleInternal 0x8001 sampleInternal.CTC_Space 1 emptyTable
          freshStatics).2).1 = true ∧
      hasAttr (back_findCharOrDots sampleInternal 0x8001 1 largeSignTable).attributes
        sampleInternal.CTC_Space = false) ∧
    ((checkAttr sampleInternal 0x8001 sampleInternal.CTC_Space 1 largeSignTable
        (checkAttr sampleInternal 0x8001 sampleInternal.CTC_Space 0 largeSignTable
          freshStatics).2).1 = true ∧
      hasAttr (back_findCharOrDots sampleInternal 0x8001 1 largeSignTable).attributes
        sampleInternal.CTC_Space = false) ∧
    (∀ (K : Internal) (c : widechar) (a : Nat) (m : Int) (table : TranslationTableHeader)
        (st : Statics),
      c ≠ st.prevc ∨ st.preva = (back_findCharOrDots K st.prevc m table).attributes →
      ((checkAttr K c a m table st).1 = true ↔
        (back_findCharOrDots K c m table).attributes &&& a ≠ 0) ∧
      (checkAttr K c a m table st).2.preva
        = (back_findCharOrDots K (checkAttr K c a m table st).2.prevc m table).attributes) := by
  refine ⟨by decide, by decide, by decide, ?_⟩
  intro K c a m table st h
  obtain ⟨h1, h2⟩ := checkAttr_coherent K c a m table st h
  refine ⟨?_, h2⟩
  rw [h1]
  unfold hasAttr
  exact decide_eq_true_iff

/-! ### The rollback to the last word boundary -/

theorem skipSpaces_only_spaces (K : Internal) (table : TranslationTableHeader) (srcmax : Int)
    (currentInput : WBuf) (n : Nat) :
    ∀ (src : Int) (st : Statics),
      st.preva = (back_findCharOrDots K st.prevc 1 table).attributes →
      ∀ i : Int, src ≤ i → i < (skipSpaces K table srcmax currentInput n src st).1 →
        hasAttr (back_findCharOrDots K (currentInput i) 1 table).attributes K.CTC_Space
          = true := by
  induction n with
  | zero =>
    intro src st _ i h1 h2
    rw [skipSpaces] at h2
    omega
  | succ n ih =>
    intro src st hst i h1 h2
    obtain ⟨hc1, hc2⟩ := checkAttr_coherent K (currentInput src) K.CTC_Space 1 table st
      (Or.inr hst)
    rw [skipSpaces] at h2
    by_cases hsp : (checkAttr K (currentInput src) K.CTC_Space 1 table st).1 = true
    · rw [if_pos hsp] at h2
      by_cases hi : i = src
      · rw [hi, ← hc1]
        exact hsp
      · by_cases hlast : src + 1 = srcmax
        · rw [if_pos hlast] at h2
          dsimp only at h2
          omega
        · rw [if_neg hlast] at h2
          exact ih (src + 1) _ hc2 i (by omega) h2
    · rw [if_neg hsp] at h2
      dsimp only at h2
      omega

theorem backTranslateEnd_rollback (K : Internal) (env : PassEnv) (b : BackState)
    (h1 : b.destword ≠ 0) (h2 : b.src < env.srcmax)
    (h3 : (checkAttr K (env.currentInput b.src) K.CTC_Space 1 env.table b.st).1 = false) :
    (backTranslateEnd K env b).e = { b.e with dest := b.destword } ∧
    (backTranslateEnd K env b).src
      = (if b.srcword < env.srcmax then
          (skipSpaces K env.table env.srcmax env.currentInput (env.srcmax - b.srcword).toNat
            b.srcword (checkAttr K (env.currentInput b.src) K.CTC_Space 1 env.table b.st).2).1
        else b.srcword) := by
  have hcond : b.destword ≠ 0 ∧ b.src < env.srcmax := ⟨h1, h2⟩
  unfold backTranslateEnd
  dsimp only
  rw [if_pos hcond, h3, decide_eq_true hcond]
  simp only [Bool.not_false, Bool.and_self, if_true]
  refine ⟨trivial, ?_⟩
  by_cases hw : b.srcword < env.srcmax
  · rw [if_pos hw, if_pos hw]
  · rw [if_neg hw, if_neg hw]

theorem backTranslateEnd_complete (K : Internal) (env : PassEnv) (b : BackState)
    (h : ¬ b.src < env.srcmax) :
    backTranslateEnd K env b
      = { result := 1, src := b.src, e := b.e, st := b.st, applied := b.applied } := by
  unfold backTranslateEnd
  dsimp only
  have h1 : ¬ (b.destword ≠ 0 ∧ b.src < env.srcmax) := fun hc => h hc.2
  rw [if_neg h1]
  have hd : decide (b.destword ≠ 0 ∧ b.src < env.srcmax) = false := decide_eq_false h1
  rw [hd]
  simp [h]

/-- C40. The rollback to the last word boundary goes by what `checkAttr`
answers, and its cache can be stale (see C35). The first call of the
program, for the cell with dot 1 and a table in which the cell is not
defined, leaves the cell in the cache as a space. The next call, for three
such cells with `largeSignTable`, in which the cell is a letter, and
capacity 1, then returns with `*inlen = 3` and `*outlen = 1`: the two cells
that were not translated are skipped as spaces and reported as consumed,
where the same call with the initial cache returns `*inlen = 1`. What holds
for every pass: when the loop is left at `src < srcmax` with `destword != 0`,
the cache entry is not stale and the symbol at `src` is no space in the
table, the pass returns with `dest = destword` and with `src` at `srcword`
or after it, with nothing but spaces of the table between the two; and when
the loop is left with `src >= srcmax`, the pass returns `src` and the output
state as they are. -/
theorem word_rollback_stale_cache :
    (staleStatics.prevc = 0x8001 ∧ staleStatics.preva = sampleInternal.CTC_Space ∧
      hasAttr (back_findCharOrDots twoTableInternal 0x8001 1 largeSignTable).attributes
        twoTableInternal.CTC_Space = false ∧
      (_lou_backTranslateWithTracing twoTableInternal threeCellCall staleStatics zeroRule
        10).map CallResult.summary = some (1, some 3, some 1) ∧
      (_lou_backTranslateWithTracing twoTableInternal threeCellCall freshStatics zeroRule
        10).map CallResult.summary = some (1, some 1, some 1)) ∧
    (∀ (K : Internal) (env : PassEnv) (b : BackState),
      b.destword ≠ 0 → b.src < env.srcmax →
      (env.currentInput b.src ≠ b.st.prevc ∨
        b.st.preva = (back_findCharOrDots K b.st.prevc 1 env.table).attributes) →
      hasAttr (back_findCharOrDots K (env.currentInput b.src) 1 env.table).attributes
        K.CTC_Space = false →
      (backTranslateEnd K env b).e = { b.e with dest := b.destword } ∧
      b.srcword ≤ (backTranslateEnd K env b).src ∧
      ∀ i : Int, b.srcword ≤ i → i < (backTranslateEnd K env b).src →
        hasAttr (back_findCharOrDots K (env.currentInput i) 1 env.table).attributes
          K.CTC_Space = true) ∧
    (∀ (K : Internal) (env : PassEnv) (b : BackState), ¬ b.src < env.srcmax →
      (backTranslateEnd K env b).src = b.src ∧ (backTranslateEnd K env b).e = b.e) := by
  refine ⟨⟨by decide, by decide, by decide, by decide, by decide⟩, ?_, ?_⟩
  · intro K env b h1 h2 hcache hnot
    obtain ⟨hc1, hc2⟩ := checkAttr_coherent K (env.currentInput b.src) K.CTC_Space 1 env.table
      b.st hcache
    obtain ⟨he, hs⟩ := backTranslateEnd_rollback K env b h1 h2 (by rw [hc1]; exact hnot)
    refine ⟨he, ?_, ?_⟩
    · rw [hs]
      split_ifs
      · exact skipSpaces_ge K env.table env.srcmax env.currentInput _ _ _
      · exact Int.le_refl _
    · intro i hi1 hi2
      rw [hs] at hi2
      split_ifs at hi2
      · exact skipSpaces_only_spaces K env.table env.srcmax env.currentInput _ _ _ hc2 i hi1 hi2
      · omega
  · intro K env b h
    rw [backTranslateEnd_complete K env b h]
    exact ⟨rfl, rfl⟩

/-! ### The swap action of a pass rule -/

theorem back_swapReplace_empty (startSrc maxLen : Int) (table : TranslationTableHeader)
    (destmax : Int) (currentInput : WBuf) (passInstructions : Nat → widechar) (passIC : Nat)
    (s : Emit) (h : maxLen ≤ startSrc) :
    back_swapReplace startSrc maxLen table destmax currentInput passInstructions passIC s
      = (startSrc, s) := by
  unfold back_swapReplace
  have h0 : (maxLen - startSrc).toNat = 0 := by omega
  rw [h0]
  rfl

theorem back_passDoActionLoop_swap_skipped (K : Internal) (table : TranslationTableHeader)
    (src srcmax destmax : Int) (mode : Nat) (currentInput : WBuf)
    (allUpper allUpperPhrase : Int) (currentOpcode : TranslationTableOpcode)
    (currentRule : TranslationTableRule) (pm : PassMatch) (srcEnd destInitial : Int)
    (fuel : Nat) (a : ActionState)
    (hic : a.passIC < currentRule.dotslen)
    (hi : K.passInstruction (pm.passInstructions a.passIC) = .pass_swap)
    (h0 : pm.startReplace ≠ 0) (hspan : a.endReplace ≤ 2 * pm.startReplace) :
    back_passDoActionLoop K table src srcmax destmax mode currentInput allUpper allUpperPhrase
        currentOpcode currentRule pm srcEnd destInitial (fuel + 1) a
      = back_passDoActionLoop K table src srcmax destmax mode currentInput allUpper
          allUpperPhrase currentOpcode currentRule pm srcEnd destInitial fuel
          { a with passIC := a.passIC + 3 } := by
  rw [back_passDoActionLoop, if_pos hic]
  dsimp only
  rw [hi]
  dsimp only
  rw [back_swapReplace_empty pm.startReplace (a.endReplace - pm.startReplace) table destmax
    currentInput pm.passInstructions a.passIC a.e (by omega)]
  dsimp only
  rw [if_neg h0]

/-- C33. The `pass_swap` action of `back_passDoAction` hands
`back_swapReplace` the length `*endReplace - startReplace` of the span, which
`back_swapReplace` takes for the position at which the span ends. With the
rule `swapSpanRule` on the cells dots 1-3, dots 1-2 the test matches with the
span `[1, 2)`, whose cell is the second element of the swap class; the
action succeeds but emits nothing for the span: the output is the copied
first cell alone, and pass 2 ends with `src = 2`, `dest = 1`. With
`swapFirstRule`, whose span starts at 0, the segment `b` of the cell is
emitted. In general the swap loop does not run when `maxLen <= startSrc`, so
a swap action with `startReplace != 0` and `*endReplace <= 2 * startReplace`
is passed over without output; and for the empty span at 0 the value 0 that
`back_swapReplace` returns is taken for a failure. -/
theorem swap_action_span :
    ((back_passDoTest sampleInternal (swapTable swapSpanRule) 0 2 swapSpanInput CTO_Pass2
        swapSpanRule (fun _ => 0) 0).1 = true ∧
      (back_passDoTest sampleInternal (swapTable swapSpanRule) 0 2 swapSpanInput CTO_Pass2
        swapSpanRule (fun _ => 0) 0).2.startReplace = 1 ∧
      (back_passDoTest sampleInternal (swapTable swapSpanRule) 0 2 swapSpanInput CTO_Pass2
        swapSpanRule (fun _ => 0) 0).2.endReplace = 2 ∧
      swapFind letterSwapRule (swapSpanInput 1) letterSwapRule.charslen 0 = 1) ∧
    ((back_passDoAction sampleInternal (swapTable swapSpanRule) 0 2 10 0 swapSpanInput 0 0
        CTO_Pass2 swapSpanRule
        (back_passDoTest sampleInternal (swapTable swapSpanRule) 0 2 swapSpanInput CTO_Pass2
          swapSpanRule (fun _ => 0) 0).2 (fun _ => 0) blankEmit).1 = true ∧
      (back_passDoAction sampleInternal (swapTable swapSpanRule) 0 2 10 0 swapSpanInput 0 0
        CTO_Pass2 swapSpanRule
        (back_passDoTest sampleInternal (swapTable swapSpanRule) 0 2 swapSpanInput CTO_Pass2
          swapSpanRule (fun _ => 0) 0).2 (fun _ => 0) blankEmit).2.e.dest = 1 ∧
      (back_passDoAction sampleInternal (swapTable swapSpanRule) 0 2 10 0 swapSpanInput 0 0
        CTO_Pass2 swapSpanRule
        (back_passDoTest sampleInternal (swapTable swapSpanRule) 0 2 swapSpanInput CTO_Pass2
          swapSpanRule (fun _ => 0) 0).2 (fun _ => 0) blankEmit).2.e.currentOutput 0
        = 0x8005) ∧
    (translatePass sampleInternal (swapEnv swapSpanRule swapSpanInput 2) 5 blankEmit
        freshStatics []).map (fun r => (r.result, r.src, r.e.dest, r.e.currentOutput 0))
      = some (1, 2, 1, 0x8005) ∧
    (translatePass sampleInternal (swapEnv swapFirstRule swapFirstInput 1) 5 blankEmit
        freshStatics []).map (fun r => (r.result, r.src, r.e.dest, r.e.currentOutput 0))
      = some (1, 1, 1, 98) ∧
    (back_swapReplace 0 0 (swapTable swapFirstRule) 10 swapFirstInput
        (fun k => [37, 0, 7].getD k 0) 0 blankEmit).1 = 0 ∧
    (∀ (startSrc maxLen : Int) (table : TranslationTableHeader) (destmax : Int)
        (currentInput : WBuf) (passInstructions : Nat → widechar) (passIC : Nat) (s : Emit),
      maxLen ≤ startSrc →
      back_swapReplace startSrc maxLen table destmax currentInput passInstructions passIC s
        = (startSrc, s)) ∧
    (∀ (K : Internal) (table : TranslationTableHeader) (src srcmax destmax : Int) (mode : Nat)
        (currentInput : WBuf) (allUpper allUpperPhrase : Int)
        (currentOpcode : TranslationTableOpcode) (currentRule : TranslationTableRule)
        (pm : PassMatch) (srcEnd destInitial : Int) (fuel : Nat) (a : ActionState),
      a.passIC < currentRule.dotslen →
      K.passInstruction (pm.passInstructions a.passIC) = .pass_swap →
      pm.startReplace ≠ 0 → a.endReplace ≤ 2 * pm.startReplace →
      back_passDoActionLoop K table src srcmax destmax mode currentInput allUpper
          allUpperPhrase currentOpcode currentRule pm srcEnd destInitial (fuel + 1) a
        = back_passDoActionLoop K table src srcmax destmax mode currentInput allUpper
            allUpperPhrase currentOpcode currentRule pm srcEnd destInitial fuel
            { a with passIC := a.passIC + 3 }) := by
  refine ⟨by decide, by decide, by decide, by decide, by decide, ?_, ?_⟩
  · intro startSrc maxLen table destmax currentInput passInstructions passIC s h
    exact back_swapReplace_empty startSrc maxLen table destmax currentInput passInstructions
      passIC s h
  · intro K table src srcmax destmax mode currentInput allUpper allUpperPhrase currentOpcode
      currentRule pm srcEnd destInitial fuel a hic hi h0 hspan
    exact back_passDoActionLoop_swap_skipped K table src srcmax destmax mode currentInput
      allUpper allUpperPhrase currentOpcode currentRule pm srcEnd destInitial fuel a hic hi h0
      hspan

/-! ### The trial position of a test stays within the input -/

theorem back_passDoTestLiterals_stop (K : Internal) (table : TranslationTableHeader)
    (srcmax : Int) (currentInput : WBuf) (m : Int) (currentRule : TranslationTableRule)
    (vars : PassVariables) (fuel : Nat) (not : Bool) (pm : PassMatch)
    (hc : ¬ (pm.passIC < currentRule.dotslen ∧ pm.passSrc ≤ srcmax)) :
    back_passDoTestLiterals K table srcmax currentInput m currentRule vars (fuel + 1) not pm
      = [] := by
  rw [back_passDoTestLiterals, if_neg hc]

theorem back_passDoTestLiterals_not (K : Internal) (table : TranslationTableHeader)
    (srcmax : Int) (currentInput : WBuf) (m : Int) (currentRule : TranslationTableRule)
    (vars : PassVariables) (fuel : Nat) (not : Bool) (pm : PassMatch)
    (hc : pm.passIC < currentRule.dotslen ∧ pm.passSrc ≤ srcmax)
    (h : K.passInstruction (pm.passInstructions pm.passIC) = .pass_not) :
    back_passDoTestLiterals K table srcmax currentInput m currentRule vars (fuel + 1) not pm
      = back_passDoTestLiterals K table srcmax currentInput m currentRule vars fuel (!not)
          { pm with passIC := pm.passIC + 1 } := by
  rw [back_passDoTestLiterals, if_pos hc, h]

theorem back_passDoTestLiterals_endTest (K : Internal) (table : TranslationTableHeader)
    (srcmax : Int) (currentInput : WBuf) (m : Int) (currentRule : TranslationTableRule)
    (vars : PassVariables) (fuel : Nat) (not : Bool) (pm : PassMatch)
    (hc : pm.passIC < currentRule.dotslen ∧ pm.passSrc ≤ srcmax)
    (h : K.passInstruction (pm.passInstructions pm.passIC) = .pass_endTest) :
    back_passDoTestLiterals K table srcmax currentInput m currentRule vars (fuel + 1) not pm
      = [] := by
  rw [back_passDoTestLiterals, if_pos hc, h]

theorem back_passDoTestLiterals_other (K : Internal) (table : TranslationTableHeader)
    (srcmax : Int) (currentInput : WBuf) (m : Int) (currentRule : TranslationTableRule)
    (vars : PassVariables) (fuel : Nat) (not : Bool) (pm : PassMatch)
    (hc : pm.passIC < currentRule.dotslen ∧ pm.passSrc ≤ srcmax)
    (h1 : K.passInstruction (pm.passInstructions pm.passIC) ≠ .pass_not)
    (h2 : K.passInstruction (pm.passInstructions pm.passIC) ≠ .pass_endTest) :
    back_passDoTestLiterals K table srcmax currentInput m currentRule vars (fuel + 1) not pm
      = literalOf (K.passInstruction (pm.passInstructions pm.passIC)) pm.passSrc
            (pm.passInstructions (pm.passIC + 1)) ++
          (match conditionOutcome K table srcmax currentInput m vars pm with
            | some (itsTrue, pm1) =>
              if itsTrue = not then []
              else
                back_passDoTestLiterals K table srcmax currentInput m currentRule vars fuel
                  false pm1
            | none => []) := by
  rw [back_passDoTestLiterals, if_pos hc]
  generalize conditionOutcome K table srcmax currentInput m vars pm = co
  generalize K.passInstruction (pm.passInstructions pm.passIC) = ins at h1 h2
  cases ins <;> first | rfl | exact absurd rfl h1 | exact absurd rfl h2

theorem mem_literalOf (ins : PassInstruction) (p : Int) (n : Nat) (x : Int × Nat)
    (h : x ∈ literalOf ins p n) :
    (ins = .pass_string ∨ ins = .pass_dots) ∧ x = (p, n) := by
  cases ins <;> first
    | (cases h; done)
    | (exact ⟨Or.inl rfl, List.mem_singleton.mp h⟩)
    | (exact ⟨Or.inr rfl, List.mem_singleton.mp h⟩)

theorem conditionOutcome_literal (K : Internal) (table : TranslationTableHeader) (srcmax : Int)
    (currentInput : WBuf) (m : Int) (vars : PassVariables) (pm pm1 : PassMatch)
    (itsTrue : Bool)
    (hins : K.passInstruction (pm.passInstructions pm.passIC) = .pass_string ∨
      K.passInstruction (pm.passInstructions pm.passIC) = .pass_dots)
    (h : conditionOutcome K table srcmax currentInput m vars pm = some (itsTrue, pm1)) :
    pm1.passSrc = pm.passSrc + (pm.passInstructions (pm.passIC + 1) : Int) := by
  unfold conditionOutcome at h
  dsimp only at h
  rcases hins with hi | hi
  · rw [hi] at h
    cases h
    rfl
  · rw [hi] at h
    cases h
    rfl

theorem back_passDoTestTrace_guard (K : Internal) (table : TranslationTableHeader)
    (srcmax : Int) (currentInput : WBuf) (m : Int) (currentRule : TranslationTableRule)
    (vars : PassVariables) (fuel : Nat) (not : Bool) (pm : PassMatch)
    (y : PassInstruction × Int)
    (h : (back_passDoTestTrace K table srcmax currentInput m currentRule vars fuel not
      pm).getLast? = some y) : pm.passSrc ≤ srcmax := by
  cases fuel with
  | zero => cases h
  | succ fuel =>
    by_cases hc : pm.passIC < currentRule.dotslen ∧ pm.passSrc ≤ srcmax
    · exact hc.2
    · rw [back_passDoTestTrace_stop K table srcmax currentInput m currentRule vars fuel not pm
        hc] at h
      cases h

theorem lastAt_mem (i : PassInstruction) (tr : List (PassInstruction × Int)) :
    ∀ p, lastAt i tr = some p → ∃ x ∈ tr, x.2 = p := by
  induction tr with
  | nil =>
    intro p h
    cases h
  | cons x tr ih =>
    intro p h
    rw [lastAt] at h
    cases hl : lastAt i tr with
    | some p1 =>
      rw [hl] at h
      obtain ⟨y, hy, hp⟩ := ih p1 hl
      exact ⟨y, List.mem_cons_of_mem _ hy, hp.trans (Option.some.inj h)⟩
    | none =>
      rw [hl] at h
      dsimp only at h
      split_ifs at h
      exact ⟨x, List.mem_cons_self _ _, Option.some.inj h⟩

/-- A run of the test loop whose last turn is `pass_endTest`, at the trial
position `q`: the loop ends with the trial position `q`, every turn was
entered at a position within `[0, srcmax]`, and every literal-match
instruction compared symbols below `srcmax` only. -/
theorem back_passDoTestLoop_within (K : Internal) (table : TranslationTableHeader)
    (srcmax : Int) (currentInput : WBuf) (m : Int) (currentRule : TranslationTableRule)
    (vars : PassVariables) (q : Int) :
    ∀ (fuel : Nat) (not : Bool) (pm : PassMatch), 0 ≤ pm.passSrc →
      (back_passDoTestTrace K table srcmax currentInput m currentRule vars fuel not
        pm).getLast? = some (.pass_endTest, q) →
      (back_passDoTestLoop K table srcmax currentInput m currentRule vars fuel not pm).2.passSrc
        = q ∧
      (∀ x ∈ back_passDoTestTrace K table srcmax currentInput m currentRule vars fuel not pm,
        0 ≤ x.2 ∧ x.2 ≤ srcmax) ∧
      (∀ x ∈ back_passDoTestLiterals K table srcmax currentInput m currentRule vars fuel not
        pm, 0 ≤ x.1 ∧ x.1 + x.2 ≤ srcmax) := by
  intro fuel
  induction fuel with
  | zero =>
    intro not pm _ hlast
    cases hlast
  | succ fuel ih =>
    intro not pm h0 hlast
    by_cases hc : pm.passIC < currentRule.dotslen ∧ pm.passSrc ≤ srcmax
    · by_cases hnot : K.passInstruction (pm.passInstructions pm.passIC) = .pass_not
      · rw [back_passDoTestTrace_not K table srcmax currentInput m currentRule vars fuel not
          pm hc hnot] at hlast ⊢
        rw [back_passDoTestLoop_not K table srcmax currentInput m currentRule vars fuel not pm
          hc.1 hc.2 hnot]
        rw [back_passDoTestLiterals_not K table srcmax currentInput m currentRule vars fuel not
          pm hc hnot]
        rcases getLast?_cons_cases _ _ _ hlast with ⟨-, hx⟩ | htail
        · cases hx
        · obtain ⟨r1, r2, r3⟩ := ih (!not) { pm with passIC := pm.passIC + 1 } h0 htail
          refine ⟨r1, ?_, r3⟩
          intro x hx
          rcases List.mem_cons.mp hx with hx | hx
          · rw [hx]
            exact ⟨h0, hc.2⟩
          · exact r2 x hx
      · by_cases hend : K.passInstruction (pm.passInstructions pm.passIC) = .pass_endTest
        · rw [back_passDoTestTrace_endTest K table srcmax currentInput m currentRule vars fuel
            not pm hc hend] at hlast ⊢
          rw [back_passDoTestLoop_endTest K table srcmax currentInput m currentRule vars fuel
            not pm hc.1 hc.2 hend]
          rw [back_passDoTestLiterals_endTest K table srcmax currentInput m currentRule vars
            fuel not pm hc hend]
          rw [List.getLast?_singleton] at hlast
          have hq : pm.passSrc = q := congrArg Prod.snd (Option.some.inj hlast)
          refine ⟨hq, ?_, ?_⟩
          · intro x hx
            rw [List.mem_singleton.mp hx]
            exact ⟨h0, hc.2⟩
          · intro x hx
            cases hx
        · rw [back_passDoTestTrace_other K table srcmax currentInput m currentRule vars fuel
            not pm hc hnot hend] at hlast ⊢
          rw [back_passDoTestLiterals_other K table srcmax currentInput m currentRule vars fuel
            not pm hc hnot hend]
          cases hco : conditionOutcome K table srcmax currentInput m vars pm with
          | none =>
            rw [hco] at hlast
            rw [List.getLast?_singleton] at hlast
            exact absurd (congrArg Prod.fst (Option.some.inj hlast)) hend
          | some x =>
            obtain ⟨itsTrue, pm1⟩ := x
            rw [hco] at hlast
            dsimp only at hlast ⊢
            by_cases ht : itsTrue = not
            · rw [if_pos ht, List.getLast?_singleton] at hlast
              exact absurd (congrArg Prod.fst (Option.some.inj hlast)) hend
            · rw [if_neg ht] at hlast ⊢
              rw [if_neg ht]
              rw [back_passDoTestLoop_condition K table srcmax currentInput m currentRule vars
                fuel not pm hc.1 hc.2 itsTrue pm1 hco, if_neg ht]
              rcases getLast?_cons_cases _ _ _ hlast with ⟨-, hx⟩ | htail
              · exact absurd (congrArg Prod.fst hx) hend
              · obtain ⟨-, f2, -⟩ := conditionOutcome_frame K table srcmax
                  currentInput m vars pm pm1 itsTrue hco
                have hg := back_passDoTestTrace_guard K table srcmax currentInput m currentRule
                  vars fuel false pm1 _ htail
                obtain ⟨r1, r2, r3⟩ := ih false pm1 (f2 h0) htail
                refine ⟨r1, ?_, ?_⟩
                · intro x hx
                  rcases List.mem_cons.mp hx with hx | hx
                  · rw [hx]
                    exact ⟨h0, hc.2⟩
                  · exact r2 x hx
                · intro x hx
                  rcases List.mem_append.mp hx with hx | hx
                  · obtain ⟨hins, hx1⟩ := mem_literalOf _ _ _ _ hx
                    have hl := conditionOutcome_literal K table srcmax currentInput m vars pm
                      pm1 itsTrue hins hco
                    rw [hx1]
                    dsimp only
                    exact ⟨h0, by omega⟩
                  · exact r3 x hx
    · rw [back_passDoTestTrace_stop K table srcmax currentInput m currentRule vars fuel not pm
        hc] at hlast
      cases hlast

/-- C32 (amended). When the run of `back_passDoTest`, started at a position
`src >= 0`, reaches `pass_endTest` (at the trial position `q`), it reports a
match and the trial position stayed within `[0, srcmax]`: the final trial
position and the recorded `startReplace` lie in `[0, srcmax]`; so does
`endReplace` when a `pass_endReplace` marker was executed or no
`pass_startReplace` marker was, while after a start marker without an end
marker `endReplace` is the value the caller's variable had; and every
literal-match instruction (`pass_string`, `pass_dots`) was executed at a
position `p >= 0` with `p + n <= srcmax` for its `n` symbols, so that it
compared no input symbol at an index `>= srcmax`. -/
theorem test_within_input (K : Internal) (table : TranslationTableHeader)
    (src srcmax : Int) (currentInput : WBuf) (currentOpcode : TranslationTableOpcode)
    (currentRule : TranslationTableRule) (vars : PassVariables) (endReplace q : Int)
    (hsrc : 0 ≤ src)
    (hend : (testTrace K table src srcmax currentInput currentOpcode currentRule vars
      endReplace).getLast? = some (.pass_endTest, q)) :
    (back_passDoTest K table src srcmax currentInput currentOpcode currentRule vars
      endReplace).1 = true ∧
    (0 ≤ (back_passDoTest K table src srcmax currentInput currentOpcode currentRule vars
        endReplace).2.passSrc ∧
      (back_passDoTest K table src srcmax currentInput currentOpcode currentRule vars
        endReplace).2.passSrc ≤ srcmax) ∧
    (0 ≤ (back_passDoTest K table src srcmax currentInput currentOpcode currentRule vars
        endReplace).2.startReplace ∧
      (back_passDoTest K table src srcmax currentInput currentOpcode currentRule vars
        endReplace).2.startReplace ≤ srcmax) ∧
    (lastAt .pass_startReplace
          (testTrace K table src srcmax currentInput currentOpcode currentRule vars endReplace)
        = none ∨
      lastAt .pass_endReplace
          (testTrace K table src srcmax currentInput currentOpcode currentRule vars endReplace)
        ≠ none →
      0 ≤ (back_passDoTest K table src srcmax currentInput currentOpcode currentRule vars
        endReplace).2.endReplace ∧
      (back_passDoTest K table src srcmax currentInput currentOpcode currentRule vars
        endReplace).2.endReplace ≤ srcmax) ∧
    (lastAt .pass_startReplace
          (testTrace K table src srcmax currentInput currentOpcode currentRule vars endReplace)
        ≠ none →
      lastAt .pass_endReplace
          (testTrace K table src srcmax currentInput currentOpcode currentRule vars endReplace)
        = none →
      (back_passDoTest K table src srcmax currentInput currentOpcode currentRule vars
        endReplace).2.endReplace = endReplace) ∧
    (∀ x ∈ testLiterals K table src srcmax currentInput currentOpcode currentRule vars
        endReplace, 0 ≤ x.1 ∧ x.1 + x.2 ≤ srcmax) := by
  unfold testTrace at hend ⊢
  unfold testLiterals
  rw [back_passDoTest_eq_loop]
  have hg : src ≤ srcmax := back_passDoTestTrace_guard K table srcmax currentInput
    (testSelector currentOpcode) currentRule vars currentRule.dotslen false
    (testStart src currentRule endReplace) _ hend
  obtain ⟨r1, -, r3, r4⟩ := back_passDoTestLoop_span K table srcmax currentInput
    (testSelector currentOpcode) currentRule vars q currentRule.dotslen false
    (testStart src currentRule endReplace) hsrc hend
  obtain ⟨w1, w2, w3⟩ := back_passDoTestLoop_within K table srcmax currentInput
    (testSelector currentOpcode) currentRule vars q currentRule.dotslen false
    (testStart src currentRule endReplace) hsrc hend
  have hq : 0 ≤ q ∧ q ≤ srcmax :=
    w2 (.pass_endTest, q) (List.mem_of_mem_getLast? hend)
  refine ⟨r1, ?_, ?_, ?_, ?_, w3⟩
  · rw [w1]
    exact hq
  · rw [r3]
    cases hs : lastAt PassInstruction.pass_startReplace
      (back_passDoTestTrace K table srcmax currentInput (testSelector currentOpcode)
        currentRule vars currentRule.dotslen false (testStart src currentRule endReplace)) with
    | none =>
      simp only [Option.getD_none, testStart]
      rw [if_pos trivial]
      exact ⟨hsrc, hg⟩
    | some p =>
      obtain ⟨x, hx, hp⟩ := lastAt_mem _ _ p hs
      simp only [Option.getD_some]
      rw [← hp]
      exact w2 x hx
  · intro hcase
    rw [r4]
    cases hs : lastAt PassInstruction.pass_startReplace
      (back_passDoTestTrace K table srcmax currentInput (testSelector currentOpcode)
        currentRule vars currentRule.dotslen false (testStart src currentRule endReplace)) with
    | none =>
      rw [if_pos ⟨rfl, rfl⟩]
      exact hq
    | some p =>
      rw [if_neg (by
        rintro ⟨hc, -⟩
        cases hc)]
      rw [hs] at hcase
      rcases hcase with hc | hc
      · cases hc
      · cases he : lastAt PassInstruction.pass_endReplace
          (back_passDoTestTrace K table srcmax currentInput (testSelector currentOpcode)
            currentRule vars currentRule.dotslen false
            (testStart src currentRule endReplace)) with
        | none => exact absurd he hc
        | some e =>
          obtain ⟨x, hx, hp⟩ := lastAt_mem _ _ e he
          simp only [Option.getD_some]
          rw [← hp]
          exact w2 x hx
  · intro hs he
    rw [r4, he]
    rw [if_neg (fun hc => hs hc.1)]
    rfl

/-- C32 (amended), at a concrete input: the test of `markedRule` on the
cells dots 1-2, dot 1, started at position 0, reaches `pass_endTest` at
position 2. -/
theorem test_within_input_witness :
    (back_passDoTest sampleInternal emptyTable 0 2
      (fun k => if k = 0 then 0x8003 else if k = 1 then 0x8001 else 0) CTO_Context markedRule
      (fun _ => 0) 7).1 = true ∧
    (∀ x ∈ testLiterals sampleInternal emptyTable 0 2
        (fun k => if k = 0 then 0x8003 else if k = 1 then 0x8001 else 0) CTO_Context markedRule
        (fun _ => 0) 7, 0 ≤ x.1 ∧ x.1 + x.2 ≤ 2) ∧
    testLiterals sampleInternal emptyTable 0 2
        (fun k => if k = 0 then 0x8003 else if k = 1 then 0x8001 else 0) CTO_Context markedRule
        (fun _ => 0) 7 = [(0, 1), (1, 1)] := by
  have h := test_within_input sampleInternal emptyTable 0 2
    (fun k => if k = 0 then 0x8003 else if k = 1 then 0x8001 else 0) CTO_Context markedRule
    (fun _ => 0) 7 2 (by decide) (by decide)
  exact ⟨h.1, h.2.2.2.2.2, by decide⟩

/-- C32 as it was written fails. The program of `openEndRule` has no
`pass_endTest`: on an input of one cell (`srcmax = 1`) whose buffer goes on
with the cell dot 1, the test started at 0 reports a match after its
`pass_dots` compared the two symbols at the indices 0 and 1, with the final
trial position 2 and `startReplace = -1`. The test of `openSpanRule`, which
marks the start of the span but not its end, reports a match with
`endReplace` still the value 99 of the caller's variable. -/
theorem test_within_input_counterexample :
    ((back_passDoTest sampleInternal emptyTable 0 1
        (fun k => if k = 0 then 0x8003 else if k = 1 then 0x8001 else 0) CTO_Context
        openEndRule (fun _ => 0) 0).1 = true ∧
      (back_passDoTest sampleInternal emptyTable 0 1
        (fun k => if k = 0 then 0x8003 else if k = 1 then 0x8001 else 0) CTO_Context
        openEndRule (fun _ => 0) 0).2.passSrc = 2 ∧
      (back_passDoTest sampleInternal emptyTable 0 1
        (fun k => if k = 0 then 0x8003 else if k = 1 then 0x8001 else 0) CTO_Context
        openEndRule (fun _ => 0) 0).2.startReplace = -1 ∧
      testLiterals sampleInternal emptyTable 0 1
        (fun k => if k = 0 then 0x8003 else if k = 1 then 0x8001 else 0) CTO_Context
        openEndRule (fun _ => 0) 0 = [(0, 2)] ∧
      matchcurrentInput (fun k => if k = 0 then 0x8003 else if k = 1 then 0x8001 else 0) 0
        (fun k => openEndRule.charsdots (openEndRule.charslen + k)) 0 = true ∧
      matchcurrentInput (fun k => if k = 0 then 0x8003 else 0) 0
        (fun k => openEndRule.charsdots (openEndRule.charslen + k)) 0 = false) ∧
    ((back_passDoTest sampleInternal emptyTable 0 1 (fun k => if k = 0 then 0x8003 else 0)
        CTO_Context openSpanRule (fun _ => 0) 99).1 = true ∧
      (back_passDoTest sampleInternal emptyTable 0 1 (fun k => if k = 0 then 0x8003 else 0)
        CTO_Context openSpanRule (fun _ => 0) 99).2.endReplace = 99) := by
  decide

end Louis
